import Mathlib

/-!
Shallow embeddings of three sources and the properties proved of them: the definitions of the
three come first, the theorems after them.

* `MediaInfoLib.File_Aac`: `src/MediaInfo/MediaInfoLib/MediaInfo/Audio/File_Aac.cpp`, frame
  synchronisation and frame parsing of ADTS and LATM streams.
* `Sntp`: `src/Network/sntp-own/sntp.c`, the arithmetic of NTP time stamps.
* `TinyJpeg`: `src/Views/JPEG/tinyjpeg.c`, the bit reservoir and the Huffman tables.

Notes on `MediaInfoLib.File_Aac`:

A shallow embedding of `src/MediaInfo/MediaInfoLib/MediaInfo/Audio/File_Aac.cpp`, and the
properties of its synchronisers, header parsers, frame statistics and mode switches.

* The parser object is the record `File_Aac`; every member function is a Lean function on
  that record.  Members of the base classes whose code is in other files of the library are
  parameters (`TagsAnswer`, `Externals`) or are modelled under a comment that says so.
* `Buffer` is a pointer in C++.  It is embedded as the memory it points to, a function from
  index to byte, together with `Buffer_Size`, the number of bytes that are buffered.
  `Synchronize_ADTS` reads some bytes at indices that are not below `Buffer_Size` (lines 336
  and 348); such a read yields whatever the memory holds there.  The theorems hold for every
  memory unless they name a condition on it.
* `size_t` sums of a buffer offset and a few frame lengths are taken in `Nat` (a buffer that
  fits in memory keeps them far from the word size); the 64-bit file positions are taken
  modulo `2 ^ 64`.
* Loops carry a fuel argument and answer `none` when it runs out; the return statement a
  synchroniser leaves through is recorded next to the `bool` it returns (`Outcome`).
-/

namespace MediaInfoLib

/-! ## Data model -/

/-- Modelled from the spec: the enumeration of container modes, declared in `File_Aac.h`
(absent from the sources); the constructor names are the ones `File_Aac.cpp` uses. -/
inductive mode where
  | Mode_Unknown
  | Mode_AudioSpecificConfig
  | Mode_raw_data_block
  | Mode_ADIF
  | Mode_ADTS
  | Mode_LATM
  deriving DecidableEq, Repr

open mode

/-- The members of `File_Aac` (with the members of its bases `File__Analyze` and
`File__Tags_Helper`) that `File_Aac.cpp` reads or writes.  Defaults are the values the
constructors give. -/
structure File_Aac where
  /-- The memory `Buffer` points to; a byte read is `Buffer i % 256`. -/
  Buffer : Nat → Nat
  Buffer_Size : Nat
  Buffer_Offset : Nat := 0
  File_Offset : Nat := 0
  File_Size : Nat := 2 ^ 64 - 1
  File_EndTagSize : Nat := 0
  IsSub : Bool := false
  Synched : Bool := false
  MustSynchronize : Bool := true
  Mode : mode := Mode_Unknown
  /-- Status[IsAccepted]. -/
  IsAccepted : Bool := false
  /-- Status[IsFilled]. -/
  IsFilled : Bool := false
  /-- Status[IsFinished]. -/
  IsFinished : Bool := false
  Element_Size : Nat := 0
  Element_Offset : Nat := 0
  Header_Size : Nat := 0
  /-- The argument of the last `Header_Fill_Size` call. -/
  Header_Fill_Size : Nat := 0
  Frame_Count : Nat := 0
  Frame_Count_NotParsedIncluded : Nat := 2 ^ 64 - 1
  Frame_Count_Valid : Nat := 2
  FrameIsAlwaysComplete : Bool := false
  /-- FrameInfo.DTS. -/
  DTS : Nat := 2 ^ 64 - 1
  /-- FrameInfo.PTS. -/
  PTS : Nat := 2 ^ 64 - 1
  frame_length : Nat := 1024
  sampling_frequency : Nat := 2 ^ 32 - 1
  FrameSize_Min : Nat := 2 ^ 64 - 1
  FrameSize_Max : Nat := 0
  CanFill : Bool := false
  Demux_Offset : Nat := 0
  /-- The byte ranges handed to `Demux_UnpacketizeContainer_Demux`, oldest first. -/
  Demux_Frames : List (Nat × Nat) := []

/-- A value of type `int64u`. -/
def int64u (n : Nat) : Nat := n % 2 ^ 64

/-- The `int64u` difference `a - b`. -/
def int64u_sub (a b : Nat) : Nat := (a % 2 ^ 64 + (2 ^ 64 - b % 2 ^ 64)) % 2 ^ 64

/-- `Buffer[i]` for `const int8u* Buffer`. -/
def int8u_at (Buffer : Nat → Nat) (i : Nat) : Nat := Buffer i % 256

/-- Modelled from the spec: `CC1`, a ZenLib reader absent from the sources; one byte. -/
def CC1 (Buffer : Nat → Nat) (i : Nat) : Nat := int8u_at Buffer i

/-- Modelled from the spec: `CC2` (`BigEndian2int16u`), a ZenLib reader absent from the
sources; two bytes, most significant first. -/
def CC2 (Buffer : Nat → Nat) (i : Nat) : Nat :=
  int8u_at Buffer i * 256 + int8u_at Buffer (i + 1)

/-- Modelled from the spec: `CC3` (`BigEndian2int24u`), a ZenLib reader absent from the
sources; three bytes, most significant first. -/
def CC3 (Buffer : Nat → Nat) (i : Nat) : Nat :=
  int8u_at Buffer i * 65536 + int8u_at Buffer (i + 1) * 256 + int8u_at Buffer (i + 2)

/-- Modelled from the spec: `CC4` (`BigEndian2int32u`), a ZenLib reader absent from the
sources; four bytes, most significant first. -/
def CC4 (Buffer : Nat → Nat) (i : Nat) : Nat :=
  int8u_at Buffer i * 16777216 + int8u_at Buffer (i + 1) * 65536
    + int8u_at Buffer (i + 2) * 256 + int8u_at Buffer (i + 3)

/-- The memory holding the bytes of a list, zero elsewhere. -/
def memoryOf (bytes : List Nat) : Nat → Nat := fun i => bytes.getD i 0

/-! ## Results of the synchronisers -/

/-- What a pass of a synchroniser decides about the candidate it tested: `return false`
(the lines commented `Need more data`), `Buffer_Offset++`, or `break`. -/
inductive Verdict where
  | NeedMoreData
  | Skip
  | Accept
  deriving DecidableEq, Repr

/-- How a scan loop was left. -/
inductive LoopExit where
  /-- By a `return false; //Need more data`. -/
  | Returned
  /-- By a `break`. -/
  | Broke
  /-- By its condition becoming false. -/
  | Ended
  deriving DecidableEq, Repr

/-- The `return` statement a synchroniser left through. -/
inductive Outcome where
  /-- The tag helper answered `false`: `return false`. -/
  | TagsNotReady
  /-- The tag helper found a tag: `return true`. -/
  | TagFound
  /-- A forward check needs bytes that are not buffered: `return false; //Need more data`. -/
  | NeedMoreData
  /-- No candidate in the buffered bytes: the `return false` after the scan. -/
  | NotSynchronized
  /-- Synched is OK: `return true`. -/
  | SynchedOK
  /-- `Synchronize` in a mode without synchronisation: `return true`. -/
  | NoSynchro
  deriving DecidableEq, Repr

/-- The `bool` the function returns. -/
def Outcome.value : Outcome → Bool
  | .TagsNotReady => false
  | .TagFound => true
  | .NeedMoreData => false
  | .NotSynchronized => false
  | .SynchedOK => true
  | .NoSynchro => true

/-- The return site and the parser after the call. -/
structure SyncResult where
  outcome : Outcome
  state : File_Aac

/-- The answer of `File__Tags_Helper::Synchronize(Tag_Found)`, a function absent from the
sources: its return value and the flag it sets. -/
structure TagsAnswer where
  ok : Bool
  Tag_Found : Bool
  deriving DecidableEq, Repr

namespace File_Aac

/-! ## Synchronize_ADTS (lines 303-393) -/

/-- `(CC3(Buffer+o+3)>>5)&0x1FFF`, the `aac_frame_length` of the frame header at `o`. -/
def aac_frame_length (Buffer : Nat → Nat) (o : Nat) : Nat :=
  (CC3 Buffer (o + 3) >>> 5) &&& 0x1FFF

/-- The inner `while` of `Synchronize_ADTS` (lines 315-317): the offset where it stops. -/
def Synchronize_ADTS_skip (Buffer : Nat → Nat) (Buffer_Size : Nat) : Nat → Nat → Option Nat
  | 0, o =>
    if o + 6 ≤ Buffer_Size ∧ (int8u_at Buffer o ≠ 0xFF ∨ int8u_at Buffer (o + 1) &&& 0xF6 ≠ 0xF0)
    then none else some o
  | fuel + 1, o =>
    if o + 6 ≤ Buffer_Size ∧ (int8u_at Buffer o ≠ 0xFF ∨ int8u_at Buffer (o + 1) &&& 0xF6 ≠ 0xF0)
    then Synchronize_ADTS_skip Buffer Buffer_Size fuel (o + 1) else some o

/-- The body of `if (Buffer_Offset+6<=Buffer_Size)` (lines 319-370) for `Buffer_Offset = o`. -/
def Synchronize_ADTS_test (s : File_Aac) (o : Nat) : Verdict :=
  let aac_frame_length := aac_frame_length s.Buffer o
  if s.IsSub = true ∧ o + aac_frame_length = s.Buffer_Size then .Accept
  else if int64u (s.File_Offset + o + aac_frame_length)
      ≠ int64u_sub s.File_Size s.File_EndTagSize then
    if o + aac_frame_length + 2 > s.Buffer_Size then .NeedMoreData
    else if aac_frame_length ≤ 7 ∨ CC2 s.Buffer (o + aac_frame_length) &&& 0xFFF6 ≠ 0xFFF0 then
      .Skip
    else
      let aac_frame_length2 := File_Aac.aac_frame_length s.Buffer (o + aac_frame_length)
      if int64u (s.File_Offset + o + aac_frame_length + aac_frame_length2)
          ≠ int64u_sub s.File_Size s.File_EndTagSize then
        if o + aac_frame_length + aac_frame_length2 + 2 > s.Buffer_Size then .NeedMoreData
        else if aac_frame_length2 ≤ 7
            ∨ CC2 s.Buffer (o + aac_frame_length + aac_frame_length2) &&& 0xFFF6 ≠ 0xFFF0 then
          .Skip
        else
          let aac_frame_length3 :=
            File_Aac.aac_frame_length s.Buffer (o + aac_frame_length + aac_frame_length2)
          if int64u (s.File_Offset + o + aac_frame_length + aac_frame_length2 + aac_frame_length3)
              ≠ int64u_sub s.File_Size s.File_EndTagSize then
            if o + aac_frame_length + aac_frame_length2 + aac_frame_length3 + 2 > s.Buffer_Size then
              .NeedMoreData
            else if aac_frame_length3 ≤ 7
                ∨ CC2 s.Buffer (o + aac_frame_length + aac_frame_length2 + aac_frame_length3)
                    &&& 0xFFF6 ≠ 0xFFF0 then
              .Skip
            else .Accept
          else .Accept
      else .Accept
  else .Accept

/-- One pass of the outer `while` of `Synchronize_ADTS` (the body, lines 315-370), entered at
`Buffer_Offset = o`: how the pass leaves the loop, or `none` to go round again, and the
`Buffer_Offset` it leaves.  The outer `none` is the inner loop out of fuel. -/
def Synchronize_ADTS_pass (s : File_Aac) (o : Nat) : Option (Option LoopExit × Nat) :=
  match Synchronize_ADTS_skip s.Buffer s.Buffer_Size (s.Buffer_Size - o) o with
  | none => none
  | some o1 =>
    if o1 + 6 ≤ s.Buffer_Size then
      match Synchronize_ADTS_test s o1 with
      | .NeedMoreData => some (some .Returned, o1)
      | .Skip => some (none, o1 + 1)
      | .Accept => some (some .Broke, o1)
    else some (none, o1)

/-- The outer `while (Buffer_Offset+6<=Buffer_Size)` of `Synchronize_ADTS` (lines 313-371);
the fuel counts the passes. -/
def Synchronize_ADTS_loop (s : File_Aac) : Nat → Nat → Option (LoopExit × Nat)
  | 0, o => if o + 6 ≤ s.Buffer_Size then none else some (.Ended, o)
  | fuel + 1, o =>
    if o + 6 ≤ s.Buffer_Size then
      match Synchronize_ADTS_pass s o with
      | none => none
      | some (some e, o1) => some (e, o1)
      | some (none, o1) => Synchronize_ADTS_loop s fuel o1
    else some (.Ended, o)

/-- The five `if`s of "Parsing last bytes if needed" (lines 376-385). -/
def Synchronize_ADTS_last (Buffer : Nat → Nat) (Buffer_Size : Nat) (o : Nat) : Nat :=
  let o := if o + 5 = Buffer_Size ∧ CC2 Buffer o &&& 0xFFF6 ≠ 0xFFF0 then o + 1 else o
  let o := if o + 4 = Buffer_Size ∧ CC2 Buffer o &&& 0xFFF6 ≠ 0xFFF0 then o + 1 else o
  let o := if o + 3 = Buffer_Size ∧ CC2 Buffer o &&& 0xFFF6 ≠ 0xFFF0 then o + 1 else o
  let o := if o + 2 = Buffer_Size ∧ CC2 Buffer o &&& 0xFFF6 ≠ 0xFFF0 then o + 1 else o
  let o := if o + 1 = Buffer_Size ∧ CC1 Buffer o ≠ 0xFF then o + 1 else o
  o

/-- `File_Aac::Synchronize_ADTS`.  `tags` is the answer of the tag helper, whose effect on
the parser is not modelled; `Accept("ADTS")` sets the status flag. -/
def Synchronize_ADTS (tags : TagsAnswer) (s : File_Aac) : Option SyncResult :=
  if tags.ok = false then some ⟨.TagsNotReady, s⟩
  else if tags.Tag_Found = true then some ⟨.TagFound, s⟩
  else
    match Synchronize_ADTS_loop s (s.Buffer_Size - s.Buffer_Offset) s.Buffer_Offset with
    | none => none
    | some (.Returned, o) => some ⟨.NeedMoreData, { s with Buffer_Offset := o }⟩
    | some (_, o) =>
      if o + 6 > s.Buffer_Size then
        some ⟨.NotSynchronized,
          { s with Buffer_Offset := Synchronize_ADTS_last s.Buffer s.Buffer_Size o }⟩
      else
        some ⟨.SynchedOK, { s with Buffer_Offset := o, Mode := Mode_ADTS, IsAccepted := true }⟩

/-! ## Synchronize_LATM (lines 396-455) -/

/-- `CC2(Buffer+o+1)&0x1FFF`, the `audioMuxLengthBytes` of the frame header at `o`. -/
def audioMuxLengthBytes (Buffer : Nat → Nat) (o : Nat) : Nat :=
  CC2 Buffer (o + 1) &&& 0x1FFF

/-- The byte-skipping `while`s of `Synchronize_LATM`: lines 401-403 with `margin = 3`,
lines 445-447 with `margin = 2`. -/
def Synchronize_LATM_skip (Buffer : Nat → Nat) (Buffer_Size margin : Nat) :
    Nat → Nat → Option Nat
  | 0, o =>
    if o + margin ≤ Buffer_Size
        ∧ (int8u_at Buffer o ≠ 0x56 ∨ int8u_at Buffer (o + 1) &&& 0xE0 ≠ 0xE0)
    then none else some o
  | fuel + 1, o =>
    if o + margin ≤ Buffer_Size
        ∧ (int8u_at Buffer o ≠ 0x56 ∨ int8u_at Buffer (o + 1) &&& 0xE0 ≠ 0xE0)
    then Synchronize_LATM_skip Buffer Buffer_Size margin fuel (o + 1) else some o

/-- The body of `if (Buffer_Offset+3<=Buffer_Size)` (lines 405-440) for `Buffer_Offset = o`. -/
def Synchronize_LATM_test (s : File_Aac) (o : Nat) : Verdict :=
  let audioMuxLengthBytes := audioMuxLengthBytes s.Buffer o
  if s.IsSub = true ∧ o + 3 + audioMuxLengthBytes = s.Buffer_Size then .Accept
  else if int64u (s.File_Offset + o + 3 + audioMuxLengthBytes) ≠ int64u s.File_Size then
    if o + 3 + audioMuxLengthBytes + 3 > s.Buffer_Size then .NeedMoreData
    else if CC2 s.Buffer (o + 3 + audioMuxLengthBytes) &&& 0xFFE0 ≠ 0x56E0 then .Skip
    else
      let audioMuxLengthBytes2 :=
        File_Aac.audioMuxLengthBytes s.Buffer (o + 3 + audioMuxLengthBytes)
      if int64u (s.File_Offset + o + 3 + audioMuxLengthBytes + 3 + audioMuxLengthBytes2)
          ≠ int64u s.File_Size then
        if o + 3 + audioMuxLengthBytes + 3 + audioMuxLengthBytes2 + 3 > s.Buffer_Size then
          .NeedMoreData
        else if CC2 s.Buffer (o + 3 + audioMuxLengthBytes + 3 + audioMuxLengthBytes2)
            &&& 0xFFE0 ≠ 0x56E0 then
          .Skip
        else .Accept
      else .Accept
  else .Accept

/-- One pass of the outer `while` of `Synchronize_LATM` (the body, lines 401-440), entered at
`Buffer_Offset = o`; see `Synchronize_ADTS_pass`. -/
def Synchronize_LATM_pass (s : File_Aac) (o : Nat) : Option (Option LoopExit × Nat) :=
  match Synchronize_LATM_skip s.Buffer s.Buffer_Size 3 (s.Buffer_Size - o) o with
  | none => none
  | some o1 =>
    if o1 + 3 ≤ s.Buffer_Size then
      match Synchronize_LATM_test s o1 with
      | .NeedMoreData => some (some .Returned, o1)
      | .Skip => some (none, o1 + 1)
      | .Accept => some (some .Broke, o1)
    else some (none, o1)

/-- The outer `while (Buffer_Offset+3<=Buffer_Size)` of `Synchronize_LATM` (lines 399-441);
the fuel counts the passes. -/
def Synchronize_LATM_loop (s : File_Aac) : Nat → Nat → Option (LoopExit × Nat)
  | 0, o => if o + 3 ≤ s.Buffer_Size then none else some (.Ended, o)
  | fuel + 1, o =>
    if o + 3 ≤ s.Buffer_Size then
      match Synchronize_LATM_pass s o with
      | none => none
      | some (some e, o1) => some (e, o1)
      | some (none, o1) => Synchronize_LATM_loop s fuel o1
    else some (.Ended, o)

/-- `File_Aac::Synchronize_LATM`; `Accept("LATM")` sets the status flag. -/
def Synchronize_LATM (s : File_Aac) : Option SyncResult :=
  match Synchronize_LATM_loop s (s.Buffer_Size - s.Buffer_Offset) s.Buffer_Offset with
  | none => none
  | some (.Returned, o) => some ⟨.NeedMoreData, { s with Buffer_Offset := o }⟩
  | some (_, o) =>
    match Synchronize_LATM_skip s.Buffer s.Buffer_Size 2 (s.Buffer_Size - o) o with
    | none => none
    | some o2 =>
      if o2 + 2 ≥ s.Buffer_Size then some ⟨.NotSynchronized, { s with Buffer_Offset := o2 }⟩
      else
        some ⟨.SynchedOK, { s with Buffer_Offset := o2, Mode := Mode_LATM, IsAccepted := true }⟩

/-! ## Synchronize, Synched_Test (lines 291-300, 458-500) -/

/-- `File_Aac::Synchronize`. -/
def Synchronize (tags : TagsAnswer) (s : File_Aac) : Option SyncResult :=
  match s.Mode with
  | Mode_Unknown =>
    match Synchronize_LATM s with
    | none => none
    | some r =>
      if r.outcome.value = true then some r
      else Synchronize_ADTS tags { r.state with Buffer_Offset := 0 }
  | Mode_ADTS => Synchronize_ADTS tags s
  | Mode_LATM => Synchronize_LATM s
  | _ => some ⟨.NoSynchro, s⟩

/-- `File_Aac::Synched_Test_ADTS`; `tags_ok` is what `File__Tags_Helper::Synched_Test`
(absent from the sources) returns. -/
def Synched_Test_ADTS (tags_ok : Bool) (s : File_Aac) : Bool × File_Aac :=
  if tags_ok = false then (false, s)
  else if s.Buffer_Offset + 2 > s.Buffer_Size then (false, s)
  else if CC2 s.Buffer s.Buffer_Offset &&& 0xFFF6 ≠ 0xFFF0 then (true, { s with Synched := false })
  else (true, s)

/-- `File_Aac::Synched_Test_LATM`. -/
def Synched_Test_LATM (s : File_Aac) : Bool × File_Aac :=
  if s.Buffer_Offset + 2 > s.Buffer_Size then (false, s)
  else if CC2 s.Buffer s.Buffer_Offset &&& 0xFFE0 ≠ 0x56E0 then (true, { s with Synched := false })
  else (true, s)

/-- `File_Aac::Synched_Test`. -/
def Synched_Test (tags_ok : Bool) (s : File_Aac) : Bool × File_Aac :=
  match s.Mode with
  | Mode_ADTS => Synched_Test_ADTS tags_ok s
  | Mode_LATM => Synched_Test_LATM s
  | _ => (true, s)

/-! ## FileHeader_Begin (lines 162-196) -/

/-- `File_Aac::FileHeader_Begin`; `tags_ok` is what `File__Tags_Helper::FileHeader_Begin`
(absent from the sources) returns, and `Accept("ADIF")` sets the status flag. -/
def FileHeader_Begin (tags_ok : Bool) (s : File_Aac) : Bool × File_Aac :=
  let s :=
    match s.Mode with
    | Mode_AudioSpecificConfig => { s with MustSynchronize := false }
    | Mode_ADIF => { s with MustSynchronize := false }
    | _ => s
  match s.Mode with
  | Mode_AudioSpecificConfig => (true, s)
  | Mode_raw_data_block => (true, s)
  | Mode_LATM => (true, s)
  | _ =>
    if tags_ok = false then (false, s)
    else if s.Buffer_Offset + 4 > s.Buffer_Size then (false, s)
    else if CC4 s.Buffer s.Buffer_Offset = 0x41444946 then
      (true, { s with Mode := Mode_ADIF, IsAccepted := true, MustSynchronize := false })
    else (true, s)

/-! ## Header_Begin, Header_Parse (lines 548-611) -/

/-- `File_Aac::Header_Begin_ADTS`. -/
def Header_Begin_ADTS (s : File_Aac) : Bool :=
  if s.Buffer_Offset + 8 > s.Buffer_Size then false else true

/-- `File_Aac::Header_Begin_LATM`. -/
def Header_Begin_LATM (s : File_Aac) : Bool :=
  if s.Buffer_Offset + 3 > s.Buffer_Size then false else true

/-- `File_Aac::Header_Begin`; the parser is not written to. -/
def Header_Begin (s : File_Aac) : Bool × File_Aac :=
  match s.Mode with
  | Mode_ADTS => (Header_Begin_ADTS s, s)
  | Mode_LATM => (Header_Begin_LATM s, s)
  | _ => (true, s)

/-- `File_Aac::Header_Parse_ADTS`: `Header_Fill_Size(aac_frame_length)`.  `Header_Fill_Code`
names the element for the trace and is left out. -/
def Header_Parse_ADTS (s : File_Aac) : File_Aac :=
  let aac_frame_length := (CC3 s.Buffer (s.Buffer_Offset + 3) >>> 5) &&& 0x1FFF
  { s with Header_Fill_Size := aac_frame_length }

/-- Modelled from the spec: the bit cursor of `File__Analyze` (`BS_Begin`, `Skip_S2`,
`Get_S2`, `BS_End`), absent from the sources; "sequential bit-level cursor over a byte buffer
... Bit order is most-significant-bit-first".  Bit `k` of the memory, counted from the most
significant bit of byte 0. -/
def BS_bit (Buffer : Nat → Nat) (k : Nat) : Nat :=
  (int8u_at Buffer (k / 8) >>> (7 - k % 8)) % 2

/-- Modelled from the spec: the bit cursor of `File__Analyze`, absent from the sources; the
`n` bits from bit `k` on, most significant first. -/
def BS_Get (Buffer : Nat → Nat) (k : Nat) : Nat → Nat
  | 0 => 0
  | n + 1 => BS_Get Buffer k n * 2 + BS_bit Buffer (k + n)

/-- `File_Aac::Header_Parse_LATM`: the cursor starts at byte `Buffer_Offset+Element_Offset`,
11 bits are skipped, 13 bits are read, and `BS_End` leaves `Element_Offset` after the three
bytes. -/
def Header_Parse_LATM (s : File_Aac) : File_Aac :=
  let audioMuxLengthBytes := BS_Get s.Buffer (8 * (s.Buffer_Offset + s.Element_Offset) + 11) 13
  { s with Element_Offset := s.Element_Offset + 3,
           Header_Fill_Size := 3 + audioMuxLengthBytes }

/-- `File_Aac::Header_Parse`. -/
def Header_Parse (s : File_Aac) : File_Aac :=
  match s.Mode with
  | Mode_ADTS => Header_Parse_ADTS s
  | Mode_LATM => Header_Parse_LATM s
  | _ => s

/-! ## Read_Buffer_Continue, Data_Parse (lines 226-284, 614-678) -/

/-- The members that `File_Aac.cpp` calls and whose code is in other files of the library
(absent from the sources), taken as parameters. -/
structure Externals where
  /-- `AudioSpecificConfig(0)` between `BS_Begin` and `BS_End`. -/
  AudioSpecificConfig : File_Aac → File_Aac
  /-- `raw_data_block()` between `BS_Begin` and `BS_End`. -/
  raw_data_block : File_Aac → File_Aac
  /-- `adts_frame()` between `BS_Begin` and `BS_End`. -/
  adts_frame : File_Aac → File_Aac
  /-- `AudioMuxElement()` between `BS_Begin` and `BS_End`. -/
  AudioMuxElement : File_Aac → File_Aac
  /-- `File__Tags_Helper::Read_Buffer_Continue()`. -/
  Tags_Read_Buffer_Continue : File_Aac → File_Aac
  /-- `Element_IsOK()`, the test of `FILLING_BEGIN()`. -/
  Element_IsOK : File_Aac → Bool
  /-- `Config->ParseSpeed<1.0`. -/
  ParseSpeed_lt_1 : Bool
  /-- `float64_int64s(((float64)frame_length)*1000000000/sampling_frequency)`, from
  `frame_length` and `sampling_frequency`. -/
  DTS_step : Nat → Nat → Nat

/-- Modelled from the spec: `Skip_XX` of `File__Analyze`, absent from the sources; "payload
bytes are skipped": the element cursor moves over them. -/
def Skip_XX (s : File_Aac) (Bytes : Nat) : File_Aac :=
  { s with Element_Offset := s.Element_Offset + Bytes }

/-- `File_Aac::Read_Buffer_Continue_AudioSpecificConfig`. -/
def Read_Buffer_Continue_AudioSpecificConfig (x : Externals) (s : File_Aac) : File_Aac :=
  let s := { s with IsAccepted := true }
  let s := x.AudioSpecificConfig s
  { s with Mode := Mode_raw_data_block }

/-- `File_Aac::Read_Buffer_Continue_raw_data_block`. -/
def Read_Buffer_Continue_raw_data_block (x : Externals) (s : File_Aac) : File_Aac :=
  if s.Frame_Count > s.Frame_Count_Valid then Skip_XX s s.Element_Size
  else
    let s := x.raw_data_block s
    let s :=
      if s.FrameIsAlwaysComplete = true ∧ s.Element_Offset < s.Element_Size then
        Skip_XX s (s.Element_Size - s.Element_Offset)
      else s
    if x.Element_IsOK s = true then
      let s := { s with Frame_Count := s.Frame_Count + 1 }
      let s :=
        if s.Frame_Count_NotParsedIncluded ≠ 2 ^ 64 - 1 then
          { s with Frame_Count_NotParsedIncluded := s.Frame_Count_NotParsedIncluded + 1 }
        else s
      let s := if s.IsAccepted = false then { s with IsAccepted := true } else s
      if s.Frame_Count ≥ s.Frame_Count_Valid then { s with IsFinished := true } else s
    else s

/-- `File_Aac::Read_Buffer_Continue`. -/
def Read_Buffer_Continue (x : Externals) (s : File_Aac) : File_Aac :=
  if s.Element_Size = 0 then s
  else
    match s.Mode with
    | Mode_AudioSpecificConfig => Read_Buffer_Continue_AudioSpecificConfig x s
    | Mode_raw_data_block => Read_Buffer_Continue_raw_data_block x s
    | Mode_ADIF => x.Tags_Read_Buffer_Continue s
    | Mode_ADTS => x.Tags_Read_Buffer_Continue s
    | _ => s

/-- `File_Aac::Data_Parse_ADTS`. -/
def Data_Parse_ADTS (x : Externals) (s : File_Aac) : File_Aac := x.adts_frame s

/-- `File_Aac::Data_Parse_LATM`. -/
def Data_Parse_LATM (x : Externals) (s : File_Aac) : File_Aac := x.AudioMuxElement s

/-- Lines 616-619 of `File_Aac::Data_Parse`: the running minimum and maximum of the frame
size. -/
def Data_Parse_FrameSize (s : File_Aac) : File_Aac :=
  let s :=
    if s.FrameSize_Min > int64u (s.Header_Size + s.Element_Size) then
      { s with FrameSize_Min := int64u (s.Header_Size + s.Element_Size) }
    else s
  if s.FrameSize_Max < int64u (s.Header_Size + s.Element_Size) then
    { s with FrameSize_Max := int64u (s.Header_Size + s.Element_Size) }
  else s

/-- Lines 623-625 of `File_Aac::Data_Parse`: the payload is skipped. -/
def Data_Parse_Skip (x : Externals) (s : File_Aac) : File_Aac :=
  let s := Skip_XX s s.Element_Size
  let s := { s with DTS := int64u (s.DTS + x.DTS_step s.frame_length s.sampling_frequency) }
  { s with PTS := s.DTS }

/-- Lines 637-659 of `File_Aac::Data_Parse`: the body of `FILLING_BEGIN()`.  `Fill()` and
`File__Tags_Helper::Finish()` set their status flags. -/
def Data_Parse_Filling (x : Externals) (s : File_Aac) : File_Aac :=
  let s :=
    if int64u (s.File_Offset + s.Buffer_Offset + s.Element_Size) = int64u s.File_Size then
      { s with Frame_Count_Valid := s.Frame_Count }
    else s
  let s := { s with Frame_Count := s.Frame_Count + 1 }
  let s :=
    if s.Frame_Count_NotParsedIncluded ≠ 2 ^ 64 - 1 then
      { s with Frame_Count_NotParsedIncluded := s.Frame_Count_NotParsedIncluded + 1 }
    else s
  if (s.Frame_Count ≥ s.Frame_Count_Valid ∨ s.CanFill = true) ∧ x.ParseSpeed_lt_1 = true then
    match s.Mode with
    | Mode_ADTS =>
      if s.IsSub = false then { s with IsFilled := true, IsFinished := true }
      else { s with IsFilled := true }
    | Mode_LATM =>
      if s.IsSub = false then { s with IsFilled := true, IsFinished := true }
      else { s with IsFilled := true }
    | _ => s
  else s

/-- `File_Aac::Data_Parse`. -/
def Data_Parse (x : Externals) (s : File_Aac) : File_Aac :=
  let s := Data_Parse_FrameSize s
  if s.Frame_Count > s.Frame_Count_Valid ∨ s.CanFill = true then Data_Parse_Skip x s
  else
    let s :=
      match s.Mode with
      | Mode_ADTS => Data_Parse_ADTS x s
      | Mode_LATM => Data_Parse_LATM x s
      | _ => s
    if x.Element_IsOK s = true then Data_Parse_Filling x s else s

/-! ## Demux_UnpacketizeContainer_Test (lines 507-541) -/

/-- Modelled from the spec: `Demux_UnpacketizeContainer_Demux` of `File__Analyze`, absent from
the sources; "Per-frame events: frame byte range": the bytes from `Buffer_Offset` up to
`Demux_Offset` are emitted as one frame. -/
def Demux_UnpacketizeContainer_Demux (s : File_Aac) : File_Aac :=
  { s with Demux_Frames := s.Demux_Frames ++ [(s.Buffer_Offset, s.Demux_Offset)] }

/-- `File_Aac::Demux_UnpacketizeContainer_Test_ADTS`; `BigEndian2int24u` is `CC3`. -/
def Demux_UnpacketizeContainer_Test_ADTS (s : File_Aac) : Bool × File_Aac :=
  let aac_frame_length := (CC3 s.Buffer (s.Buffer_Offset + 3) >>> 5) &&& 0x1FFF
  let s := { s with Demux_Offset := s.Buffer_Offset + aac_frame_length }
  if s.Demux_Offset > s.Buffer_Size ∧ int64u (s.File_Offset + s.Buffer_Size) ≠ int64u s.File_Size
  then (false, s)
  else (true, Demux_UnpacketizeContainer_Demux s)

/-- `File_Aac::Demux_UnpacketizeContainer_Test_LATM`; `BigEndian2int16u` is `CC2`. -/
def Demux_UnpacketizeContainer_Test_LATM (s : File_Aac) : Bool × File_Aac :=
  let audioMuxLengthBytes := CC2 s.Buffer (s.Buffer_Offset + 1) &&& 0x1FFF
  let s := { s with Demux_Offset := s.Buffer_Offset + 3 + audioMuxLengthBytes }
  if s.Demux_Offset > s.Buffer_Size ∧ int64u (s.File_Offset + s.Buffer_Size) ≠ int64u s.File_Size
  then (false, s)
  else (true, Demux_UnpacketizeContainer_Demux s)

/-- `File_Aac::Demux_UnpacketizeContainer_Test`. -/
def Demux_UnpacketizeContainer_Test (s : File_Aac) : Bool × File_Aac :=
  match s.Mode with
  | Mode_ADTS => Demux_UnpacketizeContainer_Test_ADTS s
  | Mode_LATM => Demux_UnpacketizeContainer_Test_LATM s
  | _ => (true, s)

/-! ## Streams_Finish (lines 130-155) -/

/-- The two values `Streams_Finish` fills in `Audio_BitRate_Mode`. -/
inductive BitRate_Mode where
  | VBR
  | CBR
  deriving DecidableEq, Repr

/-- `File_Aac::Streams_Finish`: the value it fills in `Audio_BitRate_Mode`, `none` when it
fills none.  The `float64` product and comparison of `FrameSize_Max>FrameSize_Min*1.02` are
taken in exact arithmetic, 1.02 being 51/50; `Config->ParseSpeed>=1.0` is the negation of
`ParseSpeed_lt_1`.  The call of `File__Tags_Helper::Streams_Finish` and the fills of the
minimum and maximum bit rate are left out. -/
def Streams_Finish (x : Externals) (s : File_Aac) : Option BitRate_Mode :=
  if s.FrameSize_Min ≠ 2 ^ 32 - 1 ∧ s.FrameSize_Max ≠ 0 then
    if s.FrameSize_Max * 50 > s.FrameSize_Min * 51 then some .VBR
    else if x.ParseSpeed_lt_1 = false then some .CBR
    else none
  else none

/-! ## Parts of the library that the claims name and the sources lack -/

/-- Modelled from the spec: `float64_int64s` of ZenLib applied to a quotient, absent from the
sources; "fixed-point rounding to nearest integer": the integer nearest to `num / den`, taken
in exact arithmetic, a half going up. -/
def float64_int64s_ratio (num den : Nat) : Nat := (2 * num + den) / (2 * den)

/-- Modelled from the spec: the start of `AudioSpecificConfig`, a member whose code is absent
from the sources; "Read a 5-bit object-type index; if it equals the escape value (31), read 6
more bits and add 32".  The cursor stands at bit `k`; the result is the object type and the
cursor after it. -/
def GetAudioObjectType (Buffer : Nat → Nat) (k : Nat) : Nat × Nat :=
  if BS_Get Buffer k 5 = 31 then (BS_Get Buffer (k + 5) 6 + 32, k + 11)
  else (BS_Get Buffer k 5, k + 5)

/-! ## Sequences of calls -/

/-- A sequence of `Data_Parse` calls.  Before each call the framework, absent from the
sources, prepares the element (`Header_Size`, `Element_Size`, ...): the entries of the list. -/
def Data_Parse_run (x : Externals) : List (File_Aac → File_Aac) → File_Aac → File_Aac
  | [], s => s
  | prepare :: rest, s => Data_Parse_run x rest (Data_Parse x (prepare s))

/-- The frame sizes `Header_Size+Element_Size` that the calls of `Data_Parse_run` see. -/
def Data_Parse_sizes (x : Externals) : List (File_Aac → File_Aac) → File_Aac → List Nat
  | [], _ => []
  | prepare :: rest, s =>
    int64u ((prepare s).Header_Size + (prepare s).Element_Size)
      :: Data_Parse_sizes x rest (Data_Parse x (prepare s))

/-- The call `Data_Parse` on `s` hands the payload to `Data_Parse_ADTS` or `Data_Parse_LATM`:
the test of line 621 fails and the switch of lines 628-633 is in one of its two cases. -/
def Data_Parse_decodes (s : File_Aac) : Bool :=
  decide (¬ (s.Frame_Count > s.Frame_Count_Valid ∨ s.CanFill = true)
    ∧ (s.Mode = Mode_ADTS ∨ s.Mode = Mode_LATM))

/-- The number of calls of `Data_Parse_run` that hand their payload to a decoder. -/
def Data_Parse_decoded (x : Externals) : List (File_Aac → File_Aac) → File_Aac → Nat
  | [], _ => 0
  | prepare :: rest, s =>
    (if Data_Parse_decodes (prepare s) = true then 1 else 0)
      + Data_Parse_decoded x rest (Data_Parse x (prepare s))

/-- The operations of the parser that the framework calls. -/
inductive Operation where
  | FileHeader_Begin (tags_ok : Bool)
  | Read_Buffer_Continue
  | Synchronize (tags : TagsAnswer)
  | Synched_Test (tags_ok : Bool)
  | Header_Begin
  | Header_Parse
  | Data_Parse

/-- The parser after one operation. -/
def Operation.apply (x : Externals) : Operation → File_Aac → File_Aac
  | .FileHeader_Begin tags_ok, s => (File_Aac.FileHeader_Begin tags_ok s).2
  | .Read_Buffer_Continue, s => File_Aac.Read_Buffer_Continue x s
  | .Synchronize tags, s =>
    match File_Aac.Synchronize tags s with
    | some r => r.state
    | none => s
  | .Synched_Test tags_ok, s => (File_Aac.Synched_Test tags_ok s).2
  | .Header_Begin, s => (File_Aac.Header_Begin s).2
  | .Header_Parse, s => File_Aac.Header_Parse s
  | .Data_Parse, s => File_Aac.Data_Parse x s

/-- The parser after a sequence of operations. -/
def Operation.run (x : Externals) : List Operation → File_Aac → File_Aac
  | [], s => s
  | op :: ops, s => Operation.run x ops (Operation.apply x op s)

/-! ## Vocabulary of the statements -/

/-- The test `(CC2(Buffer+p)&0xFFF6)==0xFFF0` of the code. -/
def ADTS_sync (Buffer : Nat → Nat) (p : Nat) : Prop := CC2 Buffer p &&& 0xFFF6 = 0xFFF0

instance (Buffer : Nat → Nat) (p : Nat) : Decidable (ADTS_sync Buffer p) := by
  unfold ADTS_sync; infer_instance

/-- The test `(CC2(Buffer+p)&0xFFE0)==0x56E0` of the code. -/
def LATM_sync (Buffer : Nat → Nat) (p : Nat) : Prop := CC2 Buffer p &&& 0xFFE0 = 0x56E0

instance (Buffer : Nat → Nat) (p : Nat) : Decidable (LATM_sync Buffer p) := by
  unfold LATM_sync; infer_instance

/-- Buffer position `p` is the end of the stream for `Synchronize_ADTS`: the test
`File_Offset+p==File_Size-File_EndTagSize` of the code, in `int64u`. -/
def ADTS_EndOfStream (s : File_Aac) (p : Nat) : Prop :=
  int64u (s.File_Offset + p) = int64u_sub s.File_Size s.File_EndTagSize

instance (s : File_Aac) (p : Nat) : Decidable (ADTS_EndOfStream s p) := by
  unfold ADTS_EndOfStream; infer_instance

/-- Buffer position `p` is the end of the stream for `Synchronize_LATM`: the test
`File_Offset+p==File_Size` of the code, in `int64u`. -/
def LATM_EndOfStream (s : File_Aac) (p : Nat) : Prop :=
  int64u (s.File_Offset + p) = int64u s.File_Size

instance (s : File_Aac) (p : Nat) : Decidable (LATM_EndOfStream s p) := by
  unfold LATM_EndOfStream; infer_instance

/-- The chained forward check of `Synchronize_ADTS` on the candidate at `o`, three hops deep:
each hop ends the stream, or has a length above 7 and lands on a sync pattern. -/
def ADTS_forward_check (s : File_Aac) (o : Nat) : Prop :=
  let L1 := aac_frame_length s.Buffer o
  let L2 := aac_frame_length s.Buffer (o + L1)
  let L3 := aac_frame_length s.Buffer (o + L1 + L2)
  ADTS_EndOfStream s (o + L1) ∨
    (L1 > 7 ∧ ADTS_sync s.Buffer (o + L1) ∧
      (ADTS_EndOfStream s (o + L1 + L2) ∨
        (L2 > 7 ∧ ADTS_sync s.Buffer (o + L1 + L2) ∧
          (ADTS_EndOfStream s (o + L1 + L2 + L3) ∨
            (L3 > 7 ∧ ADTS_sync s.Buffer (o + L1 + L2 + L3))))))

/-- The chained forward check of `Synchronize_LATM` on the candidate at `o`, two hops deep:
each hop ends the stream or lands on a sync pattern. -/
def LATM_forward_check (s : File_Aac) (o : Nat) : Prop :=
  let L1 := audioMuxLengthBytes s.Buffer o
  let L2 := audioMuxLengthBytes s.Buffer (o + 3 + L1)
  LATM_EndOfStream s (o + 3 + L1) ∨
    (LATM_sync s.Buffer (o + 3 + L1) ∧
      (LATM_EndOfStream s (o + 3 + L1 + 3 + L2) ∨ LATM_sync s.Buffer (o + 3 + L1 + 3 + L2)))

/-- One level of the nest of lines 325-369: the hop from the frame header at `p`, with `f`
the sum `File_Offset+p` as the code writes it and `next` the verdict of the level below. -/
def ADTS_hop (s : File_Aac) (f p : Nat) (next : Verdict) : Verdict :=
  if int64u (f + aac_frame_length s.Buffer p) ≠ int64u_sub s.File_Size s.File_EndTagSize then
    if p + aac_frame_length s.Buffer p + 2 > s.Buffer_Size then .NeedMoreData
    else if aac_frame_length s.Buffer p ≤ 7
        ∨ CC2 s.Buffer (p + aac_frame_length s.Buffer p) &&& 0xFFF6 ≠ 0xFFF0 then .Skip
    else next
  else .Accept

/-- One level of the nest of lines 411-439: the hop from the frame header at `p`, with `f`
the sum `File_Offset+p` as the code writes it and `next` the verdict of the level below. -/
def LATM_hop (s : File_Aac) (f p : Nat) (next : Verdict) : Verdict :=
  if int64u (f + 3 + audioMuxLengthBytes s.Buffer p) ≠ int64u s.File_Size then
    if p + 3 + audioMuxLengthBytes s.Buffer p + 3 > s.Buffer_Size then .NeedMoreData
    else if CC2 s.Buffer (p + 3 + audioMuxLengthBytes s.Buffer p) &&& 0xFFE0 ≠ 0x56E0 then .Skip
    else next
  else .Accept

/-! ## Streams of ADTS frames -/

/-- A valid ADTS frame: at least 8 bytes, the first is `0xFF`, the second has
`(b & 0xF6) == 0xF0`, and the 13-bit frame-length field (read the way the code reads it)
equals the number of bytes of the frame. -/
def ADTS_frame (f : List Nat) : Prop :=
  8 ≤ f.length ∧ (∀ b ∈ f, b < 256) ∧ f.getD 0 0 = 0xFF ∧ f.getD 1 0 &&& 0xF6 = 0xF0 ∧
    aac_frame_length (memoryOf f) 0 = f.length

instance (f : List Nat) : Decidable (ADTS_frame f) := by
  unfold ADTS_frame; infer_instance

/-- The start offset and the length of each frame of a stream that begins at offset `o`. -/
def frame_bounds : Nat → List (List Nat) → List (Nat × Nat)
  | _, [] => []
  | o, f :: fs => (o, f.length) :: frame_bounds (o + f.length) fs

/-- The memory holds, from offset `o` up to `size`, frames of the given lengths, each with its
sync pattern and its length field. -/
def FramesAt (Buffer : Nat → Nat) (size : Nat) : Nat → List Nat → Prop
  | o, [] => o = size
  | o, l :: ls =>
    8 ≤ l ∧ ADTS_sync Buffer o ∧ aac_frame_length Buffer o = l ∧ FramesAt Buffer size (o + l) ls

/-- Modelled from the spec: the per-frame driver of `File__Analyze`, absent from the sources;
"synchronizing and parsing sequentially": at most `fuel` times, `Synched_Test_ADTS` (tag
helper passing), then, while it returns true and `Synched` stays set, `Header_Parse_ADTS` and
an advance of `Buffer_Offset` by the size it filled.  The result lists the offset and the
size of each frame visited. -/
def Frames_ADTS : Nat → File_Aac → List (Nat × Nat) × File_Aac
  | 0, s => ([], s)
  | fuel + 1, s =>
    if (Synched_Test_ADTS true s).1 = true ∧ (Synched_Test_ADTS true s).2.Synched = true then
      let s2 := Header_Parse_ADTS (Synched_Test_ADTS true s).2
      let rest :=
        Frames_ADTS fuel { s2 with Buffer_Offset := s2.Buffer_Offset + s2.Header_Fill_Size }
      ((s2.Buffer_Offset, s2.Header_Fill_Size) :: rest.1, rest.2)
    else ([], (Synched_Test_ADTS true s).2)

/-! ## Concrete streams -/

/-- An ADTS frame of 8 bytes: sync word, and 8 in the 13-bit length field. -/
def frame8 : List Nat := [0xFF, 0xF0, 0x00, 0x00, 0x01, 0x00, 0x00, 0x00]

/-- An ADTS frame of 9 bytes: sync word with the protection bit set, 9 in the length field. -/
def frame9 : List Nat := [0xFF, 0xF1, 0x00, 0x00, 0x01, 0x20, 0x00, 0x00, 0x00]

/-- The parser holding a whole file of the given bytes, at offset `o`. -/
def wholeFile (bytes : List Nat) (o : Nat) : File_Aac :=
  { Buffer := memoryOf bytes, Buffer_Size := bytes.length, File_Size := bytes.length,
    Buffer_Offset := o }

/-- The parser on the first bytes of a stream whose size is not known (`File_Size` is
`(int64u)-1`), at offset 0. -/
def streamStart (bytes : List Nat) : File_Aac :=
  { Buffer := memoryOf bytes, Buffer_Size := bytes.length }

/-- Three LATM headers with `audioMuxLengthBytes = 0`, then three zero bytes. -/
def latm_three : List Nat :=
  [0x56, 0xE0, 0x00, 0x56, 0xE0, 0x00, 0x56, 0xE0, 0x00, 0x00, 0x00, 0x00]

/-- Eight bytes that begin with the ADTS sync pattern and hold 0 in the length field. -/
def false_candidate : List Nat := [0xFF, 0xF0, 0x00, 0x00, 0x00, 0x00, 0x00, 0x00]

/-- One ADTS frame of 8 bytes and the first byte of the next one. -/
def adts_cut : List Nat := frame8 ++ [0xFF]

/-- One LATM header with `audioMuxLengthBytes = 0` and the first byte of the next one. -/
def latm_cut : List Nat := [0x56, 0xE0, 0x00, 0x56]

/-- Five bytes without any sync pattern. -/
def no_pattern : List Nat := [0x00, 0x00, 0x00, 0x00, 0x00]

/-- Four bytes that spell `ADIF`, in a parser whose mode is ADTS. -/
def adts_on_ADIF : File_Aac :=
  { Buffer := memoryOf [0x41, 0x44, 0x49, 0x46], Buffer_Size := 4, Mode := Mode_ADTS }

/-- Payload decoders and helpers that do nothing. -/
def idle : Externals :=
  { AudioSpecificConfig := fun s => s, raw_data_block := fun s => s, adts_frame := fun s => s,
    AudioMuxElement := fun s => s, Tags_Read_Buffer_Continue := fun s => s,
    Element_IsOK := fun _ => true, ParseSpeed_lt_1 := true, DTS_step := fun _ _ => 0 }

/-- A stream of four frames of 8 bytes. -/
def four_frames : List Nat := frame8 ++ frame8 ++ frame8 ++ frame8

/-- The first read of `four_frames`: 10 bytes are buffered, the memory after them holds
zeros, and the file is known to have 32 bytes. -/
def first_read : File_Aac :=
  { Buffer := memoryOf (four_frames.take 10), Buffer_Size := 10, File_Size := 32 }

/-- The first 7 bytes of `frame8`, as a whole file: its last frame is cut short. -/
def cut_file : File_Aac := wholeFile (frame8.take 7) 0

/-- Four zero bytes in a parser whose mode is ADIF. -/
def adif_without_magic : File_Aac :=
  { Buffer := memoryOf [0x00, 0x00, 0x00, 0x00], Buffer_Size := 4, Mode := Mode_ADIF }

/-- The bits `11111 000101 00000`: object type 31, then the 6-bit value 5. -/
def escape_5 : List Nat := [0xF8, 0xA0]

/-- Helpers that do nothing, with `Config->ParseSpeed>=1.0`. -/
def idle_full : Externals := { idle with ParseSpeed_lt_1 := false }

/-- The framework preparing an element of `n` bytes without header. -/
def element (n : Nat) : File_Aac → File_Aac :=
  fun s => { s with Header_Size := 0, Element_Size := n }

/-- A LATM header: sync word, then 261 in the 13-bit `audioMuxLengthBytes`. -/
def latm_header : List Nat := [0x56, 0xE1, 0x05]

/-- Helpers that do nothing, with the time stamp step of `float64_int64s_ratio`. -/
def rounding : Externals :=
  { idle with DTS_step := fun frame_length sampling_frequency =>
      float64_int64s_ratio (frame_length * 1000000000) sampling_frequency }

/-- A parser at 44100 Hz whose frames are skipped (`CanFill`), with the time stamp `DTS`. -/
def skipping (DTS : Nat) : File_Aac :=
  { Buffer := memoryOf [], Buffer_Size := 0, CanFill := true, sampling_frequency := 44100,
    DTS := DTS, PTS := DTS }

/-- A parser in `Mode_AudioSpecificConfig` with an element of 2 bytes. -/
def raw_config : File_Aac :=
  { Buffer := memoryOf [0x12, 0x10], Buffer_Size := 2, Mode := Mode_AudioSpecificConfig,
    Element_Size := 2 }

/-- The first 7 bytes of `frame8` buffered from a stream of unknown size. -/
def cut_stream : File_Aac := streamStart (frame8.take 7)


/-- A parser in mode ADTS at the start of a stream, with the budget `Frame_Count_Valid = 2`
of the constructor for `ParseSpeed` below 0.3. -/
def adts_budget_2 : File_Aac := { streamStart [] with Mode := Mode_ADTS, Frame_Count_Valid := 2 }

end File_Aac

end MediaInfoLib

namespace Sntp

/-! # Network/sntp-own/sntp.c

`unsigned long` and `long` are the 32-bit types of the target; an `unsigned long` is a `Nat`
kept below `2 ^ 32`, a `long` is an `Int`.  `double` values are taken in exact arithmetic, as
rationals. -/

/-- The value an integer takes when it is converted to `unsigned long`. -/
def to_unsigned_long (z : Int) : Nat := (z % 4294967296).toNat

/-- The value an integer takes when it is converted to `unsigned short`. -/
def to_unsigned_short (z : Int) : Nat := (z % 65536).toNat

/-- The value an integer takes when it is converted to `unsigned char`. -/
def to_unsigned_char (z : Int) : Nat := (z % 256).toNat

/-- `struct _NtpTimePacket` (lines 8-12). -/
structure NtpTimePacket where
  seconds : Nat
  fraction : Nat
  deriving DecidableEq, Repr

/-- `struct tm` of the C library. -/
structure tm where
  tm_sec : Int := 0
  tm_min : Int := 0
  tm_hour : Int := 0
  tm_mday : Int := 0
  tm_mon : Int := 0
  tm_year : Int := 0
  tm_wday : Int := 0
  tm_yday : Int := 0
  tm_isdst : Int := 0
  deriving DecidableEq, Repr

/-- `SYSTEM_TIME`, declared in `sntp.h`: the members the code uses. -/
structure SYSTEM_TIME where
  Seconds : tm := {}
  Milliseconds : Nat := 0
  deriving DecidableEq, Repr

/-- `MsToNTP` (lines 42-211): the table of 1000 entries. -/
def MsToNTP : List Nat :=
  [
   0x00000000, 0x00418937, 0x0083126f, 0x00c49ba6, 0x010624dd, 0x0147ae14,
   0x0189374c, 0x01cac083, 0x020c49ba, 0x024dd2f2, 0x028f5c29, 0x02d0e560,
   0x03126e98, 0x0353f7cf, 0x03958106, 0x03d70a3d, 0x04189375, 0x045a1cac,
   0x049ba5e3, 0x04dd2f1b, 0x051eb852, 0x05604189, 0x05a1cac1, 0x05e353f8,
   0x0624dd2f, 0x06666666, 0x06a7ef9e, 0x06e978d5, 0x072b020c, 0x076c8b44,
   0x07ae147b, 0x07ef9db2, 0x083126e9, 0x0872b021, 0x08b43958, 0x08f5c28f,
   0x09374bc7, 0x0978d4fe, 0x09ba5e35, 0x09fbe76d, 0x0a3d70a4, 0x0a7ef9db,
   0x0ac08312, 0x0b020c4a, 0x0b439581, 0x0b851eb8, 0x0bc6a7f0, 0x0c083127,
   0x0c49ba5e, 0x0c8b4396, 0x0ccccccd, 0x0d0e5604, 0x0d4fdf3b, 0x0d916873,
   0x0dd2f1aa, 0x0e147ae1, 0x0e560419, 0x0e978d50, 0x0ed91687, 0x0f1a9fbe,
   0x0f5c28f6, 0x0f9db22d, 0x0fdf3b64, 0x1020c49c, 0x10624dd3, 0x10a3d70a,
   0x10e56042, 0x1126e979, 0x116872b0, 0x11a9fbe7, 0x11eb851f, 0x122d0e56,
   0x126e978d, 0x12b020c5, 0x12f1a9fc, 0x13333333, 0x1374bc6a, 0x13b645a2,
   0x13f7ced9, 0x14395810, 0x147ae148, 0x14bc6a7f, 0x14fdf3b6, 0x153f7cee,
   0x15810625, 0x15c28f5c, 0x16041893, 0x1645a1cb, 0x16872b02, 0x16c8b439,
   0x170a3d71, 0x174bc6a8, 0x178d4fdf, 0x17ced917, 0x1810624e, 0x1851eb85,
   0x189374bc, 0x18d4fdf4, 0x1916872b, 0x19581062, 0x1999999a, 0x19db22d1,
   0x1a1cac08, 0x1a5e353f, 0x1a9fbe77, 0x1ae147ae, 0x1b22d0e5, 0x1b645a1d,
   0x1ba5e354, 0x1be76c8b, 0x1c28f5c3, 0x1c6a7efa, 0x1cac0831, 0x1ced9168,
   0x1d2f1aa0, 0x1d70a3d7, 0x1db22d0e, 0x1df3b646, 0x1e353f7d, 0x1e76c8b4,
   0x1eb851ec, 0x1ef9db23, 0x1f3b645a, 0x1f7ced91, 0x1fbe76c9, 0x20000000,
   0x20418937, 0x2083126f, 0x20c49ba6, 0x210624dd, 0x2147ae14, 0x2189374c,
   0x21cac083, 0x220c49ba, 0x224dd2f2, 0x228f5c29, 0x22d0e560, 0x23126e98,
   0x2353f7cf, 0x23958106, 0x23d70a3d, 0x24189375, 0x245a1cac, 0x249ba5e3,
   0x24dd2f1b, 0x251eb852, 0x25604189, 0x25a1cac1, 0x25e353f8, 0x2624dd2f,
   0x26666666, 0x26a7ef9e, 0x26e978d5, 0x272b020c, 0x276c8b44, 0x27ae147b,
   0x27ef9db2, 0x283126e9, 0x2872b021, 0x28b43958, 0x28f5c28f, 0x29374bc7,
   0x2978d4fe, 0x29ba5e35, 0x29fbe76d, 0x2a3d70a4, 0x2a7ef9db, 0x2ac08312,
   0x2b020c4a, 0x2b439581, 0x2b851eb8, 0x2bc6a7f0, 0x2c083127, 0x2c49ba5e,
   0x2c8b4396, 0x2ccccccd, 0x2d0e5604, 0x2d4fdf3b, 0x2d916873, 0x2dd2f1aa,
   0x2e147ae1, 0x2e560419, 0x2e978d50, 0x2ed91687, 0x2f1a9fbe, 0x2f5c28f6,
   0x2f9db22d, 0x2fdf3b64, 0x3020c49c, 0x30624dd3, 0x30a3d70a, 0x30e56042,
   0x3126e979, 0x316872b0, 0x31a9fbe7, 0x31eb851f, 0x322d0e56, 0x326e978d,
   0x32b020c5, 0x32f1a9fc, 0x33333333, 0x3374bc6a, 0x33b645a2, 0x33f7ced9,
   0x34395810, 0x347ae148, 0x34bc6a7f, 0x34fdf3b6, 0x353f7cee, 0x35810625,
   0x35c28f5c, 0x36041893, 0x3645a1cb, 0x36872b02, 0x36c8b439, 0x370a3d71,
   0x374bc6a8, 0x378d4fdf, 0x37ced917, 0x3810624e, 0x3851eb85, 0x389374bc,
   0x38d4fdf4, 0x3916872b, 0x39581062, 0x3999999a, 0x39db22d1, 0x3a1cac08,
   0x3a5e353f, 0x3a9fbe77, 0x3ae147ae, 0x3b22d0e5, 0x3b645a1d, 0x3ba5e354,
   0x3be76c8b, 0x3c28f5c3, 0x3c6a7efa, 0x3cac0831, 0x3ced9168, 0x3d2f1aa0,
   0x3d70a3d7, 0x3db22d0e, 0x3df3b646, 0x3e353f7d, 0x3e76c8b4, 0x3eb851ec,
   0x3ef9db23, 0x3f3b645a, 0x3f7ced91, 0x3fbe76c9, 0x40000000, 0x40418937,
   0x4083126f, 0x40c49ba6, 0x410624dd, 0x4147ae14, 0x4189374c, 0x41cac083,
   0x420c49ba, 0x424dd2f2, 0x428f5c29, 0x42d0e560, 0x43126e98, 0x4353f7cf,
   0x43958106, 0x43d70a3d, 0x44189375, 0x445a1cac, 0x449ba5e3, 0x44dd2f1b,
   0x451eb852, 0x45604189, 0x45a1cac1, 0x45e353f8, 0x4624dd2f, 0x46666666,
   0x46a7ef9e, 0x46e978d5, 0x472b020c, 0x476c8b44, 0x47ae147b, 0x47ef9db2,
   0x483126e9, 0x4872b021, 0x48b43958, 0x48f5c28f, 0x49374bc7, 0x4978d4fe,
   0x49ba5e35, 0x49fbe76d, 0x4a3d70a4, 0x4a7ef9db, 0x4ac08312, 0x4b020c4a,
   0x4b439581, 0x4b851eb8, 0x4bc6a7f0, 0x4c083127, 0x4c49ba5e, 0x4c8b4396,
   0x4ccccccd, 0x4d0e5604, 0x4d4fdf3b, 0x4d916873, 0x4dd2f1aa, 0x4e147ae1,
   0x4e560419, 0x4e978d50, 0x4ed91687, 0x4f1a9fbe, 0x4f5c28f6, 0x4f9db22d,
   0x4fdf3b64, 0x5020c49c, 0x50624dd3, 0x50a3d70a, 0x50e56042, 0x5126e979,
   0x516872b0, 0x51a9fbe7, 0x51eb851f, 0x522d0e56, 0x526e978d, 0x52b020c5,
   0x52f1a9fc, 0x53333333, 0x5374bc6a, 0x53b645a2, 0x53f7ced9, 0x54395810,
   0x547ae148, 0x54bc6a7f, 0x54fdf3b6, 0x553f7cee, 0x55810625, 0x55c28f5c,
   0x56041893, 0x5645a1cb, 0x56872b02, 0x56c8b439, 0x570a3d71, 0x574bc6a8,
   0x578d4fdf, 0x57ced917, 0x5810624e, 0x5851eb85, 0x589374bc, 0x58d4fdf4,
   0x5916872b, 0x59581062, 0x5999999a, 0x59db22d1, 0x5a1cac08, 0x5a5e353f,
   0x5a9fbe77, 0x5ae147ae, 0x5b22d0e5, 0x5b645a1d, 0x5ba5e354, 0x5be76c8b,
   0x5c28f5c3, 0x5c6a7efa, 0x5cac0831, 0x5ced9168, 0x5d2f1aa0, 0x5d70a3d7,
   0x5db22d0e, 0x5df3b646, 0x5e353f7d, 0x5e76c8b4, 0x5eb851ec, 0x5ef9db23,
   0x5f3b645a, 0x5f7ced91, 0x5fbe76c9, 0x60000000, 0x60418937, 0x6083126f,
   0x60c49ba6, 0x610624dd, 0x6147ae14, 0x6189374c, 0x61cac083, 0x620c49ba,
   0x624dd2f2, 0x628f5c29, 0x62d0e560, 0x63126e98, 0x6353f7cf, 0x63958106,
   0x63d70a3d, 0x64189375, 0x645a1cac, 0x649ba5e3, 0x64dd2f1b, 0x651eb852,
   0x65604189, 0x65a1cac1, 0x65e353f8, 0x6624dd2f, 0x66666666, 0x66a7ef9e,
   0x66e978d5, 0x672b020c, 0x676c8b44, 0x67ae147b, 0x67ef9db2, 0x683126e9,
   0x6872b021, 0x68b43958, 0x68f5c28f, 0x69374bc7, 0x6978d4fe, 0x69ba5e35,
   0x69fbe76d, 0x6a3d70a4, 0x6a7ef9db, 0x6ac08312, 0x6b020c4a, 0x6b439581,
   0x6b851eb8, 0x6bc6a7f0, 0x6c083127, 0x6c49ba5e, 0x6c8b4396, 0x6ccccccd,
   0x6d0e5604, 0x6d4fdf3b, 0x6d916873, 0x6dd2f1aa, 0x6e147ae1, 0x6e560419,
   0x6e978d50, 0x6ed91687, 0x6f1a9fbe, 0x6f5c28f6, 0x6f9db22d, 0x6fdf3b64,
   0x7020c49c, 0x70624dd3, 0x70a3d70a, 0x70e56042, 0x7126e979, 0x716872b0,
   0x71a9fbe7, 0x71eb851f, 0x722d0e56, 0x726e978d, 0x72b020c5, 0x72f1a9fc,
   0x73333333, 0x7374bc6a, 0x73b645a2, 0x73f7ced9, 0x74395810, 0x747ae148,
   0x74bc6a7f, 0x74fdf3b6, 0x753f7cee, 0x75810625, 0x75c28f5c, 0x76041893,
   0x7645a1cb, 0x76872b02, 0x76c8b439, 0x770a3d71, 0x774bc6a8, 0x778d4fdf,
   0x77ced917, 0x7810624e, 0x7851eb85, 0x789374bc, 0x78d4fdf4, 0x7916872b,
   0x79581062, 0x7999999a, 0x79db22d1, 0x7a1cac08, 0x7a5e353f, 0x7a9fbe77,
   0x7ae147ae, 0x7b22d0e5, 0x7b645a1d, 0x7ba5e354, 0x7be76c8b, 0x7c28f5c3,
   0x7c6a7efa, 0x7cac0831, 0x7ced9168, 0x7d2f1aa0, 0x7d70a3d7, 0x7db22d0e,
   0x7df3b646, 0x7e353f7d, 0x7e76c8b4, 0x7eb851ec, 0x7ef9db23, 0x7f3b645a,
   0x7f7ced91, 0x7fbe76c9, 0x80000000, 0x80418937, 0x8083126f, 0x80c49ba6,
   0x810624dd, 0x8147ae14, 0x8189374c, 0x81cac083, 0x820c49ba, 0x824dd2f2,
   0x828f5c29, 0x82d0e560, 0x83126e98, 0x8353f7cf, 0x83958106, 0x83d70a3d,
   0x84189375, 0x845a1cac, 0x849ba5e3, 0x84dd2f1b, 0x851eb852, 0x85604189,
   0x85a1cac1, 0x85e353f8, 0x8624dd2f, 0x86666666, 0x86a7ef9e, 0x86e978d5,
   0x872b020c, 0x876c8b44, 0x87ae147b, 0x87ef9db2, 0x883126e9, 0x8872b021,
   0x88b43958, 0x88f5c28f, 0x89374bc7, 0x8978d4fe, 0x89ba5e35, 0x89fbe76d,
   0x8a3d70a4, 0x8a7ef9db, 0x8ac08312, 0x8b020c4a, 0x8b439581, 0x8b851eb8,
   0x8bc6a7f0, 0x8c083127, 0x8c49ba5e, 0x8c8b4396, 0x8ccccccd, 0x8d0e5604,
   0x8d4fdf3b, 0x8d916873, 0x8dd2f1aa, 0x8e147ae1, 0x8e560419, 0x8e978d50,
   0x8ed91687, 0x8f1a9fbe, 0x8f5c28f6, 0x8f9db22d, 0x8fdf3b64, 0x9020c49c,
   0x90624dd3, 0x90a3d70a, 0x90e56042, 0x9126e979, 0x916872b0, 0x91a9fbe7,
   0x91eb851f, 0x922d0e56, 0x926e978d, 0x92b020c5, 0x92f1a9fc, 0x93333333,
   0x9374bc6a, 0x93b645a2, 0x93f7ced9, 0x94395810, 0x947ae148, 0x94bc6a7f,
   0x94fdf3b6, 0x953f7cee, 0x95810625, 0x95c28f5c, 0x96041893, 0x9645a1cb,
   0x96872b02, 0x96c8b439, 0x970a3d71, 0x974bc6a8, 0x978d4fdf, 0x97ced917,
   0x9810624e, 0x9851eb85, 0x989374bc, 0x98d4fdf4, 0x9916872b, 0x99581062,
   0x9999999a, 0x99db22d1, 0x9a1cac08, 0x9a5e353f, 0x9a9fbe77, 0x9ae147ae,
   0x9b22d0e5, 0x9b645a1d, 0x9ba5e354, 0x9be76c8b, 0x9c28f5c3, 0x9c6a7efa,
   0x9cac0831, 0x9ced9168, 0x9d2f1aa0, 0x9d70a3d7, 0x9db22d0e, 0x9df3b646,
   0x9e353f7d, 0x9e76c8b4, 0x9eb851ec, 0x9ef9db23, 0x9f3b645a, 0x9f7ced91,
   0x9fbe76c9, 0xa0000000, 0xa0418937, 0xa083126f, 0xa0c49ba6, 0xa10624dd,
   0xa147ae14, 0xa189374c, 0xa1cac083, 0xa20c49ba, 0xa24dd2f2, 0xa28f5c29,
   0xa2d0e560, 0xa3126e98, 0xa353f7cf, 0xa3958106, 0xa3d70a3d, 0xa4189375,
   0xa45a1cac, 0xa49ba5e3, 0xa4dd2f1b, 0xa51eb852, 0xa5604189, 0xa5a1cac1,
   0xa5e353f8, 0xa624dd2f, 0xa6666666, 0xa6a7ef9e, 0xa6e978d5, 0xa72b020c,
   0xa76c8b44, 0xa7ae147b, 0xa7ef9db2, 0xa83126e9, 0xa872b021, 0xa8b43958,
   0xa8f5c28f, 0xa9374bc7, 0xa978d4fe, 0xa9ba5e35, 0xa9fbe76d, 0xaa3d70a4,
   0xaa7ef9db, 0xaac08312, 0xab020c4a, 0xab439581, 0xab851eb8, 0xabc6a7f0,
   0xac083127, 0xac49ba5e, 0xac8b4396, 0xaccccccd, 0xad0e5604, 0xad4fdf3b,
   0xad916873, 0xadd2f1aa, 0xae147ae1, 0xae560419, 0xae978d50, 0xaed91687,
   0xaf1a9fbe, 0xaf5c28f6, 0xaf9db22d, 0xafdf3b64, 0xb020c49c, 0xb0624dd3,
   0xb0a3d70a, 0xb0e56042, 0xb126e979, 0xb16872b0, 0xb1a9fbe7, 0xb1eb851f,
   0xb22d0e56, 0xb26e978d, 0xb2b020c5, 0xb2f1a9fc, 0xb3333333, 0xb374bc6a,
   0xb3b645a2, 0xb3f7ced9, 0xb4395810, 0xb47ae148, 0xb4bc6a7f, 0xb4fdf3b6,
   0xb53f7cee, 0xb5810625, 0xb5c28f5c, 0xb6041893, 0xb645a1cb, 0xb6872b02,
   0xb6c8b439, 0xb70a3d71, 0xb74bc6a8, 0xb78d4fdf, 0xb7ced917, 0xb810624e,
   0xb851eb85, 0xb89374bc, 0xb8d4fdf4, 0xb916872b, 0xb9581062, 0xb999999a,
   0xb9db22d1, 0xba1cac08, 0xba5e353f, 0xba9fbe77, 0xbae147ae, 0xbb22d0e5,
   0xbb645a1d, 0xbba5e354, 0xbbe76c8b, 0xbc28f5c3, 0xbc6a7efa, 0xbcac0831,
   0xbced9168, 0xbd2f1aa0, 0xbd70a3d7, 0xbdb22d0e, 0xbdf3b646, 0xbe353f7d,
   0xbe76c8b4, 0xbeb851ec, 0xbef9db23, 0xbf3b645a, 0xbf7ced91, 0xbfbe76c9,
   0xc0000000, 0xc0418937, 0xc083126f, 0xc0c49ba6, 0xc10624dd, 0xc147ae14,
   0xc189374c, 0xc1cac083, 0xc20c49ba, 0xc24dd2f2, 0xc28f5c29, 0xc2d0e560,
   0xc3126e98, 0xc353f7cf, 0xc3958106, 0xc3d70a3d, 0xc4189375, 0xc45a1cac,
   0xc49ba5e3, 0xc4dd2f1b, 0xc51eb852, 0xc5604189, 0xc5a1cac1, 0xc5e353f8,
   0xc624dd2f, 0xc6666666, 0xc6a7ef9e, 0xc6e978d5, 0xc72b020c, 0xc76c8b44,
   0xc7ae147b, 0xc7ef9db2, 0xc83126e9, 0xc872b021, 0xc8b43958, 0xc8f5c28f,
   0xc9374bc7, 0xc978d4fe, 0xc9ba5e35, 0xc9fbe76d, 0xca3d70a4, 0xca7ef9db,
   0xcac08312, 0xcb020c4a, 0xcb439581, 0xcb851eb8, 0xcbc6a7f0, 0xcc083127,
   0xcc49ba5e, 0xcc8b4396, 0xcccccccd, 0xcd0e5604, 0xcd4fdf3b, 0xcd916873,
   0xcdd2f1aa, 0xce147ae1, 0xce560419, 0xce978d50, 0xced91687, 0xcf1a9fbe,
   0xcf5c28f6, 0xcf9db22d, 0xcfdf3b64, 0xd020c49c, 0xd0624dd3, 0xd0a3d70a,
   0xd0e56042, 0xd126e979, 0xd16872b0, 0xd1a9fbe7, 0xd1eb851f, 0xd22d0e56,
   0xd26e978d, 0xd2b020c5, 0xd2f1a9fc, 0xd3333333, 0xd374bc6a, 0xd3b645a2,
   0xd3f7ced9, 0xd4395810, 0xd47ae148, 0xd4bc6a7f, 0xd4fdf3b6, 0xd53f7cee,
   0xd5810625, 0xd5c28f5c, 0xd6041893, 0xd645a1cb, 0xd6872b02, 0xd6c8b439,
   0xd70a3d71, 0xd74bc6a8, 0xd78d4fdf, 0xd7ced917, 0xd810624e, 0xd851eb85,
   0xd89374bc, 0xd8d4fdf4, 0xd916872b, 0xd9581062, 0xd999999a, 0xd9db22d1,
   0xda1cac08, 0xda5e353f, 0xda9fbe77, 0xdae147ae, 0xdb22d0e5, 0xdb645a1d,
   0xdba5e354, 0xdbe76c8b, 0xdc28f5c3, 0xdc6a7efa, 0xdcac0831, 0xdced9168,
   0xdd2f1aa0, 0xdd70a3d7, 0xddb22d0e, 0xddf3b646, 0xde353f7d, 0xde76c8b4,
   0xdeb851ec, 0xdef9db23, 0xdf3b645a, 0xdf7ced91, 0xdfbe76c9, 0xe0000000,
   0xe0418937, 0xe083126f, 0xe0c49ba6, 0xe10624dd, 0xe147ae14, 0xe189374c,
   0xe1cac083, 0xe20c49ba, 0xe24dd2f2, 0xe28f5c29, 0xe2d0e560, 0xe3126e98,
   0xe353f7cf, 0xe3958106, 0xe3d70a3d, 0xe4189375, 0xe45a1cac, 0xe49ba5e3,
   0xe4dd2f1b, 0xe51eb852, 0xe5604189, 0xe5a1cac1, 0xe5e353f8, 0xe624dd2f,
   0xe6666666, 0xe6a7ef9e, 0xe6e978d5, 0xe72b020c, 0xe76c8b44, 0xe7ae147b,
   0xe7ef9db2, 0xe83126e9, 0xe872b021, 0xe8b43958, 0xe8f5c28f, 0xe9374bc7,
   0xe978d4fe, 0xe9ba5e35, 0xe9fbe76d, 0xea3d70a4, 0xea7ef9db, 0xeac08312,
   0xeb020c4a, 0xeb439581, 0xeb851eb8, 0xebc6a7f0, 0xec083127, 0xec49ba5e,
   0xec8b4396, 0xeccccccd, 0xed0e5604, 0xed4fdf3b, 0xed916873, 0xedd2f1aa,
   0xee147ae1, 0xee560419, 0xee978d50, 0xeed91687, 0xef1a9fbe, 0xef5c28f6,
   0xef9db22d, 0xefdf3b64, 0xf020c49c, 0xf0624dd3, 0xf0a3d70a, 0xf0e56042,
   0xf126e979, 0xf16872b0, 0xf1a9fbe7, 0xf1eb851f, 0xf22d0e56, 0xf26e978d,
   0xf2b020c5, 0xf2f1a9fc, 0xf3333333, 0xf374bc6a, 0xf3b645a2, 0xf3f7ced9,
   0xf4395810, 0xf47ae148, 0xf4bc6a7f, 0xf4fdf3b6, 0xf53f7cee, 0xf5810625,
   0xf5c28f5c, 0xf6041893, 0xf645a1cb, 0xf6872b02, 0xf6c8b439, 0xf70a3d71,
   0xf74bc6a8, 0xf78d4fdf, 0xf7ced917, 0xf810624e, 0xf851eb85, 0xf89374bc,
   0xf8d4fdf4, 0xf916872b, 0xf9581062, 0xf999999a, 0xf9db22d1, 0xfa1cac08,
   0xfa5e353f, 0xfa9fbe77, 0xfae147ae, 0xfb22d0e5, 0xfb645a1d, 0xfba5e354,
   0xfbe76c8b, 0xfc28f5c3, 0xfc6a7efa, 0xfcac0831, 0xfced9168, 0xfd2f1aa0,
   0xfd70a3d7, 0xfdb22d0e, 0xfdf3b646, 0xfe353f7d, 0xfe76c8b4, 0xfeb851ec,
   0xfef9db23, 0xff3b645a, 0xff7ced91, 0xffbe76c9
  ]

/-- `MsToNTP[i]`; the table has 1000 entries and the model reads 0 past its end. -/
def MsToNTP_at (i : Nat) : Nat := MsToNTP.getD i 0

/-- `NTP_FRACTIONAL_TO_MS` (line 212). -/
def NTP_FRACTIONAL_TO_MS : ℚ := 1000 / 0xFFFFFFFF

/-- `NTP_TO_SECOND` (line 213). -/
def NTP_TO_SECOND : ℚ := 1 / 0xFFFFFFFF

/-- `JAN_1ST_1900` (line 214). -/
def JAN_1ST_1900 : Int := 2415021

/-- `NtpFractionToSecond` (lines 334-337). -/
def NtpFractionToSecond (ulFraction : Nat) : ℚ := (ulFraction : ℚ) * NTP_TO_SECOND

/-- `AddNtpPacketWithTicks` (lines 344-355); `clock_per_sec` is what
`ST_GetClocksPerSecond()`, a function of the platform, returns. -/
def AddNtpPacketWithTicks (clock_per_sec : Nat) (dstPacket : NtpTimePacket) (ulTicks : Nat) :
    NtpTimePacket :=
  let frac := MsToNTP_at ((ulTicks % clock_per_sec) * 1000 % 4294967296 / clock_per_sec)
  let seconds := (dstPacket.seconds + ulTicks / clock_per_sec) % 4294967296
  let seconds :=
    if 0xffffffff - frac ≤ dstPacket.fraction then (seconds + 1) % 4294967296 else seconds
  { seconds := seconds, fraction := (dstPacket.fraction + frac) % 4294967296 }

/-- `GetJulianDay` (lines 405-423); the division of C truncates. -/
def GetJulianDay (Year Month Day : Nat) : Int :=
  let y : Int := Year
  let m : Int := (Month : Int) + 1
  let d : Int := Day
  let y := if m > 2 then y else y - 1
  let m := if m > 2 then m - 3 else m + 9
  let c := y.tdiv 100
  let ya := y - 100 * c
  (146097 * c).tdiv 4 + (1461 * ya).tdiv 4 + (153 * m + 2).tdiv 5 + d + 1721119

/-- `SystemTimeToNTPPacket` (lines 365-376): the arguments of `GetJulianDay` are converted to
`unsigned short`, the sums are `unsigned long`. -/
def SystemTimeToNTPPacket (st : SYSTEM_TIME) : NtpTimePacket :=
  let JD := GetJulianDay (to_unsigned_short st.Seconds.tm_year)
    (to_unsigned_short st.Seconds.tm_mon) (to_unsigned_short st.Seconds.tm_mday)
  let JD := JD - JAN_1ST_1900
  let Seconds := to_unsigned_long JD
  let Seconds := to_unsigned_long ((Seconds : Int) * 24 + st.Seconds.tm_hour)
  let Seconds := to_unsigned_long ((Seconds : Int) * 60 + st.Seconds.tm_min)
  { seconds := to_unsigned_long ((Seconds : Int) * 60 + st.Seconds.tm_sec),
    fraction := MsToNTP_at st.Milliseconds }

/-- `CompareNtpTimePacket` (lines 431-445). -/
def CompareNtpTimePacket (time1 time2 : NtpTimePacket) : Int :=
  if time1.seconds > time2.seconds then 1
  else if time1.seconds < time2.seconds then -1
  else if time1.fraction = time2.fraction then 0
  else if time1.fraction > time2.fraction then 1
  else -1

/-- The `unsigned long` difference `a - b`. -/
def unsigned_long_sub (a b : Nat) : Nat := (a + 4294967296 - b % 4294967296) % 4294967296

/-- `SubtractTimePacket` (lines 453-484). -/
def SubtractTimePacket (time1 time2 : NtpTimePacket) : ℚ :=
  if CompareNtpTimePacket time1 time2 ≥ 0 then
    let MediumInteger := unsigned_long_sub time1.seconds time2.seconds
    if time1.fraction ≥ time2.fraction then
      let MediumFraction := unsigned_long_sub time1.fraction time2.fraction
      (MediumInteger : ℚ) + NtpFractionToSecond MediumFraction
    else
      let MediumInteger := unsigned_long_sub MediumInteger 1
      let MediumFraction :=
        (unsigned_long_sub 0xffffffff time2.fraction + time1.fraction) % 4294967296
      (MediumInteger : ℚ) + NtpFractionToSecond MediumFraction
  else
    let MediumInteger := unsigned_long_sub time2.seconds time1.seconds
    if time2.fraction ≥ time1.fraction then
      let MediumFraction := unsigned_long_sub time2.fraction time1.fraction;
      -((MediumInteger : ℚ) + NtpFractionToSecond MediumFraction)
    else
      let MediumInteger := unsigned_long_sub MediumInteger 1
      let MediumFraction :=
        (unsigned_long_sub 0xffffffff time1.fraction + time2.fraction) % 4294967296;
      -((MediumInteger : ℚ) + NtpFractionToSecond MediumFraction)

/-- `AddNtpTimePacket` (lines 492-525).  `modf` splits `src` into its integer part and its
fraction; the conversions to `unsigned long` and `unsigned int` truncate. -/
def AddNtpTimePacket (dst : NtpTimePacket) (src : ℚ) : NtpTimePacket :=
  if src ≥ 0 then
    let frac : ℚ := src - ⌊src⌋
    let MediumFrac := to_unsigned_long ⌊frac * 0xFFFFFFFF⌋
    let seconds := (dst.seconds + to_unsigned_long ⌊src⌋) % 4294967296
    let seconds :=
      if 0xFFFFFFFF - MediumFrac ≥ dst.fraction then (seconds + 1) % 4294967296 else seconds
    { seconds := seconds, fraction := (dst.fraction + MediumFrac) % 4294967296 }
  else
    let src := src * -1
    let frac : ℚ := src - ⌊src⌋
    let MediumFrac := to_unsigned_long ⌊frac * 0xFFFFFFFF⌋
    let seconds := unsigned_long_sub dst.seconds (to_unsigned_long ⌊src⌋)
    if MediumFrac > dst.fraction then
      { seconds := unsigned_long_sub seconds 1,
        fraction := (dst.fraction + (0xFFFFFFFF - MediumFrac)) % 4294967296 }
    else
      { seconds := seconds, fraction := unsigned_long_sub dst.fraction MediumFrac }

/-- `GetGregorianDate` (lines 533-558): the year, the month index and the day it stores. -/
def GetGregorianDate (JD : Int) : Int × Int × Int :=
  let j := JD - 1721119
  let y := (4 * j - 1).tdiv 146097
  let j := 4 * j - 1 - 146097 * y
  let d := j.tdiv 4
  let j := (4 * d + 3).tdiv 1461
  let d := 4 * d + 3 - 1461 * j
  let d := (d + 4).tdiv 4
  let m := (5 * d - 3).tdiv 153
  let d := 5 * d - 3 - 153 * m
  let d := (d + 5).tdiv 5
  let y := 100 * y + j
  let y := if m < 10 then y else y + 1
  let m := if m < 10 then m + 3 else m - 9
  ((to_unsigned_short y : Int), (to_unsigned_char m : Int) - 1, (to_unsigned_char d : Int))

/-- `NtpFractionToMs` (lines 574-577), the product and the sum taken exactly. -/
def NtpFractionToMs (ulFraction : Nat) : Nat :=
  to_unsigned_short ⌊(ulFraction : ℚ) * NTP_FRACTIONAL_TO_MS + 1 / 2⌋

/-- `NTPTimeToSystemTime` (lines 587-602); the members of `st` it does not write are kept. -/
def NTPTimeToSystemTime (st : SYSTEM_TIME) (src : NtpTimePacket) : SYSTEM_TIME :=
  let s := src.seconds
  let tm_sec : Int := to_unsigned_char (s % 60 : Nat)
  let s := s / 60
  let tm_min : Int := to_unsigned_char (s % 60 : Nat)
  let s := s / 60
  let tm_hour : Int := to_unsigned_char (s % 24 : Nat)
  let s := s / 24
  let JD : Int := (s : Int) + JAN_1ST_1900
  let tm_wday : Int := to_unsigned_short ((JD + 1).tmod 7)
  let date := GetGregorianDate JD
  { st with
    Seconds := { st.Seconds with tm_sec := tm_sec, tm_min := tm_min, tm_hour := tm_hour,
                                 tm_wday := tm_wday, tm_year := date.1, tm_mon := date.2.1,
                                 tm_mday := date.2.2 },
    Milliseconds := NtpFractionToMs src.fraction }

/-! ## Vocabulary of the statements: the proleptic Gregorian calendar -/

/-- Leap years of the Gregorian calendar. -/
def isLeapYear (year : Nat) : Bool :=
  year % 4 = 0 ∧ (year % 100 ≠ 0 ∨ year % 400 = 0)

/-- The number of days of a year. -/
def daysInYear (year : Nat) : Nat := if isLeapYear year then 366 else 365

/-- The number of days of the month with index `month` (0 is January). -/
def daysInMonth (year month : Nat) : Nat :=
  match month with
  | 0 => 31
  | 1 => if isLeapYear year then 29 else 28
  | 2 => 31
  | 3 => 30
  | 4 => 31
  | 5 => 30
  | 6 => 31
  | 7 => 31
  | 8 => 30
  | 9 => 31
  | 10 => 30
  | 11 => 31
  | _ => 0

/-- A date of the calendar: month index 0..11 and a day of that month. -/
def validDate (year month day : Nat) : Prop :=
  month < 12 ∧ 1 ≤ day ∧ day ≤ daysInMonth year month

instance (year month day : Nat) : Decidable (validDate year month day) := by
  unfold validDate; infer_instance

/-- The number of days in the `n` years from 1900 on. -/
def daysOfYearsFrom1900 : Nat → Nat
  | 0 => 0
  | n + 1 => daysOfYearsFrom1900 n + daysInYear (1900 + n)

/-- The number of days in the first `month` months of a year. -/
def daysBeforeMonth (year : Nat) : Nat → Nat
  | 0 => 0
  | month + 1 => daysBeforeMonth year month + daysInMonth year month

/-- The number of days from 1900-01-01 to the date, counted in the calendar. -/
def daysSince1900 (year month day : Nat) : Nat :=
  daysOfYearsFrom1900 (year - 1900) + daysBeforeMonth year month + (day - 1)

/-- The system time 2004-05-28 03:32:20.005 (`tm_mon` 4 is May). -/
def may_28_2004 : SYSTEM_TIME :=
  { Seconds := { tm_year := 2004, tm_mon := 4, tm_mday := 28, tm_hour := 3, tm_min := 32,
                 tm_sec := 20 },
    Milliseconds := 5 }

end Sntp

namespace TinyJpeg

/-! # Views/JPEG/tinyjpeg.c

The bit reservoir and the Huffman tables.  `tinyjpeg-internal.h`, which declares
`struct jdec_private`, `struct huffman_table` and `HUFFMAN_HASH_NBITS`, is not among the
sources: the structures below hold the members the code uses, and `HUFFMAN_HASH_NBITS` is the
parameter `H` of the functions.  `unsigned int` is 32 bits wide. -/

/-- The members of `struct jdec_private` that the bit reservoir uses: the memory `stream`
points into (a function from index to byte), the position of `stream` in it, `reservoir` and
`nbits_in_reservoir`. -/
structure jdec_private where
  data : Nat → Nat
  stream : Nat := 0
  reservoir : Nat := 0
  nbits_in_reservoir : Nat := 0

/-- The `unsigned char` at index `i` of a memory. -/
def uchar_at (data : Nat → Nat) (i : Nat) : Nat := data i % 256

/-- One pass of the `while` of `fill_nbits` (lines 153-160). -/
def fill_nbits_pass (p : jdec_private) : jdec_private :=
  let c := uchar_at p.data p.stream
  let stream := p.stream + 1
  let reservoir := (p.reservoir <<< 8) % 2 ^ 32
  let stream := if c = 0xff ∧ uchar_at p.data stream = 0x00 then stream + 1 else stream
  { p with stream := stream, reservoir := reservoir ||| c,
           nbits_in_reservoir := p.nbits_in_reservoir + 8 }

/-- The `while` of `fill_nbits`; each pass adds 8 bits, so `nbits_wanted` passes are enough
(`fill_nbits_enough`). -/
def fill_nbits_loop : Nat → jdec_private → Nat → jdec_private
  | 0, p, _ => p
  | fuel + 1, p, nbits_wanted =>
    if p.nbits_in_reservoir < nbits_wanted then
      fill_nbits_loop fuel (fill_nbits_pass p) nbits_wanted
    else p

/-- The macro `fill_nbits` (lines 151-161). -/
def fill_nbits (p : jdec_private) (nbits_wanted : Nat) : jdec_private :=
  fill_nbits_loop nbits_wanted p nbits_wanted

/-- The macro `look_nbits` (lines 174-177): the reservoir after the filling, and `result`. -/
def look_nbits (p : jdec_private) (nbits_wanted : Nat) : jdec_private × Nat :=
  let p := fill_nbits p nbits_wanted
  (p, p.reservoir >>> (p.nbits_in_reservoir - nbits_wanted))

/-- The macro `skip_nbits` (lines 180-184). -/
def skip_nbits (p : jdec_private) (nbits_wanted : Nat) : jdec_private :=
  let p := fill_nbits p nbits_wanted
  let nbits_in_reservoir := p.nbits_in_reservoir - nbits_wanted
  { p with nbits_in_reservoir := nbits_in_reservoir,
           reservoir := p.reservoir &&& ((1 <<< nbits_in_reservoir) % 2 ^ 32 - 1) }

/-- The conversion of an integer to `short int`: 16 bits, two's complement. -/
def to_short (z : Int) : Int := (z + 32768) % 65536 - 32768

/-- The macro `get_nbits` (lines 165-172): the reservoir after the call, and `result`.
`result` is a `short int`, as at both uses of the macro (`DCT[0]` at line 250, `DCT[j]` at
line 270); in the comparison and in the addition it is converted to `unsigned long`, whose
width `ULONG_BITS` is a parameter, and the sum is converted back to `short int`. -/
def get_nbits (ULONG_BITS : Nat) (p : jdec_private) (nbits_wanted : Nat) :
    jdec_private × Int :=
  let p := fill_nbits p nbits_wanted
  let result := to_short ((p.reservoir >>> (p.nbits_in_reservoir - nbits_wanted) : Nat) : Int)
  let nbits_in_reservoir := p.nbits_in_reservoir - nbits_wanted
  let p := { p with nbits_in_reservoir := nbits_in_reservoir,
                    reservoir := p.reservoir &&& ((1 <<< nbits_in_reservoir) % 2 ^ 32 - 1) }
  let result :=
    if (result % 2 ^ ULONG_BITS).toNat < (1 <<< (nbits_wanted - 1)) % 2 ^ ULONG_BITS then
      to_short ((((result % 2 ^ ULONG_BITS).toNat
        + ((0xFFFFFFFF <<< nbits_wanted) % 2 ^ ULONG_BITS + 1) % 2 ^ ULONG_BITS)
          % 2 ^ ULONG_BITS : Nat) : Int)
    else result
  (p, result)

/-- The state `resync` leaves the reservoir in (lines 568-569), for a memory and a position
of `stream` in it. -/
def resync (data : Nat → Nat) (stream : Nat) : jdec_private :=
  { data := data, stream := stream, reservoir := 0, nbits_in_reservoir := 0 }

/-- The members of `struct huffman_table` the code uses.  A row of `slowtable` is the list of
the `uint16_t` cells that have been written, from cell 0 on; the code does not check the
length of a row (line 347). -/
structure huffman_table where
  lookup : Nat → Int
  code_size : Nat → Nat
  slowtable : Nat → List Nat

/-- The `while` of lines 220-226 on a row from the cell `slowtable` points to: `some (some
v)` when a cell pair holds `hcode` (`v` is `slowtable[1]`), `some none` when the cell 0 that
ends the row is reached, `none` when the walk leaves the written cells. -/
def slowtable_find : List Nat → Nat → Option (Option Nat)
  | [], _ => none
  | [c], _ => if c = 0 then some none else none
  | c :: v :: rest, hcode =>
    if c = 0 then some none
    else if c = hcode then some (some v)
    else slowtable_find rest hcode

/-- The `for` of lines 215-227 from `extra_nbits` on, `count` passes being left, and the
`return 0` of line 228. -/
def get_next_huffman_code_slow (H : Nat) (table : huffman_table) :
    Nat → Nat → jdec_private → Option (Int × jdec_private)
  | 0, _, p => some (0, p)
  | count + 1, extra_nbits, p =>
    let nbits := H + 1 + extra_nbits
    let (p, hcode) := look_nbits p nbits
    match slowtable_find (table.slowtable extra_nbits) hcode with
    | none => none
    | some (some v) => some ((v : Int), skip_nbits p nbits)
    | some none => get_next_huffman_code_slow H table count (extra_nbits + 1) p

/-- `get_next_huffman_code` (lines 202-229): the value returned and the reservoir after the
call; `none` when a row of `slowtable` is read past its written cells. -/
def get_next_huffman_code (H : Nat) (priv : jdec_private) (table : huffman_table) :
    Option (Int × jdec_private) :=
  let (p, hcode) := look_nbits priv H
  let value := table.lookup hcode
  if value ≥ 0 then
    let code_size := table.code_size value.toNat
    some (value, skip_nbits p code_size)
  else get_next_huffman_code_slow H table (16 - H) 0 p

/-- Lines 295-300 of `build_huffman_table`: `huffsize` without the 0 that ends it; `bits[i]`
times the size `i`, for `i` from 1 to 16. -/
def huffsize (bits : Nat → Nat) : List Nat :=
  ((List.range 16).map (fun k => List.replicate (uchar_at bits (k + 1)) (k + 1))).flatten

/-- Lines 308-318 of `build_huffman_table`: the codes from `hz` on, `sizes` being the sizes
from `hz` on, with the current `code` and `nbits`.  A pass either stores a code (`*hz ==
nbits`) or shifts `code` and increments `nbits`; the passes left are counted by the first
argument. -/
def huffcode_loop : Nat → List Nat → Nat → Nat → Option (List Nat)
  | _, [], _, _ => some []
  | 0, _ :: _, _, _ => none
  | fuel + 1, s :: rest, code, nbits =>
    if s = nbits then
      (huffcode_loop fuel rest ((code + 1) % 2 ^ 32) nbits).map (fun l => code :: l)
    else huffcode_loop fuel (s :: rest) ((code <<< 1) % 2 ^ 32) ((nbits + 1) % 2 ^ 32)

/-- The array `huffcode` of `build_huffman_table`; `nbits` starts at `*hz`, the first size. -/
def huffcode (sizes : List Nat) : Option (List Nat) :=
  huffcode_loop (sizes.length + 17) sizes 0 (sizes.headD 0)

/-- The `while (repeat--) table->lookup[code++] = val` of lines 337-338. -/
def lookup_fill (lookup : Nat → Int) (val : Nat) : Nat → Nat → Nat → Int
  | 0, _ => lookup
  | repeat_left + 1, code =>
    lookup_fill (Function.update lookup code (val : Int)) val repeat_left (code + 1)

/-- Lines 341-346: the walk to the first cell pair whose first cell is 0, and the three
stores; `none` when the walk leaves the written cells. -/
def slowtable_insert : List Nat → Nat → Nat → Option (List Nat)
  | [], _, _ => none
  | [c], code, val => if c = 0 then some [code % 65536, val % 65536, 0] else none
  | c :: v :: rest, code, val =>
    if c = 0 then some (code % 65536 :: val % 65536 :: 0 :: rest.drop 1)
    else (slowtable_insert rest code val).map (fun r => c :: v :: r)

/-- The body of the `for` of lines 323-348 for the entries from `i` on. -/
def build_huffman_table_entries (H : Nat) (vals : Nat → Nat) :
    List Nat → List Nat → Nat → huffman_table → Option huffman_table
  | code_size :: sizes, code :: codes, i, table =>
    let val := uchar_at vals i
    let table := { table with code_size := Function.update table.code_size val code_size }
    if code_size ≤ H then
      let repeat_count := 1 <<< (H - code_size)
      let code := (code <<< (H - code_size)) % 2 ^ 32
      build_huffman_table_entries H vals sizes codes (i + 1)
        { table with lookup := lookup_fill table.lookup val repeat_count code }
    else
      match slowtable_insert (table.slowtable (code_size - H - 1)) code val with
      | none => none
      | some row =>
        build_huffman_table_entries H vals sizes codes (i + 1)
          { table with slowtable := Function.update table.slowtable (code_size - H - 1) row }
  | _, _, _, table => some table

/-- `build_huffman_table` (lines 286-350).  `memset` makes every entry of `lookup` -1; the
first cell of each row of `slowtable` is set to 0. -/
def build_huffman_table (H : Nat) (bits vals : Nat → Nat) (table : huffman_table) :
    Option huffman_table :=
  let table : huffman_table :=
    { table with lookup := fun _ => -1,
                 slowtable := fun i => if i < 16 - H then [0] else table.slowtable i }
  match huffcode (huffsize bits) with
  | none => none
  | some codes => build_huffman_table_entries H vals (huffsize bits) codes 0 table

/-! ## Vocabulary of the statements -/

/-- The entries of a table: size, code and value of each symbol from index `i` on, as the
`for` of lines 323-348 reads them. -/
def table_entries (vals : Nat → Nat) : List Nat → List Nat → Nat → List (Nat × Nat × Nat)
  | code_size :: sizes, code :: codes, i =>
    (code_size, code, uchar_at vals i) :: table_entries vals sizes codes (i + 1)
  | _, _, _ => []

/-- The code of the entry `e` is the beginning of the code of the entry `f`. -/
def code_begins (e f : Nat × Nat × Nat) : Prop := e.1 ≤ f.1 ∧ f.2.1 >>> (f.1 - e.1) = e.2.1

instance (e f : Nat × Nat × Nat) : Decidable (code_begins e f) := by
  unfold code_begins; infer_instance

/-- Two entries of a prefix code with distinct symbols: neither code is the beginning of the
other, and the values differ. -/
def entries_apart (e f : Nat × Nat × Nat) : Prop :=
  ¬ code_begins e f ∧ ¬ code_begins f e ∧ e.2.2 ≠ f.2.2

instance (e f : Nat × Nat × Nat) : Decidable (entries_apart e f) := by
  unfold entries_apart; infer_instance

/-- The entries describe a prefix code with distinct symbols and code lengths 1..16, each
code fitting its length. -/
def valid_prefix_code (entries : List (Nat × Nat × Nat)) : Prop :=
  (∀ e ∈ entries, 1 ≤ e.1 ∧ e.1 ≤ 16 ∧ e.2.1 < 2 ^ e.1) ∧ entries.Pairwise entries_apart

instance (entries : List (Nat × Nat × Nat)) : Decidable (valid_prefix_code entries) := by
  unfold valid_prefix_code; infer_instance

/-- The cells of a row of `slowtable` that holds the pairs (code, value) of a list, and the
0 that ends it. -/
def row_cells : List (Nat × Nat) → List Nat
  | [] => [0]
  | (c, v) :: rest => c :: v :: row_cells rest

/-- The pairs (code, value) of the entries whose code has `nbits` bits. -/
def entries_of_size (entries : List (Nat × Nat × Nat)) (nbits : Nat) : List (Nat × Nat) :=
  entries.filterMap (fun e => if e.1 = nbits then some (e.2.1, e.2.2) else none)

/-- What a table holds once the entries `P` have been stored by the `for` of lines 323-348:
`lookup[h]` is the value of the entry whose code begins the `H` bits `h`, and -1 when there
is none; `code_size` of a stored value is the size of its code; the row `r` of `slowtable`
holds the pairs of the entries of `H + 1 + r` bits, in the order they were stored. -/
def table_holds (H : Nat) (P : List (Nat × Nat × Nat)) (T : huffman_table) : Prop :=
  (∀ e ∈ P, e.1 ≤ H → ∀ h, h >>> (H - e.1) = e.2.1 → T.lookup h = (e.2.2 : Int)) ∧
  (∀ h, (∀ e ∈ P, e.1 ≤ H → h >>> (H - e.1) ≠ e.2.1) → T.lookup h = -1) ∧
  (∀ e ∈ P, T.code_size e.2.2 = e.1) ∧
  (∀ r, r < 16 - H → T.slowtable r = row_cells (entries_of_size P (H + 1 + r)))

/-- The entries `build_huffman_table` stores for `bits` and `vals`: the sizes of `huffsize`,
the codes of `huffcode` and the values read from `vals`. -/
def huffman_entries (bits vals : Nat → Nat) : List (Nat × Nat × Nat) :=
  match huffcode (huffsize bits) with
  | none => []
  | some codes => table_entries vals (huffsize bits) codes 0

/-- A table whose memory has not been written. -/
def unwritten : huffman_table :=
  { lookup := fun _ => 0, code_size := fun _ => 0, slowtable := fun _ => [] }

/-- The memory holding the bytes of a list, zero elsewhere. -/
def memoryOf (bytes : List Nat) : Nat → Nat := fun i => bytes.getD i 0

/-- `bits_dc_luminance` (lines 60-62). -/
def bits_dc_luminance : List Nat := [0, 0, 1, 5, 1, 1, 1, 1, 1, 1, 0, 0, 0, 0, 0, 0, 0]

/-- `val_dc_luminance` (lines 63-65). -/
def val_dc_luminance : List Nat := [0, 1, 2, 3, 4, 5, 6, 7, 8, 9, 10, 11]

/-- The `bits` of a table of one code, of 16 bits. -/
def bits_one_code_16 : List Nat := [0, 0, 0, 0, 0, 0, 0, 0, 0, 0, 0, 0, 0, 0, 0, 0, 1]

/-- What the statements observe of a call of `get_next_huffman_code` on a table built by
`build_huffman_table` from `bits` and `vals`, the reservoir being empty and `stream` at the
start of `bytes`: the value returned, `nbits_in_reservoir` and `reservoir` after the call, and
how far `stream` has moved. -/
def decode_first (H : Nat) (bits vals bytes : List Nat) : Option (Int × Nat × Nat × Nat) :=
  match build_huffman_table H (memoryOf bits) (memoryOf vals) unwritten with
  | none => none
  | some table =>
    (get_next_huffman_code H { data := memoryOf bytes } table).map
      (fun r => (r.1, r.2.nbits_in_reservoir, r.2.reservoir, r.2.stream))

/-- A reservoir that is empty, its stream at the start of the bytes `FE 00 FF FF`. -/
def stream_FE : jdec_private := { data := memoryOf [0xFE, 0x00, 0xFF, 0xFF] }

/-! ## The bits of a stream, as the comment of lines 126-150 describes them

The definitions below are not translated from code: they say what the bits of a stream are,
in the words of the comment, and the statements compare the macros with them. -/

/-- The position after the byte at `pos` of a stream with byte stuffing: the pair 0xFF, 0x00
is one byte, 0xFF. -/
def stuffed_next (data : Nat → Nat) (pos : Nat) : Nat :=
  if uchar_at data pos = 0xff ∧ uchar_at data (pos + 1) = 0x00 then pos + 2 else pos + 1

/-- The position after `k` bytes of a stream with byte stuffing. -/
def stuffed_after (data : Nat → Nat) (pos : Nat) : Nat → Nat
  | 0 => pos
  | k + 1 => stuffed_after data (stuffed_next data pos) k

/-- The byte number `k` of the stream from `pos` on, the stuffing removed. -/
def unstuffed_byte (data : Nat → Nat) (pos k : Nat) : Nat :=
  uchar_at data (stuffed_after data pos k)

/-- The bit number `i` of what is still to be read in a state: first the
`nbits_in_reservoir` valid bits of the reservoir from the highest one down, then the bytes
of the stream, the stuffing removed, each from its highest bit down. -/
def pending_bit (p : jdec_private) (i : Nat) : Bool :=
  if i < p.nbits_in_reservoir then p.reservoir.testBit (p.nbits_in_reservoir - 1 - i)
  else (unstuffed_byte p.data p.stream ((i - p.nbits_in_reservoir) / 8)).testBit
    (7 - (i - p.nbits_in_reservoir) % 8)

/-- The unsigned number the first `n` bits of a sequence of bits spell, the first bit being
the most significant one. -/
def bits_value (f : Nat → Bool) : Nat → Nat
  | 0 => 0
  | n + 1 => 2 * bits_value f n + (f n).toNat

/-- The value a code of `n` bits stands for in JPEG: `v` in the upper half of the `n`-bit
numbers, `v - (2 ^ n - 1)` in the lower half. -/
def sign_extended (n v : Nat) : Int :=
  if 2 ^ (n - 1) ≤ v then (v : Int) else (v : Int) - (2 ^ n - 1)

/-- A reservoir in which "only `nbits_in_reservoir` is valid" (line 140): no bit is set
above the valid ones, of which there are at most 31. -/
def reservoir_valid (p : jdec_private) : Prop :=
  p.reservoir < 2 ^ p.nbits_in_reservoir ∧ p.nbits_in_reservoir ≤ 31

instance (p : jdec_private) : Decidable (reservoir_valid p) := by
  unfold reservoir_valid; infer_instance

/-- A reservoir that is empty, its stream at the start of the bytes `FF 00 12 34 56`. -/
def stream_FF_00 : jdec_private := resync (memoryOf [0xFF, 0x00, 0x12, 0x34, 0x56]) 0

/-- A reservoir that holds the 3 bits `010`, its stream at the start of the bytes
`4C FF 00 80`. -/
def stream_4C : jdec_private :=
  { data := memoryOf [0x4C, 0xFF, 0x00, 0x80], reservoir := 2, nbits_in_reservoir := 3 }

end TinyJpeg

/-! # Theorems -/

namespace MediaInfoLib

open mode

namespace File_Aac

/-! ## Bytes and masks -/

theorem int8u_at_lt (B : Nat → Nat) (i : Nat) : int8u_at B i < 256 := by
  unfold int8u_at; omega

theorem and_mask_split (a b m1 m2 : Nat) (hb : b < 256) (hm : m2 < 256) :
    (a * 256 + b) &&& (m1 * 256 + m2) = (a &&& m1) * 256 + (b &&& m2) := by
  have h8 : (256 : Nat) = 2 ^ 8 := by norm_num
  have hbm : b &&& m2 < 2 ^ 8 := lt_of_le_of_lt Nat.and_le_left (h8 ▸ hb)
  apply Nat.eq_of_testBit_eq
  intro i
  rw [Nat.testBit_and, h8, Nat.mul_comm a, Nat.mul_comm m1, Nat.mul_comm (a &&& m1),
    Nat.testBit_mul_pow_two_add a (h8 ▸ hb), Nat.testBit_mul_pow_two_add m1 (h8 ▸ hm),
    Nat.testBit_mul_pow_two_add _ hbm]
  split <;> simp [Nat.testBit_and]

theorem and_0xFF (a : Nat) (ha : a < 256) : a &&& 0xFF = a := by
  have h := Nat.and_pow_two_sub_one_eq_mod a 8
  norm_num at h
  rw [h]; omega

theorem ADTS_sync_iff (B : Nat → Nat) (p : Nat) :
    ADTS_sync B p ↔ (int8u_at B p = 0xFF ∧ int8u_at B (p + 1) &&& 0xF6 = 0xF0) := by
  unfold ADTS_sync CC2
  have ha := int8u_at_lt B p
  have hb := int8u_at_lt B (p + 1)
  have e : (0xFFF6 : Nat) = 0xFF * 256 + 0xF6 := by norm_num
  rw [e, and_mask_split _ _ _ _ hb (by norm_num), and_0xFF _ ha]
  have h2 : int8u_at B (p + 1) &&& 0xF6 < 256 := lt_of_le_of_lt Nat.and_le_left hb
  constructor
  · intro h; omega
  · rintro ⟨h1, h⟩; omega

theorem LATM_sync_iff (B : Nat → Nat) (p : Nat) :
    LATM_sync B p ↔ (int8u_at B p = 0x56 ∧ int8u_at B (p + 1) &&& 0xE0 = 0xE0) := by
  unfold LATM_sync CC2
  have ha := int8u_at_lt B p
  have hb := int8u_at_lt B (p + 1)
  have e : (0xFFE0 : Nat) = 0xFF * 256 + 0xE0 := by norm_num
  rw [e, and_mask_split _ _ _ _ hb (by norm_num), and_0xFF _ ha]
  have h2 : int8u_at B (p + 1) &&& 0xE0 < 256 := lt_of_le_of_lt Nat.and_le_left hb
  constructor
  · intro h; omega
  · rintro ⟨h1, h⟩; omega

theorem CC2_congr (B1 B2 : Nat → Nat) (p : Nat) (h0 : B1 p = B2 p) (h1 : B1 (p + 1) = B2 (p + 1)) :
    CC2 B1 p = CC2 B2 p := by
  unfold CC2 int8u_at; rw [h0, h1]

/-! ## The skipping loop of Synchronize_ADTS -/

theorem ADTS_skip_cond_iff (B : Nat → Nat) (size p : Nat) :
    (p + 6 ≤ size ∧ (int8u_at B p ≠ 0xFF ∨ int8u_at B (p + 1) &&& 0xF6 ≠ 0xF0))
      ↔ (p + 6 ≤ size ∧ ¬ ADTS_sync B p) := by
  rw [ADTS_sync_iff]
  constructor
  · rintro ⟨h, h1⟩; exact ⟨h, by tauto⟩
  · rintro ⟨h, h1⟩; exact ⟨h, by tauto⟩

theorem Synchronize_ADTS_skip_spec (B : Nat → Nat) (size : Nat) :
    ∀ fuel o r, Synchronize_ADTS_skip B size fuel o = some r →
      o ≤ r ∧ ¬(r + 6 ≤ size ∧ ¬ ADTS_sync B r) ∧
      ∀ q, o ≤ q → q < r → q + 6 ≤ size ∧ ¬ ADTS_sync B q := by
  intro fuel
  induction fuel with
  | zero =>
    intro o r h
    simp only [Synchronize_ADTS_skip, ADTS_skip_cond_iff] at h
    split at h
    · cases h
    · cases h
      exact ⟨le_refl _, ‹_›, fun q h1 h2 => absurd h2 (by omega)⟩
  | succ n ih =>
    intro o r h
    simp only [Synchronize_ADTS_skip, ADTS_skip_cond_iff] at h
    split at h
    · rename_i hc
      obtain ⟨h1, h2, h3⟩ := ih _ _ h
      refine ⟨by omega, h2, fun q hq1 hq2 => ?_⟩
      by_cases hq : q = o
      · subst hq; exact hc
      · exact h3 q (by omega) hq2
    · cases h
      exact ⟨le_refl _, ‹_›, fun q h1 h2 => absurd h2 (by omega)⟩

theorem Synchronize_ADTS_skip_total (B : Nat → Nat) (size : Nat) :
    ∀ fuel o, size - o ≤ fuel → ∃ r, Synchronize_ADTS_skip B size fuel o = some r := by
  intro fuel
  induction fuel with
  | zero =>
    intro o h
    simp only [Synchronize_ADTS_skip]
    split
    · rename_i hc; omega
    · exact ⟨o, rfl⟩
  | succ n ih =>
    intro o h
    simp only [Synchronize_ADTS_skip]
    split
    · rename_i hc; exact ih (o + 1) (by omega)
    · exact ⟨o, rfl⟩

theorem Synchronize_ADTS_skip_stay (B : Nat → Nat) (size fuel o : Nat)
    (h : ¬(o + 6 ≤ size ∧ ¬ ADTS_sync B o)) :
    Synchronize_ADTS_skip B size fuel o = some o := by
  cases fuel <;> simp only [Synchronize_ADTS_skip, ADTS_skip_cond_iff, if_neg h]

/-! ## The forward check of Synchronize_ADTS -/

theorem Synchronize_ADTS_test_eq (s : File_Aac) (o : Nat) :
    Synchronize_ADTS_test s o =
      if s.IsSub = true ∧ o + aac_frame_length s.Buffer o = s.Buffer_Size then .Accept
      else ADTS_hop s (s.File_Offset + o) o
        (ADTS_hop s (s.File_Offset + o + aac_frame_length s.Buffer o)
          (o + aac_frame_length s.Buffer o)
          (ADTS_hop s (s.File_Offset + o + aac_frame_length s.Buffer o
              + aac_frame_length s.Buffer (o + aac_frame_length s.Buffer o))
            (o + aac_frame_length s.Buffer o
              + aac_frame_length s.Buffer (o + aac_frame_length s.Buffer o)) .Accept)) := rfl

theorem ADTS_hop_Accept (s : File_Aac) (f p : Nat) (next : Verdict) (rest : Prop)
    (hf : f = s.File_Offset + p)
    (h : ADTS_hop s f p next = .Accept) (hn : next = .Accept → rest) :
    ADTS_EndOfStream s (p + aac_frame_length s.Buffer p) ∨
      (aac_frame_length s.Buffer p > 7 ∧ ADTS_sync s.Buffer (p + aac_frame_length s.Buffer p)
        ∧ rest) := by
  unfold ADTS_hop at h
  unfold ADTS_EndOfStream ADTS_sync
  rw [hf, Nat.add_assoc] at h
  split_ifs at h with h1 h2 h3
  · exact Or.inr ⟨by omega, by tauto, hn h⟩
  · exact Or.inl (not_not.mp h1)

theorem ADTS_hop_Skip (s : File_Aac) (f p : Nat) (next : Verdict) (rest : Prop)
    (hf : f = s.File_Offset + p)
    (h : ADTS_hop s f p next = .Skip) (hn : next = .Skip → ¬ rest) :
    ¬ (ADTS_EndOfStream s (p + aac_frame_length s.Buffer p) ∨
      (aac_frame_length s.Buffer p > 7 ∧ ADTS_sync s.Buffer (p + aac_frame_length s.Buffer p)
        ∧ rest)) := by
  unfold ADTS_hop at h
  unfold ADTS_EndOfStream ADTS_sync
  rw [hf, Nat.add_assoc] at h
  split_ifs at h with h1 h2 h3
  · rintro (h4 | ⟨h4, h5, _⟩)
    · exact h1 h4
    · rcases h3 with h3 | h3
      · omega
      · exact h3 h5
  · rintro (h4 | ⟨_, _, h6⟩)
    · exact h1 h4
    · exact hn h h6

theorem Synchronize_ADTS_test_Accept (s : File_Aac) (o : Nat) (hsub : s.IsSub = false)
    (h : Synchronize_ADTS_test s o = .Accept) : ADTS_forward_check s o := by
  rw [Synchronize_ADTS_test_eq, if_neg (by simp [hsub])] at h
  unfold ADTS_forward_check
  refine ADTS_hop_Accept s _ _ _ _ rfl h fun h2 => ?_
  refine ADTS_hop_Accept s _ _ _ _ (by omega) h2 fun h3 => ?_
  have := ADTS_hop_Accept s _ _ _ True (by omega) h3 fun _ => trivial
  simpa using this

theorem Synchronize_ADTS_test_Skip (s : File_Aac) (o : Nat)
    (h : Synchronize_ADTS_test s o = .Skip) : ¬ ADTS_forward_check s o := by
  rw [Synchronize_ADTS_test_eq] at h
  split_ifs at h
  unfold ADTS_forward_check
  refine ADTS_hop_Skip s _ _ _ _ rfl h fun h2 => ?_
  refine ADTS_hop_Skip s _ _ _ _ (by omega) h2 fun h3 => ?_
  have := ADTS_hop_Skip s _ _ _ True (by omega) h3 fun h4 => by cases h4
  simpa using this

/-! ## The scan loop of Synchronize_ADTS -/

theorem Synchronize_ADTS_pass_spec (s : File_Aac) (o : Nat) (h6 : o + 6 ≤ s.Buffer_Size) :
    ∃ r, o ≤ r ∧ (∀ q, o ≤ q → q < r → q + 6 ≤ s.Buffer_Size ∧ ¬ ADTS_sync s.Buffer q) ∧
      ((r + 6 ≤ s.Buffer_Size ∧ ADTS_sync s.Buffer r
          ∧ Synchronize_ADTS_test s r = .NeedMoreData
          ∧ Synchronize_ADTS_pass s o = some (some .Returned, r)) ∨
       (r + 6 ≤ s.Buffer_Size ∧ ADTS_sync s.Buffer r
          ∧ Synchronize_ADTS_test s r = .Accept
          ∧ Synchronize_ADTS_pass s o = some (some .Broke, r)) ∨
       (r + 6 ≤ s.Buffer_Size ∧ ADTS_sync s.Buffer r
          ∧ Synchronize_ADTS_test s r = .Skip
          ∧ Synchronize_ADTS_pass s o = some (none, r + 1)) ∨
       (s.Buffer_Size < r + 6 ∧ o < r ∧ Synchronize_ADTS_pass s o = some (none, r))) := by
  obtain ⟨r, hr⟩ := Synchronize_ADTS_skip_total s.Buffer s.Buffer_Size (s.Buffer_Size - o) o
    (le_refl _)
  obtain ⟨h1, h2, h3⟩ := Synchronize_ADTS_skip_spec _ _ _ _ _ hr
  refine ⟨r, h1, h3, ?_⟩
  have hp : Synchronize_ADTS_pass s o =
      if r + 6 ≤ s.Buffer_Size then
        match Synchronize_ADTS_test s r with
        | .NeedMoreData => some (some .Returned, r)
        | .Skip => some (none, r + 1)
        | .Accept => some (some .Broke, r)
      else some (none, r) := by
    unfold Synchronize_ADTS_pass; rw [hr]
  rw [hp]
  by_cases hr6 : r + 6 ≤ s.Buffer_Size
  · have hs : ADTS_sync s.Buffer r := by
      by_contra hn; exact h2 ⟨hr6, hn⟩
    rw [if_pos hr6]
    cases ht : Synchronize_ADTS_test s r
    · exact Or.inl ⟨hr6, hs, rfl, rfl⟩
    · exact Or.inr (Or.inr (Or.inl ⟨hr6, hs, rfl, rfl⟩))
    · exact Or.inr (Or.inl ⟨hr6, hs, rfl, rfl⟩)
  · rw [if_neg hr6]
    exact Or.inr (Or.inr (Or.inr ⟨by omega, by omega, rfl⟩))

theorem Synchronize_ADTS_loop_spec (s : File_Aac) :
    ∀ fuel o e r, Synchronize_ADTS_loop s fuel o = some (e, r) →
      o ≤ r ∧
      (∀ q, o ≤ q → q < r → q + 6 ≤ s.Buffer_Size
        ∧ (¬ ADTS_sync s.Buffer q ∨ Synchronize_ADTS_test s q = .Skip)) ∧
      (e = .Returned → r + 6 ≤ s.Buffer_Size ∧ ADTS_sync s.Buffer r
        ∧ Synchronize_ADTS_test s r = .NeedMoreData) ∧
      (e = .Broke → r + 6 ≤ s.Buffer_Size ∧ ADTS_sync s.Buffer r
        ∧ Synchronize_ADTS_test s r = .Accept) ∧
      (e = .Ended → s.Buffer_Size < r + 6) := by
  intro fuel
  induction fuel with
  | zero =>
    intro o e r h
    simp only [Synchronize_ADTS_loop] at h
    split_ifs at h with h6
    cases h
    exact ⟨le_refl _, fun q h1 h2 => absurd h2 (by omega), by simp, by simp, fun _ => by omega⟩
  | succ n ih =>
    intro o e r h
    simp only [Synchronize_ADTS_loop] at h
    split_ifs at h with h6
    · obtain ⟨p, hp1, hp2, hp3⟩ := Synchronize_ADTS_pass_spec s o h6
      rcases hp3 with ⟨a, b, c, d⟩ | ⟨a, b, c, d⟩ | ⟨a, b, c, d⟩ | ⟨a, b, d⟩
      · rw [d] at h
        simp only [Option.some.injEq, Prod.mk.injEq] at h
        obtain ⟨rfl, rfl⟩ := h
        exact ⟨hp1, fun q h1 h2 => ⟨(hp2 q h1 h2).1, Or.inl (hp2 q h1 h2).2⟩,
          fun _ => ⟨a, b, c⟩, by simp, by simp⟩
      · rw [d] at h
        simp only [Option.some.injEq, Prod.mk.injEq] at h
        obtain ⟨rfl, rfl⟩ := h
        exact ⟨hp1, fun q h1 h2 => ⟨(hp2 q h1 h2).1, Or.inl (hp2 q h1 h2).2⟩,
          by simp, fun _ => ⟨a, b, c⟩, by simp⟩
      · rw [d] at h
        obtain ⟨i1, i2, i3⟩ := ih _ _ _ h
        refine ⟨by omega, fun q h1 h2 => ?_, i3⟩
        by_cases hq : q < p
        · exact ⟨(hp2 q h1 hq).1, Or.inl (hp2 q h1 hq).2⟩
        · by_cases hq2 : q = p
          · subst hq2; exact ⟨a, Or.inr c⟩
          · exact i2 q (by omega) h2
      · rw [d] at h
        obtain ⟨i1, i2, i3⟩ := ih _ _ _ h
        refine ⟨by omega, fun q h1 h2 => ?_, i3⟩
        by_cases hq : q < p
        · exact ⟨(hp2 q h1 hq).1, Or.inl (hp2 q h1 hq).2⟩
        · exact i2 q (by omega) h2
    · cases h
      exact ⟨le_refl _, fun q h1 h2 => absurd h2 (by omega), by simp, by simp, fun _ => by omega⟩

theorem Synchronize_ADTS_loop_total (s : File_Aac) :
    ∀ fuel o, s.Buffer_Size - o ≤ fuel → ∃ r, Synchronize_ADTS_loop s fuel o = some r := by
  intro fuel
  induction fuel with
  | zero =>
    intro o h
    simp only [Synchronize_ADTS_loop]
    split_ifs with h6
    · omega
    · exact ⟨_, rfl⟩
  | succ n ih =>
    intro o h
    simp only [Synchronize_ADTS_loop]
    split_ifs with h6
    · obtain ⟨p, hp1, hp2, hp3⟩ := Synchronize_ADTS_pass_spec s o h6
      rcases hp3 with ⟨a, b, c, d⟩ | ⟨a, b, c, d⟩ | ⟨a, b, c, d⟩ | ⟨a, b, d⟩
      · rw [d]; exact ⟨_, rfl⟩
      · rw [d]; exact ⟨_, rfl⟩
      · rw [d]; exact ih _ (by omega)
      · rw [d]; exact ih _ (by omega)
    · exact ⟨_, rfl⟩

theorem Synchronize_ADTS_loop_fuel (s : File_Aac) :
    ∀ fuel o r, Synchronize_ADTS_loop s fuel o = some r →
      Synchronize_ADTS_loop s (fuel + 1) o = some r := by
  intro fuel
  induction fuel with
  | zero =>
    intro o r h
    simp only [Synchronize_ADTS_loop] at h ⊢
    split_ifs at h ⊢ with h6
    exact h
  | succ n ih =>
    intro o r h
    rw [Synchronize_ADTS_loop] at h ⊢
    split_ifs at h ⊢ with h6
    · cases hp : Synchronize_ADTS_pass s o with
      | none => rw [hp] at h; cases h
      | some v =>
        obtain ⟨e, o1⟩ := v
        rw [hp] at h
        cases e with
        | some e => exact h
        | none => exact ih _ _ h
    · exact h

theorem Synchronize_ADTS_loop_fuel_le (s : File_Aac) (fuel1 fuel2 o : Nat)
    (h1 : s.Buffer_Size - o ≤ fuel1) (h2 : s.Buffer_Size - o ≤ fuel2) :
    Synchronize_ADTS_loop s fuel1 o = Synchronize_ADTS_loop s fuel2 o := by
  have key : ∀ d fuel r, Synchronize_ADTS_loop s fuel o = some r →
      Synchronize_ADTS_loop s (fuel + d) o = some r := by
    intro d
    induction d with
    | zero => intro fuel r h; exact h
    | succ d ih =>
      intro fuel r h
      exact Synchronize_ADTS_loop_fuel s _ _ _ (ih fuel r h)
  obtain ⟨r, hr⟩ := Synchronize_ADTS_loop_total s (s.Buffer_Size - o) o (le_refl _)
  have e1 := key (fuel1 - (s.Buffer_Size - o)) _ _ hr
  have e2 := key (fuel2 - (s.Buffer_Size - o)) _ _ hr
  rw [show s.Buffer_Size - o + (fuel1 - (s.Buffer_Size - o)) = fuel1 by omega] at e1
  rw [show s.Buffer_Size - o + (fuel2 - (s.Buffer_Size - o)) = fuel2 by omega] at e2
  rw [e1, e2]

/-! ## Synchronize_ADTS as a whole -/

theorem Synchronize_ADTS_cases (tags : TagsAnswer) (s : File_Aac) :
    (tags.ok = false ∧ Synchronize_ADTS tags s = some ⟨.TagsNotReady, s⟩) ∨
    (tags.ok = true ∧ tags.Tag_Found = true ∧ Synchronize_ADTS tags s = some ⟨.TagFound, s⟩) ∨
    (tags.ok = true ∧ tags.Tag_Found = false ∧ ∃ e o,
      Synchronize_ADTS_loop s (s.Buffer_Size - s.Buffer_Offset) s.Buffer_Offset = some (e, o) ∧
      ((e = .Returned ∧ Synchronize_ADTS tags s
          = some ⟨.NeedMoreData, { s with Buffer_Offset := o }⟩) ∨
       (e = .Broke ∧ Synchronize_ADTS tags s
          = some ⟨.SynchedOK, { s with Buffer_Offset := o, Mode := Mode_ADTS,
                                       IsAccepted := true }⟩) ∨
       (e = .Ended ∧ Synchronize_ADTS tags s
          = some ⟨.NotSynchronized,
              { s with Buffer_Offset := Synchronize_ADTS_last s.Buffer s.Buffer_Size o }⟩))) := by
  by_cases hok : tags.ok = false
  · exact Or.inl ⟨hok, by simp [Synchronize_ADTS, hok]⟩
  · have hok1 : tags.ok = true := by simpa using hok
    by_cases htf : tags.Tag_Found = true
    · exact Or.inr (Or.inl ⟨hok1, htf, by simp [Synchronize_ADTS, hok1, htf]⟩)
    · have htf1 : tags.Tag_Found = false := by simpa using htf
      refine Or.inr (Or.inr ⟨hok1, htf1, ?_⟩)
      obtain ⟨⟨e, o⟩, hl⟩ := Synchronize_ADTS_loop_total s (s.Buffer_Size - s.Buffer_Offset)
        s.Buffer_Offset (le_refl _)
      obtain ⟨_, _, hR, hB, hE⟩ := Synchronize_ADTS_loop_spec s _ _ _ _ hl
      refine ⟨e, o, hl, ?_⟩
      cases e
      · exact Or.inl ⟨rfl, by simp [Synchronize_ADTS, hok1, htf1, hl]⟩
      · have := (hB rfl).1
        exact Or.inr (Or.inl ⟨rfl, by
          simp only [Synchronize_ADTS, hok1, htf1, hl]
          simp [Nat.not_lt.mpr this]⟩)
      · have := hE rfl
        exact Or.inr (Or.inr ⟨rfl, by
          simp only [Synchronize_ADTS, hok1, htf1, hl]
          simp [this]⟩)

theorem Synchronize_ADTS_true (tags : TagsAnswer) (s : File_Aac) (r : SyncResult)
    (htag : tags.Tag_Found = false)
    (h : Synchronize_ADTS tags s = some r) (hv : r.outcome.value = true) :
    ∃ o, Synchronize_ADTS_loop s (s.Buffer_Size - s.Buffer_Offset) s.Buffer_Offset
        = some (.Broke, o)
      ∧ r = ⟨.SynchedOK, { s with Buffer_Offset := o, Mode := Mode_ADTS, IsAccepted := true }⟩ := by
  rcases Synchronize_ADTS_cases tags s with ⟨_, h1⟩ | ⟨_, h1, _⟩ | ⟨_, _, e, o, hl, h1⟩
  · rw [h1] at h; cases h; cases hv
  · rw [h1] at htag; cases htag
  · rcases h1 with ⟨he, h1⟩ | ⟨he, h1⟩ | ⟨he, h1⟩
    · rw [h1] at h; cases h; cases hv
    · subst he; rw [h1] at h; cases h; exact ⟨o, hl, rfl⟩
    · rw [h1] at h; cases h; cases hv

theorem Synchronize_ADTS_NeedMoreData (tags : TagsAnswer) (s : File_Aac) (r : SyncResult)
    (h : Synchronize_ADTS tags s = some r) (ho : r.outcome = .NeedMoreData) :
    ∃ o, r.state = { s with Buffer_Offset := o } ∧ s.Buffer_Offset ≤ o ∧
      o + 6 ≤ s.Buffer_Size ∧ ADTS_sync s.Buffer o ∧
      Synchronize_ADTS_test s o = .NeedMoreData := by
  rcases Synchronize_ADTS_cases tags s with ⟨_, h1⟩ | ⟨_, _, h1⟩ | ⟨_, _, e, o, hl, h1⟩
  · rw [h1] at h; cases h; cases ho
  · rw [h1] at h; cases h; cases ho
  · obtain ⟨hle, _, hR, _, _⟩ := Synchronize_ADTS_loop_spec s _ _ _ _ hl
    rcases h1 with ⟨he, h1⟩ | ⟨he, h1⟩ | ⟨he, h1⟩
    · rw [h1] at h; cases h
      obtain ⟨h6, hs, ht⟩ := hR he
      exact ⟨o, rfl, hle, h6, hs, ht⟩
    · rw [h1] at h; cases h; cases ho
    · rw [h1] at h; cases h; cases ho

theorem Synchronize_ADTS_Mode (tags : TagsAnswer) (s : File_Aac) (r : SyncResult)
    (h : Synchronize_ADTS tags s = some r) :
    (r.outcome = .SynchedOK ∧ r.state.Mode = Mode_ADTS) ∨
    (r.outcome ≠ .SynchedOK ∧ r.state.Mode = s.Mode ∧
      (r.outcome.value = true → tags.Tag_Found = true)) := by
  rcases Synchronize_ADTS_cases tags s with ⟨_, h1⟩ | ⟨_, ht, h1⟩ | ⟨_, _, e, o, hl, h1⟩
  · rw [h1] at h; cases h; exact Or.inr ⟨by simp, rfl, by simp [Outcome.value]⟩
  · rw [h1] at h; cases h; exact Or.inr ⟨by simp, rfl, fun _ => ht⟩
  · rcases h1 with ⟨_, h1⟩ | ⟨_, h1⟩ | ⟨_, h1⟩
    · rw [h1] at h; cases h; exact Or.inr ⟨by simp, rfl, by simp [Outcome.value]⟩
    · rw [h1] at h; cases h; exact Or.inl ⟨rfl, rfl⟩
    · rw [h1] at h; cases h; exact Or.inr ⟨by simp, rfl, by simp [Outcome.value]⟩

theorem Synchronize_ADTS_last_ge (B : Nat → Nat) (size o : Nat) :
    o ≤ Synchronize_ADTS_last B size o := by
  unfold Synchronize_ADTS_last
  simp only []
  split_ifs <;> omega

/-! ## The skipping loops of Synchronize_LATM -/

theorem LATM_skip_cond_iff (B : Nat → Nat) (size margin p : Nat) :
    (p + margin ≤ size ∧ (int8u_at B p ≠ 0x56 ∨ int8u_at B (p + 1) &&& 0xE0 ≠ 0xE0))
      ↔ (p + margin ≤ size ∧ ¬ LATM_sync B p) := by
  rw [LATM_sync_iff]
  constructor
  · rintro ⟨h, h1⟩; exact ⟨h, by tauto⟩
  · rintro ⟨h, h1⟩; exact ⟨h, by tauto⟩

theorem Synchronize_LATM_skip_spec (B : Nat → Nat) (size margin : Nat) :
    ∀ fuel o r, Synchronize_LATM_skip B size margin fuel o = some r →
      o ≤ r ∧ ¬(r + margin ≤ size ∧ ¬ LATM_sync B r) ∧
      ∀ q, o ≤ q → q < r → q + margin ≤ size ∧ ¬ LATM_sync B q := by
  intro fuel
  induction fuel with
  | zero =>
    intro o r h
    simp only [Synchronize_LATM_skip, LATM_skip_cond_iff] at h
    split at h
    · cases h
    · cases h
      exact ⟨le_refl _, ‹_›, fun q h1 h2 => absurd h2 (by omega)⟩
  | succ n ih =>
    intro o r h
    simp only [Synchronize_LATM_skip, LATM_skip_cond_iff] at h
    split at h
    · rename_i hc
      obtain ⟨h1, h2, h3⟩ := ih _ _ h
      refine ⟨by omega, h2, fun q hq1 hq2 => ?_⟩
      by_cases hq : q = o
      · subst hq; exact hc
      · exact h3 q (by omega) hq2
    · cases h
      exact ⟨le_refl _, ‹_›, fun q h1 h2 => absurd h2 (by omega)⟩

theorem Synchronize_LATM_skip_total (B : Nat → Nat) (size margin : Nat) (hm : 1 ≤ margin) :
    ∀ fuel o, size - o ≤ fuel → ∃ r, Synchronize_LATM_skip B size margin fuel o = some r := by
  intro fuel
  induction fuel with
  | zero =>
    intro o h
    simp only [Synchronize_LATM_skip]
    split
    · rename_i hc; omega
    · exact ⟨o, rfl⟩
  | succ n ih =>
    intro o h
    simp only [Synchronize_LATM_skip]
    split
    · rename_i hc; exact ih (o + 1) (by omega)
    · exact ⟨o, rfl⟩

theorem Synchronize_LATM_skip_stay (B : Nat → Nat) (size margin fuel o : Nat)
    (h : ¬(o + margin ≤ size ∧ ¬ LATM_sync B o)) :
    Synchronize_LATM_skip B size margin fuel o = some o := by
  cases fuel <;> simp only [Synchronize_LATM_skip, LATM_skip_cond_iff, if_neg h]

/-! ## The forward check of Synchronize_LATM -/

theorem Synchronize_LATM_test_eq (s : File_Aac) (o : Nat) :
    Synchronize_LATM_test s o =
      if s.IsSub = true ∧ o + 3 + audioMuxLengthBytes s.Buffer o = s.Buffer_Size then .Accept
      else LATM_hop s (s.File_Offset + o) o
        (LATM_hop s (s.File_Offset + o + 3 + audioMuxLengthBytes s.Buffer o)
          (o + 3 + audioMuxLengthBytes s.Buffer o) .Accept) := rfl

theorem LATM_hop_Accept (s : File_Aac) (f p : Nat) (next : Verdict) (rest : Prop)
    (hf : f = s.File_Offset + p)
    (h : LATM_hop s f p next = .Accept) (hn : next = .Accept → rest) :
    LATM_EndOfStream s (p + 3 + audioMuxLengthBytes s.Buffer p) ∨
      (LATM_sync s.Buffer (p + 3 + audioMuxLengthBytes s.Buffer p) ∧ rest) := by
  unfold LATM_hop at h
  unfold LATM_EndOfStream LATM_sync
  rw [hf, Nat.add_assoc, Nat.add_assoc, ← Nat.add_assoc p] at h
  split_ifs at h with h1 h2 h3
  · exact Or.inr ⟨by tauto, hn h⟩
  · exact Or.inl (not_not.mp h1)

theorem LATM_hop_Skip (s : File_Aac) (f p : Nat) (next : Verdict) (rest : Prop)
    (hf : f = s.File_Offset + p)
    (h : LATM_hop s f p next = .Skip) (hn : next = .Skip → ¬ rest) :
    ¬ (LATM_EndOfStream s (p + 3 + audioMuxLengthBytes s.Buffer p) ∨
      (LATM_sync s.Buffer (p + 3 + audioMuxLengthBytes s.Buffer p) ∧ rest)) := by
  unfold LATM_hop at h
  unfold LATM_EndOfStream LATM_sync
  rw [hf, Nat.add_assoc, Nat.add_assoc, ← Nat.add_assoc p] at h
  split_ifs at h with h1 h2 h3
  · rintro (h4 | ⟨h5, _⟩)
    · exact h1 h4
    · exact h3 h5
  · rintro (h4 | ⟨_, h6⟩)
    · exact h1 h4
    · exact hn h h6

theorem Synchronize_LATM_test_Accept (s : File_Aac) (o : Nat) (hsub : s.IsSub = false)
    (h : Synchronize_LATM_test s o = .Accept) : LATM_forward_check s o := by
  rw [Synchronize_LATM_test_eq, if_neg (by simp [hsub])] at h
  unfold LATM_forward_check
  refine LATM_hop_Accept s _ _ _ _ rfl h fun h2 => ?_
  have := LATM_hop_Accept s _ _ _ True (by omega) h2 fun _ => trivial
  simpa using this

theorem Synchronize_LATM_test_Skip (s : File_Aac) (o : Nat)
    (h : Synchronize_LATM_test s o = .Skip) : ¬ LATM_forward_check s o := by
  rw [Synchronize_LATM_test_eq] at h
  split_ifs at h
  unfold LATM_forward_check
  refine LATM_hop_Skip s _ _ _ _ rfl h fun h2 => ?_
  have := LATM_hop_Skip s _ _ _ True (by omega) h2 fun h4 => by cases h4
  simpa using this

/-! ## The scan loop of Synchronize_LATM -/

theorem Synchronize_LATM_pass_spec (s : File_Aac) (o : Nat) (h6 : o + 3 ≤ s.Buffer_Size) :
    ∃ r, o ≤ r ∧ (∀ q, o ≤ q → q < r → q + 3 ≤ s.Buffer_Size ∧ ¬ LATM_sync s.Buffer q) ∧
      ((r + 3 ≤ s.Buffer_Size ∧ LATM_sync s.Buffer r
          ∧ Synchronize_LATM_test s r = .NeedMoreData
          ∧ Synchronize_LATM_pass s o = some (some .Returned, r)) ∨
       (r + 3 ≤ s.Buffer_Size ∧ LATM_sync s.Buffer r
          ∧ Synchronize_LATM_test s r = .Accept
          ∧ Synchronize_LATM_pass s o = some (some .Broke, r)) ∨
       (r + 3 ≤ s.Buffer_Size ∧ LATM_sync s.Buffer r
          ∧ Synchronize_LATM_test s r = .Skip
          ∧ Synchronize_LATM_pass s o = some (none, r + 1)) ∨
       (s.Buffer_Size < r + 3 ∧ o < r ∧ Synchronize_LATM_pass s o = some (none, r))) := by
  obtain ⟨r, hr⟩ := Synchronize_LATM_skip_total s.Buffer s.Buffer_Size 3 (by omega)
    (s.Buffer_Size - o) o (le_refl _)
  obtain ⟨h1, h2, h3⟩ := Synchronize_LATM_skip_spec _ _ _ _ _ _ hr
  refine ⟨r, h1, h3, ?_⟩
  have hp : Synchronize_LATM_pass s o =
      if r + 3 ≤ s.Buffer_Size then
        match Synchronize_LATM_test s r with
        | .NeedMoreData => some (some .Returned, r)
        | .Skip => some (none, r + 1)
        | .Accept => some (some .Broke, r)
      else some (none, r) := by
    unfold Synchronize_LATM_pass; rw [hr]
  rw [hp]
  by_cases hr6 : r + 3 ≤ s.Buffer_Size
  · have hs : LATM_sync s.Buffer r := by
      by_contra hn; exact h2 ⟨hr6, hn⟩
    rw [if_pos hr6]
    cases ht : Synchronize_LATM_test s r
    · exact Or.inl ⟨hr6, hs, rfl, rfl⟩
    · exact Or.inr (Or.inr (Or.inl ⟨hr6, hs, rfl, rfl⟩))
    · exact Or.inr (Or.inl ⟨hr6, hs, rfl, rfl⟩)
  · rw [if_neg hr6]
    exact Or.inr (Or.inr (Or.inr ⟨by omega, by omega, rfl⟩))

theorem Synchronize_LATM_loop_spec (s : File_Aac) :
    ∀ fuel o e r, Synchronize_LATM_loop s fuel o = some (e, r) →
      o ≤ r ∧
      (∀ q, o ≤ q → q < r → q + 3 ≤ s.Buffer_Size
        ∧ (¬ LATM_sync s.Buffer q ∨ Synchronize_LATM_test s q = .Skip)) ∧
      (e = .Returned → r + 3 ≤ s.Buffer_Size ∧ LATM_sync s.Buffer r
        ∧ Synchronize_LATM_test s r = .NeedMoreData) ∧
      (e = .Broke → r + 3 ≤ s.Buffer_Size ∧ LATM_sync s.Buffer r
        ∧ Synchronize_LATM_test s r = .Accept) ∧
      (e = .Ended → s.Buffer_Size < r + 3) := by
  intro fuel
  induction fuel with
  | zero =>
    intro o e r h
    simp only [Synchronize_LATM_loop] at h
    split_ifs at h with h6
    cases h
    exact ⟨le_refl _, fun q h1 h2 => absurd h2 (by omega), by simp, by simp, fun _ => by omega⟩
  | succ n ih =>
    intro o e r h
    simp only [Synchronize_LATM_loop] at h
    split_ifs at h with h6
    · obtain ⟨p, hp1, hp2, hp3⟩ := Synchronize_LATM_pass_spec s o h6
      rcases hp3 with ⟨a, b, c, d⟩ | ⟨a, b, c, d⟩ | ⟨a, b, c, d⟩ | ⟨a, b, d⟩
      · rw [d] at h
        simp only [Option.some.injEq, Prod.mk.injEq] at h
        obtain ⟨rfl, rfl⟩ := h
        exact ⟨hp1, fun q h1 h2 => ⟨(hp2 q h1 h2).1, Or.inl (hp2 q h1 h2).2⟩,
          fun _ => ⟨a, b, c⟩, by simp, by simp⟩
      · rw [d] at h
        simp only [Option.some.injEq, Prod.mk.injEq] at h
        obtain ⟨rfl, rfl⟩ := h
        exact ⟨hp1, fun q h1 h2 => ⟨(hp2 q h1 h2).1, Or.inl (hp2 q h1 h2).2⟩,
          by simp, fun _ => ⟨a, b, c⟩, by simp⟩
      · rw [d] at h
        obtain ⟨i1, i2, i3⟩ := ih _ _ _ h
        refine ⟨by omega, fun q h1 h2 => ?_, i3⟩
        by_cases hq : q < p
        · exact ⟨(hp2 q h1 hq).1, Or.inl (hp2 q h1 hq).2⟩
        · by_cases hq2 : q = p
          · subst hq2; exact ⟨a, Or.inr c⟩
          · exact i2 q (by omega) h2
      · rw [d] at h
        obtain ⟨i1, i2, i3⟩ := ih _ _ _ h
        refine ⟨by omega, fun q h1 h2 => ?_, i3⟩
        by_cases hq : q < p
        · exact ⟨(hp2 q h1 hq).1, Or.inl (hp2 q h1 hq).2⟩
        · exact i2 q (by omega) h2
    · cases h
      exact ⟨le_refl _, fun q h1 h2 => absurd h2 (by omega), by simp, by simp, fun _ => by omega⟩

theorem Synchronize_LATM_loop_total (s : File_Aac) :
    ∀ fuel o, s.Buffer_Size - o ≤ fuel → ∃ r, Synchronize_LATM_loop s fuel o = some r := by
  intro fuel
  induction fuel with
  | zero =>
    intro o h
    simp only [Synchronize_LATM_loop]
    split_ifs with h6
    · omega
    · exact ⟨_, rfl⟩
  | succ n ih =>
    intro o h
    simp only [Synchronize_LATM_loop]
    split_ifs with h6
    · obtain ⟨p, hp1, hp2, hp3⟩ := Synchronize_LATM_pass_spec s o h6
      rcases hp3 with ⟨a, b, c, d⟩ | ⟨a, b, c, d⟩ | ⟨a, b, c, d⟩ | ⟨a, b, d⟩
      · rw [d]; exact ⟨_, rfl⟩
      · rw [d]; exact ⟨_, rfl⟩
      · rw [d]; exact ih _ (by omega)
      · rw [d]; exact ih _ (by omega)
    · exact ⟨_, rfl⟩

theorem Synchronize_LATM_loop_fuel (s : File_Aac) :
    ∀ fuel o r, Synchronize_LATM_loop s fuel o = some r →
      Synchronize_LATM_loop s (fuel + 1) o = some r := by
  intro fuel
  induction fuel with
  | zero =>
    intro o r h
    simp only [Synchronize_LATM_loop] at h ⊢
    split_ifs at h ⊢ with h6
    exact h
  | succ n ih =>
    intro o r h
    rw [Synchronize_LATM_loop] at h ⊢
    split_ifs at h ⊢ with h6
    · cases hp : Synchronize_LATM_pass s o with
      | none => rw [hp] at h; cases h
      | some v =>
        obtain ⟨e, o1⟩ := v
        rw [hp] at h
        cases e with
        | some e => exact h
        | none => exact ih _ _ h
    · exact h

theorem Synchronize_LATM_loop_fuel_le (s : File_Aac) (fuel1 fuel2 o : Nat)
    (h1 : s.Buffer_Size - o ≤ fuel1) (h2 : s.Buffer_Size - o ≤ fuel2) :
    Synchronize_LATM_loop s fuel1 o = Synchronize_LATM_loop s fuel2 o := by
  have key : ∀ d fuel r, Synchronize_LATM_loop s fuel o = some r →
      Synchronize_LATM_loop s (fuel + d) o = some r := by
    intro d
    induction d with
    | zero => intro fuel r h; exact h
    | succ d ih =>
      intro fuel r h
      exact Synchronize_LATM_loop_fuel s _ _ _ (ih fuel r h)
  obtain ⟨r, hr⟩ := Synchronize_LATM_loop_total s (s.Buffer_Size - o) o (le_refl _)
  have e1 := key (fuel1 - (s.Buffer_Size - o)) _ _ hr
  have e2 := key (fuel2 - (s.Buffer_Size - o)) _ _ hr
  rw [show s.Buffer_Size - o + (fuel1 - (s.Buffer_Size - o)) = fuel1 by omega] at e1
  rw [show s.Buffer_Size - o + (fuel2 - (s.Buffer_Size - o)) = fuel2 by omega] at e2
  rw [e1, e2]

/-! ## Synchronize_LATM as a whole -/

theorem Synchronize_LATM_cases (s : File_Aac) :
    ∃ e o,
      Synchronize_LATM_loop s (s.Buffer_Size - s.Buffer_Offset) s.Buffer_Offset = some (e, o) ∧
      ((e = .Returned ∧ Synchronize_LATM s
          = some ⟨.NeedMoreData, { s with Buffer_Offset := o }⟩) ∨
       (e = .Broke ∧ Synchronize_LATM s
          = some ⟨.SynchedOK, { s with Buffer_Offset := o, Mode := Mode_LATM,
                                       IsAccepted := true }⟩) ∨
       (e = .Ended ∧ ∃ o2, o ≤ o2 ∧ s.Buffer_Size ≤ o2 + 2 ∧ Synchronize_LATM s
          = some ⟨.NotSynchronized, { s with Buffer_Offset := o2 }⟩)) := by
  obtain ⟨⟨e, o⟩, hl⟩ := Synchronize_LATM_loop_total s (s.Buffer_Size - s.Buffer_Offset)
    s.Buffer_Offset (le_refl _)
  obtain ⟨_, _, hR, hB, hE⟩ := Synchronize_LATM_loop_spec s _ _ _ _ hl
  refine ⟨e, o, hl, ?_⟩
  cases e
  · exact Or.inl ⟨rfl, by simp [Synchronize_LATM, hl]⟩
  · obtain ⟨h3, hs, _⟩ := hB rfl
    have hk := Synchronize_LATM_skip_stay s.Buffer s.Buffer_Size 2 (s.Buffer_Size - o) o
      (by tauto)
    exact Or.inr (Or.inl ⟨rfl, by
      simp only [Synchronize_LATM, hl, hk]
      rw [if_neg (by omega)]⟩)
  · have h3 := hE rfl
    obtain ⟨o2, hk⟩ := Synchronize_LATM_skip_total s.Buffer s.Buffer_Size 2 (by omega)
      (s.Buffer_Size - o) o (le_refl _)
    obtain ⟨k1, _, _⟩ := Synchronize_LATM_skip_spec _ _ _ _ _ _ hk
    exact Or.inr (Or.inr ⟨rfl, o2, k1, by omega, by
      simp only [Synchronize_LATM, hl, hk]
      rw [if_pos (by omega)]⟩)

theorem Synchronize_LATM_true (s : File_Aac) (r : SyncResult)
    (h : Synchronize_LATM s = some r) (hv : r.outcome.value = true) :
    ∃ o, Synchronize_LATM_loop s (s.Buffer_Size - s.Buffer_Offset) s.Buffer_Offset
        = some (.Broke, o)
      ∧ r = ⟨.SynchedOK, { s with Buffer_Offset := o, Mode := Mode_LATM, IsAccepted := true }⟩ := by
  obtain ⟨e, o, hl, h1⟩ := Synchronize_LATM_cases s
  rcases h1 with ⟨he, h1⟩ | ⟨he, h1⟩ | ⟨he, o2, _, _, h1⟩
  · rw [h1] at h; cases h; cases hv
  · subst he; rw [h1] at h; cases h; exact ⟨o, hl, rfl⟩
  · rw [h1] at h; cases h; cases hv

theorem Synchronize_LATM_false (s : File_Aac) (r : SyncResult)
    (h : Synchronize_LATM s = some r) (hv : r.outcome.value = false) :
    ∃ o, r.state = { s with Buffer_Offset := o } := by
  obtain ⟨e, o, hl, h1⟩ := Synchronize_LATM_cases s
  rcases h1 with ⟨he, h1⟩ | ⟨he, h1⟩ | ⟨he, o2, _, _, h1⟩
  · rw [h1] at h; cases h; exact ⟨o, rfl⟩
  · rw [h1] at h; cases h; cases hv
  · rw [h1] at h; cases h; exact ⟨o2, rfl⟩

theorem Synchronize_LATM_NeedMoreData (s : File_Aac) (r : SyncResult)
    (h : Synchronize_LATM s = some r) (ho : r.outcome = .NeedMoreData) :
    ∃ o, r.state = { s with Buffer_Offset := o } ∧ s.Buffer_Offset ≤ o ∧
      o + 3 ≤ s.Buffer_Size ∧ LATM_sync s.Buffer o ∧
      Synchronize_LATM_test s o = .NeedMoreData := by
  obtain ⟨e, o, hl, h1⟩ := Synchronize_LATM_cases s
  obtain ⟨hle, _, hR, _, _⟩ := Synchronize_LATM_loop_spec s _ _ _ _ hl
  rcases h1 with ⟨he, h1⟩ | ⟨he, h1⟩ | ⟨he, o2, _, _, h1⟩
  · rw [h1] at h; cases h
    obtain ⟨h6, hs, ht⟩ := hR he
    exact ⟨o, rfl, hle, h6, hs, ht⟩
  · rw [h1] at h; cases h; cases ho
  · rw [h1] at h; cases h; cases ho

theorem Synchronize_LATM_Mode (s : File_Aac) (r : SyncResult)
    (h : Synchronize_LATM s = some r) :
    (r.outcome.value = true ∧ r.state.Mode = Mode_LATM) ∨
    (r.outcome.value = false ∧ r.state.Mode = s.Mode) := by
  obtain ⟨e, o, hl, h1⟩ := Synchronize_LATM_cases s
  rcases h1 with ⟨_, h1⟩ | ⟨_, h1⟩ | ⟨_, o2, _, _, h1⟩
  · rw [h1] at h; cases h; exact Or.inr ⟨rfl, rfl⟩
  · rw [h1] at h; cases h; exact Or.inl ⟨rfl, rfl⟩
  · rw [h1] at h; cases h; exact Or.inr ⟨rfl, rfl⟩

/-! ## A whole stream of valid ADTS frames -/

theorem FramesAt_le (B : Nat → Nat) (size : Nat) :
    ∀ ls o, FramesAt B size o ls → o ≤ size := by
  intro ls
  induction ls with
  | nil => intro o h; simp only [FramesAt] at h; omega
  | cons l ls ih =>
    intro o h
    simp only [FramesAt] at h
    have := ih _ h.2.2.2
    omega

theorem FramesAt_of_frames (B : Nat → Nat) :
    ∀ (frames : List (List Nat)) (o : Nat), (∀ f ∈ frames, ADTS_frame f) →
      (∀ i, i < frames.flatten.length → B (o + i) = frames.flatten.getD i 0) →
      FramesAt B (o + frames.flatten.length) o (frames.map List.length) := by
  intro frames
  induction frames with
  | nil => intro o _ _; simp [FramesAt]
  | cons f fs ih =>
    intro o hv hb
    obtain ⟨h8, hbyte, h0, h1, hlen⟩ := hv f (List.mem_cons_self _ _)
    have hrd : ∀ k, k < f.length → int8u_at B (o + k) = f.getD k 0 := by
      intro k hk
      have e1 := hb k (by simp only [List.flatten_cons, List.length_append]; omega)
      rw [List.flatten_cons, List.getD_append _ _ _ _ hk] at e1
      have e2 : f.getD k 0 < 256 := by
        rw [List.getD_eq_getElem _ _ hk]
        exact hbyte _ (List.getElem_mem _)
      unfold int8u_at
      rw [e1]; omega
    have hmem : ∀ k, int8u_at (memoryOf f) k = f.getD k 0 % 256 := fun k => rfl
    have hmem2 : ∀ k, k < f.length → int8u_at (memoryOf f) k = f.getD k 0 := by
      intro k hk
      have e2 : f.getD k 0 < 256 := by
        rw [List.getD_eq_getElem _ _ hk]
        exact hbyte _ (List.getElem_mem _)
      rw [hmem]; omega
    simp only [List.map_cons, FramesAt]
    refine ⟨h8, ?_, ?_, ?_⟩
    · rw [ADTS_sync_iff]
      have a0 := hrd 0 (by omega)
      have a1 := hrd 1 (by omega)
      rw [Nat.add_zero] at a0
      rw [a0, a1]
      exact ⟨h0, h1⟩
    · rw [← hlen]
      unfold aac_frame_length CC3
      have a3 := hrd 3 (by omega)
      have a4 := hrd 4 (by omega)
      have a5 := hrd 5 (by omega)
      have b3 := hmem2 3 (by omega)
      have b4 := hmem2 4 (by omega)
      have b5 := hmem2 5 (by omega)
      simp only [Nat.zero_add, Nat.add_assoc, Nat.reduceAdd] at a3 a4 a5 b3 b4 b5 ⊢
      rw [a3, a4, a5, b3, b4, b5]
    · have := ih (o + f.length) (fun g hg => hv g (List.mem_cons_of_mem _ hg)) (by
        intro i hi
        have e1 := hb (f.length + i) (by
          simp only [List.flatten_cons, List.length_append]; omega)
        rw [List.flatten_cons, List.getD_append_right _ _ _ _ (by omega)] at e1
        rw [Nat.add_assoc, e1]
        congr 1
        omega)
      simp only [List.flatten_cons, List.length_append]
      rw [← Nat.add_assoc]
      exact this

theorem ADTS_hop_of_frames (s : File_Aac) (p : Nat) (next : Verdict) (l : Nat) (ls : List Nat)
    (h64 : s.Buffer_Size < 2 ^ 64) (hfo : s.File_Offset = 0)
    (hfs : s.File_Size = s.Buffer_Size) (het : s.File_EndTagSize = 0)
    (hf : FramesAt s.Buffer s.Buffer_Size p (l :: ls))
    (hn : ∀ l2 ls2, ls = l2 :: ls2 → next = .Accept) :
    ADTS_hop s (s.File_Offset + p) p next = .Accept := by
  simp only [FramesAt] at hf
  obtain ⟨h8, _, hL, hrest⟩ := hf
  have hle := FramesAt_le _ _ _ _ hrest
  unfold ADTS_hop
  rw [hL]
  cases ls with
  | nil =>
    simp only [FramesAt] at hrest
    have : int64u (s.File_Offset + p + l) = int64u_sub s.File_Size s.File_EndTagSize := by
      unfold int64u int64u_sub
      rw [hfo, hfs, het]
      omega
    simp [this]
  | cons l2 ls2 =>
    have hnext := hn l2 ls2 rfl
    simp only [FramesAt] at hrest
    obtain ⟨h82, hs2, _, hrest2⟩ := hrest
    have hle2 := FramesAt_le _ _ _ _ hrest2
    have : int64u (s.File_Offset + p + l) ≠ int64u_sub s.File_Size s.File_EndTagSize := by
      unfold int64u int64u_sub
      rw [hfo, hfs, het]
      omega
    have hs2' : CC2 s.Buffer (p + l) &&& 0xFFF6 = 0xFFF0 := hs2
    rw [if_pos this, if_neg (by omega), if_neg (by rw [hs2']; omega), hnext]

theorem Synchronize_ADTS_test_of_frames (s : File_Aac) (o : Nat) (l : Nat) (ls : List Nat)
    (h64 : s.Buffer_Size < 2 ^ 64) (hfo : s.File_Offset = 0)
    (hfs : s.File_Size = s.Buffer_Size) (het : s.File_EndTagSize = 0)
    (hf : FramesAt s.Buffer s.Buffer_Size o (l :: ls)) :
    Synchronize_ADTS_test s o = .Accept := by
  rw [Synchronize_ADTS_test_eq]
  split_ifs
  · rfl
  · have hf0 := hf
    simp only [FramesAt] at hf0
    obtain ⟨_, _, hL, hrest⟩ := hf0
    refine ADTS_hop_of_frames s o _ l ls h64 hfo hfs het hf fun l2 ls2 e2 => ?_
    subst e2
    have hf1 := hrest
    simp only [FramesAt] at hf1
    obtain ⟨_, _, hL2, hrest2⟩ := hf1
    rw [hL, Nat.add_assoc s.File_Offset o l]
    refine ADTS_hop_of_frames s (o + l) _ l2 ls2 h64 hfo hfs het hrest fun l3 ls3 e3 => ?_
    subst e3
    rw [hL2, Nat.add_assoc s.File_Offset (o + l) l2]
    exact ADTS_hop_of_frames s (o + l + l2) _ l3 ls3 h64 hfo hfs het hrest2 fun _ _ _ => rfl

theorem Synchronize_ADTS_of_frames (s : File_Aac) (l : Nat) (ls : List Nat)
    (h64 : s.Buffer_Size < 2 ^ 64) (hfo : s.File_Offset = 0)
    (hfs : s.File_Size = s.Buffer_Size) (het : s.File_EndTagSize = 0)
    (hf : FramesAt s.Buffer s.Buffer_Size s.Buffer_Offset (l :: ls)) :
    Synchronize_ADTS ⟨true, false⟩ s
      = some ⟨.SynchedOK, { s with Mode := Mode_ADTS, IsAccepted := true }⟩ := by
  have ht := Synchronize_ADTS_test_of_frames s _ l ls h64 hfo hfs het hf
  have hf0 := hf
  simp only [FramesAt] at hf0
  obtain ⟨h8, hs, hL, hrest⟩ := hf0
  have hle := FramesAt_le _ _ _ _ hrest
  have h6 : s.Buffer_Offset + 6 ≤ s.Buffer_Size := by omega
  have hskip := Synchronize_ADTS_skip_stay s.Buffer s.Buffer_Size
    (s.Buffer_Size - s.Buffer_Offset) s.Buffer_Offset (by tauto)
  have hpass : Synchronize_ADTS_pass s s.Buffer_Offset = some (some .Broke, s.Buffer_Offset) := by
    unfold Synchronize_ADTS_pass
    rw [hskip]
    simp only [if_pos h6, ht]
  have hloop : Synchronize_ADTS_loop s (s.Buffer_Size - s.Buffer_Offset) s.Buffer_Offset
      = some (.Broke, s.Buffer_Offset) := by
    obtain ⟨n, hn⟩ : ∃ n, s.Buffer_Size - s.Buffer_Offset = n + 1 :=
      ⟨s.Buffer_Size - s.Buffer_Offset - 1, by omega⟩
    rw [hn]
    simp only [Synchronize_ADTS_loop, if_pos h6, hpass]
  simp only [Synchronize_ADTS, hloop]
  simp [Nat.not_lt.mpr h6]

theorem Frames_ADTS_of_frames (B : Nat → Nat) (size : Nat) :
    ∀ (frames : List (List Nat)) (fuel : Nat) (s : File_Aac),
      s.Buffer = B → s.Buffer_Size = size → s.Synched = true →
      FramesAt B size s.Buffer_Offset (frames.map List.length) → frames.length ≤ fuel →
      (Frames_ADTS fuel s).1 = frame_bounds s.Buffer_Offset frames ∧
      (Frames_ADTS fuel s).2.Buffer_Offset = size ∧ (Frames_ADTS fuel s).2.Synched = true := by
  intro frames
  induction frames with
  | nil =>
    intro fuel s hB hS hsy hf _
    simp only [List.map_nil, FramesAt] at hf
    cases fuel with
    | zero => exact ⟨rfl, hf, hsy⟩
    | succ n =>
      have h1 : Synched_Test_ADTS true s = (false, s) := by
        unfold Synched_Test_ADTS
        simp only [Bool.true_eq_false, if_false]
        rw [if_pos (by omega)]
      simp only [Frames_ADTS, h1, Bool.false_eq_true, false_and, if_false]
      exact ⟨rfl, hf, hsy⟩
  | cons f fs ih =>
    intro fuel s hB hS hsy hf hfuel
    simp only [List.map_cons, FramesAt] at hf
    obtain ⟨h8, hs, hL, hrest⟩ := hf
    have hle := FramesAt_le _ _ _ _ hrest
    cases fuel with
    | zero => simp at hfuel
    | succ n =>
      have hs' : CC2 s.Buffer s.Buffer_Offset &&& 0xFFF6 = 0xFFF0 := by rw [hB]; exact hs
      have h1 : Synched_Test_ADTS true s = (true, s) := by
        unfold Synched_Test_ADTS
        simp only [Bool.true_eq_false, if_false]
        rw [if_neg (by omega), if_neg (by rw [hs']; simp)]
      have h2 : (Header_Parse_ADTS s).Header_Fill_Size = f.length := by
        rw [← hL, ← hB]; rfl
      have h3 : (Header_Parse_ADTS s).Buffer_Offset = s.Buffer_Offset := rfl
      have := ih n
        { Header_Parse_ADTS s with
          Buffer_Offset := (Header_Parse_ADTS s).Buffer_Offset
            + (Header_Parse_ADTS s).Header_Fill_Size }
        hB hS hsy (by simpa only [h2, h3] using hrest) (by simpa using hfuel)
      simp only [Frames_ADTS, h1, hsy, and_self, if_true, frame_bounds]
      simp only [h2, h3] at this ⊢
      exact ⟨by rw [this.1], this.2⟩

/-- C1: for a byte sequence that is the concatenation of `N ≥ 1` valid ADTS frames, held whole
in the buffer (`File_Offset = 0`, `Buffer_Size = File_Size`, `File_EndTagSize = 0`, no tags),
`Synchronize_ADTS` from offset 0 returns true with `Buffer_Offset = 0`, and repeating
`Synched_Test_ADTS`, `Header_Parse_ADTS` and an advance by the parsed size visits exactly the
`N` frame starts with each frame's length, keeps `Synched` set, and ends at `Buffer_Size`. -/
theorem C1_valid_ADTS_stream_recovers_frames (frames : List (List Nat)) (s : File_Aac)
    (hN : 1 ≤ frames.length) (hvalid : ∀ f ∈ frames, ADTS_frame f)
    (hbuf : ∀ i, i < frames.flatten.length → s.Buffer i = frames.flatten.getD i 0)
    (hsize : s.Buffer_Size = frames.flatten.length) (h64 : s.Buffer_Size < 2 ^ 64)
    (hfo : s.File_Offset = 0) (hfs : s.File_Size = s.Buffer_Size)
    (het : s.File_EndTagSize = 0) (hbo : s.Buffer_Offset = 0) :
    ∃ r, Synchronize_ADTS ⟨true, false⟩ s = some r ∧ r.outcome.value = true ∧
      r.state.Buffer_Offset = 0 ∧
      ∀ fuel, frames.length ≤ fuel →
        (Frames_ADTS fuel { r.state with Synched := true }).1 = frame_bounds 0 frames ∧
        (Frames_ADTS fuel { r.state with Synched := true }).1.length = frames.length ∧
        (Frames_ADTS fuel { r.state with Synched := true }).2.Buffer_Offset = s.Buffer_Size ∧
        (Frames_ADTS fuel { r.state with Synched := true }).2.Synched = true := by
  have hF := FramesAt_of_frames s.Buffer frames 0 hvalid (by simpa using hbuf)
  rw [Nat.zero_add, ← hsize] at hF
  have hlenb : ∀ (fs : List (List Nat)) (o : Nat), (frame_bounds o fs).length = fs.length := by
    intro fs
    induction fs with
    | nil => intro o; rfl
    | cons f fs ih => intro o; simp [frame_bounds, ih]
  cases frames with
  | nil => simp at hN
  | cons f fs =>
    have hsync := Synchronize_ADTS_of_frames s f.length (fs.map List.length) h64 hfo hfs het
      (by rw [hbo]; simpa using hF)
    refine ⟨_, hsync, rfl, hbo, fun fuel hfuel => ?_⟩
    have hw := Frames_ADTS_of_frames s.Buffer s.Buffer_Size (f :: fs) fuel
      { s with Mode := Mode_ADTS, IsAccepted := true, Synched := true } rfl rfl rfl
      (by show FramesAt s.Buffer s.Buffer_Size s.Buffer_Offset _; rw [hbo]; exact hF) hfuel
    obtain ⟨w1, w2, w3⟩ := hw
    have w1' : (Frames_ADTS fuel
        { s with Mode := Mode_ADTS, IsAccepted := true, Synched := true }).1
        = frame_bounds 0 (f :: fs) :=
      w1.trans (congrArg (fun o => frame_bounds o (f :: fs)) hbo)
    exact ⟨w1', by rw [w1', hlenb], w2, w3⟩

/-- C1 at the stream of the two frames `frame8`, `frame9`. -/
theorem C1_valid_ADTS_stream_recovers_frames_witness :
    (∀ f ∈ [frame8, frame9], ADTS_frame f) ∧
    ∃ r, Synchronize_ADTS ⟨true, false⟩ (wholeFile (frame8 ++ frame9) 0) = some r ∧
      r.outcome.value = true ∧ r.state.Buffer_Offset = 0 ∧
      ∀ fuel, [frame8, frame9].length ≤ fuel →
        (Frames_ADTS fuel { r.state with Synched := true }).1
          = frame_bounds 0 [frame8, frame9] ∧
        (Frames_ADTS fuel { r.state with Synched := true }).1.length
          = [frame8, frame9].length ∧
        (Frames_ADTS fuel { r.state with Synched := true }).2.Buffer_Offset
          = (wholeFile (frame8 ++ frame9) 0).Buffer_Size ∧
        (Frames_ADTS fuel { r.state with Synched := true }).2.Synched = true :=
  ⟨by decide,
   C1_valid_ADTS_stream_recovers_frames [frame8, frame9] (wholeFile (frame8 ++ frame9) 0)
    (by decide) (by decide) (fun _ _ => rfl) rfl (by decide) rfl rfl rfl rfl⟩

/-! ## What a true return of Synchronize_ADTS means -/

/-- C2: when `Synchronize_ADTS`, started at offset `s.Buffer_Offset` with no tag found and
`IsSub` false, returns true with `Buffer_Offset = p`, then `p` is not before the start, `p`
carries the sync pattern and passes the forward check, and every offset from the start up to
`p` either carries no sync pattern or fails the forward check. -/
theorem C2_Synchronize_ADTS_finds_next_valid_pattern (tags : TagsAnswer) (s : File_Aac)
    (r : SyncResult) (htag : tags.Tag_Found = false) (hsub : s.IsSub = false)
    (h : Synchronize_ADTS tags s = some r) (hv : r.outcome.value = true) :
    s.Buffer_Offset ≤ r.state.Buffer_Offset ∧
    (ADTS_sync s.Buffer r.state.Buffer_Offset ∧ ADTS_forward_check s r.state.Buffer_Offset) ∧
    ∀ q, s.Buffer_Offset ≤ q → q < r.state.Buffer_Offset →
      ¬ ADTS_sync s.Buffer q ∨ ¬ ADTS_forward_check s q := by
  obtain ⟨o, hl, rfl⟩ := Synchronize_ADTS_true tags s r htag h hv
  obtain ⟨hle, hsk, _, hB, _⟩ := Synchronize_ADTS_loop_spec s _ _ _ _ hl
  obtain ⟨h6, hs, ht⟩ := hB rfl
  refine ⟨hle, ⟨hs, Synchronize_ADTS_test_Accept s o hsub ht⟩, fun q h1 h2 => ?_⟩
  rcases (hsk q h1 h2).2 with h3 | h3
  · exact Or.inl h3
  · exact Or.inr (Synchronize_ADTS_test_Skip s q h3)

/-- C2 at a whole file that begins with a false candidate before four frames: the scan
started at 0 stops at 8, and the offsets 0 to 7 are all rejected. -/
theorem C2_Synchronize_ADTS_finds_next_valid_pattern_witness :
    ADTS_sync (wholeFile (false_candidate ++ frame8 ++ frame8 ++ frame8 ++ frame8) 0).Buffer 0 ∧
    ∀ q, 0 ≤ q → q < 8 →
      ¬ ADTS_sync (wholeFile (false_candidate ++ frame8 ++ frame8 ++ frame8 ++ frame8) 0).Buffer q
      ∨ ¬ ADTS_forward_check
            (wholeFile (false_candidate ++ frame8 ++ frame8 ++ frame8 ++ frame8) 0) q :=
  ⟨by decide, (C2_Synchronize_ADTS_finds_next_valid_pattern ⟨true, false⟩
    (wholeFile (false_candidate ++ frame8 ++ frame8 ++ frame8 ++ frame8) 0)
    ⟨.SynchedOK,
      { wholeFile (false_candidate ++ frame8 ++ frame8 ++ frame8 ++ frame8) 0 with
        Buffer_Offset := 8, Mode := Mode_ADTS, IsAccepted := true }⟩
    rfl rfl rfl rfl).2.2⟩

/-- C3: whenever `Synchronize_ADTS` returns true with no tag found and `IsSub` false, `Mode`
is ADTS, six bytes are buffered at `Buffer_Offset`, the two bytes there carry the sync
pattern, and the candidate passes the forward check chained over three hops. -/
theorem C3_Synchronize_ADTS_true_is_checked_candidate (tags : TagsAnswer) (s : File_Aac)
    (r : SyncResult) (htag : tags.Tag_Found = false) (hsub : s.IsSub = false)
    (h : Synchronize_ADTS tags s = some r) (hv : r.outcome.value = true) :
    r.state.Mode = Mode_ADTS ∧
    r.state.Buffer_Offset + 6 ≤ r.state.Buffer_Size ∧
    CC2 r.state.Buffer r.state.Buffer_Offset &&& 0xFFF6 = 0xFFF0 ∧
    (let o := r.state.Buffer_Offset
     let L1 := aac_frame_length r.state.Buffer o
     let L2 := aac_frame_length r.state.Buffer (o + L1)
     let L3 := aac_frame_length r.state.Buffer (o + L1 + L2)
     ADTS_EndOfStream r.state (o + L1) ∨
      (L1 > 7 ∧ ADTS_sync r.state.Buffer (o + L1) ∧
        (ADTS_EndOfStream r.state (o + L1 + L2) ∨
          (L2 > 7 ∧ ADTS_sync r.state.Buffer (o + L1 + L2) ∧
            (ADTS_EndOfStream r.state (o + L1 + L2 + L3) ∨
              (L3 > 7 ∧ ADTS_sync r.state.Buffer (o + L1 + L2 + L3))))))) := by
  obtain ⟨o, hl, rfl⟩ := Synchronize_ADTS_true tags s r htag h hv
  obtain ⟨_, _, _, hB, _⟩ := Synchronize_ADTS_loop_spec s _ _ _ _ hl
  obtain ⟨h6, hs, ht⟩ := hB rfl
  exact ⟨rfl, h6, hs, Synchronize_ADTS_test_Accept s o hsub ht⟩

/-- C3 at the whole file `frame8 ++ frame9`. -/
theorem C3_Synchronize_ADTS_true_is_checked_candidate_witness :
    (wholeFile (frame8 ++ frame9) 0).Buffer_Size = 17 ∧
    CC2 (wholeFile (frame8 ++ frame9) 0).Buffer 0 &&& 0xFFF6 = 0xFFF0 ∧
    ADTS_forward_check (wholeFile (frame8 ++ frame9) 0) 0 :=
  ⟨rfl, (C3_Synchronize_ADTS_true_is_checked_candidate ⟨true, false⟩
    (wholeFile (frame8 ++ frame9) 0)
    ⟨.SynchedOK, { wholeFile (frame8 ++ frame9) 0 with Mode := Mode_ADTS, IsAccepted := true }⟩
    rfl rfl rfl rfl).2.2⟩

/-! ## What a true return of Synchronize_LATM means -/

/-- C4, counterexample: on three LATM headers followed by zero bytes `Synchronize_LATM`
returns true at offset 0, no chained position is the end of the stream, the positions 3 and 6
carry the sync pattern, and the third position, 9, does not. -/
theorem C4_LATM_third_position_not_checked :
    (streamStart latm_three).IsSub = false ∧
    (Synchronize_LATM (streamStart latm_three)).map
      (fun r => (r.outcome.value, r.state.Buffer_Offset)) = some (true, 0) ∧
    0 + 3 + audioMuxLengthBytes (streamStart latm_three).Buffer 0 = 3 ∧
    3 + 3 + audioMuxLengthBytes (streamStart latm_three).Buffer 3 = 6 ∧
    6 + 3 + audioMuxLengthBytes (streamStart latm_three).Buffer 6 = 9 ∧
    ¬ LATM_EndOfStream (streamStart latm_three) 3 ∧
    ¬ LATM_EndOfStream (streamStart latm_three) 6 ∧
    ¬ LATM_EndOfStream (streamStart latm_three) 9 ∧
    LATM_sync (streamStart latm_three).Buffer 3 ∧
    LATM_sync (streamStart latm_three).Buffer 6 ∧
    ¬ LATM_sync (streamStart latm_three).Buffer 9 := by
  decide

/-- C4, amended: whenever `Synchronize_LATM` returns true with `IsSub` false, the accepted
candidate carries the LATM sync pattern and passes the forward check chained over two hops:
the first position reached by adding `3 + audioMuxLengthBytes` is the end of the stream, or
it carries the sync pattern and the second position is the end of the stream or carries the
sync pattern. -/
theorem C4_Synchronize_LATM_chains_two_hops (s : File_Aac) (r : SyncResult)
    (hsub : s.IsSub = false) (h : Synchronize_LATM s = some r)
    (hv : r.outcome.value = true) :
    r.state.Mode = Mode_LATM ∧
    r.state.Buffer_Offset + 3 ≤ r.state.Buffer_Size ∧
    LATM_sync r.state.Buffer r.state.Buffer_Offset ∧
    (let o := r.state.Buffer_Offset
     let L1 := audioMuxLengthBytes r.state.Buffer o
     let L2 := audioMuxLengthBytes r.state.Buffer (o + 3 + L1)
     LATM_EndOfStream r.state (o + 3 + L1) ∨
      (LATM_sync r.state.Buffer (o + 3 + L1) ∧
        (LATM_EndOfStream r.state (o + 3 + L1 + 3 + L2)
          ∨ LATM_sync r.state.Buffer (o + 3 + L1 + 3 + L2)))) := by
  obtain ⟨o, hl, rfl⟩ := Synchronize_LATM_true s r h hv
  obtain ⟨_, _, _, hB, _⟩ := Synchronize_LATM_loop_spec s _ _ _ _ hl
  obtain ⟨h3, hs, ht⟩ := hB rfl
  exact ⟨rfl, h3, hs, Synchronize_LATM_test_Accept s o hsub ht⟩

/-- C4, amended, at the three LATM headers of the counterexample. -/
theorem C4_Synchronize_LATM_chains_two_hops_witness :
    LATM_sync (streamStart latm_three).Buffer 0 ∧
    (LATM_EndOfStream (streamStart latm_three) 3 ∨
      (LATM_sync (streamStart latm_three).Buffer 3 ∧
        (LATM_EndOfStream (streamStart latm_three) 6
          ∨ LATM_sync (streamStart latm_three).Buffer 6))) :=
  (C4_Synchronize_LATM_chains_two_hops (streamStart latm_three)
    ⟨.SynchedOK, { streamStart latm_three with Mode := Mode_LATM, IsAccepted := true }⟩
    rfl rfl rfl).2.2

/-! ## Resuming the scan -/

theorem Synchronize_ADTS_loop_env (s : File_Aac) (x : Nat) :
    ∀ fuel o, Synchronize_ADTS_loop { s with Buffer_Offset := x } fuel o
      = Synchronize_ADTS_loop s fuel o := by
  intro fuel
  induction fuel with
  | zero => intro o; rfl
  | succ n ih =>
    intro o
    rw [Synchronize_ADTS_loop, Synchronize_ADTS_loop]
    have hp : Synchronize_ADTS_pass { s with Buffer_Offset := x } o
        = Synchronize_ADTS_pass s o := rfl
    rw [hp]
    split_ifs with h6
    · cases Synchronize_ADTS_pass s o with
      | none => rfl
      | some v =>
        obtain ⟨e, o1⟩ := v
        cases e with
        | some e => rfl
        | none => exact ih o1
    · rfl

theorem Synchronize_ADTS_skip_step (B : Nat → Nat) (size fuel o : Nat)
    (h6 : o + 6 ≤ size) (hs : ¬ ADTS_sync B o) :
    Synchronize_ADTS_skip B size (fuel + 1) o = Synchronize_ADTS_skip B size fuel (o + 1) := by
  have hc := (ADTS_skip_cond_iff B size o).mpr ⟨h6, hs⟩
  rw [Synchronize_ADTS_skip, if_pos hc]

/-- The scan of `Synchronize_ADTS` (loop, then the last bytes), from offset `o`, as a function
of the offset alone. -/
theorem Synchronize_ADTS_at (s : File_Aac) (x : Nat) :
    Synchronize_ADTS ⟨true, false⟩ { s with Buffer_Offset := x } =
      match Synchronize_ADTS_loop s (s.Buffer_Size - x) x with
      | none => none
      | some (.Returned, o) => some ⟨.NeedMoreData, { s with Buffer_Offset := o }⟩
      | some (_, o) =>
        if o + 6 > s.Buffer_Size then
          some ⟨.NotSynchronized,
            { s with Buffer_Offset := Synchronize_ADTS_last s.Buffer s.Buffer_Size o }⟩
        else
          some ⟨.SynchedOK,
            { s with Buffer_Offset := o, Mode := Mode_ADTS, IsAccepted := true }⟩ := by
  unfold Synchronize_ADTS
  simp only [Bool.true_eq_false, if_false, Bool.false_eq_true]
  rw [Synchronize_ADTS_loop_env]

/-- Skipping one rejected offset inside the loop does not change the scan. -/
theorem Synchronize_ADTS_at_step_loop (s : File_Aac) (x : Nat) (h6 : x + 6 ≤ s.Buffer_Size)
    (hr : ¬ ADTS_sync s.Buffer x ∨ Synchronize_ADTS_test s x = .Skip) :
    Synchronize_ADTS ⟨true, false⟩ { s with Buffer_Offset := x }
      = Synchronize_ADTS ⟨true, false⟩ { s with Buffer_Offset := x + 1 } := by
  rw [Synchronize_ADTS_at, Synchronize_ADTS_at]
  have hloop : Synchronize_ADTS_loop s (s.Buffer_Size - x) x
      = Synchronize_ADTS_loop s (s.Buffer_Size - (x + 1)) (x + 1) := by
    obtain ⟨n, hn⟩ : ∃ n, s.Buffer_Size - x = n + 1 := ⟨s.Buffer_Size - x - 1, by omega⟩
    have hn' : s.Buffer_Size - (x + 1) = n := by omega
    rw [hn, hn', Synchronize_ADTS_loop, if_pos h6]
    by_cases hs : ADTS_sync s.Buffer x
    · have ht : Synchronize_ADTS_test s x = .Skip := by
        rcases hr with h | h
        · exact absurd hs h
        · exact h
      have hp : Synchronize_ADTS_pass s x = some (none, x + 1) := by
        unfold Synchronize_ADTS_pass
        rw [Synchronize_ADTS_skip_stay _ _ _ _ (fun hc => hc.2 hs)]
        simp only [if_pos h6, ht]
      rw [hp]
    · -- the inner loop moves on to x + 1
      have hk : Synchronize_ADTS_skip s.Buffer s.Buffer_Size (s.Buffer_Size - x) x
          = Synchronize_ADTS_skip s.Buffer s.Buffer_Size (s.Buffer_Size - (x + 1)) (x + 1) := by
        rw [hn, hn']; exact Synchronize_ADTS_skip_step _ _ _ _ h6 hs
      have hp : Synchronize_ADTS_pass s x =
          match Synchronize_ADTS_skip s.Buffer s.Buffer_Size (s.Buffer_Size - (x + 1)) (x + 1) with
          | none => none
          | some o1 =>
            if o1 + 6 ≤ s.Buffer_Size then
              match Synchronize_ADTS_test s o1 with
              | .NeedMoreData => some (some .Returned, o1)
              | .Skip => some (none, o1 + 1)
              | .Accept => some (some .Broke, o1)
            else some (none, o1) := by
        unfold Synchronize_ADTS_pass; rw [hk]
      by_cases h7 : x + 1 + 6 ≤ s.Buffer_Size
      · -- the pass from x is the pass from x + 1
        have hp' : Synchronize_ADTS_pass s x = Synchronize_ADTS_pass s (x + 1) := by
          rw [hp]; rfl
        rw [hp']
        obtain ⟨m, hm⟩ : ∃ m, n = m + 1 := ⟨n - 1, by omega⟩
        rw [hm, Synchronize_ADTS_loop, if_pos h7]
        obtain ⟨p, hp1, _, hp3⟩ := Synchronize_ADTS_pass_spec s (x + 1) h7
        rcases hp3 with ⟨_, _, _, d⟩ | ⟨_, _, _, d⟩ | ⟨_, _, _, d⟩ | ⟨_, b, d⟩
        · rw [d]
        · rw [d]
        · rw [d]
          exact Synchronize_ADTS_loop_fuel_le s _ _ _ (by omega) (by omega)
        · rw [d]
          exact Synchronize_ADTS_loop_fuel_le s _ _ _ (by omega) (by omega)
      · have hst := Synchronize_ADTS_skip_stay s.Buffer s.Buffer_Size
          (s.Buffer_Size - (x + 1)) (x + 1) (fun hc => h7 hc.1)
        rw [hp, hst]
        simp only [if_neg h7]
  rw [hloop]

/-- Skipping one offset that the last-bytes tests reject does not change their result. -/
theorem Synchronize_ADTS_last_step (B : Nat → Nat) (size x : Nat) (h6 : size < x + 6)
    (hx : (x + 2 ≤ size ∧ ¬ ADTS_sync B x) ∨ (x + 1 = size ∧ CC1 B x ≠ 0xFF)) :
    Synchronize_ADTS_last B size x = Synchronize_ADTS_last B size (x + 1) := by
  unfold Synchronize_ADTS_last ADTS_sync at *
  rcases hx with ⟨h2, hs⟩ | ⟨h1, hs⟩
  · obtain ⟨d, hd⟩ : ∃ d, size = x + 2 + d := ⟨size - (x + 2), by omega⟩
    have hd3 : d ≤ 3 := by omega
    subst hd
    interval_cases d <;> simp [hs]
  · subst h1
    simp [hs]

theorem Synchronize_ADTS_last_skipped (B : Nat → Nat) (size o : Nat) :
    ∀ q, o ≤ q → q < Synchronize_ADTS_last B size o →
      (q + 2 ≤ size ∧ ¬ ADTS_sync B q) ∨ (q + 1 = size ∧ CC1 B q ≠ 0xFF) := by
  have step : ∀ (c : Nat → Prop) [DecidablePred c] (a b : Nat),
      (∀ q, c q → (q + 2 ≤ size ∧ ¬ ADTS_sync B q) ∨ (q + 1 = size ∧ CC1 B q ≠ 0xFF)) →
      (a ≤ b ∧ ∀ q, a ≤ q → q < b →
        (q + 2 ≤ size ∧ ¬ ADTS_sync B q) ∨ (q + 1 = size ∧ CC1 B q ≠ 0xFF)) →
      (a ≤ (if c b then b + 1 else b) ∧ ∀ q, a ≤ q → q < (if c b then b + 1 else b) →
        (q + 2 ≤ size ∧ ¬ ADTS_sync B q) ∨ (q + 1 = size ∧ CC1 B q ≠ 0xFF)) := by
    intro c _ a b hc ⟨hab, hq⟩
    split_ifs with h
    · refine ⟨by omega, fun q h1 h2 => ?_⟩
      by_cases e : q = b
      · subst e; exact hc _ h
      · exact hq q h1 (by omega)
    · exact ⟨hab, hq⟩
  have h0 : o ≤ o ∧ ∀ q, o ≤ q → q < o →
      (q + 2 ≤ size ∧ ¬ ADTS_sync B q) ∨ (q + 1 = size ∧ CC1 B q ≠ 0xFF) :=
    ⟨le_refl _, fun q h1 h2 => absurd h2 (by omega)⟩
  have h1 := step (fun q => q + 5 = size ∧ CC2 B q &&& 0xFFF6 ≠ 0xFFF0) o o
    (fun q hq => Or.inl ⟨by omega, hq.2⟩) h0
  have h2 := step (fun q => q + 4 = size ∧ CC2 B q &&& 0xFFF6 ≠ 0xFFF0) o _
    (fun q hq => Or.inl ⟨by omega, hq.2⟩) h1
  have h3 := step (fun q => q + 3 = size ∧ CC2 B q &&& 0xFFF6 ≠ 0xFFF0) o _
    (fun q hq => Or.inl ⟨by omega, hq.2⟩) h2
  have h4 := step (fun q => q + 2 = size ∧ CC2 B q &&& 0xFFF6 ≠ 0xFFF0) o _
    (fun q hq => Or.inl ⟨by omega, hq.2⟩) h3
  have h5 := step (fun q => q + 1 = size ∧ CC1 B q ≠ 0xFF) o _
    (fun q hq => Or.inr hq) h4
  exact h5.2

theorem Synchronize_ADTS_last_le (B : Nat → Nat) (size o : Nat) (h : o ≤ size) :
    Synchronize_ADTS_last B size o ≤ size := by
  unfold Synchronize_ADTS_last
  simp only []
  split_ifs <;> omega

theorem ADTS_hop_Skip_mono (s1 s2 : File_Aac) (f p : Nat) (next1 next2 : Verdict)
    (hB : s1.Buffer = s2.Buffer) (hF : s1.File_Size = s2.File_Size)
    (hE : s1.File_EndTagSize = s2.File_EndTagSize) (hS : s1.Buffer_Size ≤ s2.Buffer_Size)
    (h : ADTS_hop s1 f p next1 = .Skip) (hn : next1 = .Skip → next2 = .Skip) :
    ADTS_hop s2 f p next2 = .Skip := by
  unfold ADTS_hop at h ⊢
  rw [← hB, ← hF, ← hE]
  split_ifs at h with h1 h2 h3
  · rw [if_pos h1, if_neg (by omega), if_pos h3]
  · rw [if_pos h1, if_neg (by omega), if_neg h3]
    exact hn h

theorem Synchronize_ADTS_test_Skip_mono (s1 s2 : File_Aac) (o : Nat)
    (hB : s1.Buffer = s2.Buffer) (hO : s1.File_Offset = s2.File_Offset)
    (hF : s1.File_Size = s2.File_Size)
    (hE : s1.File_EndTagSize = s2.File_EndTagSize) (hS : s1.Buffer_Size ≤ s2.Buffer_Size)
    (hsub : s2.IsSub = false)
    (h : Synchronize_ADTS_test s1 o = .Skip) : Synchronize_ADTS_test s2 o = .Skip := by
  rw [Synchronize_ADTS_test_eq] at h ⊢
  rw [if_neg (by simp [hsub])]
  split_ifs at h
  rw [← hB, ← hO]
  refine ADTS_hop_Skip_mono s1 s2 _ _ _ _ hB hF hE hS h fun h2 => ?_
  refine ADTS_hop_Skip_mono s1 s2 _ _ _ _ hB hF hE hS h2 fun h3 => ?_
  exact ADTS_hop_Skip_mono s1 s2 _ _ _ _ hB hF hE hS h3 fun h4 => h4

/-- Skipping offsets that the scan rejects does not change its result. -/
theorem Synchronize_ADTS_at_skip (s : File_Aac) (x : Nat) :
    ∀ d, (∀ q, x ≤ q → q < x + d →
        (q + 6 ≤ s.Buffer_Size →
          ¬ ADTS_sync s.Buffer q ∨ Synchronize_ADTS_test s q = .Skip) ∧
        (s.Buffer_Size < q + 6 →
          (q + 2 ≤ s.Buffer_Size ∧ ¬ ADTS_sync s.Buffer q)
            ∨ (q + 1 = s.Buffer_Size ∧ CC1 s.Buffer q ≠ 0xFF))) →
      Synchronize_ADTS ⟨true, false⟩ { s with Buffer_Offset := x }
        = Synchronize_ADTS ⟨true, false⟩ { s with Buffer_Offset := x + d } := by
  intro d
  induction d with
  | zero => intro _; rfl
  | succ d ih =>
    intro h
    rw [ih (fun q h1 h2 => h q h1 (by omega))]
    show Synchronize_ADTS ⟨true, false⟩ { s with Buffer_Offset := x + d }
      = Synchronize_ADTS ⟨true, false⟩ { s with Buffer_Offset := x + d + 1 }
    obtain ⟨ha, hb⟩ := h (x + d) (by omega) (by omega)
    by_cases h6 : x + d + 6 ≤ s.Buffer_Size
    · exact Synchronize_ADTS_at_step_loop s (x + d) h6 (ha h6)
    · have h6' : s.Buffer_Size < x + d + 6 := by omega
      have e1 : ∀ y, s.Buffer_Size < y + 6 →
          Synchronize_ADTS_loop s (s.Buffer_Size - y) y = some (.Ended, y) := by
        intro y hy
        cases s.Buffer_Size - y <;> simp only [Synchronize_ADTS_loop, if_neg (Nat.not_le.mpr hy)]
      rw [Synchronize_ADTS_at, Synchronize_ADTS_at, e1 _ h6', e1 (x + d + 1) (by omega)]
      simp only [gt_iff_lt, h6', if_true, show s.Buffer_Size < x + d + 1 + 6 by omega]
      rw [Synchronize_ADTS_last_step s.Buffer s.Buffer_Size (x + d) h6' (hb h6')]

/-- Resumability of `Synchronize_ADTS` when no read leaves the common memory: if the run on
the first `n` buffered bytes returns false, the run resumed from the `Buffer_Offset` it left,
with any larger number of buffered bytes of the same memory, ends as the run from the start
on that larger buffer does. -/
theorem Synchronize_ADTS_resumes_on_same_memory (B : File_Aac) (n : Nat)
    (hn : n ≤ B.Buffer_Size) (hsub : B.IsSub = false) (rP : SyncResult)
    (h : Synchronize_ADTS ⟨true, false⟩ { B with Buffer_Size := n } = some rP)
    (hv : rP.outcome.value = false) :
    Synchronize_ADTS ⟨true, false⟩ { B with Buffer_Offset := rP.state.Buffer_Offset }
      = Synchronize_ADTS ⟨true, false⟩ B := by
  have hmono : ∀ q, Synchronize_ADTS_test { B with Buffer_Size := n } q = .Skip →
      Synchronize_ADTS_test B q = .Skip :=
    fun q hq => Synchronize_ADTS_test_Skip_mono { B with Buffer_Size := n } B q rfl rfl rfl rfl
      hn hsub hq
  have hB : B = { B with Buffer_Offset := B.Buffer_Offset } := rfl
  have goal : ∀ o, B.Buffer_Offset ≤ o →
      (∀ q, B.Buffer_Offset ≤ q → q < o →
        (q + 6 ≤ B.Buffer_Size →
          ¬ ADTS_sync B.Buffer q ∨ Synchronize_ADTS_test B q = .Skip) ∧
        (B.Buffer_Size < q + 6 →
          (q + 2 ≤ B.Buffer_Size ∧ ¬ ADTS_sync B.Buffer q)
            ∨ (q + 1 = B.Buffer_Size ∧ CC1 B.Buffer q ≠ 0xFF))) →
      Synchronize_ADTS ⟨true, false⟩ { B with Buffer_Offset := o }
        = Synchronize_ADTS ⟨true, false⟩ B := by
    intro o ho hq
    have := Synchronize_ADTS_at_skip B B.Buffer_Offset (o - B.Buffer_Offset)
      (fun q h1 h2 => hq q h1 (by omega))
    rw [show B.Buffer_Offset + (o - B.Buffer_Offset) = o by omega] at this
    rw [← this]
  rcases Synchronize_ADTS_cases ⟨true, false⟩ { B with Buffer_Size := n } with
    ⟨h0, _⟩ | ⟨_, h0, _⟩ | ⟨_, _, e, o, hl, h1⟩
  · cases h0
  · cases h0
  · obtain ⟨hle, hsk, hR, hBr, hE⟩ := Synchronize_ADTS_loop_spec _ _ _ _ _ hl
    have hloopq : ∀ q, B.Buffer_Offset ≤ q → q < o →
        (q + 6 ≤ B.Buffer_Size →
          ¬ ADTS_sync B.Buffer q ∨ Synchronize_ADTS_test B q = .Skip) ∧
        (B.Buffer_Size < q + 6 →
          (q + 2 ≤ B.Buffer_Size ∧ ¬ ADTS_sync B.Buffer q)
            ∨ (q + 1 = B.Buffer_Size ∧ CC1 B.Buffer q ≠ 0xFF)) := by
      intro q h1 h2
      obtain ⟨a, b⟩ := hsk q h1 h2
      have a' : q + 6 ≤ n := a
      refine ⟨fun _ => ?_, fun hc => absurd hc (by omega)⟩
      rcases b with b | b
      · exact Or.inl b
      · exact Or.inr (hmono q b)
    rcases h1 with ⟨he, h1⟩ | ⟨he, h1⟩ | ⟨he, h1⟩
    · rw [h1] at h; cases h
      exact goal o hle hloopq
    · rw [h1] at h; cases h; cases hv
    · rw [h1] at h; cases h
      have hEn : n < o + 6 := hE he
      have hge := Synchronize_ADTS_last_ge B.Buffer n o
      refine goal _ (le_trans hle hge) fun q h1 h2 => ?_
      by_cases hqo : q < o
      · exact hloopq q h1 hqo
      · have ht := Synchronize_ADTS_last_skipped B.Buffer n o q (by omega) h2
        have hns : ¬ ADTS_sync B.Buffer q := by
          rcases ht with ⟨_, t⟩ | ⟨_, t⟩
          · exact t
          · intro hs
            exact t ((ADTS_sync_iff _ _).mp hs).1
        refine ⟨fun _ => Or.inl hns, fun hc => ?_⟩
        rcases ht with ⟨t1, _⟩ | ⟨t1, t2⟩
        · exact Or.inl ⟨by omega, hns⟩
        · by_cases e : n = B.Buffer_Size
          · exact Or.inr ⟨by omega, t2⟩
          · exact Or.inl ⟨by omega, hns⟩

/-- The resumability of `Synchronize_ADTS` on a common memory, at a file that begins with a
false candidate before four frames: the run on its first 12 bytes returns false at offset 8,
and the run resumed there on the whole file ends as the run from 0 does. -/
theorem Synchronize_ADTS_resumes_on_same_memory_witness :
    (Synchronize_ADTS ⟨true, false⟩
        { wholeFile (false_candidate ++ four_frames) 0 with Buffer_Size := 12 }).map
      (fun r => (r.outcome.value, r.state.Buffer_Offset)) = some (false, 8) ∧
    Synchronize_ADTS ⟨true, false⟩
        { wholeFile (false_candidate ++ four_frames) 0 with Buffer_Offset := 8 }
      = Synchronize_ADTS ⟨true, false⟩ (wholeFile (false_candidate ++ four_frames) 0) :=
  ⟨by decide,
   Synchronize_ADTS_resumes_on_same_memory (wholeFile (false_candidate ++ four_frames) 0) 12
    (by decide) rfl
    ⟨.NotSynchronized,
      { wholeFile (false_candidate ++ four_frames) 0 with Buffer_Size := 12, Buffer_Offset := 8 }⟩
    rfl rfl⟩

/-! ## A read split in two -/

/-- C5, the code at the failing input: `first_read` holds the first 10 bytes of the four
frames of `four_frames`, with the same file offset and sizes.  On it the hop from the
candidate at 0 reads the length of the next frame at bytes 11 to 13, which are not buffered
and hold 0, and skips the candidate: `Synchronize_ADTS` returns false with
`Buffer_Offset = 8`.  Run again from 8 on the whole stream it locks at 8, where the run on the
whole stream from 0 locks at 0. -/
theorem C5_split_read_skips_first_frame :
    (∀ i, i < first_read.Buffer_Size → first_read.Buffer i = (wholeFile four_frames 0).Buffer i) ∧
    first_read.Buffer_Size ≤ (wholeFile four_frames 0).Buffer_Size ∧
    first_read.File_Offset = (wholeFile four_frames 0).File_Offset ∧
    first_read.File_Size = (wholeFile four_frames 0).File_Size ∧
    first_read.File_EndTagSize = (wholeFile four_frames 0).File_EndTagSize ∧
    first_read.IsSub = false ∧
    aac_frame_length first_read.Buffer 0 = 8 ∧
    first_read.Buffer_Size < 8 + 3 ∧
    aac_frame_length first_read.Buffer 8 = 0 ∧
    Synchronize_ADTS_test first_read 0 = .Skip ∧
    Synchronize_ADTS_test (wholeFile four_frames 0) 0 = .Accept ∧
    (Synchronize_ADTS ⟨true, false⟩ first_read).map
      (fun r => (r.outcome.value, r.state.Buffer_Offset)) = some (false, 8) ∧
    (Synchronize_ADTS ⟨true, false⟩ (wholeFile four_frames 8)).map
      (fun r => (r.outcome.value, r.state.Buffer_Offset, r.state.Mode))
        = some (true, 8, Mode_ADTS) ∧
    (Synchronize_ADTS ⟨true, false⟩ (wholeFile four_frames 0)).map
      (fun r => (r.outcome.value, r.state.Buffer_Offset, r.state.Mode))
        = some (true, 0, Mode_ADTS) := by
  decide

/-! ## Need more data -/

/-- C6: whenever `Synchronize_ADTS` or `Synchronize_LATM` leaves through a `Need more data`
return, only `Buffer_Offset` has changed, it stands on the candidate whose forward check
needed more bytes, the bytes there carry the sync pattern of the mode, and on any buffer that
extends the buffered bytes the skipping loop started at that offset stays on it. -/
theorem C6_need_more_data_stays_on_candidate (tags : TagsAnswer) (s : File_Aac) :
    (∀ r, Synchronize_ADTS tags s = some r → r.outcome = .NeedMoreData →
      r.state = { s with Buffer_Offset := r.state.Buffer_Offset } ∧
      s.Buffer_Offset ≤ r.state.Buffer_Offset ∧
      r.state.Buffer_Offset + 6 ≤ s.Buffer_Size ∧
      CC2 s.Buffer r.state.Buffer_Offset &&& 0xFFF6 = 0xFFF0 ∧
      Synchronize_ADTS_test s r.state.Buffer_Offset = .NeedMoreData ∧
      ∀ t : File_Aac, t.Buffer_Offset = r.state.Buffer_Offset →
        (∀ i, i < s.Buffer_Size → t.Buffer i = s.Buffer i) →
        ∀ fuel, Synchronize_ADTS_skip t.Buffer t.Buffer_Size fuel t.Buffer_Offset
          = some t.Buffer_Offset) ∧
    (∀ r, Synchronize_LATM s = some r → r.outcome = .NeedMoreData →
      r.state = { s with Buffer_Offset := r.state.Buffer_Offset } ∧
      s.Buffer_Offset ≤ r.state.Buffer_Offset ∧
      r.state.Buffer_Offset + 3 ≤ s.Buffer_Size ∧
      CC2 s.Buffer r.state.Buffer_Offset &&& 0xFFE0 = 0x56E0 ∧
      Synchronize_LATM_test s r.state.Buffer_Offset = .NeedMoreData ∧
      ∀ t : File_Aac, t.Buffer_Offset = r.state.Buffer_Offset →
        (∀ i, i < s.Buffer_Size → t.Buffer i = s.Buffer i) →
        ∀ fuel, Synchronize_LATM_skip t.Buffer t.Buffer_Size 3 fuel t.Buffer_Offset
          = some t.Buffer_Offset) := by
  constructor
  · intro r h ho
    obtain ⟨o, e, hle, h6, hs, ht⟩ := Synchronize_ADTS_NeedMoreData tags s r h ho
    have eo : r.state.Buffer_Offset = o := by rw [e]
    rw [eo]
    refine ⟨e, hle, h6, hs, ht, fun t hto hag fuel => ?_⟩
    rw [hto]
    apply Synchronize_ADTS_skip_stay
    have : ADTS_sync t.Buffer o := by
      unfold ADTS_sync
      rw [CC2_congr t.Buffer s.Buffer o (hag _ (by omega)) (hag _ (by omega))]
      exact hs
    exact fun hc => hc.2 this
  · intro r h ho
    obtain ⟨o, e, hle, h6, hs, ht⟩ := Synchronize_LATM_NeedMoreData s r h ho
    have eo : r.state.Buffer_Offset = o := by rw [e]
    rw [eo]
    refine ⟨e, hle, h6, hs, ht, fun t hto hag fuel => ?_⟩
    rw [hto]
    apply Synchronize_LATM_skip_stay
    have : LATM_sync t.Buffer o := by
      unfold LATM_sync
      rw [CC2_congr t.Buffer s.Buffer o (hag _ (by omega)) (hag _ (by omega))]
      exact hs
    exact fun hc => hc.2 this

/-- C6 at one ADTS frame, and at one LATM header, each followed by a single byte. -/
theorem C6_need_more_data_stays_on_candidate_witness :
    (CC2 (streamStart adts_cut).Buffer 0 &&& 0xFFF6 = 0xFFF0 ∧
      Synchronize_ADTS_test (streamStart adts_cut) 0 = .NeedMoreData) ∧
    (CC2 (streamStart latm_cut).Buffer 0 &&& 0xFFE0 = 0x56E0 ∧
      Synchronize_LATM_test (streamStart latm_cut) 0 = .NeedMoreData) :=
  ⟨let h := (C6_need_more_data_stays_on_candidate ⟨true, false⟩ (streamStart adts_cut)).1
      ⟨.NeedMoreData, streamStart adts_cut⟩ rfl rfl
   ⟨h.2.2.2.1, h.2.2.2.2.1⟩,
   let h := (C6_need_more_data_stays_on_candidate ⟨true, false⟩ (streamStart latm_cut)).2
      ⟨.NeedMoreData, streamStart latm_cut⟩ rfl rfl
   ⟨h.2.2.2.1, h.2.2.2.2.1⟩⟩

/-! ## The two ways of returning false -/

/-- C7, counterexample: a run of `Synchronize_ADTS` that ends on a `Need more data` return
and one that ends without any candidate return the same value, false; so do such runs of
`Synchronize_LATM`. -/
theorem C7_both_failures_return_false :
    (Synchronize_ADTS ⟨true, false⟩ (streamStart adts_cut)).map SyncResult.outcome
      = some .NeedMoreData ∧
    (Synchronize_ADTS ⟨true, false⟩ (streamStart no_pattern)).map SyncResult.outcome
      = some .NotSynchronized ∧
    (Synchronize_ADTS ⟨true, false⟩ (streamStart adts_cut)).map (fun r => r.outcome.value)
      = (Synchronize_ADTS ⟨true, false⟩ (streamStart no_pattern)).map (fun r => r.outcome.value) ∧
    (Synchronize_LATM (streamStart latm_cut)).map SyncResult.outcome = some .NeedMoreData ∧
    (Synchronize_LATM (streamStart no_pattern)).map SyncResult.outcome
      = some .NotSynchronized ∧
    (Synchronize_LATM (streamStart latm_cut)).map (fun r => r.outcome.value)
      = (Synchronize_LATM (streamStart no_pattern)).map (fun r => r.outcome.value) := by
  decide

/-- C7, amended: a run that ends on a `Need more data` return and a run that ends without any
candidate both return false; what tells them apart is the `Buffer_Offset` they leave: the
first leaves a whole header buffered at it (6 bytes for ADTS, 3 for LATM), the second does
not (fewer than 6 bytes for ADTS, at most 2 for LATM). -/
theorem C7_failures_differ_by_Buffer_Offset (tags1 tags2 : TagsAnswer) (s1 s2 : File_Aac)
    (r1 r2 : SyncResult) :
    (Synchronize_ADTS tags1 s1 = some r1 → r1.outcome = .NeedMoreData →
      Synchronize_ADTS tags2 s2 = some r2 → r2.outcome = .NotSynchronized →
      r1.outcome.value = false ∧ r2.outcome.value = false ∧
      r1.state.Buffer_Offset + 6 ≤ r1.state.Buffer_Size ∧
      r2.state.Buffer_Size < r2.state.Buffer_Offset + 6) ∧
    (Synchronize_LATM s1 = some r1 → r1.outcome = .NeedMoreData →
      Synchronize_LATM s2 = some r2 → r2.outcome = .NotSynchronized →
      r1.outcome.value = false ∧ r2.outcome.value = false ∧
      r1.state.Buffer_Offset + 3 ≤ r1.state.Buffer_Size ∧
      r2.state.Buffer_Size ≤ r2.state.Buffer_Offset + 2) := by
  constructor
  · intro h1 ho1 h2 ho2
    refine ⟨by rw [ho1]; rfl, by rw [ho2]; rfl, ?_, ?_⟩
    · obtain ⟨o, e, _, h6, _⟩ := Synchronize_ADTS_NeedMoreData tags1 s1 r1 h1 ho1
      rw [e]; exact h6
    · rcases Synchronize_ADTS_cases tags2 s2 with ⟨_, k⟩ | ⟨_, _, k⟩ | ⟨_, _, e, o, hl, k⟩
      · rw [k] at h2; cases h2; cases ho2
      · rw [k] at h2; cases h2; cases ho2
      · obtain ⟨_, _, _, _, hE⟩ := Synchronize_ADTS_loop_spec s2 _ _ _ _ hl
        rcases k with ⟨he, k⟩ | ⟨he, k⟩ | ⟨he, k⟩
        · rw [k] at h2; cases h2; cases ho2
        · rw [k] at h2; cases h2; cases ho2
        · rw [k] at h2; cases h2
          have := hE he
          have := Synchronize_ADTS_last_ge s2.Buffer s2.Buffer_Size o
          show s2.Buffer_Size < Synchronize_ADTS_last s2.Buffer s2.Buffer_Size o + 6
          omega
  · intro h1 ho1 h2 ho2
    refine ⟨by rw [ho1]; rfl, by rw [ho2]; rfl, ?_, ?_⟩
    · obtain ⟨o, e, _, h3, _⟩ := Synchronize_LATM_NeedMoreData s1 r1 h1 ho1
      rw [e]; exact h3
    · obtain ⟨e, o, hl, k⟩ := Synchronize_LATM_cases s2
      rcases k with ⟨he, k⟩ | ⟨he, k⟩ | ⟨he, o2, _, hb, k⟩
      · rw [k] at h2; cases h2; cases ho2
      · rw [k] at h2; cases h2; cases ho2
      · rw [k] at h2; cases h2
        exact hb

/-- C7, amended, at the runs of the counterexample. -/
theorem C7_failures_differ_by_Buffer_Offset_witness :
    (0 + 6 ≤ (streamStart adts_cut).Buffer_Size ∧ (streamStart no_pattern).Buffer_Size < 5 + 6) ∧
    (0 + 3 ≤ (streamStart latm_cut).Buffer_Size ∧ (streamStart no_pattern).Buffer_Size ≤ 4 + 2) :=
  ⟨((C7_failures_differ_by_Buffer_Offset ⟨true, false⟩ ⟨true, false⟩
      (streamStart adts_cut) (streamStart no_pattern)
      ⟨.NeedMoreData, streamStart adts_cut⟩
      ⟨.NotSynchronized, { streamStart no_pattern with Buffer_Offset := 5 }⟩).1
      rfl rfl rfl rfl).2.2,
   ((C7_failures_differ_by_Buffer_Offset ⟨true, false⟩ ⟨true, false⟩
      (streamStart latm_cut) (streamStart no_pattern)
      ⟨.NeedMoreData, streamStart latm_cut⟩
      ⟨.NotSynchronized, { streamStart no_pattern with Buffer_Offset := 4 }⟩).2
      rfl rfl rfl rfl).2.2⟩

/-! ## Synchronize -/

/-- C8: in `Mode_Unknown`, `Synchronize` returns; its outcome is that of `Synchronize_LATM`
when `Synchronize_LATM` returns true, and `Mode` is then LATM; otherwise its outcome is that
of `Synchronize_ADTS` started from `Buffer_Offset = 0`; and when the tag helper finds no tag
it returns true exactly when `Mode` has become ADTS or LATM, `Mode` staying unknown when it
returns false. -/
theorem C8_Synchronize_Unknown_tries_LATM_then_ADTS (tags : TagsAnswer) (s : File_Aac)
    (hm : s.Mode = Mode_Unknown) :
    (∃ r, Synchronize tags s = some r) ∧
    (∀ r, Synchronize_LATM s = some r → r.outcome.value = true →
      Synchronize tags s = some r ∧ r.state.Mode = Mode_LATM) ∧
    (∀ r, Synchronize_LATM s = some r → r.outcome.value = false →
      Synchronize tags s = Synchronize_ADTS tags { s with Buffer_Offset := 0 }) ∧
    (tags.Tag_Found = false → ∀ r, Synchronize tags s = some r →
      (r.outcome.value = true ↔ (r.state.Mode = Mode_ADTS ∨ r.state.Mode = Mode_LATM)) ∧
      (r.outcome.value = false → r.state.Mode = Mode_Unknown)) := by
  have hS : Synchronize tags s =
      match Synchronize_LATM s with
      | none => none
      | some r =>
        if r.outcome.value = true then some r
        else Synchronize_ADTS tags { r.state with Buffer_Offset := 0 } := by
    unfold Synchronize; rw [hm]
  have hfalse : ∀ r, Synchronize_LATM s = some r → r.outcome.value = false →
      Synchronize tags s = Synchronize_ADTS tags { s with Buffer_Offset := 0 } := by
    intro r h hv
    obtain ⟨o, e⟩ := Synchronize_LATM_false s r h hv
    rw [hS, h]
    simp only [hv, Bool.false_eq_true, if_false]
    rw [e]
  have htrue : ∀ r, Synchronize_LATM s = some r → r.outcome.value = true →
      Synchronize tags s = some r := by
    intro r h hv
    rw [hS, h]
    simp only [hv, if_true]
  obtain ⟨rL, hL⟩ : ∃ r, Synchronize_LATM s = some r := by
    obtain ⟨e, o, hl, h1⟩ := Synchronize_LATM_cases s
    rcases h1 with ⟨_, h1⟩ | ⟨_, h1⟩ | ⟨_, o2, _, _, h1⟩ <;> exact ⟨_, h1⟩
  obtain ⟨rA, hA⟩ : ∃ r, Synchronize_ADTS tags { s with Buffer_Offset := 0 } = some r := by
    rcases Synchronize_ADTS_cases tags { s with Buffer_Offset := 0 } with
      ⟨_, h1⟩ | ⟨_, _, h1⟩ | ⟨_, _, e, o, hl, h1⟩
    · exact ⟨_, h1⟩
    · exact ⟨_, h1⟩
    · rcases h1 with ⟨_, h1⟩ | ⟨_, h1⟩ | ⟨_, h1⟩ <;> exact ⟨_, h1⟩
  refine ⟨?_, ?_, hfalse, ?_⟩
  · cases hv : rL.outcome.value
    · exact ⟨rA, by rw [hfalse rL hL hv, hA]⟩
    · exact ⟨rL, htrue rL hL hv⟩
  · intro r h hv
    refine ⟨htrue r h hv, ?_⟩
    rcases Synchronize_LATM_Mode s r h with ⟨_, h2⟩ | ⟨h2, _⟩
    · exact h2
    · rw [hv] at h2; cases h2
  · intro htag r h
    cases hv : rL.outcome.value
    · rw [hfalse rL hL hv] at h
      have hmode : ({ s with Buffer_Offset := 0 } : File_Aac).Mode = Mode_Unknown := hm
      rcases Synchronize_ADTS_Mode tags _ r h with ⟨h1, h2⟩ | ⟨h1, h2, h3⟩
      · rw [h1, h2]; simp [Outcome.value]
      · rw [hmode] at h2
        have hv2 : r.outcome.value = false := by
          cases hv3 : r.outcome.value
          · rfl
          · rw [h3 hv3] at htag; cases htag
        rw [h2, hv2]; simp
    · have e := htrue rL hL hv
      rw [e] at h; cases h
      rcases Synchronize_LATM_Mode s _ hL with ⟨_, h2⟩ | ⟨h2, _⟩
      · rw [h2, hv]; simp
      · rw [hv] at h2; cases h2

/-- C8 at a whole file of two ADTS frames: LATM fails, ADTS locks. -/
theorem C8_Synchronize_Unknown_tries_LATM_then_ADTS_witness :
    (Synchronize_LATM (wholeFile (frame8 ++ frame9) 0)).map (fun r => r.outcome.value)
      = some false ∧
    (Synchronize ⟨true, false⟩ (wholeFile (frame8 ++ frame9) 0)).map
      (fun r => (r.outcome.value, r.state.Mode)) = some (true, Mode_ADTS) ∧
    Synchronize ⟨true, false⟩ (wholeFile (frame8 ++ frame9) 0)
      = Synchronize_ADTS ⟨true, false⟩ { wholeFile (frame8 ++ frame9) 0 with Buffer_Offset := 0 } :=
  ⟨by decide, by decide,
   (C8_Synchronize_Unknown_tries_LATM_then_ADTS ⟨true, false⟩ (wholeFile (frame8 ++ frame9) 0)
    rfl).2.2.1 ⟨.NotSynchronized, { wholeFile (frame8 ++ frame9) 0 with Buffer_Offset := 16 }⟩
    rfl rfl⟩

/-! ## Mode lock -/

/-- C9, counterexample: in mode ADTS, on four buffered bytes that spell `ADIF`,
`FileHeader_Begin` (tag helper passing) returns true and changes `Mode` to ADIF. -/
theorem C9_FileHeader_Begin_leaves_ADTS :
    adts_on_ADIF.Mode = Mode_ADTS ∧
    (FileHeader_Begin true adts_on_ADIF).1 = true ∧
    (FileHeader_Begin true adts_on_ADIF).2.Mode = Mode_ADIF ∧
    (FileHeader_Begin true adts_on_ADIF).2.Mode ≠ adts_on_ADIF.Mode := by
  decide

/-- C9, amended: with `Mode` ADTS or LATM, `Read_Buffer_Continue`, `Synchronize`,
`Synched_Test`, `Header_Begin`, `Header_Parse` and `Data_Parse` leave `Mode` unchanged (the
tag helper and the payload decoders, whose code is in other files, being taken not to write
`Mode`); `FileHeader_Begin` leaves it unchanged too, except in mode ADTS when the tag helper
passes and the four bytes at `Buffer_Offset` are the ADIF magic, where `Mode` becomes ADIF;
and `Synchronize` is `Synchronize_ADTS` in mode ADTS and `Synchronize_LATM` in mode LATM. -/
theorem C9_Mode_lock (x : Externals) (tags : TagsAnswer) (tags_ok : Bool) (s : File_Aac)
    (hm : s.Mode = Mode_ADTS ∨ s.Mode = Mode_LATM)
    (hx1 : ∀ t, (x.Tags_Read_Buffer_Continue t).Mode = t.Mode)
    (hx2 : ∀ t, (x.adts_frame t).Mode = t.Mode)
    (hx3 : ∀ t, (x.AudioMuxElement t).Mode = t.Mode) :
    (FileHeader_Begin tags_ok s).2.Mode =
      (if s.Mode = Mode_ADTS ∧ tags_ok = true ∧ s.Buffer_Offset + 4 ≤ s.Buffer_Size
          ∧ CC4 s.Buffer s.Buffer_Offset = 0x41444946 then Mode_ADIF else s.Mode) ∧
    (Read_Buffer_Continue x s).Mode = s.Mode ∧
    (∃ r, Synchronize tags s = some r ∧ r.state.Mode = s.Mode) ∧
    (s.Mode = Mode_ADTS → Synchronize tags s = Synchronize_ADTS tags s) ∧
    (s.Mode = Mode_LATM → Synchronize tags s = Synchronize_LATM s) ∧
    (Synched_Test tags_ok s).2.Mode = s.Mode ∧
    (Header_Begin s).2.Mode = s.Mode ∧
    (Header_Parse s).Mode = s.Mode ∧
    (Data_Parse x s).Mode = s.Mode := by
  have hSA : s.Mode = Mode_ADTS → Synchronize tags s = Synchronize_ADTS tags s := by
    intro h; unfold Synchronize; rw [h]
  have hSL : s.Mode = Mode_LATM → Synchronize tags s = Synchronize_LATM s := by
    intro h; unfold Synchronize; rw [h]
  have hFS : ∀ t : File_Aac, (Data_Parse_FrameSize t).Mode = t.Mode := by
    intro t; unfold Data_Parse_FrameSize; simp only []; split_ifs <;> rfl
  have hFill : ∀ t : File_Aac, (Data_Parse_Filling x t).Mode = t.Mode := by
    intro t
    unfold Data_Parse_Filling
    simp only []
    split_ifs <;> first | rfl | (split <;> rfl)
  have hDP : ∀ t : File_Aac, (t.Mode = Mode_ADTS ∨ t.Mode = Mode_LATM) →
      (Data_Parse x t).Mode = t.Mode := by
    intro t ht
    have hm2 : (Data_Parse_FrameSize t).Mode = Mode_ADTS ∨
        (Data_Parse_FrameSize t).Mode = Mode_LATM := by rw [hFS]; exact ht
    unfold Data_Parse
    simp only []
    split_ifs
    · exact (hFS t)
    · rcases hm2 with h | h
      · rw [hFill, h]; simp only [Data_Parse_ADTS]; rw [hx2, h, ← hFS t, h]
      · rw [hFill, h]; simp only [Data_Parse_LATM]; rw [hx3, h, ← hFS t, h]
    · rcases hm2 with h | h
      · rw [h]; simp only [Data_Parse_ADTS]; rw [hx2, h, ← hFS t, h]
      · rw [h]; simp only [Data_Parse_LATM]; rw [hx3, h, ← hFS t, h]
  refine ⟨?_, ?_, ?_, hSA, hSL, ?_, ?_, ?_, hDP s hm⟩
  · rcases hm with h | h
    · unfold FileHeader_Begin
      simp only [h]
      by_cases h1 : tags_ok = false
      · simp [h1, h]
      · have h1' : tags_ok = true := by simpa using h1
        by_cases h2 : s.Buffer_Offset + 4 > s.Buffer_Size
        · simp [h1', h2, h, Nat.not_le.mpr h2]
        · by_cases h3 : CC4 s.Buffer s.Buffer_Offset = 0x41444946
          · simp [h1', h2, h3, Nat.not_lt.mp h2]
          · simp [h1', h2, h3, h]
    · unfold FileHeader_Begin
      simp [h]
  · unfold Read_Buffer_Continue
    split_ifs
    · rfl
    · rcases hm with h | h
      · rw [h]; exact (hx1 s).trans h
      · rw [h]; exact h
  · rcases hm with h | h
    · rw [hSA h]
      rcases Synchronize_ADTS_cases tags s with ⟨_, h1⟩ | ⟨_, _, h1⟩ | ⟨_, _, e, o, hl, h1⟩
      · exact ⟨_, h1, rfl⟩
      · exact ⟨_, h1, rfl⟩
      · rcases h1 with ⟨_, h1⟩ | ⟨_, h1⟩ | ⟨_, h1⟩
        · exact ⟨_, h1, rfl⟩
        · exact ⟨_, h1, h.symm⟩
        · exact ⟨_, h1, rfl⟩
    · rw [hSL h]
      obtain ⟨e, o, hl, h1⟩ := Synchronize_LATM_cases s
      rcases h1 with ⟨_, h1⟩ | ⟨_, h1⟩ | ⟨_, o2, _, _, h1⟩
      · exact ⟨_, h1, rfl⟩
      · exact ⟨_, h1, h.symm⟩
      · exact ⟨_, h1, rfl⟩
  · rcases hm with h | h
    · unfold Synched_Test; rw [h]; unfold Synched_Test_ADTS
      simp only []
      split_ifs <;> exact h
    · unfold Synched_Test; rw [h]; unfold Synched_Test_LATM
      simp only []
      split_ifs <;> exact h
  · rcases hm with h | h
    · unfold Header_Begin; rw [h]; exact h
    · unfold Header_Begin; rw [h]; exact h
  · rcases hm with h | h
    · unfold Header_Parse; rw [h]; exact h
    · unfold Header_Parse; rw [h]; exact h

/-- C9, amended, at a parser in mode ADTS on a whole file of two frames, with idle helpers. -/
theorem C9_Mode_lock_witness :
    (FileHeader_Begin true { wholeFile (frame8 ++ frame9) 0 with Mode := Mode_ADTS }).2.Mode
      = Mode_ADTS ∧
    (Data_Parse idle { wholeFile (frame8 ++ frame9) 0 with Mode := Mode_ADTS }).Mode
      = Mode_ADTS :=
  let h := C9_Mode_lock idle ⟨true, false⟩ true
    { wholeFile (frame8 ++ frame9) 0 with Mode := Mode_ADTS } (Or.inl rfl)
    (fun _ => rfl) (fun _ => rfl) (fun _ => rfl)
  ⟨h.1, h.2.2.2.2.2.2.2.2⟩

/-! ## Termination -/

/-- C10: `Synchronize_ADTS` and `Synchronize_LATM` return on every buffer and every start
offset; each pass of the outer scan loop returns (`some Returned`), breaks out (`some Broke`)
or leaves `Buffer_Offset` strictly larger (`none`); and `Buffer_Size - Buffer_Offset` passes
are enough for the loop to be left, more fuel giving the same result. -/
theorem C10_synchronizers_terminate (tags : TagsAnswer) (s : File_Aac) (o : Nat) :
    (∃ r, Synchronize_ADTS tags s = some r) ∧
    (∃ r, Synchronize_LATM s = some r) ∧
    (o + 6 ≤ s.Buffer_Size →
      ∃ e o1, Synchronize_ADTS_pass s o = some (e, o1) ∧ (e = none → o < o1)) ∧
    (o + 3 ≤ s.Buffer_Size →
      ∃ e o1, Synchronize_LATM_pass s o = some (e, o1) ∧ (e = none → o < o1)) ∧
    (∀ fuel, s.Buffer_Size - o ≤ fuel →
      (∃ r, Synchronize_ADTS_loop s fuel o = some r) ∧
      Synchronize_ADTS_loop s fuel o = Synchronize_ADTS_loop s (s.Buffer_Size - o) o) ∧
    (∀ fuel, s.Buffer_Size - o ≤ fuel →
      (∃ r, Synchronize_LATM_loop s fuel o = some r) ∧
      Synchronize_LATM_loop s fuel o = Synchronize_LATM_loop s (s.Buffer_Size - o) o) := by
  refine ⟨?_, ?_, ?_, ?_,
    fun fuel h => ⟨Synchronize_ADTS_loop_total s fuel o h,
      Synchronize_ADTS_loop_fuel_le s _ _ o h (le_refl _)⟩,
    fun fuel h => ⟨Synchronize_LATM_loop_total s fuel o h,
      Synchronize_LATM_loop_fuel_le s _ _ o h (le_refl _)⟩⟩
  · rcases Synchronize_ADTS_cases tags s with ⟨_, h1⟩ | ⟨_, _, h1⟩ | ⟨_, _, e, o, hl, h1⟩
    · exact ⟨_, h1⟩
    · exact ⟨_, h1⟩
    · rcases h1 with ⟨_, h1⟩ | ⟨_, h1⟩ | ⟨_, h1⟩ <;> exact ⟨_, h1⟩
  · obtain ⟨e, o, hl, h1⟩ := Synchronize_LATM_cases s
    rcases h1 with ⟨_, h1⟩ | ⟨_, h1⟩ | ⟨_, o2, _, _, h1⟩ <;> exact ⟨_, h1⟩
  · intro h6
    obtain ⟨p, hp1, _, hp3⟩ := Synchronize_ADTS_pass_spec s o h6
    rcases hp3 with ⟨_, _, _, d⟩ | ⟨_, _, _, d⟩ | ⟨_, _, _, d⟩ | ⟨_, b, d⟩
    · exact ⟨_, _, d, by simp⟩
    · exact ⟨_, _, d, by simp⟩
    · exact ⟨_, _, d, fun _ => by omega⟩
    · exact ⟨_, _, d, fun _ => b⟩
  · intro h6
    obtain ⟨p, hp1, _, hp3⟩ := Synchronize_LATM_pass_spec s o h6
    rcases hp3 with ⟨_, _, _, d⟩ | ⟨_, _, _, d⟩ | ⟨_, _, _, d⟩ | ⟨_, b, d⟩
    · exact ⟨_, _, d, by simp⟩
    · exact ⟨_, _, d, by simp⟩
    · exact ⟨_, _, d, fun _ => by omega⟩
    · exact ⟨_, _, d, fun _ => b⟩

/-! ## The frame length fields -/

theorem and_low_bits (a n : Nat) : a &&& (2 ^ n - 1) = a % 2 ^ n :=
  Nat.and_pow_two_sub_one_eq_mod a n

theorem or_eq_add (a b i : Nat) (hb : b < 2 ^ i) : (a * 2 ^ i) ||| b = a * 2 ^ i + b := by
  rw [Nat.mul_comm]; exact (Nat.mul_add_lt_is_or hb a).symm

/-- The 13-bit field `((b3 & 0x03) << 11) | (b4 << 3) | (b5 >> 5)` of three bytes. -/
theorem length_field_eq (b3 b4 b5 : Nat) (h4 : b4 < 256) (h5 : b5 < 256) :
    ((b3 &&& 0x03) <<< 11) ||| (b4 <<< 3) ||| (b5 >>> 5)
      = ((b3 * 65536 + b4 * 256 + b5) >>> 5) &&& 0x1FFF := by
  have e3 : b3 &&& 0x03 = b3 % 4 := and_low_bits b3 2
  have e13 : ∀ v, v &&& 0x1FFF = v % 8192 := fun v => and_low_bits v 13
  rw [e3, e13, Nat.shiftLeft_eq, Nat.shiftLeft_eq, Nat.shiftRight_eq_div_pow,
    Nat.shiftRight_eq_div_pow]
  have o1 : (b3 % 4 * 2 ^ 11) ||| (b4 * 2 ^ 3) = b3 % 4 * 2 ^ 11 + b4 * 2 ^ 3 :=
    or_eq_add _ _ 11 (by omega)
  rw [o1]
  have o2 : (b3 % 4 * 2 ^ 11 + b4 * 2 ^ 3) ||| (b5 / 2 ^ 5)
      = b3 % 4 * 2 ^ 11 + b4 * 2 ^ 3 + b5 / 2 ^ 5 := by
    have e : b3 % 4 * 2 ^ 11 + b4 * 2 ^ 3 = (b3 % 4 * 256 + b4) * 2 ^ 3 := by omega
    rw [e]
    exact or_eq_add _ _ 3 (by omega)
  rw [o2]
  omega

/-- C11: the size `Header_Parse_ADTS` fills is the 13-bit field
`((b3 & 0x03) << 11) | (b4 << 3) | (b5 >> 5)` of the bytes at `Buffer_Offset+3..+5`, it is at
most 8191, and it is the length `Synchronize_ADTS` reads for that position and the length
`Demux_UnpacketizeContainer_Test_ADTS` adds to `Buffer_Offset`. -/
theorem C11_ADTS_frame_length_field (s : File_Aac) :
    (Header_Parse_ADTS s).Header_Fill_Size
      = ((int8u_at s.Buffer (s.Buffer_Offset + 3) &&& 0x03) <<< 11)
        ||| (int8u_at s.Buffer (s.Buffer_Offset + 4) <<< 3)
        ||| (int8u_at s.Buffer (s.Buffer_Offset + 5) >>> 5) ∧
    (Header_Parse_ADTS s).Header_Fill_Size ≤ 8191 ∧
    (Header_Parse_ADTS s).Header_Fill_Size = aac_frame_length s.Buffer s.Buffer_Offset ∧
    (Demux_UnpacketizeContainer_Test_ADTS s).2.Demux_Offset
      = s.Buffer_Offset + (Header_Parse_ADTS s).Header_Fill_Size := by
  have hH : (Header_Parse_ADTS s).Header_Fill_Size
      = (CC3 s.Buffer (s.Buffer_Offset + 3) >>> 5) &&& 0x1FFF := rfl
  have hC : CC3 s.Buffer (s.Buffer_Offset + 3)
      = int8u_at s.Buffer (s.Buffer_Offset + 3) * 65536
        + int8u_at s.Buffer (s.Buffer_Offset + 4) * 256
        + int8u_at s.Buffer (s.Buffer_Offset + 5) := rfl
  refine ⟨?_, ?_, rfl, ?_⟩
  · rw [hH, hC]
    exact (length_field_eq _ _ _ (int8u_at_lt _ _) (int8u_at_lt _ _)).symm
  · rw [hH]
    have := and_low_bits (CC3 s.Buffer (s.Buffer_Offset + 3) >>> 5) 13
    norm_num at this
    omega
  · rw [hH]
    unfold Demux_UnpacketizeContainer_Test_ADTS
    simp only []
    split_ifs <;> rfl

theorem BS_Get_add (B : Nat → Nat) (k m : Nat) :
    ∀ n, BS_Get B k (m + n) = BS_Get B k m * 2 ^ n + BS_Get B (k + m) n := by
  intro n
  induction n with
  | zero => simp [BS_Get]
  | succ n ih =>
    rw [← Nat.add_assoc, BS_Get, ih, BS_Get, pow_succ, Nat.add_assoc k m n]
    ring

theorem BS_bit_in_byte (B : Nat → Nat) (j c : Nat) (hc : c < 8) :
    BS_bit B (8 * j + c) = int8u_at B j / 2 ^ (7 - c) % 2 := by
  unfold BS_bit
  rw [Nat.shiftRight_eq_div_pow]
  have e1 : (8 * j + c) / 8 = j := by omega
  have e2 : (8 * j + c) % 8 = c := by omega
  rw [e1, e2]

theorem BS_Get_in_byte (B : Nat → Nat) (j a : Nat) :
    ∀ n, a + n ≤ 8 → BS_Get B (8 * j + a) n = int8u_at B j / 2 ^ (8 - a - n) % 2 ^ n := by
  intro n
  induction n with
  | zero => intro _; simp [BS_Get, Nat.mod_one]
  | succ n ih =>
    intro h
    rw [BS_Get, ih (by omega), Nat.add_assoc, BS_bit_in_byte B j (a + n) (by omega)]
    have e1 : 8 - a - n = (7 - (a + n)) + 1 := by omega
    have e2 : 8 - a - (n + 1) = 7 - (a + n) := by omega
    rw [e1, e2, pow_succ, ← Nat.div_div_eq_div_mul, pow_succ, Nat.mul_comm (2 ^ n) 2,
      Nat.mod_mul]
    omega

/-- The 13 bits after the first 11 of a 3-byte header, most significant first. -/
theorem BS_Get_11_13 (B : Nat → Nat) (o : Nat) :
    BS_Get B (8 * o + 11) 13 = int8u_at B (o + 1) % 32 * 256 + int8u_at B (o + 2) := by
  have h := BS_Get_add B (8 * o + 11) 5 8
  have e1 : 8 * o + 11 = 8 * (o + 1) + 3 := by omega
  have e2 : 8 * o + 11 + 5 = 8 * (o + 2) + 0 := by omega
  rw [show (5 : Nat) + 8 = 13 from rfl, e2, e1, BS_Get_in_byte B (o + 1) 3 5 (by omega),
    BS_Get_in_byte B (o + 2) 0 8 (by omega)] at h
  rw [e1, h]
  have := int8u_at_lt B (o + 2)
  norm_num
  omega

/-- C12: with the bit cursor at the start of the element and three bytes buffered at
`Buffer_Offset`, `Header_Parse_LATM` (11 bits skipped, 13 bits read most significant first)
fills the size `3 + (((b1 & 0x1F) << 8) | b2)`, which is `3 + (CC2(Buffer+Buffer_Offset+1) &
0x1FFF)`, the size `Synchronize_LATM` and `Demux_UnpacketizeContainer_Test_LATM` use. -/
theorem C12_LATM_frame_size (s : File_Aac) (h0 : s.Element_Offset = 0)
    (_h3 : s.Buffer_Offset + 3 ≤ s.Buffer_Size) :
    (Header_Parse_LATM s).Header_Fill_Size
      = 3 + (((int8u_at s.Buffer (s.Buffer_Offset + 1) &&& 0x1F) <<< 8)
              ||| int8u_at s.Buffer (s.Buffer_Offset + 2)) ∧
    (Header_Parse_LATM s).Header_Fill_Size = 3 + (CC2 s.Buffer (s.Buffer_Offset + 1) &&& 0x1FFF) ∧
    (Header_Parse_LATM s).Header_Fill_Size = 3 + audioMuxLengthBytes s.Buffer s.Buffer_Offset ∧
    (Demux_UnpacketizeContainer_Test_LATM s).2.Demux_Offset
      = s.Buffer_Offset + (Header_Parse_LATM s).Header_Fill_Size := by
  have hH : (Header_Parse_LATM s).Header_Fill_Size
      = 3 + (int8u_at s.Buffer (s.Buffer_Offset + 1) % 32 * 256
              + int8u_at s.Buffer (s.Buffer_Offset + 2)) := by
    show 3 + BS_Get s.Buffer (8 * (s.Buffer_Offset + s.Element_Offset) + 11) 13 = _
    rw [h0, Nat.add_zero, BS_Get_11_13]
  have hb := int8u_at_lt s.Buffer (s.Buffer_Offset + 2)
  have hC : CC2 s.Buffer (s.Buffer_Offset + 1) &&& 0x1FFF
      = int8u_at s.Buffer (s.Buffer_Offset + 1) % 32 * 256
          + int8u_at s.Buffer (s.Buffer_Offset + 2) := by
    have e := and_low_bits (CC2 s.Buffer (s.Buffer_Offset + 1)) 13
    norm_num at e
    rw [e]
    show (int8u_at s.Buffer (s.Buffer_Offset + 1) * 256
      + int8u_at s.Buffer (s.Buffer_Offset + 2)) % 8192 = _
    omega
  refine ⟨?_, by rw [hH, hC], by rw [hH]; unfold audioMuxLengthBytes; rw [hC], ?_⟩
  · rw [hH]
    have e := and_low_bits (int8u_at s.Buffer (s.Buffer_Offset + 1)) 5
    norm_num at e
    rw [e, Nat.shiftLeft_eq, or_eq_add _ _ 8 (by omega)]
    norm_num
  · have hD : (Demux_UnpacketizeContainer_Test_LATM s).2.Demux_Offset
        = s.Buffer_Offset + 3 + (CC2 s.Buffer (s.Buffer_Offset + 1) &&& 0x1FFF) := by
      unfold Demux_UnpacketizeContainer_Test_LATM
      simp only []
      split_ifs <;> rfl
    rw [hD, hH, hC]
    omega

/-- C12 at a LATM header that holds 261 in its length field. -/
theorem C12_LATM_frame_size_witness :
    (Header_Parse_LATM (streamStart latm_header)).Header_Fill_Size = 264 ∧
    (Header_Parse_LATM (streamStart latm_header)).Header_Fill_Size
      = 3 + (CC2 (streamStart latm_header).Buffer 1 &&& 0x1FFF) :=
  ⟨by decide, (C12_LATM_frame_size (streamStart latm_header) rfl (by decide)).2.1⟩

/-! ## Frame-size statistics -/

theorem int64u_lt (n : Nat) : int64u n < 2 ^ 64 := by
  unfold int64u; exact Nat.mod_lt _ (by norm_num)

theorem Data_Parse_FrameSize_Min (s : File_Aac) :
    (Data_Parse_FrameSize s).FrameSize_Min
      = min s.FrameSize_Min (int64u (s.Header_Size + s.Element_Size)) := by
  unfold Data_Parse_FrameSize
  simp only []
  split_ifs with h1 h2 h2
  · exact (Nat.min_eq_right (Nat.le_of_lt h1)).symm
  · exact (Nat.min_eq_right (Nat.le_of_lt h1)).symm
  · exact (Nat.min_eq_left (Nat.not_lt.mp h1)).symm
  · exact (Nat.min_eq_left (Nat.not_lt.mp h1)).symm

theorem Data_Parse_FrameSize_Max (s : File_Aac) :
    (Data_Parse_FrameSize s).FrameSize_Max
      = max s.FrameSize_Max (int64u (s.Header_Size + s.Element_Size)) := by
  unfold Data_Parse_FrameSize
  simp only []
  split_ifs with h1 h2 h2
  · exact (Nat.max_eq_right (Nat.le_of_lt h2)).symm
  · exact (Nat.max_eq_left (Nat.not_lt.mp h2)).symm
  · exact (Nat.max_eq_right (Nat.le_of_lt h2)).symm
  · exact (Nat.max_eq_left (Nat.not_lt.mp h2)).symm

theorem Data_Parse_Filling_FrameSize (x : Externals) (t : File_Aac) :
    (Data_Parse_Filling x t).FrameSize_Min = t.FrameSize_Min ∧
    (Data_Parse_Filling x t).FrameSize_Max = t.FrameSize_Max := by
  unfold Data_Parse_Filling
  simp only []
  split_ifs <;> first | exact ⟨rfl, rfl⟩ | (split <;> exact ⟨rfl, rfl⟩)

/-- One call of `Data_Parse` on the statistics, whichever branch it takes. -/
theorem Data_Parse_FrameSize_step (x : Externals) (s : File_Aac)
    (hx2 : ∀ t, (x.adts_frame t).FrameSize_Min = t.FrameSize_Min
      ∧ (x.adts_frame t).FrameSize_Max = t.FrameSize_Max)
    (hx3 : ∀ t, (x.AudioMuxElement t).FrameSize_Min = t.FrameSize_Min
      ∧ (x.AudioMuxElement t).FrameSize_Max = t.FrameSize_Max) :
    (Data_Parse x s).FrameSize_Min
      = min s.FrameSize_Min (int64u (s.Header_Size + s.Element_Size)) ∧
    (Data_Parse x s).FrameSize_Max
      = max s.FrameSize_Max (int64u (s.Header_Size + s.Element_Size)) := by
  rw [← Data_Parse_FrameSize_Min, ← Data_Parse_FrameSize_Max]
  have hpay : ∀ t : File_Aac,
      (match t.Mode with
        | Mode_ADTS => Data_Parse_ADTS x t
        | Mode_LATM => Data_Parse_LATM x t
        | _ => t).FrameSize_Min = t.FrameSize_Min ∧
      (match t.Mode with
        | Mode_ADTS => Data_Parse_ADTS x t
        | Mode_LATM => Data_Parse_LATM x t
        | _ => t).FrameSize_Max = t.FrameSize_Max := by
    intro t
    split
    · exact hx2 t
    · exact hx3 t
    · exact ⟨rfl, rfl⟩
  unfold Data_Parse
  simp only []
  split_ifs
  · exact ⟨rfl, rfl⟩
  · obtain ⟨a, b⟩ := Data_Parse_Filling_FrameSize x
      (match (Data_Parse_FrameSize s).Mode with
        | Mode_ADTS => Data_Parse_ADTS x (Data_Parse_FrameSize s)
        | Mode_LATM => Data_Parse_LATM x (Data_Parse_FrameSize s)
        | _ => Data_Parse_FrameSize s)
    obtain ⟨c, d⟩ := hpay (Data_Parse_FrameSize s)
    exact ⟨a.trans c, b.trans d⟩
  · exact hpay (Data_Parse_FrameSize s)

theorem Data_Parse_run_FrameSize (x : Externals)
    (hx2 : ∀ t, (x.adts_frame t).FrameSize_Min = t.FrameSize_Min
      ∧ (x.adts_frame t).FrameSize_Max = t.FrameSize_Max)
    (hx3 : ∀ t, (x.AudioMuxElement t).FrameSize_Min = t.FrameSize_Min
      ∧ (x.AudioMuxElement t).FrameSize_Max = t.FrameSize_Max) :
    ∀ (calls : List (File_Aac → File_Aac)) (s : File_Aac),
      (∀ f ∈ calls, ∀ t, (f t).FrameSize_Min = t.FrameSize_Min
        ∧ (f t).FrameSize_Max = t.FrameSize_Max) →
      ((Data_Parse_run x calls s).FrameSize_Min = s.FrameSize_Min
          ∨ (Data_Parse_run x calls s).FrameSize_Min ∈ Data_Parse_sizes x calls s) ∧
      (Data_Parse_run x calls s).FrameSize_Min ≤ s.FrameSize_Min ∧
      (∀ z ∈ Data_Parse_sizes x calls s, (Data_Parse_run x calls s).FrameSize_Min ≤ z) ∧
      ((Data_Parse_run x calls s).FrameSize_Max = s.FrameSize_Max
          ∨ (Data_Parse_run x calls s).FrameSize_Max ∈ Data_Parse_sizes x calls s) ∧
      s.FrameSize_Max ≤ (Data_Parse_run x calls s).FrameSize_Max ∧
      (∀ z ∈ Data_Parse_sizes x calls s, z ≤ (Data_Parse_run x calls s).FrameSize_Max) := by
  intro calls
  induction calls with
  | nil =>
    intro s _
    simp [Data_Parse_run, Data_Parse_sizes]
  | cons f fs ih =>
    intro s hf
    obtain ⟨m1, m2⟩ := hf f (List.mem_cons_self _ _) s
    obtain ⟨p1, p2⟩ := Data_Parse_FrameSize_step x (f s) hx2 hx3
    obtain ⟨i1, i2, i3, i4, i5, i6⟩ := ih (Data_Parse x (f s))
      (fun g hg => hf g (List.mem_cons_of_mem _ hg))
    rw [p1, m1] at i1 i2
    rw [p2, m2] at i4 i5
    simp only [Data_Parse_run, Data_Parse_sizes, List.mem_cons, forall_eq_or_imp]
    refine ⟨?_, ?_, ⟨?_, i3⟩, ?_, ?_, ⟨?_, i6⟩⟩
    · rcases i1 with h | h
      · rcases Nat.le_total s.FrameSize_Min (int64u ((f s).Header_Size + (f s).Element_Size))
          with c | c
        · left; rw [h, Nat.min_eq_left c]
        · right; left; rw [h, Nat.min_eq_right c]
      · right; right; exact h
    · exact le_trans i2 (Nat.min_le_left _ _)
    · exact le_trans i2 (Nat.min_le_right _ _)
    · rcases i4 with h | h
      · rcases Nat.le_total s.FrameSize_Max (int64u ((f s).Header_Size + (f s).Element_Size))
          with c | c
        · right; left; rw [h, Nat.max_eq_right c]
        · left; rw [h, Nat.max_eq_left c]
      · right; right; exact h
    · exact le_trans (Nat.le_max_left _ _) i5
    · exact le_trans (Nat.le_max_right _ _) i5

/-- C13: from the constructor state (`FrameSize_Min` all ones, `FrameSize_Max` 0), after any
sequence of `n ≥ 1` `Data_Parse` calls, `FrameSize_Min` is the least and `FrameSize_Max` the
greatest of the frame sizes `Header_Size+Element_Size` the calls saw, so
`FrameSize_Min ≤ FrameSize_Max`, whichever branch each call took.  The framework between the
calls and the payload decoders are taken not to write the two members. -/
theorem C13_FrameSize_Min_Max (x : Externals) (calls : List (File_Aac → File_Aac))
    (s : File_Aac) (hn : 1 ≤ calls.length)
    (hmin : s.FrameSize_Min = 2 ^ 64 - 1) (hmax : s.FrameSize_Max = 0)
    (hcalls : ∀ f ∈ calls, ∀ t, (f t).FrameSize_Min = t.FrameSize_Min
        ∧ (f t).FrameSize_Max = t.FrameSize_Max)
    (hx2 : ∀ t, (x.adts_frame t).FrameSize_Min = t.FrameSize_Min
      ∧ (x.adts_frame t).FrameSize_Max = t.FrameSize_Max)
    (hx3 : ∀ t, (x.AudioMuxElement t).FrameSize_Min = t.FrameSize_Min
      ∧ (x.AudioMuxElement t).FrameSize_Max = t.FrameSize_Max) :
    (Data_Parse_sizes x calls s).length = calls.length ∧
    (Data_Parse_run x calls s).FrameSize_Min ∈ Data_Parse_sizes x calls s ∧
    (∀ z ∈ Data_Parse_sizes x calls s, (Data_Parse_run x calls s).FrameSize_Min ≤ z) ∧
    (Data_Parse_run x calls s).FrameSize_Max ∈ Data_Parse_sizes x calls s ∧
    (∀ z ∈ Data_Parse_sizes x calls s, z ≤ (Data_Parse_run x calls s).FrameSize_Max) ∧
    (Data_Parse_run x calls s).FrameSize_Min ≤ (Data_Parse_run x calls s).FrameSize_Max := by
  have hlen : ∀ (cs : List (File_Aac → File_Aac)) (t : File_Aac),
      (Data_Parse_sizes x cs t).length = cs.length := by
    intro cs
    induction cs with
    | nil => intro t; rfl
    | cons f fs ih => intro t; simp [Data_Parse_sizes, ih]
  obtain ⟨i1, i2, i3, i4, i5, i6⟩ := Data_Parse_run_FrameSize x hx2 hx3 calls s hcalls
  cases calls with
  | nil => simp at hn
  | cons f fs =>
    have hz : int64u ((f s).Header_Size + (f s).Element_Size)
        ∈ Data_Parse_sizes x (f :: fs) s := by
      simp [Data_Parse_sizes]
    have hzlt := int64u_lt ((f s).Header_Size + (f s).Element_Size)
    have a1 := i3 _ hz
    have a2 := i6 _ hz
    have hminmem : (Data_Parse_run x (f :: fs) s).FrameSize_Min
        ∈ Data_Parse_sizes x (f :: fs) s := by
      rcases i1 with h | h
      · have e : (Data_Parse_run x (f :: fs) s).FrameSize_Min
            = int64u ((f s).Header_Size + (f s).Element_Size) := by
          rw [h, hmin] at a1 ⊢; omega
        rw [e]; exact hz
      · exact h
    have hmaxmem : (Data_Parse_run x (f :: fs) s).FrameSize_Max
        ∈ Data_Parse_sizes x (f :: fs) s := by
      rcases i4 with h | h
      · have e : (Data_Parse_run x (f :: fs) s).FrameSize_Max
            = int64u ((f s).Header_Size + (f s).Element_Size) := by
          rw [h, hmax] at a2 ⊢; omega
        rw [e]; exact hz
      · exact h
    exact ⟨hlen _ _, hminmem, i3, hmaxmem, i6, i6 _ hminmem⟩

/-- C13 at three frames of 100, 200 and 7 bytes, the last two of which are skipped or
parsed as `Frame_Count_Valid` decides. -/
theorem C13_FrameSize_Min_Max_witness :
    Data_Parse_sizes idle [element 100, element 200, element 7] (streamStart []) = [100, 200, 7] ∧
    (Data_Parse_run idle [element 100, element 200, element 7] (streamStart [])).FrameSize_Min
      = 7 ∧
    (Data_Parse_run idle [element 100, element 200, element 7] (streamStart [])).FrameSize_Max
      = 200 ∧
    (Data_Parse_run idle [element 100, element 200, element 7] (streamStart [])).FrameSize_Min
      ≤ (Data_Parse_run idle [element 100, element 200, element 7]
          (streamStart [])).FrameSize_Max :=
  ⟨by decide, by decide, by decide,
   (C13_FrameSize_Min_Max idle [element 100, element 200, element 7] (streamStart [])
    (by decide) rfl rfl
    (by
      intro f hf t
      simp only [List.mem_cons, List.mem_singleton, List.not_mem_nil, or_false] at hf
      rcases hf with h | h | h <;> subst h <;> exact ⟨rfl, rfl⟩)
    (fun _ => ⟨rfl, rfl⟩) (fun _ => ⟨rfl, rfl⟩)).2.2.2.2.2⟩

/-! ## Bit rate mode -/

/-- C14, counterexample: after frames of 100, 101, 100 and 101 bytes, with
`Config->ParseSpeed` below 1.0, `FrameSize_Max` is not above 1.02 times `FrameSize_Min` and
`Streams_Finish` fills no bit rate mode at all. -/
theorem C14_CBR_not_filled_below_ParseSpeed_1 :
    (Data_Parse_run idle [element 100, element 101, element 100, element 101]
      (streamStart [])).FrameSize_Min = 100 ∧
    (Data_Parse_run idle [element 100, element 101, element 100, element 101]
      (streamStart [])).FrameSize_Max = 101 ∧
    ¬ (101 * 50 > 100 * 51) ∧
    idle.ParseSpeed_lt_1 = true ∧
    Streams_Finish idle (Data_Parse_run idle
      [element 100, element 101, element 100, element 101] (streamStart [])) = none ∧
    Streams_Finish idle (Data_Parse_run idle
      [element 100, element 101, element 100, element 101] (streamStart [])) ≠ some .CBR := by
  decide

/-- C14, amended: when `FrameSize_Max` is not 0 and `FrameSize_Min` is not `(int32u)-1`,
`Streams_Finish` fills VBR when `FrameSize_Max > 1.02 × FrameSize_Min`; otherwise it fills CBR
when `Config->ParseSpeed >= 1.0` and nothing below that speed.  When `FrameSize_Max` is 0 or
`FrameSize_Min` is `(int32u)-1` it fills nothing.  Frame sizes alternating between 100 and
101 give CBR at `ParseSpeed >= 1.0`; sizes 100 and 200 give VBR. -/
theorem C14_Streams_Finish_BitRate_Mode (x : Externals) (s : File_Aac) :
    (s.FrameSize_Min ≠ 2 ^ 32 - 1 → s.FrameSize_Max ≠ 0 →
      (s.FrameSize_Max * 50 > s.FrameSize_Min * 51 → Streams_Finish x s = some .VBR) ∧
      (¬ s.FrameSize_Max * 50 > s.FrameSize_Min * 51 → x.ParseSpeed_lt_1 = false →
        Streams_Finish x s = some .CBR) ∧
      (¬ s.FrameSize_Max * 50 > s.FrameSize_Min * 51 → x.ParseSpeed_lt_1 = true →
        Streams_Finish x s = none)) ∧
    (s.FrameSize_Min = 2 ^ 32 - 1 ∨ s.FrameSize_Max = 0 → Streams_Finish x s = none) ∧
    Streams_Finish idle_full (Data_Parse_run idle_full
      [element 100, element 101, element 100, element 101] (streamStart [])) = some .CBR ∧
    Streams_Finish idle_full (Data_Parse_run idle_full
      [element 100, element 200] (streamStart [])) = some .VBR ∧
    Streams_Finish idle (Data_Parse_run idle
      [element 100, element 200] (streamStart [])) = some .VBR := by
  refine ⟨fun h1 h2 => ⟨fun h => ?_, fun h hp => ?_, fun h hp => ?_⟩, fun h => ?_,
    by decide, by decide, by decide⟩
  · unfold Streams_Finish; rw [if_pos ⟨h1, h2⟩, if_pos h]
  · unfold Streams_Finish; rw [if_pos ⟨h1, h2⟩, if_neg h, if_pos hp]
  · unfold Streams_Finish; rw [if_pos ⟨h1, h2⟩, if_neg h, if_neg (by simp [hp])]
  · unfold Streams_Finish
    rw [if_neg]
    rintro ⟨a, b⟩
    rcases h with h | h
    · exact a h
    · exact b h

/-- C14, amended, at a parser whose statistics are 100 and 101. -/
theorem C14_Streams_Finish_BitRate_Mode_witness :
    Streams_Finish idle_full
      { streamStart [] with FrameSize_Min := 100, FrameSize_Max := 101 } = some .CBR ∧
    Streams_Finish idle
      { streamStart [] with FrameSize_Min := 100, FrameSize_Max := 101 } = none :=
  ⟨((C14_Streams_Finish_BitRate_Mode idle_full
      { streamStart [] with FrameSize_Min := 100, FrameSize_Max := 101 }).1
      (by decide) (by decide)).2.1 (by decide) rfl,
   ((C14_Streams_Finish_BitRate_Mode idle
      { streamStart [] with FrameSize_Min := 100, FrameSize_Max := 101 }).1
      (by decide) (by decide)).2.2 (by decide) rfl⟩

/-! ## Time stamps -/

/-- C15, counterexample: with `DTS` at `(int64u)-1`, 1024 samples at 44100 Hz, a skipped
frame leaves `DTS` at 23219954, below its value before: the 64-bit sum wrapped. -/
theorem C15_DTS_wraps :
    (skipping (2 ^ 64 - 1)).DTS = 2 ^ 64 - 1 ∧
    rounding.DTS_step 1024 44100 = 23219955 ∧
    (Data_Parse rounding (skipping (2 ^ 64 - 1))).DTS = 23219954 ∧
    (Data_Parse rounding (skipping (2 ^ 64 - 1))).DTS < (skipping (2 ^ 64 - 1)).DTS := by
  decide

/-- C15, amended: for a frame whose payload `Data_Parse` skips, with `sampling_frequency > 0`,
`FrameInfo.DTS` becomes `DTS + step` modulo `2 ^ 64`, where `step` is the integer nearest to
`frame_length * 1000000000 / sampling_frequency` (23219955 for 1024 samples at 44100 Hz), and
`FrameInfo.PTS` is set to the new `DTS`; as long as `DTS + step` stays below `2 ^ 64` the time
stamp does not decrease. -/
theorem C15_DTS_advance (x : Externals) (s : File_Aac)
    (hx : ∀ fl sf, x.DTS_step fl sf = float64_int64s_ratio (fl * 1000000000) sf)
    (hskip : s.Frame_Count > s.Frame_Count_Valid ∨ s.CanFill = true)
    (hsf : 0 < s.sampling_frequency) :
    (Data_Parse x s).DTS
      = int64u (s.DTS + float64_int64s_ratio (s.frame_length * 1000000000)
          s.sampling_frequency) ∧
    (Data_Parse x s).PTS = (Data_Parse x s).DTS ∧
    2 * s.sampling_frequency
        * float64_int64s_ratio (s.frame_length * 1000000000) s.sampling_frequency
      ≤ 2 * (s.frame_length * 1000000000) + s.sampling_frequency ∧
    2 * (s.frame_length * 1000000000) + s.sampling_frequency
      < 2 * s.sampling_frequency
          * float64_int64s_ratio (s.frame_length * 1000000000) s.sampling_frequency
        + 2 * s.sampling_frequency ∧
    float64_int64s_ratio (1024 * 1000000000) 44100 = 23219955 ∧
    (s.DTS + float64_int64s_ratio (s.frame_length * 1000000000) s.sampling_frequency < 2 ^ 64 →
      (Data_Parse x s).DTS
          = s.DTS + float64_int64s_ratio (s.frame_length * 1000000000) s.sampling_frequency
        ∧ s.DTS ≤ (Data_Parse x s).DTS) := by
  have hD : Data_Parse x s = Data_Parse_Skip x (Data_Parse_FrameSize s) := by
    have hc : (Data_Parse_FrameSize s).Frame_Count > (Data_Parse_FrameSize s).Frame_Count_Valid
        ∨ (Data_Parse_FrameSize s).CanFill = true := by
      have e1 : (Data_Parse_FrameSize s).Frame_Count = s.Frame_Count := by
        unfold Data_Parse_FrameSize; simp only []; split_ifs <;> rfl
      have e2 : (Data_Parse_FrameSize s).Frame_Count_Valid = s.Frame_Count_Valid := by
        unfold Data_Parse_FrameSize; simp only []; split_ifs <;> rfl
      have e3 : (Data_Parse_FrameSize s).CanFill = s.CanFill := by
        unfold Data_Parse_FrameSize; simp only []; split_ifs <;> rfl
      rw [e1, e2, e3]; exact hskip
    unfold Data_Parse
    simp only []
    rw [if_pos hc]
  have hDTS : (Data_Parse x s).DTS
      = int64u (s.DTS + float64_int64s_ratio (s.frame_length * 1000000000)
          s.sampling_frequency) := by
    rw [hD]
    have e1 : (Data_Parse_FrameSize s).DTS = s.DTS := by
      unfold Data_Parse_FrameSize; simp only []; split_ifs <;> rfl
    have e2 : (Data_Parse_FrameSize s).frame_length = s.frame_length := by
      unfold Data_Parse_FrameSize; simp only []; split_ifs <;> rfl
    have e3 : (Data_Parse_FrameSize s).sampling_frequency = s.sampling_frequency := by
      unfold Data_Parse_FrameSize; simp only []; split_ifs <;> rfl
    show int64u ((Data_Parse_FrameSize s).DTS
      + x.DTS_step (Data_Parse_FrameSize s).frame_length
          (Data_Parse_FrameSize s).sampling_frequency) = _
    rw [hx, e1, e2, e3]
  have hdiv := Nat.div_add_mod (2 * (s.frame_length * 1000000000) + s.sampling_frequency)
    (2 * s.sampling_frequency)
  have hmod := Nat.mod_lt (2 * (s.frame_length * 1000000000) + s.sampling_frequency)
    (show 0 < 2 * s.sampling_frequency by omega)
  refine ⟨hDTS, by rw [hD]; rfl, ?_, ?_, by decide, fun hlt => ?_⟩
  · unfold float64_int64s_ratio; omega
  · unfold float64_int64s_ratio; omega
  · have e : (Data_Parse x s).DTS
        = s.DTS + float64_int64s_ratio (s.frame_length * 1000000000) s.sampling_frequency := by
      rw [hDTS]; unfold int64u; exact Nat.mod_eq_of_lt hlt
    exact ⟨e, by rw [e]; exact Nat.le_add_right _ _⟩

/-- C15, amended, at a parser whose `DTS` is 0: one skipped frame of 1024 samples at 44100 Hz
moves `DTS` and `PTS` to 23219955. -/
theorem C15_DTS_advance_witness :
    (Data_Parse rounding (skipping 0)).DTS = 23219955 ∧
    (Data_Parse rounding (skipping 0)).PTS = (Data_Parse rounding (skipping 0)).DTS ∧
    (skipping 0).DTS ≤ (Data_Parse rounding (skipping 0)).DTS :=
  let h := C15_DTS_advance rounding (skipping 0) (fun _ _ => rfl) (Or.inr rfl) (by decide)
  ⟨(h.2.2.2.2.2 (by decide)).1, h.2.1, (h.2.2.2.2.2 (by decide)).2⟩

/-! ## Raw configuration mode -/

theorem Data_Parse_Skip_Mode (x : Externals) (t : File_Aac) :
    (Data_Parse_Skip x t).Mode = t.Mode := rfl

theorem Data_Parse_Filling_Mode (x : Externals) (t : File_Aac) :
    (Data_Parse_Filling x t).Mode = t.Mode := by
  unfold Data_Parse_Filling
  simp only []
  split_ifs <;> first | rfl | (split <;> rfl)

theorem Operation_apply_raw_data_block (x : Externals)
    (hx : ∀ t, (x.raw_data_block t).Mode = t.Mode) (op : Operation) (s : File_Aac)
    (hm : s.Mode = Mode_raw_data_block) :
    (Operation.apply x op s).Mode = Mode_raw_data_block := by
  have hFS : ∀ t : File_Aac, (Data_Parse_FrameSize t).Mode = t.Mode := by
    intro t; unfold Data_Parse_FrameSize; simp only []; split_ifs <;> rfl
  cases op with
  | FileHeader_Begin tags_ok =>
    show (FileHeader_Begin tags_ok s).2.Mode = _
    unfold FileHeader_Begin
    simp [hm]
  | Read_Buffer_Continue =>
    show (Read_Buffer_Continue x s).Mode = _
    unfold Read_Buffer_Continue
    split_ifs
    · exact hm
    · rw [hm]
      show (Read_Buffer_Continue_raw_data_block x s).Mode = _
      unfold Read_Buffer_Continue_raw_data_block Skip_XX
      simp only []
      split_ifs <;> first | exact hm | exact (hx s).trans hm
  | Synchronize tags =>
    show (match Synchronize tags s with
      | some r => r.state
      | none => s).Mode = _
    unfold Synchronize
    rw [hm]
    exact hm
  | Synched_Test tags_ok =>
    show (Synched_Test tags_ok s).2.Mode = _
    unfold Synched_Test; rw [hm]; exact hm
  | Header_Begin =>
    show (Header_Begin s).2.Mode = _
    unfold Header_Begin; rw [hm]; exact hm
  | Header_Parse =>
    show (Header_Parse s).Mode = _
    unfold Header_Parse; rw [hm]; exact hm
  | Data_Parse =>
    show (Data_Parse x s).Mode = _
    have h1 : (Data_Parse_FrameSize s).Mode = Mode_raw_data_block := (hFS s).trans hm
    unfold Data_Parse
    simp only []
    generalize Data_Parse_FrameSize s = t at h1 ⊢
    split_ifs
    · exact (Data_Parse_Skip_Mode x t).trans h1
    · rw [h1]
      exact (Data_Parse_Filling_Mode x t).trans h1
    · rw [h1]; exact h1

/-- C16: in `Mode_AudioSpecificConfig`, `Read_Buffer_Continue` with a non-empty element sets
`Mode` to `Mode_raw_data_block`; in `Mode_raw_data_block` each operation of the parser
leaves `Mode` unchanged (`raw_data_block`, whose code is in another file, being taken not to
write it), so every sequence of operations does, and the parser never comes back to
`Mode_AudioSpecificConfig`. -/
theorem C16_raw_config_mode (x : Externals) (s : File_Aac)
    (hx : ∀ t, (x.raw_data_block t).Mode = t.Mode) :
    (s.Mode = Mode_AudioSpecificConfig → s.Element_Size ≠ 0 →
      (Read_Buffer_Continue x s).Mode = Mode_raw_data_block) ∧
    (s.Mode = Mode_raw_data_block →
      (∀ op, (Operation.apply x op s).Mode = Mode_raw_data_block) ∧
      (∀ ops, (Operation.run x ops s).Mode = Mode_raw_data_block)) ∧
    (s.Mode = Mode_AudioSpecificConfig → s.Element_Size ≠ 0 →
      ∀ ops, (Operation.run x (.Read_Buffer_Continue :: ops) s).Mode = Mode_raw_data_block) := by
  have hrun : ∀ ops (t : File_Aac), t.Mode = Mode_raw_data_block →
      (Operation.run x ops t).Mode = Mode_raw_data_block := by
    intro ops
    induction ops with
    | nil => intro t ht; exact ht
    | cons op ops ih =>
      intro t ht
      exact ih _ (Operation_apply_raw_data_block x hx op t ht)
  have hfirst : s.Mode = Mode_AudioSpecificConfig → s.Element_Size ≠ 0 →
      (Read_Buffer_Continue x s).Mode = Mode_raw_data_block := by
    intro hm he
    unfold Read_Buffer_Continue
    rw [if_neg he, hm]
    rfl
  exact ⟨hfirst,
    fun hm => ⟨fun op => Operation_apply_raw_data_block x hx op s hm, fun ops => hrun ops s hm⟩,
    fun hm he ops => hrun ops _ (hfirst hm he)⟩

/-- C16 at a parser in `Mode_AudioSpecificConfig` with a 2-byte element, followed by a
second `Read_Buffer_Continue`, a `Synchronize` and a `Data_Parse`. -/
theorem C16_raw_config_mode_witness :
    raw_config.Mode = Mode_AudioSpecificConfig ∧
    (Read_Buffer_Continue idle raw_config).Mode = Mode_raw_data_block ∧
    (Operation.run idle
      [.Read_Buffer_Continue, .Read_Buffer_Continue, .Synchronize ⟨true, false⟩, .Data_Parse]
      raw_config).Mode = Mode_raw_data_block :=
  let h := C16_raw_config_mode idle raw_config (fun _ => rfl)
  ⟨rfl, h.1 rfl (by decide), h.2.2 rfl (by decide) _⟩

/-! ## ADIF detection -/

/-- C17, counterexample: in mode ADIF with `MustSynchronize` set, on four buffered zero bytes
(no ADIF magic) `FileHeader_Begin` returns true and leaves `Mode` ADIF and `MustSynchronize`
false: the flag is cleared although the magic is absent. -/
theorem C17_MustSynchronize_cleared_without_magic :
    adif_without_magic.Mode = Mode_ADIF ∧
    adif_without_magic.MustSynchronize = true ∧
    adif_without_magic.Buffer_Offset + 4 ≤ adif_without_magic.Buffer_Size ∧
    CC4 adif_without_magic.Buffer adif_without_magic.Buffer_Offset ≠ 0x41444946 ∧
    (FileHeader_Begin true adif_without_magic).1 = true ∧
    (FileHeader_Begin true adif_without_magic).2.Mode = Mode_ADIF ∧
    (FileHeader_Begin true adif_without_magic).2.MustSynchronize = false := by
  decide

/-- C17, amended: for `Mode` in {Unknown, ADIF, ADTS} with the tag helper passing,
`FileHeader_Begin` returns false and leaves `Mode` unchanged when fewer than 4 bytes are
buffered at `Buffer_Offset`; otherwise it returns true, with `Mode` ADIF and `MustSynchronize`
false when the 4 bytes are the magic 0x41444946, and with `Mode` unchanged when they are not,
`MustSynchronize` being then cleared in mode ADIF and unchanged in modes Unknown and ADTS.
For every other `Mode` it returns true whatever the tag helper and the buffer hold, the
parser being unchanged except for `MustSynchronize`, cleared in mode AudioSpecificConfig. -/
theorem C17_FileHeader_Begin_ADIF (s : File_Aac) :
    (s.Mode = Mode_Unknown ∨ s.Mode = Mode_ADIF ∨ s.Mode = Mode_ADTS →
      (s.Buffer_Offset + 4 > s.Buffer_Size →
        (FileHeader_Begin true s).1 = false ∧ (FileHeader_Begin true s).2.Mode = s.Mode) ∧
      (s.Buffer_Offset + 4 ≤ s.Buffer_Size →
        (FileHeader_Begin true s).1 = true ∧
        (CC4 s.Buffer s.Buffer_Offset = 0x41444946 →
          (FileHeader_Begin true s).2.Mode = Mode_ADIF ∧
          (FileHeader_Begin true s).2.MustSynchronize = false) ∧
        (CC4 s.Buffer s.Buffer_Offset ≠ 0x41444946 →
          (FileHeader_Begin true s).2.Mode = s.Mode ∧
          (FileHeader_Begin true s).2.MustSynchronize
            = (if s.Mode = Mode_ADIF then false else s.MustSynchronize)))) ∧
    (s.Mode = Mode_AudioSpecificConfig ∨ s.Mode = Mode_raw_data_block ∨ s.Mode = Mode_LATM →
      ∀ tags_ok B n, FileHeader_Begin tags_ok { s with Buffer := B, Buffer_Size := n }
        = (true, { s with Buffer := B, Buffer_Size := n,
                          MustSynchronize := if s.Mode = Mode_AudioSpecificConfig then false
                                             else s.MustSynchronize })) := by
  constructor
  · intro hm
    constructor
    · intro h4
      rcases hm with hm | hm | hm <;>
        simp [FileHeader_Begin, hm, h4]
    · intro h4
      have h4n : ¬ s.Buffer_Size < s.Buffer_Offset + 4 := by omega
      refine ⟨?_, ?_, ?_⟩
      · rcases hm with hm | hm | hm <;>
          (by_cases hc : CC4 s.Buffer s.Buffer_Offset = 0x41444946 <;>
            simp [FileHeader_Begin, hm, h4n, hc])
      · intro hc
        rcases hm with hm | hm | hm <;>
          simp [FileHeader_Begin, hm, h4n, hc]
      · intro hc
        rcases hm with hm | hm | hm <;>
          simp [FileHeader_Begin, hm, h4n, hc]
  · intro hm tags_ok B n
    rcases hm with hm | hm | hm <;>
      simp [FileHeader_Begin, hm]

/-- C17, amended, at four buffered bytes that spell `ADIF` in mode ADTS and at the four zero
bytes of the counterexample. -/
theorem C17_FileHeader_Begin_ADIF_witness :
    ((FileHeader_Begin true adts_on_ADIF).1 = true ∧
      (FileHeader_Begin true adts_on_ADIF).2.Mode = Mode_ADIF ∧
      (FileHeader_Begin true adts_on_ADIF).2.MustSynchronize = false) ∧
    (FileHeader_Begin true adif_without_magic).2.MustSynchronize = false :=
  ⟨⟨(((C17_FileHeader_Begin_ADIF adts_on_ADIF).1 (Or.inr (Or.inr rfl))).2 (by decide)).1,
    (((C17_FileHeader_Begin_ADIF adts_on_ADIF).1 (Or.inr (Or.inr rfl))).2 (by decide)).2.1
      (by decide)⟩,
   ((((C17_FileHeader_Begin_ADIF adif_without_magic).1 (Or.inr (Or.inl rfl))).2
      (by decide)).2.2 (by decide)).2⟩

/-! ## Frames longer than the buffered bytes -/

/-- C18, counterexample: a file of 7 bytes whose header declares 8: the declared length
exceeds the buffered bytes, the buffer ends where the file ends, and
`Demux_UnpacketizeContainer_Test_ADTS` returns true and emits the byte range 0..8. -/
theorem C18_cut_file_emits_frame :
    cut_file.Buffer_Size = 7 ∧
    aac_frame_length cut_file.Buffer cut_file.Buffer_Offset = 8 ∧
    cut_file.Buffer_Offset + aac_frame_length cut_file.Buffer cut_file.Buffer_Offset
      > cut_file.Buffer_Size ∧
    cut_file.Demux_Frames = [] ∧
    (Demux_UnpacketizeContainer_Test_ADTS cut_file).1 = true ∧
    (Demux_UnpacketizeContainer_Test_ADTS cut_file).2.Demux_Frames = [(0, 8)] := by
  decide

/-- C18, amended: when the declared frame length (the 13-bit ADTS length, or
3 + audioMuxLengthBytes for LATM) added to `Buffer_Offset` exceeds `Buffer_Size` and the
buffer does not end at the end of the file (`File_Offset+Buffer_Size != File_Size` in
64 bits), `Demux_UnpacketizeContainer_Test_ADTS` / `_LATM` returns false and emits no frame;
when the buffer ends at the end of the file it returns true and emits the byte range from
`Buffer_Offset` to `Buffer_Offset` + frame length. -/
theorem C18_Demux_need_more_data (s : File_Aac) :
    (s.Buffer_Offset + aac_frame_length s.Buffer s.Buffer_Offset > s.Buffer_Size →
      (int64u (s.File_Offset + s.Buffer_Size) ≠ int64u s.File_Size →
        (Demux_UnpacketizeContainer_Test_ADTS s).1 = false ∧
        (Demux_UnpacketizeContainer_Test_ADTS s).2.Demux_Frames = s.Demux_Frames) ∧
      (int64u (s.File_Offset + s.Buffer_Size) = int64u s.File_Size →
        (Demux_UnpacketizeContainer_Test_ADTS s).1 = true ∧
        (Demux_UnpacketizeContainer_Test_ADTS s).2.Demux_Frames = s.Demux_Frames ++
          [(s.Buffer_Offset, s.Buffer_Offset + aac_frame_length s.Buffer s.Buffer_Offset)])) ∧
    (s.Buffer_Offset + (3 + audioMuxLengthBytes s.Buffer s.Buffer_Offset) > s.Buffer_Size →
      (int64u (s.File_Offset + s.Buffer_Size) ≠ int64u s.File_Size →
        (Demux_UnpacketizeContainer_Test_LATM s).1 = false ∧
        (Demux_UnpacketizeContainer_Test_LATM s).2.Demux_Frames = s.Demux_Frames) ∧
      (int64u (s.File_Offset + s.Buffer_Size) = int64u s.File_Size →
        (Demux_UnpacketizeContainer_Test_LATM s).1 = true ∧
        (Demux_UnpacketizeContainer_Test_LATM s).2.Demux_Frames = s.Demux_Frames ++
          [(s.Buffer_Offset,
            s.Buffer_Offset + 3 + audioMuxLengthBytes s.Buffer s.Buffer_Offset)])) := by
  refine ⟨fun hL => ⟨fun hf => ?_, fun hf => ?_⟩, fun hL => ⟨fun hf => ?_, fun hf => ?_⟩⟩
  · have hc : s.Buffer_Offset + ((CC3 s.Buffer (s.Buffer_Offset + 3) >>> 5) &&& 0x1FFF)
        > s.Buffer_Size ∧ int64u (s.File_Offset + s.Buffer_Size) ≠ int64u s.File_Size :=
      ⟨hL, hf⟩
    unfold Demux_UnpacketizeContainer_Test_ADTS
    simp only []
    rw [if_pos hc]
    exact ⟨rfl, rfl⟩
  · have hc : ¬ (s.Buffer_Offset + ((CC3 s.Buffer (s.Buffer_Offset + 3) >>> 5) &&& 0x1FFF)
        > s.Buffer_Size ∧ int64u (s.File_Offset + s.Buffer_Size) ≠ int64u s.File_Size) :=
      fun h => h.2 hf
    unfold Demux_UnpacketizeContainer_Test_ADTS
    simp only []
    rw [if_neg hc]
    exact ⟨rfl, rfl⟩
  · have hc : s.Buffer_Offset + 3 + (CC2 s.Buffer (s.Buffer_Offset + 1) &&& 0x1FFF)
        > s.Buffer_Size ∧ int64u (s.File_Offset + s.Buffer_Size) ≠ int64u s.File_Size :=
      ⟨by unfold audioMuxLengthBytes at hL; omega, hf⟩
    unfold Demux_UnpacketizeContainer_Test_LATM
    simp only []
    rw [if_pos hc]
    exact ⟨rfl, rfl⟩
  · have hc : ¬ (s.Buffer_Offset + 3 + (CC2 s.Buffer (s.Buffer_Offset + 1) &&& 0x1FFF)
        > s.Buffer_Size ∧ int64u (s.File_Offset + s.Buffer_Size) ≠ int64u s.File_Size) :=
      fun h => h.2 hf
    unfold Demux_UnpacketizeContainer_Test_LATM
    simp only []
    rw [if_neg hc]
    exact ⟨rfl, rfl⟩

/-- C18, amended, at the first 7 bytes of an 8-byte frame in a stream of unknown size, and at
the 7-byte file of the counterexample. -/
theorem C18_Demux_need_more_data_witness :
    ((Demux_UnpacketizeContainer_Test_ADTS cut_stream).1 = false ∧
      (Demux_UnpacketizeContainer_Test_ADTS cut_stream).2.Demux_Frames = []) ∧
    ((Demux_UnpacketizeContainer_Test_ADTS cut_file).1 = true ∧
      (Demux_UnpacketizeContainer_Test_ADTS cut_file).2.Demux_Frames = [] ++ [(0, 0 + 8)]) :=
  ⟨((C18_Demux_need_more_data cut_stream).1 (by decide)).1 (by decide),
   ((C18_Demux_need_more_data cut_file).1 (by decide)).2 (by decide)⟩

/-! ## Sync re-validation -/

/-- C19: `Synched_Test_ADTS` (tag helper passing) and `Synched_Test_LATM` return false, the
parser unchanged, when fewer than 2 bytes are buffered at `Buffer_Offset`; otherwise they
return true and clear `Synched` exactly when the 16-bit big-endian word at `Buffer_Offset`
fails the pattern of the mode, nothing else being written; in every case `Mode` and
`Buffer_Offset` are unchanged; and right after a `Synchronize_ADTS` / `Synchronize_LATM` that
returned true on a scan they return true and leave the parser, `Synched` included,
unchanged. -/
theorem C19_Synched_Test_revalidation (s : File_Aac) :
    (s.Buffer_Offset + 2 > s.Buffer_Size →
      Synched_Test_ADTS true s = (false, s) ∧ Synched_Test_LATM s = (false, s)) ∧
    (s.Buffer_Offset + 2 ≤ s.Buffer_Size →
      Synched_Test_ADTS true s
        = (true, if CC2 s.Buffer s.Buffer_Offset &&& 0xFFF6 ≠ 0xFFF0
                 then { s with Synched := false } else s) ∧
      Synched_Test_LATM s
        = (true, if CC2 s.Buffer s.Buffer_Offset &&& 0xFFE0 ≠ 0x56E0
                 then { s with Synched := false } else s)) ∧
    ((Synched_Test_ADTS true s).2.Mode = s.Mode ∧
      (Synched_Test_ADTS true s).2.Buffer_Offset = s.Buffer_Offset ∧
      (Synched_Test_LATM s).2.Mode = s.Mode ∧
      (Synched_Test_LATM s).2.Buffer_Offset = s.Buffer_Offset) ∧
    (∀ tags r b, tags.Tag_Found = false → Synchronize_ADTS tags s = some r →
      r.outcome.value = true →
      Synched_Test_ADTS true { r.state with Synched := b }
        = (true, { r.state with Synched := b })) ∧
    (∀ r b, Synchronize_LATM s = some r → r.outcome.value = true →
      Synched_Test_LATM { r.state with Synched := b }
        = (true, { r.state with Synched := b })) := by
  refine ⟨fun h => ?_, fun h => ?_, ?_, ?_, ?_⟩
  · constructor
    · unfold Synched_Test_ADTS
      rw [if_neg (by decide), if_pos h]
    · unfold Synched_Test_LATM
      rw [if_pos h]
  · have hn : ¬ s.Buffer_Offset + 2 > s.Buffer_Size := by omega
    constructor
    · unfold Synched_Test_ADTS
      rw [if_neg (by decide), if_neg hn]
      split_ifs <;> rfl
    · unfold Synched_Test_LATM
      rw [if_neg hn]
      split_ifs <;> rfl
  · refine ⟨?_, ?_, ?_, ?_⟩
    · unfold Synched_Test_ADTS; split_ifs <;> rfl
    · unfold Synched_Test_ADTS; split_ifs <;> rfl
    · unfold Synched_Test_LATM; split_ifs <;> rfl
    · unfold Synched_Test_LATM; split_ifs <;> rfl
  · intro tags r b htag h hv
    obtain ⟨o, hl, hr⟩ := Synchronize_ADTS_true tags s r htag h hv
    obtain ⟨_, _, _, hB, _⟩ := Synchronize_ADTS_loop_spec s _ _ _ _ hl
    obtain ⟨h6, hs, _⟩ := hB rfl
    subst hr
    have hn : ¬ o + 2 > s.Buffer_Size := by omega
    have hp : ¬ CC2 s.Buffer o &&& 0xFFF6 ≠ 0xFFF0 := fun hc => hc hs
    unfold Synched_Test_ADTS
    rw [if_neg (by decide)]
    show (if o + 2 > s.Buffer_Size then _ else
      if CC2 s.Buffer o &&& 0xFFF6 ≠ 0xFFF0 then _ else _) = _
    rw [if_neg hn, if_neg hp]
  · intro r b h hv
    obtain ⟨o, hl, hr⟩ := Synchronize_LATM_true s r h hv
    obtain ⟨_, _, _, hB, _⟩ := Synchronize_LATM_loop_spec s _ _ _ _ hl
    obtain ⟨h3, hs, _⟩ := hB rfl
    subst hr
    have hn : ¬ o + 2 > s.Buffer_Size := by omega
    have hp : ¬ CC2 s.Buffer o &&& 0xFFE0 ≠ 0x56E0 := fun hc => hc hs
    unfold Synched_Test_LATM
    show (if o + 2 > s.Buffer_Size then _ else
      if CC2 s.Buffer o &&& 0xFFE0 ≠ 0x56E0 then _ else _) = _
    rw [if_neg hn, if_neg hp]

/-- C19 at a whole file of two ADTS frames after `Synchronize_ADTS`, and at three LATM
headers after `Synchronize_LATM`, the framework having set `Synched`. -/
theorem C19_Synched_Test_revalidation_witness :
    (Synched_Test_ADTS true
        { wholeFile (frame8 ++ frame9) 0 with Mode := Mode_ADTS, IsAccepted := true,
                                               Synched := true }).1 = true ∧
    (Synched_Test_ADTS true
        { wholeFile (frame8 ++ frame9) 0 with Mode := Mode_ADTS, IsAccepted := true,
                                               Synched := true }).2.Synched = true ∧
    (Synched_Test_LATM
        { streamStart latm_three with Mode := Mode_LATM, IsAccepted := true,
                                      Synched := true }).2.Synched = true :=
  ⟨congrArg Prod.fst ((C19_Synched_Test_revalidation (wholeFile (frame8 ++ frame9) 0)).2.2.2.1
      ⟨true, false⟩
      ⟨.SynchedOK, { wholeFile (frame8 ++ frame9) 0 with Mode := Mode_ADTS, IsAccepted := true }⟩
      true rfl rfl rfl),
   congrArg (fun p => p.2.Synched)
    ((C19_Synched_Test_revalidation (wholeFile (frame8 ++ frame9) 0)).2.2.2.1
      ⟨true, false⟩
      ⟨.SynchedOK, { wholeFile (frame8 ++ frame9) 0 with Mode := Mode_ADTS, IsAccepted := true }⟩
      true rfl rfl rfl),
   congrArg (fun p => p.2.Synched)
    ((C19_Synched_Test_revalidation (streamStart latm_three)).2.2.2.2
      ⟨.SynchedOK, { streamStart latm_three with Mode := Mode_LATM, IsAccepted := true }⟩
      true rfl rfl)⟩

/-! ## Escape-coded object type -/

theorem BS_Get_congr (B1 B2 : Nat → Nat) (k1 k2 : Nat) :
    ∀ n, (∀ i, i < n → BS_bit B1 (k1 + i) = BS_bit B2 (k2 + i)) →
      BS_Get B1 k1 n = BS_Get B2 k2 n := by
  intro n
  induction n with
  | zero => intro _; rfl
  | succ n ih =>
    intro h
    rw [BS_Get, BS_Get, ih (fun i hi => h i (by omega)), h n (by omega)]

/-- C20, counterexample: on the bits `11111 000101` (object-type field 31, 6-bit extension
value 5) the object type decoded by the rule "read 6 more bits and add 32" is 37, not 36. -/
theorem C20_escape_5_decodes_to_37 :
    BS_Get (memoryOf escape_5) 0 5 = 31 ∧
    BS_Get (memoryOf escape_5) 5 6 = 5 ∧
    (GetAudioObjectType (memoryOf escape_5) 0).1 = 37 ∧
    (GetAudioObjectType (memoryOf escape_5) 0).1 ≠ 36 := by
  decide

/-- C20, amended: for every input whose 5-bit object-type field is 31 followed by the 6-bit
extension value 5, the decoded object type is 37 (the extension value plus 32) and the cursor
has advanced by 11 bits; and the decoded object type depends only on the 11 bits at the
cursor: two inputs that agree on them decode to the same object type and advance alike. -/
theorem C20_escape_object_type (B : Nat → Nat) (k : Nat)
    (h5 : BS_Get B k 5 = 31) (h6 : BS_Get B (k + 5) 6 = 5) :
    GetAudioObjectType B k = (37, k + 11) ∧
    (∀ B2 k2, (∀ i, i < 11 → BS_bit B2 (k2 + i) = BS_bit B (k + i)) →
      GetAudioObjectType B2 k2 = (37, k2 + 11)) := by
  have main : ∀ B2 k2, BS_Get B2 k2 5 = 31 → BS_Get B2 (k2 + 5) 6 = 5 →
      GetAudioObjectType B2 k2 = (37, k2 + 11) := by
    intro B2 k2 a b
    unfold GetAudioObjectType
    rw [if_pos a, b]
  refine ⟨main B k h5 h6, fun B2 k2 hb => main B2 k2 ?_ ?_⟩
  · rw [BS_Get_congr B2 B k2 k 5 (fun i hi => hb i (by omega))]; exact h5
  · rw [BS_Get_congr B2 B (k2 + 5) (k + 5) 6 (fun i hi => by
      have := hb (5 + i) (by omega)
      rw [← Nat.add_assoc, ← Nat.add_assoc] at this
      exact this)]
    exact h6

/-- C20, amended, at the two bytes `F8 A0`. -/
theorem C20_escape_object_type_witness :
    BS_Get (memoryOf escape_5) 0 5 = 31 ∧ BS_Get (memoryOf escape_5) (0 + 5) 6 = 5 ∧
    GetAudioObjectType (memoryOf escape_5) 0 = (37, 0 + 11) :=
  ⟨by decide, by decide, (C20_escape_object_type (memoryOf escape_5) 0 (by decide) (by decide)).1⟩

/-! ## Full-parse budget -/

theorem Data_Parse_FrameSize_counts (s : File_Aac) :
    (Data_Parse_FrameSize s).Frame_Count = s.Frame_Count ∧
    (Data_Parse_FrameSize s).Frame_Count_Valid = s.Frame_Count_Valid ∧
    (Data_Parse_FrameSize s).CanFill = s.CanFill ∧
    (Data_Parse_FrameSize s).Mode = s.Mode ∧
    (Data_Parse_FrameSize s).Element_Offset = s.Element_Offset ∧
    (Data_Parse_FrameSize s).Element_Size = s.Element_Size := by
  unfold Data_Parse_FrameSize
  simp only []
  split_ifs <;> exact ⟨rfl, rfl, rfl, rfl, rfl, rfl⟩

/-- With the test of line 621 true, `Data_Parse` is the skipping of the payload. -/
theorem Data_Parse_of_skip (x : Externals) (s : File_Aac)
    (h : s.Frame_Count > s.Frame_Count_Valid ∨ s.CanFill = true) :
    Data_Parse x s = Data_Parse_Skip x (Data_Parse_FrameSize s) := by
  obtain ⟨e1, e2, e3, _⟩ := Data_Parse_FrameSize_counts s
  unfold Data_Parse
  simp only []
  rw [if_pos (by rw [e1, e2, e3]; exact h)]

theorem Data_Parse_Filling_counts (x : Externals) (t : File_Aac) :
    (Data_Parse_Filling x t).Frame_Count = t.Frame_Count + 1 ∧
    ((Data_Parse_Filling x t).Frame_Count_Valid = t.Frame_Count_Valid
      ∨ (Data_Parse_Filling x t).Frame_Count_Valid = t.Frame_Count) := by
  unfold Data_Parse_Filling
  simp only []
  split_ifs <;> first
    | exact ⟨rfl, Or.inl rfl⟩ | exact ⟨rfl, Or.inr rfl⟩
    | (split <;> first | exact ⟨rfl, Or.inl rfl⟩ | exact ⟨rfl, Or.inr rfl⟩)

/-- One call of `Data_Parse` on the two counters. -/
theorem Data_Parse_counts (x : Externals) (s : File_Aac)
    (hx2 : ∀ t, (x.adts_frame t).Frame_Count = t.Frame_Count
      ∧ (x.adts_frame t).Frame_Count_Valid = t.Frame_Count_Valid)
    (hx3 : ∀ t, (x.AudioMuxElement t).Frame_Count = t.Frame_Count
      ∧ (x.AudioMuxElement t).Frame_Count_Valid = t.Frame_Count_Valid)
    (hOK : ∀ t, x.Element_IsOK t = true) :
    (s.Frame_Count > s.Frame_Count_Valid ∨ s.CanFill = true →
      (Data_Parse x s).Frame_Count = s.Frame_Count
      ∧ (Data_Parse x s).Frame_Count_Valid = s.Frame_Count_Valid) ∧
    (¬ (s.Frame_Count > s.Frame_Count_Valid ∨ s.CanFill = true) →
      (Data_Parse x s).Frame_Count = s.Frame_Count + 1
      ∧ (Data_Parse x s).Frame_Count_Valid ≤ s.Frame_Count_Valid) := by
  obtain ⟨e1, e2, e3, _⟩ := Data_Parse_FrameSize_counts s
  constructor
  · intro h
    rw [Data_Parse_of_skip x s h]
    exact ⟨e1, e2⟩
  · intro h
    have hpay : ∀ t : File_Aac,
        (match t.Mode with
          | Mode_ADTS => Data_Parse_ADTS x t
          | Mode_LATM => Data_Parse_LATM x t
          | _ => t).Frame_Count = t.Frame_Count ∧
        (match t.Mode with
          | Mode_ADTS => Data_Parse_ADTS x t
          | Mode_LATM => Data_Parse_LATM x t
          | _ => t).Frame_Count_Valid = t.Frame_Count_Valid := by
      intro t
      split
      · exact hx2 t
      · exact hx3 t
      · exact ⟨rfl, rfl⟩
    unfold Data_Parse
    simp only []
    rw [if_neg (by rw [e1, e2, e3]; exact h), if_pos (hOK _)]
    obtain ⟨a, b⟩ := Data_Parse_Filling_counts x
      (match (Data_Parse_FrameSize s).Mode with
        | Mode_ADTS => Data_Parse_ADTS x (Data_Parse_FrameSize s)
        | Mode_LATM => Data_Parse_LATM x (Data_Parse_FrameSize s)
        | _ => Data_Parse_FrameSize s)
    obtain ⟨c, d⟩ := hpay (Data_Parse_FrameSize s)
    rw [c, e1] at a
    rw [c, d, e1, e2] at b
    refine ⟨a, ?_⟩
    rcases b with b | b
    · rw [b]
    · rw [b]; omega

theorem Data_Parse_decoded_le (x : Externals)
    (hx2 : ∀ t, (x.adts_frame t).Frame_Count = t.Frame_Count
      ∧ (x.adts_frame t).Frame_Count_Valid = t.Frame_Count_Valid)
    (hx3 : ∀ t, (x.AudioMuxElement t).Frame_Count = t.Frame_Count
      ∧ (x.AudioMuxElement t).Frame_Count_Valid = t.Frame_Count_Valid)
    (hOK : ∀ t, x.Element_IsOK t = true) :
    ∀ (calls : List (File_Aac → File_Aac)) (s : File_Aac),
      (∀ f ∈ calls, ∀ t, (f t).Frame_Count = t.Frame_Count
        ∧ (f t).Frame_Count_Valid = t.Frame_Count_Valid) →
      Data_Parse_decoded x calls s ≤ s.Frame_Count_Valid + 1 - s.Frame_Count := by
  intro calls
  induction calls with
  | nil => intro s _; exact Nat.zero_le _
  | cons f fs ih =>
    intro s hf
    obtain ⟨m1, m2⟩ := hf f (List.mem_cons_self _ _) s
    have h := ih (Data_Parse x (f s)) (fun g hg => hf g (List.mem_cons_of_mem _ hg))
    obtain ⟨p1, p2⟩ := Data_Parse_counts x (f s) hx2 hx3 hOK
    rw [Data_Parse_decoded]
    by_cases hg : (f s).Frame_Count > (f s).Frame_Count_Valid ∨ (f s).CanFill = true
    · obtain ⟨a, b⟩ := p1 hg
      have hd : Data_Parse_decodes (f s) = false := by
        unfold Data_Parse_decodes
        exact decide_eq_false (fun hc => hc.1 hg)
      rw [hd, if_neg (by decide)]
      omega
    · obtain ⟨a, b⟩ := p2 hg
      have hn : (f s).Frame_Count ≤ (f s).Frame_Count_Valid := by
        by_contra hc; exact hg (Or.inl (by omega))
      split_ifs <;> omega

/-- C29, counterexample: in mode ADTS with the budget `Frame_Count_Valid = 2`, four frames
whose elements are accepted, `Config->ParseSpeed >= 1.0`: `Data_Parse` hands the payload of
three frames to the decoder (at `Frame_Count` 0, 1 and 2) and skips the fourth. -/
theorem C29_three_frames_decoded_with_budget_2 :
    adts_budget_2.Frame_Count_Valid = 2 ∧ adts_budget_2.Frame_Count = 0 ∧
    Data_Parse_decoded idle_full [element 8, element 8, element 8, element 8] adts_budget_2
      = 3 ∧
    Data_Parse_decodes (element 8 (Data_Parse_run idle_full [element 8, element 8]
      adts_budget_2)) = true ∧
    Data_Parse_decodes (element 8 (Data_Parse_run idle_full [element 8, element 8, element 8]
      adts_budget_2)) = false ∧
    (Data_Parse_run idle_full [element 8, element 8, element 8, element 8]
      adts_budget_2).Frame_Count = 3 := by
  decide

/-- C29, amended: when every decoded frame is accepted (the decoders and the framework not
writing `Frame_Count` and `Frame_Count_Valid`), the number of frames whose payload
`Data_Parse` hands to `Data_Parse_ADTS` / `Data_Parse_LATM` never exceeds
`Frame_Count_Valid + 1 - Frame_Count` of the start, one more than the budget when
`Frame_Count` starts at 0; and whenever `Frame_Count > Frame_Count_Valid` the call skips the
payload (`Skip_XX` over `Element_Size`) and leaves `Frame_Count` and `Frame_Count_Valid`
unchanged, so that every later frame is skipped as well. -/
theorem C29_full_parse_budget (x : Externals) (calls : List (File_Aac → File_Aac))
    (s : File_Aac)
    (hx2 : ∀ t, (x.adts_frame t).Frame_Count = t.Frame_Count
      ∧ (x.adts_frame t).Frame_Count_Valid = t.Frame_Count_Valid)
    (hx3 : ∀ t, (x.AudioMuxElement t).Frame_Count = t.Frame_Count
      ∧ (x.AudioMuxElement t).Frame_Count_Valid = t.Frame_Count_Valid)
    (hOK : ∀ t, x.Element_IsOK t = true)
    (hcalls : ∀ f ∈ calls, ∀ t, (f t).Frame_Count = t.Frame_Count
      ∧ (f t).Frame_Count_Valid = t.Frame_Count_Valid) :
    Data_Parse_decoded x calls s ≤ s.Frame_Count_Valid + 1 - s.Frame_Count ∧
    (∀ t : File_Aac, t.Frame_Count > t.Frame_Count_Valid →
      Data_Parse_decodes t = false ∧
      Data_Parse x t = Data_Parse_Skip x (Data_Parse_FrameSize t) ∧
      (Data_Parse x t).Element_Offset = t.Element_Offset + t.Element_Size ∧
      (Data_Parse x t).Frame_Count = t.Frame_Count ∧
      (Data_Parse x t).Frame_Count_Valid = t.Frame_Count_Valid) := by
  refine ⟨Data_Parse_decoded_le x hx2 hx3 hOK calls s hcalls, ?_⟩
  intro t ht
  obtain ⟨e1, e2, _, _, e5, e6⟩ := Data_Parse_FrameSize_counts t
  have hs := Data_Parse_of_skip x t (Or.inl ht)
  refine ⟨?_, hs, ?_, ?_, ?_⟩
  · unfold Data_Parse_decodes
    exact decide_eq_false (fun hc => hc.1 (Or.inl ht))
  · rw [hs]
    show (Data_Parse_FrameSize t).Element_Offset + (Data_Parse_FrameSize t).Element_Size = _
    rw [e5, e6]
  · rw [hs]; exact e1
  · rw [hs]; exact e2

/-- C29, amended, at the four frames of the counterexample. -/
theorem C29_full_parse_budget_witness :
    Data_Parse_decoded idle_full [element 8, element 8, element 8, element 8] adts_budget_2
      ≤ 2 + 1 - 0 :=
  (C29_full_parse_budget idle_full [element 8, element 8, element 8, element 8] adts_budget_2
    (fun _ => ⟨rfl, rfl⟩) (fun _ => ⟨rfl, rfl⟩) (fun _ => rfl)
    (fun f hf t => by
      simp only [List.mem_cons, List.mem_singleton, List.not_mem_nil, or_false, or_self] at hf
      subst hf
      exact ⟨rfl, rfl⟩)).1

end File_Aac

end MediaInfoLib

namespace Sntp

/-! ## CompareNtpTimePacket -/

/-- C24: for packets whose fractions are 32-bit values, `CompareNtpTimePacket` returns 1, 0
or -1 according to whether `a.seconds * 2^32 + a.fraction` is greater than, equal to, or
less than `b.seconds * 2^32 + b.fraction`; it returns 0 exactly when `a = b`, and
`Compare(a, b) = -Compare(b, a)`. -/
theorem C24_CompareNtpTimePacket_three_way (a b : NtpTimePacket)
    (ha : a.fraction < 2 ^ 32) (hb : b.fraction < 2 ^ 32) :
    (CompareNtpTimePacket a b = 1
      ↔ a.seconds * 2 ^ 32 + a.fraction > b.seconds * 2 ^ 32 + b.fraction) ∧
    (CompareNtpTimePacket a b = 0
      ↔ a.seconds * 2 ^ 32 + a.fraction = b.seconds * 2 ^ 32 + b.fraction) ∧
    (CompareNtpTimePacket a b = -1
      ↔ a.seconds * 2 ^ 32 + a.fraction < b.seconds * 2 ^ 32 + b.fraction) ∧
    (CompareNtpTimePacket a b = 0 ↔ a = b) ∧
    CompareNtpTimePacket a b = -CompareNtpTimePacket b a := by
  obtain ⟨as, af⟩ := a
  obtain ⟨bs, bf⟩ := b
  simp only [NtpTimePacket.mk.injEq] at ha hb ⊢
  norm_num at ha hb ⊢
  unfold CompareNtpTimePacket
  simp only []
  refine ⟨?_, ?_, ?_, ?_, ?_⟩ <;> split_ifs <;> first | omega | (simp; omega)

/-- C24 at `(3, 5)` and `(3, 9)`. -/
theorem C24_CompareNtpTimePacket_three_way_witness :
    CompareNtpTimePacket ⟨3, 5⟩ ⟨3, 9⟩ = -1 ∧ CompareNtpTimePacket ⟨3, 9⟩ ⟨3, 5⟩ = 1 ∧
    CompareNtpTimePacket ⟨3, 5⟩ ⟨3, 9⟩ = -CompareNtpTimePacket ⟨3, 9⟩ ⟨3, 5⟩ :=
  ⟨(C24_CompareNtpTimePacket_three_way ⟨3, 5⟩ ⟨3, 9⟩ (by decide) (by decide)).2.2.1.2
      (by decide),
   (C24_CompareNtpTimePacket_three_way ⟨3, 9⟩ ⟨3, 5⟩ (by decide) (by decide)).1.2 (by decide),
   (C24_CompareNtpTimePacket_three_way ⟨3, 5⟩ ⟨3, 9⟩ (by decide) (by decide)).2.2.2.2⟩

/-! ## SubtractTimePacket -/

/-- C25, failing input: `time1 = (1, 0)` and `time2 = (0, 0xFFFFFFFF)` are different
packets, `CompareNtpTimePacket` returns 1 for them, and `SubtractTimePacket` returns 0: the
borrow of lines 465-466 computes `0xffffffff - time2->fraction + time1->fraction`, one less
than the difference of the fractions modulo `2^32`. -/
theorem C25_SubtractTimePacket_zero_for_distinct_packets :
    CompareNtpTimePacket ⟨1, 0⟩ ⟨0, 0xFFFFFFFF⟩ = 1 ∧
    (⟨1, 0⟩ : NtpTimePacket) ≠ ⟨0, 0xFFFFFFFF⟩ ∧
    SubtractTimePacket ⟨1, 0⟩ ⟨0, 0xFFFFFFFF⟩ = 0 ∧
    ¬ 0 < SubtractTimePacket ⟨1, 0⟩ ⟨0, 0xFFFFFFFF⟩ ∧
    CompareNtpTimePacket ⟨0, 0xFFFFFFFF⟩ ⟨1, 0⟩ = -1 ∧
    ¬ SubtractTimePacket ⟨0, 0xFFFFFFFF⟩ ⟨1, 0⟩ < 0 := by
  refine ⟨by decide, by decide, ?_, ?_, by decide, ?_⟩ <;>
    simp [SubtractTimePacket, CompareNtpTimePacket, unsigned_long_sub, NtpFractionToSecond]

/-! ## AddNtpTimePacket -/

/-- C26, failing input: adding 0.0 to the packet `(5, 7)` gives `(6, 7)`, adding 3.0 gives
`(9, 7)`, and adding 0.5 to `(5, 0xFFFFFFFF)`, where the fractions overflow 32 bits, gives
`(5, 0x7FFFFFFE)`: line 501 adds the carry when `0xFFFFFFFF - MediumFrac >= dst->fraction`,
that is when the sum of the fractions does not overflow. -/
theorem C26_AddNtpTimePacket_carry_inverted :
    AddNtpTimePacket ⟨5, 7⟩ 0 = ⟨6, 7⟩ ∧
    AddNtpTimePacket ⟨5, 7⟩ 3 = ⟨9, 7⟩ ∧
    AddNtpTimePacket ⟨5, 0xFFFFFFFF⟩ (1 / 2) = ⟨5, 0x7FFFFFFE⟩ := by
  refine ⟨?_, ?_, ?_⟩
  · simp [AddNtpTimePacket, to_unsigned_long]
  · simp [AddNtpTimePacket, to_unsigned_long]
  · have h1 : ⌊(1 / 2 : ℚ)⌋ = 0 := by norm_num
    have h2 : ⌊((1 / 2 : ℚ) - ((0 : ℤ) : ℚ)) * 0xFFFFFFFF⌋ = 2147483647 := by
      rw [Int.floor_eq_iff]; norm_num
    have h3 : (1 / 2 : ℚ) ≥ 0 := by norm_num
    unfold AddNtpTimePacket
    rw [if_pos h3]
    simp only [h1, h2]
    decide

/-! ## AddNtpPacketWithTicks -/

/-- C30, failing input: with 1000 ticks per second, adding 0 ticks to the packet
`(5, 0xFFFFFFFF)` gives `(6, 0xFFFFFFFF)`: `frac` is `MsToNTP[0] = 0`, the sum of the
fractions is `0xFFFFFFFF`, which does not exceed `0xFFFFFFFF`, and line 350 adds a carry all
the same (`0xffffffff - frac <= dstPacket->fraction`). -/
theorem C30_AddNtpPacketWithTicks_carry_without_overflow :
    MsToNTP_at ((0 % 1000) * 1000 / 1000) = 0 ∧
    ¬ (0xFFFFFFFF + MsToNTP_at ((0 % 1000) * 1000 / 1000) > 0xFFFFFFFF) ∧
    AddNtpPacketWithTicks 1000 ⟨5, 0xFFFFFFFF⟩ 0 = ⟨6, 0xFFFFFFFF⟩ ∧
    (AddNtpPacketWithTicks 1000 ⟨5, 0xFFFFFFFF⟩ 0).seconds * 2 ^ 32
        + (AddNtpPacketWithTicks 1000 ⟨5, 0xFFFFFFFF⟩ 0).fraction
      ≠ 5 * 2 ^ 32 + 0xFFFFFFFF + (0 / 1000) * 2 ^ 32
        + MsToNTP_at ((0 % 1000) * 1000 / 1000) := by
  decide

end Sntp

namespace Sntp

/-! ## GetJulianDay and the calendar -/

/-- `GetJulianDay` for a year from 1 on: every operand is non-negative, the divisions are
the usual ones. -/
theorem GetJulianDay_eq (Year Month Day : Nat) (hY : 1 ≤ Year) :
    GetJulianDay Year Month Day
      = if Month + 1 > 2 then
          (146097 * ((Year : Int) / 100)) / 4 + (1461 * ((Year : Int) % 100)) / 4
            + (153 * ((Month : Int) + 1 - 3) + 2) / 5 + Day + 1721119
        else
          (146097 * (((Year : Int) - 1) / 100)) / 4 + (1461 * (((Year : Int) - 1) % 100)) / 4
            + (153 * ((Month : Int) + 1 + 9) + 2) / 5 + Day + 1721119 := by
  unfold GetJulianDay
  simp only []
  have hm : ((Month : Int) + 1 > 2) ↔ (Month + 1 > 2) := by omega
  by_cases h : Month + 1 > 2
  · rw [if_pos (hm.2 h), if_pos (hm.2 h), if_pos h]
    have h0 : (0 : Int) ≤ Year := by omega
    rw [Int.tdiv_eq_ediv h0 (by norm_num)]
    rw [Int.tdiv_eq_ediv (by omega) (by norm_num), Int.tdiv_eq_ediv (by omega) (by norm_num),
      Int.tdiv_eq_ediv (by omega) (by norm_num)]
    omega
  · rw [if_neg (fun hc => h (hm.1 hc)), if_neg (fun hc => h (hm.1 hc)), if_neg h]
    have h0 : (0 : Int) ≤ (Year : Int) - 1 := by omega
    rw [Int.tdiv_eq_ediv h0 (by norm_num)]
    rw [Int.tdiv_eq_ediv (by omega) (by norm_num), Int.tdiv_eq_ediv (by omega) (by norm_num),
      Int.tdiv_eq_ediv (by omega) (by norm_num)]
    omega

theorem daysInYear_eq (Year : Nat) :
    daysInYear Year
      = if Year % 4 = 0 ∧ (Year % 100 ≠ 0 ∨ Year % 400 = 0) then 366 else 365 := by
  unfold daysInYear isLeapYear
  by_cases h : Year % 4 = 0 ∧ (Year % 100 ≠ 0 ∨ Year % 400 = 0)
  · rw [if_pos h, if_pos (by simpa using h)]
  · rw [if_neg h, if_neg (by simpa using h)]

theorem daysInMonth_February (Year : Nat) :
    daysInMonth Year 1
      = if Year % 4 = 0 ∧ (Year % 100 ≠ 0 ∨ Year % 400 = 0) then 29 else 28 := by
  show (if isLeapYear Year then 29 else 28) = _
  unfold isLeapYear
  by_cases h : Year % 4 = 0 ∧ (Year % 100 ≠ 0 ∨ Year % 400 = 0)
  · rw [if_pos h, if_pos (by simpa using h)]
  · rw [if_neg h, if_neg (by simpa using h)]

/-- The year term of `GetJulianDay` grows by the length of the year. -/
theorem GetJulianDay_year_term (Y : Int) :
    146097 * (Y / 100) / 4 + 1461 * (Y % 100) / 4
      = 146097 * ((Y - 1) / 100) / 4 + 1461 * ((Y - 1) % 100) / 4
        + (if Y % 4 = 0 ∧ (Y % 100 ≠ 0 ∨ Y % 400 = 0) then 366 else 365) := by
  have h4 : Y % 4 = 0 ∨ Y % 4 = 1 ∨ Y % 4 = 2 ∨ Y % 4 = 3 := by omega
  have hc : (Y / 100) % 4 = 0 ∨ (Y / 100) % 4 = 1 ∨ (Y / 100) % 4 = 2 ∨ (Y / 100) % 4 = 3 := by
    omega
  by_cases h100 : Y % 100 = 0
  · have h1 : (Y - 1) / 100 = Y / 100 - 1 := by omega
    have h2 : (Y - 1) % 100 = 99 := by omega
    rw [h1, h2, h100]
    rcases hc with hc | hc | hc | hc <;> split_ifs <;> omega
  · have h1 : (Y - 1) / 100 = Y / 100 := by omega
    have h2 : (Y - 1) % 100 = Y % 100 - 1 := by omega
    rw [h1, h2]
    rcases h4 with h4 | h4 | h4 | h4 <;> split_ifs <;> omega

/-- From 1 January to 1 March. -/
theorem GetJulianDay_1_March (Year : Nat) (hY : 1 ≤ Year) :
    GetJulianDay Year 2 1 = GetJulianDay Year 0 1 + 31 + daysInMonth Year 1 := by
  rw [GetJulianDay_eq _ _ _ hY, GetJulianDay_eq _ _ _ hY, daysInMonth_February]
  rw [if_pos (by omega), if_neg (by omega)]
  have h := GetJulianDay_year_term (Year : Int)
  have e : ((Year : Int) % 4 = 0 ∧ ((Year : Int) % 100 ≠ 0 ∨ (Year : Int) % 400 = 0))
      ↔ (Year % 4 = 0 ∧ (Year % 100 ≠ 0 ∨ Year % 400 = 0)) := by omega
  by_cases hl : Year % 4 = 0 ∧ (Year % 100 ≠ 0 ∨ Year % 400 = 0)
  · rw [if_pos (e.2 hl)] at h
    rw [if_pos hl]
    push_cast
    omega
  · rw [if_neg (fun hc => hl (e.1 hc))] at h
    rw [if_neg hl]
    push_cast
    omega

/-- From one 1 January to the next there are as many days as the year has. -/
theorem GetJulianDay_next_year (Year : Nat) (hY : 1 ≤ Year) :
    GetJulianDay (Year + 1) 0 1 = GetJulianDay Year 0 1 + daysInYear Year := by
  have hM := GetJulianDay_1_March Year hY
  rw [daysInMonth_February] at hM
  rw [GetJulianDay_eq _ _ _ hY] at hM
  rw [GetJulianDay_eq _ _ _ (by omega), daysInYear_eq]
  rw [if_neg (by omega)]
  rw [if_pos (by omega)] at hM
  have e : ((Year + 1 : Nat) : Int) - 1 = (Year : Int) := by push_cast; omega
  rw [e]
  split_ifs at hM ⊢ <;> push_cast at hM ⊢ <;> omega

theorem GetJulianDay_1_January (n : Nat) :
    GetJulianDay (1900 + n) 0 1 = JAN_1ST_1900 + daysOfYearsFrom1900 n := by
  induction n with
  | zero => decide
  | succ n ih =>
    rw [show 1900 + (n + 1) = (1900 + n) + 1 from rfl, GetJulianDay_next_year _ (by omega), ih,
      daysOfYearsFrom1900]
    push_cast
    omega

/-- Inside a year the Julian day advances with the days of the calendar. -/
theorem GetJulianDay_in_year (Year Month Day : Nat) (hY : 1 ≤ Year)
    (hv : validDate Year Month Day) :
    GetJulianDay Year Month Day
      = GetJulianDay Year 0 1 + daysBeforeMonth Year Month + ((Day - 1 : Nat) : Int) := by
  obtain ⟨hm, hd1, hd2⟩ := hv
  have hM := GetJulianDay_1_March Year hY
  rw [GetJulianDay_eq _ _ _ hY, GetJulianDay_eq _ _ _ hY, if_pos (by omega),
    if_neg (by omega)] at hM
  rw [GetJulianDay_eq _ _ _ hY, GetJulianDay_eq _ _ _ hY, if_neg (show ¬ 0 + 1 > 2 by omega)]
  generalize hfeb : daysInMonth Year 1 = feb at hM hd2
  interval_cases Month <;>
    simp only [daysBeforeMonth, hfeb] at hd2 ⊢ <;>
    simp only [daysInMonth, hfeb] at hd2 ⊢ <;>
    push_cast at hM ⊢ <;> omega

/-- The Julian day of a date from 1900 on, counted from `JAN_1ST_1900`, is the number of days
of the calendar from 1900-01-01 to the date. -/
theorem GetJulianDay_daysSince1900 (Year Month Day : Nat) (hY : 1900 ≤ Year)
    (hv : validDate Year Month Day) :
    GetJulianDay Year Month Day - JAN_1ST_1900 = daysSince1900 Year Month Day := by
  rw [GetJulianDay_in_year _ _ _ (by omega) hv]
  have h := GetJulianDay_1_January (Year - 1900)
  rw [show 1900 + (Year - 1900) = Year by omega] at h
  rw [h]
  unfold daysSince1900
  push_cast
  omega

theorem to_unsigned_long_natCast (n : Nat) (h : n < 4294967296) :
    to_unsigned_long (n : Int) = n := by
  unfold to_unsigned_long; omega

theorem to_unsigned_short_natCast (n : Nat) (h : n < 65536) :
    to_unsigned_short (n : Int) = n := by
  unfold to_unsigned_short; omega

theorem to_unsigned_char_natCast (n : Nat) (h : n < 256) :
    to_unsigned_char (n : Int) = n := by
  unfold to_unsigned_char; omega

theorem daysInYear_ge (Year : Nat) : 365 ≤ daysInYear Year := by
  rw [daysInYear_eq]; split_ifs <;> omega

theorem daysOfYearsFrom1900_le (n k : Nat) :
    daysOfYearsFrom1900 n + 365 * k ≤ daysOfYearsFrom1900 (n + k) := by
  induction k with
  | zero => exact le_refl _
  | succ k ih =>
    have := daysInYear_ge (1900 + (n + k))
    rw [show n + (k + 1) = (n + k) + 1 from rfl, daysOfYearsFrom1900]
    omega

theorem daysOfYearsFrom1900_136 : daysOfYearsFrom1900 136 = 49673 := by decide!

/-- A date is one of the days of its year. -/
theorem validDate_le_daysInYear (Year Month Day : Nat) (hv : validDate Year Month Day) :
    daysBeforeMonth Year Month + Day ≤ daysInYear Year := by
  obtain ⟨hm, hd1, hd2⟩ := hv
  have hF := daysInMonth_February Year
  rw [daysInYear_eq]
  generalize hfeb : daysInMonth Year 1 = feb at hF hd2
  interval_cases Month <;>
    simp only [daysBeforeMonth, hfeb] at hd2 ⊢ <;>
    simp only [daysInMonth, hfeb] at hd2 ⊢ <;>
    split_ifs at hF ⊢ <;> omega

/-- The dates up to 2035-12-31 are less than 49673 days after 1900-01-01. -/
theorem daysSince1900_lt (Year Month Day : Nat) (hY : 1900 ≤ Year) (hY2 : Year ≤ 2035)
    (hv : validDate Year Month Day) : daysSince1900 Year Month Day < 49673 := by
  have h1 := validDate_le_daysInYear Year Month Day hv
  have h2 := daysOfYearsFrom1900_le (Year - 1900 + 1) (2035 - Year)
  rw [show Year - 1900 + 1 + (2035 - Year) = 136 by omega, daysOfYearsFrom1900_136,
    daysOfYearsFrom1900, show 1900 + (Year - 1900) = Year by omega] at h2
  have hd := hv.2.1
  unfold daysSince1900
  omega

/-- The seconds `SystemTimeToNTPPacket` stores for a date-time up to 2035-12-31 23:59:59. -/
theorem SystemTimeToNTPPacket_seconds (st : SYSTEM_TIME)
    (Year Month Day Hour Minute Second : Nat)
    (hyear : st.Seconds.tm_year = Year) (hmon : st.Seconds.tm_mon = Month)
    (hmday : st.Seconds.tm_mday = Day) (hhour : st.Seconds.tm_hour = Hour)
    (hmin : st.Seconds.tm_min = Minute) (hsec : st.Seconds.tm_sec = Second)
    (hY : 1900 ≤ Year) (hY2 : Year ≤ 2035) (hv : validDate Year Month Day)
    (hH : Hour < 24) (hM : Minute < 60) (hS : Second < 60) :
    (SystemTimeToNTPPacket st).seconds
      = 86400 * daysSince1900 Year Month Day + 3600 * Hour + 60 * Minute + Second := by
  have hlt := daysSince1900_lt Year Month Day hY hY2 hv
  have hJ := GetJulianDay_daysSince1900 Year Month Day hY hv
  have hd : Day < 65536 := by
    have := validDate_le_daysInYear Year Month Day hv
    have := daysInYear_eq Year
    split_ifs at this <;> omega
  have hm := hv.1
  show to_unsigned_long _ = _
  rw [hyear, hmon, hmday, hhour, hmin, hsec, to_unsigned_short_natCast _ (by omega),
    to_unsigned_short_natCast _ (by omega), to_unsigned_short_natCast _ hd, hJ,
    to_unsigned_long_natCast _ (by omega)]
  rw [show ((daysSince1900 Year Month Day : Nat) : Int) * 24 + (Hour : Int)
      = ((daysSince1900 Year Month Day * 24 + Hour : Nat) : Int) by push_cast; rfl,
    to_unsigned_long_natCast _ (by omega)]
  rw [show ((daysSince1900 Year Month Day * 24 + Hour : Nat) : Int) * 60 + (Minute : Int)
      = (((daysSince1900 Year Month Day * 24 + Hour) * 60 + Minute : Nat) : Int) by
        push_cast; rfl,
    to_unsigned_long_natCast _ (by omega)]
  rw [show (((daysSince1900 Year Month Day * 24 + Hour) * 60 + Minute : Nat) : Int) * 60
        + (Second : Int)
      = ((((daysSince1900 Year Month Day * 24 + Hour) * 60 + Minute) * 60 + Second : Nat)
          : Int) by push_cast; rfl,
    to_unsigned_long_natCast _ (by omega)]
  omega

/-- C22: for every valid date-time from 1900-01-01 00:00:00 to 2035-12-31 23:59:59 (`tm_year`
the full year, `tm_mon` in 0..11), `SystemTimeToNTPPacket` stores in `seconds` 86400 times
the number of days of the calendar from 1900-01-01 to the date, plus
`3600*hour + 60*minute + second`, and in `fraction` the entry `MsToNTP[Milliseconds]`;
`GetJulianDay(1900, 0, 1)` is `JAN_1ST_1900`, 2415021. -/
theorem C22_SystemTimeToNTPPacket_seconds (st : SYSTEM_TIME)
    (Year Month Day Hour Minute Second : Nat)
    (hyear : st.Seconds.tm_year = Year) (hmon : st.Seconds.tm_mon = Month)
    (hmday : st.Seconds.tm_mday = Day) (hhour : st.Seconds.tm_hour = Hour)
    (hmin : st.Seconds.tm_min = Minute) (hsec : st.Seconds.tm_sec = Second)
    (hY : 1900 ≤ Year) (hY2 : Year ≤ 2035) (hv : validDate Year Month Day)
    (hH : Hour < 24) (hM : Minute < 60) (hS : Second < 60) :
    (SystemTimeToNTPPacket st).seconds
      = 86400 * daysSince1900 Year Month Day + 3600 * Hour + 60 * Minute + Second ∧
    (SystemTimeToNTPPacket st).fraction = MsToNTP_at st.Milliseconds ∧
    GetJulianDay 1900 0 1 = JAN_1ST_1900 ∧ JAN_1ST_1900 = 2415021 :=
  ⟨SystemTimeToNTPPacket_seconds st Year Month Day Hour Minute Second hyear hmon hmday hhour
      hmin hsec hY hY2 hv hH hM hS, rfl, by decide, rfl⟩

end Sntp

namespace Sntp

/-! ## GetGregorianDate undoes GetJulianDay -/

/-- The century of a day number: `R` counts the days of the century from 1. -/
theorem century_of_day (c R : Int) (hR1 : 1 ≤ R)
    (hR2 : R ≤ 36524 + (if c % 4 = 3 then 1 else 0)) :
    (4 * (146097 * c / 4 + R) - 1) / 146097 = c ∧
    (4 * (146097 * c / 4 + R) - 1 - 146097 * c) / 4 = R - 1 := by
  have h4 : c % 4 = 0 ∨ c % 4 = 1 ∨ c % 4 = 2 ∨ c % 4 = 3 := by omega
  rcases h4 with h | h | h | h <;> simp only [h] at hR2 <;> norm_num at hR2 <;>
    constructor <;> omega

/-- The year of a day number inside its century: `S` counts the days of the year from 1. -/
theorem year_of_day (ya S : Int) (hS1 : 1 ≤ S)
    (hS2 : S ≤ 365 + (if ya % 4 = 3 then 1 else 0)) :
    (4 * (1461 * ya / 4 + S - 1) + 3) / 1461 = ya ∧
    (4 * (1461 * ya / 4 + S - 1) + 3 - 1461 * ya + 4) / 4 = S := by
  have h4 : ya % 4 = 0 ∨ ya % 4 = 1 ∨ ya % 4 = 2 ∨ ya % 4 = 3 := by omega
  rcases h4 with h | h | h | h <;> simp only [h] at hS2 <;> norm_num at hS2 <;>
    constructor <;> omega

/-- The month of a day number inside its year, the year starting in March. -/
theorem month_of_day (m d : Int) (hm1 : 0 ≤ m) (hm2 : m ≤ 11) (hd1 : 1 ≤ d)
    (hd2 : d ≤ (153 * (m + 1) + 2) / 5 - (153 * m + 2) / 5) :
    (5 * ((153 * m + 2) / 5 + d) - 3) / 153 = m ∧
    (5 * ((153 * m + 2) / 5 + d) - 3 - 153 * m + 5) / 5 = d := by
  interval_cases m <;> norm_num at hd2 ⊢ <;> constructor <;> omega

theorem tdiv_of_nonneg (a b q : Int) (ha : 0 ≤ a) (hb : 0 < b) (h : a / b = q) :
    a.tdiv b = q := by
  rw [Int.tdiv_eq_ediv ha (le_of_lt hb)]; exact h

/-- `GetGregorianDate` on a Julian day given by its century `c`, year of the century `ya`,
month `m` counted from March and day `d`. -/
theorem GetGregorianDate_of_parts (JD c ya m d : Int)
    (hJD : JD = 146097 * c / 4 + 1461 * ya / 4 + (153 * m + 2) / 5 + d + 1721119)
    (hc : 0 ≤ c) (hya : 0 ≤ ya) (hm1 : 0 ≤ m) (hm2 : m ≤ 11) (hd1 : 1 ≤ d)
    (hd2 : d ≤ (153 * (m + 1) + 2) / 5 - (153 * m + 2) / 5)
    (hS : (153 * m + 2) / 5 + d ≤ 365 + (if ya % 4 = 3 then 1 else 0))
    (hR : 1461 * ya / 4 + ((153 * m + 2) / 5 + d) ≤ 36524 + (if c % 4 = 3 then 1 else 0)) :
    GetGregorianDate JD
      = ((to_unsigned_short (if m < 10 then 100 * c + ya else 100 * c + ya + 1) : Int),
         (to_unsigned_char (if m < 10 then m + 3 else m - 9) : Int) - 1,
         (to_unsigned_char d : Int)) := by
  obtain ⟨S, hSdef⟩ : ∃ S, S = (153 * m + 2) / 5 + d := ⟨_, rfl⟩
  obtain ⟨R, hRdef⟩ : ∃ R, R = 1461 * ya / 4 + S - 1 + 1 := ⟨_, rfl⟩
  rw [← hSdef] at hS hR
  have hS1 : 1 ≤ S := by omega
  have hR1 : 1 ≤ R := by omega
  obtain ⟨a1, a2⟩ := century_of_day c R hR1 (by split_ifs at hR ⊢ <;> omega)
  obtain ⟨b1, b2⟩ := year_of_day ya S hS1 hS
  obtain ⟨c1, c2⟩ := month_of_day m d hm1 hm2 hd1 hd2
  rw [← hSdef] at c1 c2
  have hj : JD - 1721119 = 146097 * c / 4 + R := by omega
  have e1 : (4 * (JD - 1721119) - 1).tdiv 146097 = c :=
    tdiv_of_nonneg _ _ _ (by omega) (by norm_num) (by rw [hj]; exact a1)
  have e2 : (4 * (JD - 1721119) - 1 - 146097 * c).tdiv 4 = 1461 * ya / 4 + S - 1 :=
    tdiv_of_nonneg _ _ _ (by omega) (by norm_num) (by rw [hj, a2]; omega)
  have e3 : (4 * (1461 * ya / 4 + S - 1) + 3).tdiv 1461 = ya :=
    tdiv_of_nonneg _ _ _ (by omega) (by norm_num) b1
  have e4 : (4 * (1461 * ya / 4 + S - 1) + 3 - 1461 * ya + 4).tdiv 4 = S :=
    tdiv_of_nonneg _ _ _ (by omega) (by norm_num) b2
  have e5 : (5 * S - 3).tdiv 153 = m :=
    tdiv_of_nonneg _ _ _ (by omega) (by norm_num) c1
  have e6 : (5 * S - 3 - 153 * m + 5).tdiv 5 = d :=
    tdiv_of_nonneg _ _ _ (by omega) (by norm_num) c2
  unfold GetGregorianDate
  simp only []
  rw [e1, e2, e3, e4, e5, e6]

/-- `GetGregorianDate` undoes `GetJulianDay` on every date of the calendar whose year fits
an `unsigned short`. -/
theorem GetGregorianDate_GetJulianDay (Year Month Day : Nat) (hY1 : 1 ≤ Year)
    (hY2 : Year < 65536) (hv : validDate Year Month Day) :
    GetGregorianDate (GetJulianDay Year Month Day) = ((Year : Int), (Month : Int), (Day : Int)) := by
  obtain ⟨hm, hd1, hd2⟩ := hv
  have hF := daysInMonth_February Year
  have hJ := GetJulianDay_eq Year Month Day hY1
  by_cases hmm : Month + 1 > 2
  · rw [if_pos hmm] at hJ
    have hb : (Day : Int) ≤ (153 * ((Month : Int) + 1 - 3 + 1) + 2) / 5
        - (153 * ((Month : Int) + 1 - 3) + 2) / 5 ∧
        (153 * ((Month : Int) + 1 - 3) + 2) / 5 + (Day : Int) ≤ 306 := by
      interval_cases Month <;> simp only [daysInMonth] at hd2 <;> push_cast <;>
        omega
    rw [GetGregorianDate_of_parts _ ((Year : Int) / 100) ((Year : Int) % 100)
      ((Month : Int) + 1 - 3) Day hJ (by omega) (by omega) (by omega) (by omega) (by omega)
      hb.1 (by split_ifs <;> omega) (by split_ifs <;> omega)]
    rw [if_pos (by omega), if_pos (by omega)]
    unfold to_unsigned_short to_unsigned_char
    refine Prod.ext ?_ (Prod.ext ?_ ?_) <;> simp only [] <;> omega
  · rw [if_neg hmm] at hJ
    have hM : Month = 0 ∨ Month = 1 := by omega
    have hb : (Day : Int) ≤ (153 * ((Month : Int) + 1 + 9 + 1) + 2) / 5
        - (153 * ((Month : Int) + 1 + 9) + 2) / 5 ∧
        (153 * ((Month : Int) + 1 + 9) + 2) / 5 + (Day : Int)
          ≤ 365 + (if ((Year : Int) - 1) % 100 % 4 = 3 then 1 else 0) ∧
        1461 * (((Year : Int) - 1) % 100) / 4
            + ((153 * ((Month : Int) + 1 + 9) + 2) / 5 + (Day : Int))
          ≤ 36524 + (if ((Year : Int) - 1) / 100 % 4 = 3 then 1 else 0) := by
      rcases hM with h | h <;> subst h
      · simp only [daysInMonth] at hd2
        push_cast
        refine ⟨by omega, by split_ifs <;> omega, by split_ifs <;> omega⟩
      · rw [hF] at hd2
        push_cast
        refine ⟨by split_ifs at hd2 <;> omega, ?_, ?_⟩
        · split_ifs at hd2 ⊢ <;> omega
        · split_ifs at hd2 ⊢ <;> omega
    rw [GetGregorianDate_of_parts _ (((Year : Int) - 1) / 100) (((Year : Int) - 1) % 100)
      ((Month : Int) + 1 + 9) Day hJ (by omega) (by omega) (by omega) (by omega) (by omega)
      hb.1 hb.2.1 hb.2.2]
    rw [if_neg (by omega), if_neg (by omega)]
    unfold to_unsigned_short to_unsigned_char
    refine Prod.ext ?_ (Prod.ext ?_ ?_) <;> simp only [] <;> omega

/-! ## GetJulianDay undoes GetGregorianDate -/

/-- The quotients `GetGregorianDate` takes, put together again. -/
theorem parts_of_day (j y d1 j2 d3 m d5 : Int) (hj : 1 ≤ j)
    (hy : (4 * j - 1) / 146097 = y) (hd1 : (4 * j - 1 - 146097 * y) / 4 = d1)
    (hj2 : (4 * d1 + 3) / 1461 = j2) (hd3 : (4 * d1 + 3 - 1461 * j2 + 4) / 4 = d3)
    (hm : (5 * d3 - 3) / 153 = m) (hd5 : (5 * d3 - 3 - 153 * m + 5) / 5 = d5) :
    146097 * y / 4 + 1461 * j2 / 4 + (153 * m + 2) / 5 + d5 = j ∧
    0 ≤ y ∧ 0 ≤ d1 ∧ 0 ≤ j2 ∧ j2 ≤ 99 ∧ 1 ≤ d3 ∧ 0 ≤ m ∧ m ≤ 11 ∧ 1 ≤ d5 ∧ d5 ≤ 31 := by
  have hy0 : 0 ≤ y := by omega
  have hd10 : 0 ≤ d1 ∧ d1 ≤ 36524 := by omega
  have hj20 : 0 ≤ j2 ∧ j2 ≤ 99 := by omega
  have hd30 : 1 ≤ d3 ∧ d3 ≤ 366 := by omega
  have hm0 : 0 ≤ m ∧ m ≤ 11 := by omega
  have hd50 : 1 ≤ d5 ∧ d5 ≤ 31 := by omega
  have l1 : 146097 * y / 4 + d1 + 1 = j := by
    have h4 : y % 4 = 0 ∨ y % 4 = 1 ∨ y % 4 = 2 ∨ y % 4 = 3 := by omega
    rcases h4 with h | h | h | h <;> omega
  have l2 : 1461 * j2 / 4 + d3 = d1 + 1 := by
    have h4 : j2 % 4 = 0 ∨ j2 % 4 = 1 ∨ j2 % 4 = 2 ∨ j2 % 4 = 3 := by omega
    rcases h4 with h | h | h | h <;> omega
  have l3 : (153 * m + 2) / 5 + d5 = d3 := by
    obtain ⟨m1, m2⟩ := hm0
    interval_cases m <;> omega
  exact ⟨by omega, hy0, hd10.1, hj20.1, hj20.2, hd30.1, hm0.1, hm0.2, hd50.1, hd50.2⟩

/-- `GetJulianDay` undoes `GetGregorianDate` on every Julian day from 1721426 (1 January of
year 1) to 25000000, the results being passed as `unsigned short`. -/
theorem GetJulianDay_GetGregorianDate (JD : Int) (h1 : 1721426 ≤ JD) (h2 : JD ≤ 25000000) :
    GetJulianDay (to_unsigned_short (GetGregorianDate JD).1)
      (to_unsigned_short (GetGregorianDate JD).2.1)
      (to_unsigned_short (GetGregorianDate JD).2.2) = JD := by
  obtain ⟨y, hy⟩ : ∃ y, (4 * (JD - 1721119) - 1) / 146097 = y := ⟨_, rfl⟩
  obtain ⟨d1, hd1⟩ : ∃ d1, (4 * (JD - 1721119) - 1 - 146097 * y) / 4 = d1 := ⟨_, rfl⟩
  obtain ⟨j2, hj2⟩ : ∃ j2, (4 * d1 + 3) / 1461 = j2 := ⟨_, rfl⟩
  obtain ⟨d3, hd3⟩ : ∃ d3, (4 * d1 + 3 - 1461 * j2 + 4) / 4 = d3 := ⟨_, rfl⟩
  obtain ⟨m, hm⟩ : ∃ m, (5 * d3 - 3) / 153 = m := ⟨_, rfl⟩
  obtain ⟨d5, hd5⟩ : ∃ d5, (5 * d3 - 3 - 153 * m + 5) / 5 = d5 := ⟨_, rfl⟩
  obtain ⟨hsum, hy0, hd10, hj20, hj21, hd30, hm0, hm1, hd50, hd51⟩ :=
    parts_of_day (JD - 1721119) y d1 j2 d3 m d5 (by omega) hy hd1 hj2 hd3 hm hd5
  have hy1 : y ≤ 640 := by omega
  have e1 : (4 * (JD - 1721119) - 1).tdiv 146097 = y :=
    tdiv_of_nonneg _ _ _ (by omega) (by norm_num) hy
  have e2 : (4 * (JD - 1721119) - 1 - 146097 * y).tdiv 4 = d1 :=
    tdiv_of_nonneg _ _ _ (by omega) (by norm_num) hd1
  have e3 : (4 * d1 + 3).tdiv 1461 = j2 := tdiv_of_nonneg _ _ _ (by omega) (by norm_num) hj2
  have e4 : (4 * d1 + 3 - 1461 * j2 + 4).tdiv 4 = d3 :=
    tdiv_of_nonneg _ _ _ (by omega) (by norm_num) hd3
  have e5 : (5 * d3 - 3).tdiv 153 = m := tdiv_of_nonneg _ _ _ (by omega) (by norm_num) hm
  have e6 : (5 * d3 - 3 - 153 * m + 5).tdiv 5 = d5 :=
    tdiv_of_nonneg _ _ _ (by omega) (by norm_num) hd5
  have hG : GetGregorianDate JD
      = ((to_unsigned_short (if m < 10 then 100 * y + j2 else 100 * y + j2 + 1) : Int),
         (to_unsigned_char (if m < 10 then m + 3 else m - 9) : Int) - 1,
         (to_unsigned_char d5 : Int)) := by
    unfold GetGregorianDate
    simp only []
    rw [e1, e2, e3, e4, e5, e6]
  rw [hG]
  simp only []
  have hchar : ∀ z : Int, 0 ≤ z → z < 256 → ((to_unsigned_char z : Nat) : Int) = z := by
    intro z z0 z1; unfold to_unsigned_char; omega
  have hshort : ∀ z : Int, 0 ≤ z → z < 65536 → ((to_unsigned_short z : Nat) : Int) = z := by
    intro z z0 z1; unfold to_unsigned_short; omega
  obtain ⟨D, hD⟩ : ∃ D : Nat, (D : Int) = d5 := ⟨d5.toNat, by omega⟩
  rw [hchar d5 (by omega) (by omega), ← hD, to_unsigned_short_natCast D (by omega)]
  by_cases hm10 : m < 10
  · rw [if_pos hm10, if_pos hm10]
    obtain ⟨Y, hY⟩ : ∃ Y : Nat, (Y : Int) = 100 * y + j2 := ⟨(100 * y + j2).toNat, by omega⟩
    obtain ⟨M, hM⟩ : ∃ M : Nat, (M : Int) = m + 3 - 1 := ⟨(m + 3 - 1).toNat, by omega⟩
    rw [hshort _ (by omega) (by omega), hchar _ (by omega) (by omega), ← hY, ← hM,
      to_unsigned_short_natCast Y (by omega), to_unsigned_short_natCast M (by omega),
      GetJulianDay_eq Y M D (by omega), if_pos (by omega)]
    have c1 : (Y : Int) / 100 = y := by omega
    have c2 : (Y : Int) % 100 = j2 := by omega
    have c3 : (M : Int) + 1 - 3 = m := by omega
    rw [c1, c2, c3, hD]
    omega
  · rw [if_neg hm10, if_neg hm10]
    obtain ⟨Y, hY⟩ : ∃ Y : Nat, (Y : Int) = 100 * y + j2 + 1 :=
      ⟨(100 * y + j2 + 1).toNat, by omega⟩
    obtain ⟨M, hM⟩ : ∃ M : Nat, (M : Int) = m - 9 - 1 := ⟨(m - 9 - 1).toNat, by omega⟩
    rw [hshort _ (by omega) (by omega), hchar _ (by omega) (by omega), ← hY, ← hM,
      to_unsigned_short_natCast Y (by omega), to_unsigned_short_natCast M (by omega),
      GetJulianDay_eq Y M D (by omega), if_neg (by omega)]
    have c1 : ((Y : Int) - 1) / 100 = y := by omega
    have c2 : ((Y : Int) - 1) % 100 = j2 := by omega
    have c3 : (M : Int) + 1 + 9 = m := by omega
    rw [c1, c2, c3, hD]
    omega

end Sntp

namespace Sntp

/-! ## Round trips -/

/-- C23: for every date of the calendar with year in 1900..2036 (month index 0..11),
`GetGregorianDate(GetJulianDay(year, m, d))` is `(year, m, d)`; and for every Julian day from
that of 1900-01-01 (2415021) to that of 2036-12-31 (2465059),
`GetJulianDay(GetGregorianDate(JD))` is `JD`. -/
theorem C23_Julian_Gregorian_round_trip (Year Month Day : Nat) (hY : 1900 ≤ Year)
    (hY2 : Year ≤ 2036) (hv : validDate Year Month Day) :
    GetGregorianDate (GetJulianDay Year Month Day)
      = ((Year : Int), (Month : Int), (Day : Int)) ∧
    GetJulianDay 1900 0 1 = 2415021 ∧ GetJulianDay 2036 11 31 = 2465059 ∧
    (∀ JD, GetJulianDay 1900 0 1 ≤ JD → JD ≤ GetJulianDay 2036 11 31 →
      GetJulianDay (to_unsigned_short (GetGregorianDate JD).1)
        (to_unsigned_short (GetGregorianDate JD).2.1)
        (to_unsigned_short (GetGregorianDate JD).2.2) = JD) := by
  have b1 : GetJulianDay 1900 0 1 = 2415021 := by decide
  have b2 : GetJulianDay 2036 11 31 = 2465059 := by decide
  refine ⟨GetGregorianDate_GetJulianDay Year Month Day (by omega) (by omega) hv, b1, b2, ?_⟩
  intro JD h1 h2
  rw [b1] at h1
  rw [b2] at h2
  exact GetJulianDay_GetGregorianDate JD (by omega) (by omega)

/-- C23 at 2004-05-28. -/
theorem C23_Julian_Gregorian_round_trip_witness :
    GetGregorianDate (GetJulianDay 2004 4 28) = (2004, 4, 28) ∧
    GetJulianDay (to_unsigned_short (GetGregorianDate 2453154).1)
      (to_unsigned_short (GetGregorianDate 2453154).2.1)
      (to_unsigned_short (GetGregorianDate 2453154).2.2) = 2453154 :=
  ⟨(C23_Julian_Gregorian_round_trip 2004 4 28 (by decide) (by decide) (by decide)).1,
   (C23_Julian_Gregorian_round_trip 2004 4 28 (by decide) (by decide) (by decide)).2.2.2
      2453154 (by decide) (by decide)⟩

/-- C22 at 2004-05-28 03:32:20.005. -/
theorem C22_SystemTimeToNTPPacket_seconds_witness :
    (SystemTimeToNTPPacket may_28_2004).seconds
      = 86400 * daysSince1900 2004 4 28 + 3600 * 3 + 60 * 32 + 20 ∧
    (SystemTimeToNTPPacket may_28_2004).fraction = MsToNTP_at 5 :=
  ⟨(C22_SystemTimeToNTPPacket_seconds may_28_2004 2004 4 28 3 32 20 rfl rfl rfl rfl rfl rfl
      (by decide) (by decide) (by decide) (by decide) (by decide) (by decide)).1,
   (C22_SystemTimeToNTPPacket_seconds may_28_2004 2004 4 28 3 32 20 rfl rfl rfl rfl rfl rfl
      (by decide) (by decide) (by decide) (by decide) (by decide) (by decide)).2.1⟩

/-- `NtpFractionToMs` in integer arithmetic: half of `0xFFFFFFFF` is added before the
division. -/
theorem NtpFractionToMs_eq (f : Nat) :
    NtpFractionToMs f = (2000 * f + 4294967295) / 8589934590 % 65536 := by
  have h : (f : ℚ) * NTP_FRACTIONAL_TO_MS + 1 / 2
      = (((2000 * f + 4294967295 : Nat) : Int) : ℚ) / ((8589934590 : Nat) : ℚ) := by
    unfold NTP_FRACTIONAL_TO_MS
    push_cast
    field_simp
    ring
  unfold NtpFractionToMs to_unsigned_short
  rw [h, Rat.floor_intCast_div_natCast]
  omega

theorem MsToNTP_length : MsToNTP.length = 1000 := by decide!

/-- A property of every pair (index, entry) of `MsToNTP` holds of `MsToNTP[i]`. -/
theorem MsToNTP_at_of_enum (P : Nat → Nat → Prop) (h : ∀ p ∈ MsToNTP.enum, P p.1 p.2)
    (i : Nat) (hi : i < 1000) : P i (MsToNTP_at i) := by
  have hl : i < MsToNTP.length := by rw [MsToNTP_length]; exact hi
  have e : MsToNTP_at i = MsToNTP[i] := List.getD_eq_getElem _ _ hl
  rw [e]
  exact h (i, MsToNTP[i]) (List.mk_mem_enum_iff_getElem?.2 (List.getElem?_eq_getElem hl))

theorem NtpFractionToMs_table :
    ∀ p ∈ MsToNTP.enum, (2000 * p.2 + 4294967295) / 8589934590 % 65536 = p.1 := by
  decide!

/-- Every entry of `MsToNTP` converts back to its index. -/
theorem NtpFractionToMs_MsToNTP (i : Nat) (hi : i < 1000) :
    NtpFractionToMs (MsToNTP_at i) = i := by
  rw [NtpFractionToMs_eq]
  exact MsToNTP_at_of_enum (fun i f => (2000 * f + 4294967295) / 8589934590 % 65536 = i)
    NtpFractionToMs_table i hi

/-- C21: for every `SYSTEM_TIME` holding a date of the calendar from 1900-01-01 to 2035-12-31
(`tm_year` the full year, `tm_mon` in 0..11), hour < 24, minute < 60, second < 60 and
`Milliseconds` < 1000, `NTPTimeToSystemTime(SystemTimeToNTPPacket(st))` holds the same year,
month, day, hour, minute, second and millisecond, whatever the structure held before. -/
theorem C21_NTP_SystemTime_round_trip (st old : SYSTEM_TIME)
    (Year Month Day Hour Minute Second : Nat)
    (hyear : st.Seconds.tm_year = Year) (hmon : st.Seconds.tm_mon = Month)
    (hmday : st.Seconds.tm_mday = Day) (hhour : st.Seconds.tm_hour = Hour)
    (hmin : st.Seconds.tm_min = Minute) (hsec : st.Seconds.tm_sec = Second)
    (hY : 1900 ≤ Year) (hY2 : Year ≤ 2035) (hv : validDate Year Month Day)
    (hH : Hour < 24) (hM : Minute < 60) (hS : Second < 60) (hms : st.Milliseconds < 1000) :
    (NTPTimeToSystemTime old (SystemTimeToNTPPacket st)).Seconds.tm_year = st.Seconds.tm_year ∧
    (NTPTimeToSystemTime old (SystemTimeToNTPPacket st)).Seconds.tm_mon = st.Seconds.tm_mon ∧
    (NTPTimeToSystemTime old (SystemTimeToNTPPacket st)).Seconds.tm_mday = st.Seconds.tm_mday ∧
    (NTPTimeToSystemTime old (SystemTimeToNTPPacket st)).Seconds.tm_hour = st.Seconds.tm_hour ∧
    (NTPTimeToSystemTime old (SystemTimeToNTPPacket st)).Seconds.tm_min = st.Seconds.tm_min ∧
    (NTPTimeToSystemTime old (SystemTimeToNTPPacket st)).Seconds.tm_sec = st.Seconds.tm_sec ∧
    (NTPTimeToSystemTime old (SystemTimeToNTPPacket st)).Milliseconds = st.Milliseconds := by
  have hsecs := SystemTimeToNTPPacket_seconds st Year Month Day Hour Minute Second hyear hmon
    hmday hhour hmin hsec hY hY2 hv hH hM hS
  have hfrac : (SystemTimeToNTPPacket st).fraction = MsToNTP_at st.Milliseconds := rfl
  have hJ := GetJulianDay_daysSince1900 Year Month Day hY hv
  have hG := GetGregorianDate_GetJulianDay Year Month Day (by omega) (by omega) hv
  generalize SystemTimeToNTPPacket st = p at hsecs hfrac ⊢
  generalize daysSince1900 Year Month Day = days at hsecs hJ
  have q1 : p.seconds % 60 = Second := by omega
  have q2 : p.seconds / 60 % 60 = Minute := by omega
  have q3 : p.seconds / 60 / 60 % 24 = Hour := by omega
  have q4 : p.seconds / 60 / 60 / 24 = days := by omega
  have hJD : ((p.seconds / 60 / 60 / 24 : Nat) : Int) + JAN_1ST_1900
      = GetJulianDay Year Month Day := by rw [q4]; omega
  refine ⟨?_, ?_, ?_, ?_, ?_, ?_, ?_⟩
  · show (GetGregorianDate _).1 = _
    rw [hJD, hG, hyear]
  · show (GetGregorianDate _).2.1 = _
    rw [hJD, hG, hmon]
  · show (GetGregorianDate _).2.2 = _
    rw [hJD, hG, hmday]
  · show ((to_unsigned_char ((p.seconds / 60 / 60 % 24 : Nat) : Int) : Nat) : Int) = _
    rw [q3, hhour, to_unsigned_char_natCast _ (by omega)]
  · show ((to_unsigned_char ((p.seconds / 60 % 60 : Nat) : Int) : Nat) : Int) = _
    rw [q2, hmin, to_unsigned_char_natCast _ (by omega)]
  · show ((to_unsigned_char ((p.seconds % 60 : Nat) : Int) : Nat) : Int) = _
    rw [q1, hsec, to_unsigned_char_natCast _ (by omega)]
  · show NtpFractionToMs p.fraction = _
    rw [hfrac]
    exact NtpFractionToMs_MsToNTP _ hms

/-- C21 at 2004-05-28 03:32:20.005, the structure written to holding zeros before. -/
theorem C21_NTP_SystemTime_round_trip_witness :
    (NTPTimeToSystemTime {} (SystemTimeToNTPPacket may_28_2004)).Seconds.tm_year = 2004 ∧
    (NTPTimeToSystemTime {} (SystemTimeToNTPPacket may_28_2004)).Seconds.tm_mon = 4 ∧
    (NTPTimeToSystemTime {} (SystemTimeToNTPPacket may_28_2004)).Seconds.tm_mday = 28 ∧
    (NTPTimeToSystemTime {} (SystemTimeToNTPPacket may_28_2004)).Milliseconds = 5 :=
  let h := C21_NTP_SystemTime_round_trip may_28_2004 {} 2004 4 28 3 32 20 rfl rfl rfl rfl rfl
    rfl (by decide) (by decide) (by decide) (by decide) (by decide) (by decide) (by decide)
  ⟨h.1, h.2.1, h.2.2.1, h.2.2.2.2.2.2⟩

end Sntp

namespace Sntp

/-! ## What SubtractTimePacket and AddNtpPacketWithTicks compute -/

theorem unsigned_long_sub_of_le (a b : Nat) (ha : a < 4294967296) (hb : b ≤ a) :
    unsigned_long_sub a b = a - b := by
  unfold unsigned_long_sub; omega

/-- The value of `SubtractTimePacket` when `time1` is not before `time2`. -/
theorem SubtractTimePacket_of_ge (a b : NtpTimePacket)
    (has : a.seconds < 2 ^ 32) (haf : a.fraction < 2 ^ 32) (hbf : b.fraction < 2 ^ 32)
    (h : CompareNtpTimePacket a b ≥ 0) :
    SubtractTimePacket a b
      = if a.fraction ≥ b.fraction then
          ((a.seconds - b.seconds : Nat) : ℚ)
            + ((a.fraction - b.fraction : Nat) : ℚ) / 0xFFFFFFFF
        else
          ((a.seconds - b.seconds - 1 : Nat) : ℚ)
            + ((0xFFFFFFFF - b.fraction + a.fraction : Nat) : ℚ) / 0xFFFFFFFF := by
  norm_num at has haf hbf
  have hs : b.seconds ≤ a.seconds := by
    unfold CompareNtpTimePacket at h
    by_contra hc
    rw [if_neg (by omega), if_pos (by omega)] at h
    exact absurd h (by decide)
  unfold SubtractTimePacket NtpFractionToSecond NTP_TO_SECOND
  rw [if_pos h]
  simp only []
  by_cases hf : a.fraction ≥ b.fraction
  · rw [if_pos hf, if_pos hf, unsigned_long_sub_of_le _ _ has hs,
      unsigned_long_sub_of_le _ _ haf hf]
    ring
  · have hs2 : b.seconds < a.seconds := by
      unfold CompareNtpTimePacket at h
      by_contra hc
      have e : a.seconds = b.seconds := by omega
      rw [if_neg (by omega), if_neg (by omega), if_neg (by omega), if_neg (by omega)] at h
      exact absurd h (by decide)
    rw [if_neg hf, if_neg hf, unsigned_long_sub_of_le _ _ has hs,
      unsigned_long_sub_of_le _ _ (by omega) (by omega),
      unsigned_long_sub_of_le _ _ (by norm_num) (by omega),
      Nat.mod_eq_of_lt (by omega)]
    ring

theorem CompareNtpTimePacket_swap (a b : NtpTimePacket) :
    CompareNtpTimePacket b a = -CompareNtpTimePacket a b := by
  unfold CompareNtpTimePacket
  split_ifs <;> first | rfl | omega

theorem CompareNtpTimePacket_eq_zero (a b : NtpTimePacket) :
    CompareNtpTimePacket a b = 0 ↔ a = b := by
  obtain ⟨as, af⟩ := a
  obtain ⟨bs, bf⟩ := b
  unfold CompareNtpTimePacket
  simp only [NtpTimePacket.mk.injEq]
  split_ifs <;> first | omega | (simp; omega)

/-- Swapping the arguments of `SubtractTimePacket` changes the sign of the result. -/
theorem SubtractTimePacket_swap (a b : NtpTimePacket) :
    SubtractTimePacket b a = -SubtractTimePacket a b := by
  have hsw := CompareNtpTimePacket_swap a b
  by_cases h : CompareNtpTimePacket a b ≥ 0
  · by_cases h0 : CompareNtpTimePacket a b = 0
    · have e := (CompareNtpTimePacket_eq_zero a b).1 h0
      subst e
      unfold SubtractTimePacket NtpFractionToSecond unsigned_long_sub
      rw [if_pos h, if_pos (le_refl _)]
      have z1 : (a.seconds + 4294967296 - a.seconds % 4294967296) % 4294967296 = 0 := by omega
      have z2 : (a.fraction + 4294967296 - a.fraction % 4294967296) % 4294967296 = 0 := by
        omega
      simp only [z1, z2]
      norm_num
    · have hb : ¬ CompareNtpTimePacket b a ≥ 0 := by omega
      unfold SubtractTimePacket
      rw [if_neg hb, if_pos h]
      simp only []
      split_ifs <;> ring
  · have hb : CompareNtpTimePacket b a ≥ 0 := by omega
    unfold SubtractTimePacket
    rw [if_pos hb, if_neg h]
    simp only []
    split_ifs <;> ring

/-- What holds of the sign of `SubtractTimePacket` for packets of 32-bit members: the
result is the opposite of the result for the swapped arguments, it is not negative when
`CompareNtpTimePacket` is 1 or 0 and not positive when it is -1, and it is 0 exactly for
equal packets and for the two packets `(s + 1, 0)` and `(s, 0xFFFFFFFF)`, in either order. -/
theorem SubtractTimePacket_sign (a b : NtpTimePacket)
    (has : a.seconds < 2 ^ 32) (haf : a.fraction < 2 ^ 32)
    (hbs : b.seconds < 2 ^ 32) (hbf : b.fraction < 2 ^ 32) :
    SubtractTimePacket a b = -SubtractTimePacket b a ∧
    (CompareNtpTimePacket a b ≥ 0 → 0 ≤ SubtractTimePacket a b) ∧
    (CompareNtpTimePacket a b = -1 → SubtractTimePacket a b ≤ 0) ∧
    (SubtractTimePacket a b = 0 ↔
      a = b ∨ (a.seconds = b.seconds + 1 ∧ a.fraction = 0 ∧ b.fraction = 0xFFFFFFFF)
        ∨ (b.seconds = a.seconds + 1 ∧ b.fraction = 0 ∧ a.fraction = 0xFFFFFFFF)) := by
  have key : ∀ p q : NtpTimePacket, p.seconds < 2 ^ 32 → p.fraction < 2 ^ 32 →
      q.fraction < 2 ^ 32 → CompareNtpTimePacket p q ≥ 0 →
      0 ≤ SubtractTimePacket p q ∧
      (SubtractTimePacket p q = 0 ↔
        p = q ∨ (p.seconds = q.seconds + 1 ∧ p.fraction = 0 ∧ q.fraction = 0xFFFFFFFF)) := by
    intro p q hps hpf hqf hc
    rw [SubtractTimePacket_of_ge p q hps hpf hqf hc]
    obtain ⟨ps, pf⟩ := p
    obtain ⟨qs, qf⟩ := q
    simp only [NtpTimePacket.mk.injEq] at *
    norm_num at hps hpf hqf
    have hs : qs ≤ ps := by
      unfold CompareNtpTimePacket at hc
      by_contra hn
      simp only [] at hc
      rw [if_neg (by omega), if_pos (by omega)] at hc
      exact absurd hc (by decide)
    have hpos : ∀ m n : Nat,
        (0 : ℚ) ≤ (m : ℚ) + (n : ℚ) / 0xFFFFFFFF ∧
        ((m : ℚ) + (n : ℚ) / 0xFFFFFFFF = 0 ↔ m = 0 ∧ n = 0) := by
      intro m n
      have h1 : (0 : ℚ) ≤ (m : ℚ) := Nat.cast_nonneg m
      have h2 : (0 : ℚ) ≤ (n : ℚ) / 0xFFFFFFFF := div_nonneg (Nat.cast_nonneg n) (by norm_num)
      refine ⟨add_nonneg h1 h2, ?_⟩
      constructor
      · intro h
        have e1 : (m : ℚ) = 0 := by linarith
        have e2 : (n : ℚ) / 0xFFFFFFFF = 0 := by linarith
        have e3 : (n : ℚ) = 0 := by
          rcases div_eq_zero_iff.1 e2 with h3 | h3
          · exact h3
          · norm_num at h3
        exact ⟨by exact_mod_cast e1, by exact_mod_cast e3⟩
      · rintro ⟨rfl, rfl⟩; norm_num
    by_cases hf : pf ≥ qf
    · rw [if_pos hf]
      refine ⟨(hpos _ _).1, ?_⟩
      rw [(hpos _ _).2]
      constructor
      · rintro ⟨h1, h2⟩; left; omega
      · rintro (⟨h1, h2⟩ | ⟨h1, h2, h3⟩) <;> omega
    · rw [if_neg hf]
      refine ⟨(hpos _ _).1, ?_⟩
      rw [(hpos _ _).2]
      have hs2 : qs < ps := by
        unfold CompareNtpTimePacket at hc
        by_contra hn
        simp only [] at hc
        rw [if_neg (by omega), if_neg (by omega), if_neg (by omega), if_neg (by omega)] at hc
        exact absurd hc (by decide)
      constructor
      · rintro ⟨h1, h2⟩; right; omega
      · rintro (⟨h1, h2⟩ | ⟨h1, h2, h3⟩) <;> omega
  have hsw := SubtractTimePacket_swap b a
  have hcs := CompareNtpTimePacket_swap a b
  refine ⟨hsw, ?_, ?_, ?_⟩
  · intro h; exact (key a b has haf hbf h).1
  · intro h
    have := (key b a hbs hbf haf (by omega)).1
    rw [hsw]; linarith
  · by_cases h : CompareNtpTimePacket a b ≥ 0
    · rw [(key a b has haf hbf h).2]
      constructor
      · rintro (h1 | h1)
        · exact Or.inl h1
        · exact Or.inr (Or.inl h1)
      · rintro (h1 | h1 | ⟨h1, h2, h3⟩)
        · exact Or.inl h1
        · exact Or.inr h1
        · exfalso
          unfold CompareNtpTimePacket at h
          rw [if_neg (by omega), if_pos (by omega)] at h
          exact absurd h (by decide)
    · have hb : CompareNtpTimePacket b a ≥ 0 := by omega
      have hne : ¬ CompareNtpTimePacket a b = 0 := by omega
      have hab : a ≠ b := fun e => hne ((CompareNtpTimePacket_eq_zero a b).2 e)
      rw [hsw, neg_eq_zero, (key b a hbs hbf haf hb).2]
      constructor
      · rintro (h1 | h1)
        · exact absurd h1.symm hab
        · exact Or.inr (Or.inr h1)
      · rintro (h1 | ⟨h1, h2, h3⟩ | h1)
        · exact absurd h1 hab
        · exfalso
          unfold CompareNtpTimePacket at hb
          rw [if_neg (by omega), if_pos (by omega)] at hb
          exact absurd hb (by decide)
        · exact Or.inr h1

/-- `SubtractTimePacket_sign` at `(1, 0)` and `(0, 0xFFFFFFFF)`. -/
theorem SubtractTimePacket_sign_witness :
    SubtractTimePacket ⟨1, 0⟩ ⟨0, 0xFFFFFFFF⟩ = 0 :=
  (SubtractTimePacket_sign ⟨1, 0⟩ ⟨0, 0xFFFFFFFF⟩ (by decide) (by decide) (by decide)
    (by decide)).2.2.2.2 (Or.inr (Or.inl ⟨rfl, rfl, rfl⟩))

theorem MsToNTP_table_lt : ∀ p ∈ MsToNTP.enum, p.2 < 4294967296 := by
  decide!

theorem MsToNTP_at_lt (i : Nat) : MsToNTP_at i < 4294967296 := by
  by_cases hi : i < 1000
  · exact MsToNTP_at_of_enum (fun _ f => f < 4294967296) MsToNTP_table_lt i hi
  · have hl : MsToNTP.length ≤ i := by rw [MsToNTP_length]; omega
    have e : MsToNTP_at i = 0 := List.getD_eq_default _ _ hl
    rw [e]; norm_num

/-- What `AddNtpPacketWithTicks` adds, for a clock rate `cps > 0` with `(ticks % cps) * 1000`
below `2^32` and no wrap of `seconds`: with `frac = MsToNTP[(ticks % cps) * 1000 / cps]`, the
new fraction is `(fraction + frac) mod 2^32`, and the 64-bit time stamp grows by
`(ticks / cps) * 2^32 + frac`, plus `2^32` when `fraction + frac` is exactly `0xFFFFFFFF`. -/
theorem AddNtpPacketWithTicks_sum (cps : Nat) (p : NtpTimePacket) (ticks : Nat)
    (_hcps : 0 < cps) (hf : p.fraction < 2 ^ 32) (hidx : (ticks % cps) * 1000 < 2 ^ 32)
    (hs : p.seconds + ticks / cps + 1 < 2 ^ 32) :
    (AddNtpPacketWithTicks cps p ticks).fraction
      = (p.fraction + MsToNTP_at ((ticks % cps) * 1000 / cps)) % 2 ^ 32 ∧
    (AddNtpPacketWithTicks cps p ticks).seconds * 2 ^ 32
        + (AddNtpPacketWithTicks cps p ticks).fraction
      = p.seconds * 2 ^ 32 + p.fraction + (ticks / cps) * 2 ^ 32
        + MsToNTP_at ((ticks % cps) * 1000 / cps)
        + (if p.fraction + MsToNTP_at ((ticks % cps) * 1000 / cps) = 0xFFFFFFFF
           then 2 ^ 32 else 0) := by
  norm_num at hf hidx hs ⊢
  have hfr := MsToNTP_at_lt ((ticks % cps) * 1000 / cps)
  unfold AddNtpPacketWithTicks
  simp only []
  rw [Nat.mod_eq_of_lt hidx]
  generalize MsToNTP_at ((ticks % cps) * 1000 / cps) = frac at hfr ⊢
  generalize ticks / cps = q at hs ⊢
  refine ⟨rfl, ?_⟩
  split_ifs <;> omega

/-- `AddNtpPacketWithTicks_sum` at the packet `(5, 0xFFFFFFFF)`, 0 ticks, 1000 ticks per
second. -/
theorem AddNtpPacketWithTicks_sum_witness :
    (AddNtpPacketWithTicks 1000 ⟨5, 0xFFFFFFFF⟩ 0).seconds * 2 ^ 32
        + (AddNtpPacketWithTicks 1000 ⟨5, 0xFFFFFFFF⟩ 0).fraction
      = 5 * 2 ^ 32 + 0xFFFFFFFF + (0 / 1000) * 2 ^ 32 + MsToNTP_at ((0 % 1000) * 1000 / 1000)
        + (if 0xFFFFFFFF + MsToNTP_at ((0 % 1000) * 1000 / 1000) = 0xFFFFFFFF
           then 2 ^ 32 else 0) :=
  (AddNtpPacketWithTicks_sum 1000 ⟨5, 0xFFFFFFFF⟩ 0 (by decide) (by decide) (by decide)
    (by decide)).2

end Sntp

namespace Sntp

/-! ## The table MsToNTP -/

/-- Every entry of `MsToNTP` is within half a unit of `i * 2 ^ 32 / 1000`, in integers. -/
theorem MsToNTP_table_nearest :
    ∀ p ∈ MsToNTP.enum, 2000 * p.2 < 2 * p.1 * 4294967296 + 1000 ∧
      2 * p.1 * 4294967296 < 2000 * p.2 + 1000 := by
  decide!

/-- C31: for every `i` below 1000, `MsToNTP[i]` is `i * 2 ^ 32 / 1000` rounded to the
nearest integer, from which it is less than one half away; the entries increase strictly
with the index; `MsToNTP[0]` is 0; the table has 1000 entries. -/
theorem C31_MsToNTP_rounded_fraction (i : Nat) (hi : i < 1000) :
    ((MsToNTP_at i : Nat) : Int) = round ((i : ℚ) * 2 ^ 32 / 1000) ∧
    |((MsToNTP_at i : Nat) : ℚ) - (i : ℚ) * 2 ^ 32 / 1000| < 1 / 2 ∧
    (∀ j, i < j → j < 1000 → MsToNTP_at i < MsToNTP_at j) ∧
    MsToNTP_at 0 = 0 ∧ MsToNTP.length = 1000 := by
  have key : ∀ k, k < 1000 → 2000 * MsToNTP_at k < 2 * k * 4294967296 + 1000 ∧
      2 * k * 4294967296 < 2000 * MsToNTP_at k + 1000 := fun k hk =>
    MsToNTP_at_of_enum (fun k f => 2000 * f < 2 * k * 4294967296 + 1000 ∧
      2 * k * 4294967296 < 2000 * f + 1000) MsToNTP_table_nearest k hk
  obtain ⟨h1, h2⟩ := key i hi
  have q1 : (2000 : ℚ) * (MsToNTP_at i : ℚ) < 2 * (i : ℚ) * 4294967296 + 1000 := by
    exact_mod_cast h1
  have q2 : 2 * (i : ℚ) * 4294967296 < (2000 : ℚ) * (MsToNTP_at i : ℚ) + 1000 := by
    exact_mod_cast h2
  have e : (i : ℚ) * 2 ^ 32 / 1000 = (i : ℚ) * 4294967296 / 1000 := by norm_num
  refine ⟨?_, ?_, ?_, by decide!, MsToNTP_length⟩
  · rw [round_eq, eq_comm, Int.floor_eq_iff, e]
    push_cast
    constructor
    · linarith
    · linarith
  · rw [abs_lt, e]
    constructor
    · linarith
    · linarith
  · intro j hij hj
    obtain ⟨_, h4⟩ := key j hj
    omega

/-- C31 at `i = 500`: `MsToNTP[500]` is `0x80000000`, half of `2 ^ 32`. -/
theorem C31_MsToNTP_rounded_fraction_witness :
    ((MsToNTP_at 500 : Nat) : Int) = round ((500 : ℚ) * 2 ^ 32 / 1000) ∧
    MsToNTP_at 500 = 0x80000000 ∧ MsToNTP_at 500 < MsToNTP_at 501 :=
  ⟨by simpa using (C31_MsToNTP_rounded_fraction 500 (by decide)).1, by decide!,
    (C31_MsToNTP_rounded_fraction 500 (by decide)).2.2.1 501 (by decide) (by decide)⟩

end Sntp

namespace TinyJpeg

/-! ## The bit reservoir -/

theorem fill_nbits_loop_enough (nbits_wanted : Nat) :
    ∀ fuel (p : jdec_private), nbits_wanted ≤ p.nbits_in_reservoir + 8 * fuel →
      nbits_wanted ≤ (fill_nbits_loop fuel p nbits_wanted).nbits_in_reservoir := by
  intro fuel
  induction fuel with
  | zero => intro p h; simpa [fill_nbits_loop] using h
  | succ n ih =>
    intro p h
    rw [fill_nbits_loop]
    split_ifs with hlt
    · exact ih (fill_nbits_pass p) (by
        show nbits_wanted ≤ p.nbits_in_reservoir + 8 + 8 * n
        omega)
    · omega

/-- The passes allowed to `fill_nbits` are enough: the `while` is left through its
condition, with at least `nbits_wanted` bits in the reservoir. -/
theorem fill_nbits_enough (p : jdec_private) (nbits_wanted : Nat) :
    nbits_wanted ≤ (fill_nbits p nbits_wanted).nbits_in_reservoir :=
  fill_nbits_loop_enough nbits_wanted nbits_wanted p (by omega)

/-! ## get_next_huffman_code -/

/-- C27, failing input: `bits` describes one code of 16 bits, `vals` is the symbol 5; the
code assigned is sixteen 0 bits, stored in `slowtable` as the cell pair `(0, 5)`, whose first
cell is also the mark that ends a row.  On a stream of zero bytes, which starts with that
code, `get_next_huffman_code` returns 0 and leaves the 16 bits in the reservoir, for every
`HUFFMAN_HASH_NBITS` below 16. -/
theorem C27_code_of_zero_bits_not_decoded :
    huffsize (memoryOf bits_one_code_16) = [16] ∧
    huffcode (huffsize (memoryOf bits_one_code_16)) = some [0] ∧
    (build_huffman_table 9 (memoryOf bits_one_code_16) (memoryOf [5]) unwritten).map
      (fun t => (t.slowtable 6, t.code_size 5)) = some ([0, 5, 0], 16) ∧
    (∀ H, H < 16 →
      decode_first H bits_one_code_16 [5] [0x00, 0x00, 0x00, 0x00] = some (0, 16, 0, 2)) := by
  decide

/-- C28, failing input: with the table `bits_dc_luminance` / `val_dc_luminance` and
`HUFFMAN_HASH_NBITS = 9`, no code matches a stream of `0xFF` bytes and
`get_next_huffman_code` returns 0, not -1, with 16 bits left in the reservoir; on a stream of
zero bytes it returns 0 as well, the symbol of the code `00`, with 14 bits left. -/
theorem C28_missing_code_returns_0 :
    decode_first 9 bits_dc_luminance val_dc_luminance [0xFF, 0xFF, 0xFF, 0xFF]
      = some (0, 16, 0xFFFF, 2) ∧
    decode_first 9 bits_dc_luminance val_dc_luminance [0x00, 0x00, 0x00, 0x00]
      = some (0, 14, 0, 2) := by
  decide!

end TinyJpeg

namespace TinyJpeg

/-! ## The bits of the reservoir under fill_nbits -/

theorem uchar_at_lt (data : Nat → Nat) (i : Nat) : uchar_at data i < 256 :=
  Nat.mod_lt _ (by norm_num)

/-- A pass of `fill_nbits` on a reservoir of at most 24 valid bits: the byte is appended
below them. -/
theorem fill_nbits_pass_spec (p : jdec_private)
    (hwf : p.reservoir < 2 ^ p.nbits_in_reservoir) (hn : p.nbits_in_reservoir ≤ 24) :
    (fill_nbits_pass p).reservoir = p.reservoir * 256 + uchar_at p.data p.stream ∧
    (fill_nbits_pass p).nbits_in_reservoir = p.nbits_in_reservoir + 8 ∧
    (fill_nbits_pass p).data = p.data := by
  have hc := uchar_at_lt p.data p.stream
  have h24 : p.reservoir < 2 ^ 24 :=
    lt_of_lt_of_le hwf (Nat.pow_le_pow_right (by norm_num) hn)
  refine ⟨?_, rfl, rfl⟩
  show ((p.reservoir <<< 8) % 2 ^ 32) ||| uchar_at p.data p.stream = _
  rw [Nat.shiftLeft_eq, Nat.mod_eq_of_lt (by norm_num at h24 ⊢; omega)]
  have e : p.reservoir * 2 ^ 8 = 2 ^ 8 * p.reservoir := Nat.mul_comm _ _
  rw [e, ← Nat.mul_add_lt_is_or (by norm_num; exact hc)]
  norm_num
  omega

/-- The valid bits of the reservoir stay on top under a pass. -/
theorem fill_nbits_pass_top (p : jdec_private) (s : Nat)
    (hwf : p.reservoir < 2 ^ p.nbits_in_reservoir) (hn : p.nbits_in_reservoir ≤ 24)
    (hs : s ≤ p.nbits_in_reservoir) :
    (fill_nbits_pass p).reservoir >>> ((fill_nbits_pass p).nbits_in_reservoir - s)
        = p.reservoir >>> (p.nbits_in_reservoir - s) ∧
    (fill_nbits_pass p).reservoir < 2 ^ (fill_nbits_pass p).nbits_in_reservoir := by
  obtain ⟨e1, e2, _⟩ := fill_nbits_pass_spec p hwf hn
  have hc := uchar_at_lt p.data p.stream
  rw [e1, e2]
  constructor
  · rw [Nat.shiftRight_eq_div_pow, Nat.shiftRight_eq_div_pow,
      show p.nbits_in_reservoir + 8 - s = 8 + (p.nbits_in_reservoir - s) by omega,
      Nat.pow_add, ← Nat.div_div_eq_div_mul]
    congr 1
    norm_num
    omega
  · rw [Nat.pow_add]
    norm_num
    omega

theorem fill_nbits_loop_of_ge (fuel : Nat) (p : jdec_private) (n : Nat)
    (h : n ≤ p.nbits_in_reservoir) : fill_nbits_loop fuel p n = p := by
  cases fuel with
  | zero => rfl
  | succ f => rw [fill_nbits_loop, if_neg (by omega)]

/-- The result of the `while` does not depend on the passes allowed, once they are enough. -/
theorem fill_nbits_loop_fuel (n : Nat) :
    ∀ (f f2 : Nat) (p : jdec_private), n ≤ p.nbits_in_reservoir + 8 * f →
      n ≤ p.nbits_in_reservoir + 8 * f2 → fill_nbits_loop f p n = fill_nbits_loop f2 p n := by
  intro f
  induction f with
  | zero =>
    intro f2 p h _
    rw [fill_nbits_loop_of_ge 0 p n (by omega), fill_nbits_loop_of_ge f2 p n (by omega)]
  | succ f ih =>
    intro f2 p h h2
    by_cases hlt : p.nbits_in_reservoir < n
    · obtain ⟨g, rfl⟩ : ∃ g, f2 = g + 1 := ⟨f2 - 1, by omega⟩
      rw [fill_nbits_loop, fill_nbits_loop, if_pos hlt, if_pos hlt]
      exact ih g (fill_nbits_pass p)
        (by show n ≤ p.nbits_in_reservoir + 8 + 8 * f; omega)
        (by show n ≤ p.nbits_in_reservoir + 8 + 8 * g; omega)
    · rw [fill_nbits_loop_of_ge _ p n (by omega), fill_nbits_loop_of_ge _ p n (by omega)]

theorem fill_nbits_loop_then (a b : Nat) (hab : a ≤ b) :
    ∀ (fa : Nat) (p : jdec_private) (fb fb2 : Nat), a ≤ p.nbits_in_reservoir + 8 * fa →
      b ≤ p.nbits_in_reservoir + 8 * fb → b ≤ p.nbits_in_reservoir + 8 * fb2 →
      fill_nbits_loop fb2 (fill_nbits_loop fa p a) b = fill_nbits_loop fb p b := by
  intro fa
  induction fa with
  | zero =>
    intro p fb fb2 h1 h2 h3
    rw [fill_nbits_loop_of_ge 0 p a (by omega)]
    exact fill_nbits_loop_fuel b fb2 fb p h3 h2
  | succ fa ih =>
    intro p fb fb2 h1 h2 h3
    by_cases hlt : p.nbits_in_reservoir < a
    · obtain ⟨g, rfl⟩ : ∃ g, fb = g + 1 := ⟨fb - 1, by omega⟩
      rw [fill_nbits_loop, if_pos hlt]
      rw [fill_nbits_loop.eq_def (g + 1)]
      simp only []
      rw [if_pos (by omega)]
      exact ih (fill_nbits_pass p) g fb2
        (by show a ≤ p.nbits_in_reservoir + 8 + 8 * fa; omega)
        (by show b ≤ p.nbits_in_reservoir + 8 + 8 * g; omega)
        (by show b ≤ p.nbits_in_reservoir + 8 + 8 * fb2; omega)
    · rw [fill_nbits_loop_of_ge _ p a (by omega)]
      exact fill_nbits_loop_fuel b fb2 fb p h3 h2

/-- Filling to `a` bits and then to `b ≥ a` bits is filling to `b` bits. -/
theorem fill_nbits_fill_nbits (p : jdec_private) (a b : Nat) (hab : a ≤ b) :
    fill_nbits (fill_nbits p a) b = fill_nbits p b :=
  fill_nbits_loop_then a b hab a p b b (by omega) (by omega) (by omega)

/-- A reservoir that holds `n` bits is not filled. -/
theorem fill_nbits_of_ge (p : jdec_private) (n : Nat) (h : n ≤ p.nbits_in_reservoir) :
    fill_nbits p n = p := fill_nbits_loop_of_ge n p n h

/-- Under the `while` of `fill_nbits` for at most 24 bits, the valid bits of the reservoir
stay on top, the reservoir keeps holding only valid bits, and no bit is removed. -/
theorem fill_nbits_loop_top (n s : Nat) (hn : n ≤ 24) :
    ∀ (fuel : Nat) (p : jdec_private), p.reservoir < 2 ^ p.nbits_in_reservoir →
      s ≤ p.nbits_in_reservoir →
      (fill_nbits_loop fuel p n).reservoir >>> ((fill_nbits_loop fuel p n).nbits_in_reservoir - s)
          = p.reservoir >>> (p.nbits_in_reservoir - s) ∧
      (fill_nbits_loop fuel p n).reservoir < 2 ^ (fill_nbits_loop fuel p n).nbits_in_reservoir ∧
      p.nbits_in_reservoir ≤ (fill_nbits_loop fuel p n).nbits_in_reservoir ∧
      (fill_nbits_loop fuel p n).nbits_in_reservoir ≤ max p.nbits_in_reservoir 31 := by
  intro fuel
  induction fuel with
  | zero => intro p hwf hs; exact ⟨rfl, hwf, le_refl _, le_max_left _ _⟩
  | succ f ih =>
    intro p hwf hs
    rw [fill_nbits_loop]
    split_ifs with hlt
    · obtain ⟨t1, t2⟩ := fill_nbits_pass_top p s hwf (by omega) hs
      have e : (fill_nbits_pass p).nbits_in_reservoir = p.nbits_in_reservoir + 8 := rfl
      obtain ⟨i1, i2, i3, i4⟩ := ih (fill_nbits_pass p) t2 (by omega)
      refine ⟨i1.trans t1, i2, by omega, ?_⟩
      rw [e] at i4
      have : max (p.nbits_in_reservoir + 8) 31 = 31 := max_eq_right (by omega)
      have h2 : (31 : Nat) ≤ max p.nbits_in_reservoir 31 := le_max_right _ _
      omega
    · exact ⟨rfl, hwf, le_refl _, le_max_left _ _⟩

/-- The bits `look_nbits` returns for `s` bits are the first `s` of those it returns for
`s2 ≥ s` bits. -/
theorem look_nbits_shift (p : jdec_private) (s s2 : Nat) (h : s ≤ s2) (h2 : s2 ≤ 24)
    (hwf : p.reservoir < 2 ^ p.nbits_in_reservoir) :
    (look_nbits p s2).2 >>> (s2 - s) = (look_nbits p s).2 := by
  show (fill_nbits p s2).reservoir >>> ((fill_nbits p s2).nbits_in_reservoir - s2) >>> (s2 - s)
    = (fill_nbits p s).reservoir >>> ((fill_nbits p s).nbits_in_reservoir - s)
  have hq := fill_nbits_enough p s
  obtain ⟨q1, q2, q3, _⟩ := fill_nbits_loop_top s 0 (by omega) s p hwf (Nat.zero_le _)
  have h2q := fill_nbits_enough p s2
  rw [← fill_nbits_fill_nbits p s s2 h]
  obtain ⟨r1, r2, r3, _⟩ := fill_nbits_loop_top s2 s h2 s2 (fill_nbits p s) q2 hq
  have e : fill_nbits (fill_nbits p s) s2 = fill_nbits_loop s2 (fill_nbits p s) s2 := rfl
  rw [e]
  rw [← r1, ← Nat.shiftRight_add]
  congr 1
  have := fill_nbits_enough (fill_nbits p s) s2
  rw [e] at this
  omega

/-! ## The rows of slowtable -/

theorem slowtable_insert_row_cells (code val : Nat) :
    ∀ L : List (Nat × Nat), (∀ e ∈ L, e.1 ≠ 0) →
      slowtable_insert (row_cells L) code val
        = some (row_cells (L ++ [(code % 65536, val % 65536)])) := by
  intro L
  induction L with
  | nil => intro _; rfl
  | cons e rest ih =>
    intro h
    obtain ⟨c, v⟩ := e
    have hc : c ≠ 0 := h (c, v) (List.mem_cons_self _ _)
    have hr := ih (fun e he => h e (List.mem_cons_of_mem _ he))
    show slowtable_insert (c :: v :: row_cells rest) code val = _
    rw [slowtable_insert, if_neg hc, hr]
    rfl

theorem slowtable_find_none (hcode : Nat) :
    ∀ L : List (Nat × Nat), (∀ e ∈ L, e.1 ≠ 0) → (∀ e ∈ L, e.1 ≠ hcode) →
      slowtable_find (row_cells L) hcode = some none := by
  intro L
  induction L with
  | nil => intro _ _; rfl
  | cons e rest ih =>
    intro h0 h
    obtain ⟨c, v⟩ := e
    show slowtable_find (c :: v :: row_cells rest) hcode = _
    rw [slowtable_find, if_neg (h0 (c, v) (List.mem_cons_self _ _)),
      if_neg (h (c, v) (List.mem_cons_self _ _))]
    exact ih (fun e he => h0 e (List.mem_cons_of_mem _ he))
      (fun e he => h e (List.mem_cons_of_mem _ he))

theorem slowtable_find_some (hcode val : Nat) :
    ∀ L : List (Nat × Nat), (∀ e ∈ L, e.1 ≠ 0) → (hcode, val) ∈ L →
      (∀ e ∈ L, e.1 = hcode → e.2 = val) →
      slowtable_find (row_cells L) hcode = some (some val) := by
  intro L
  induction L with
  | nil => intro _ hm _; cases hm
  | cons e rest ih =>
    intro h0 hm hu
    obtain ⟨c, v⟩ := e
    show slowtable_find (c :: v :: row_cells rest) hcode = _
    rw [slowtable_find, if_neg (h0 (c, v) (List.mem_cons_self _ _))]
    by_cases hc : c = hcode
    · rw [if_pos hc]
      have := hu (c, v) (List.mem_cons_self _ _) hc
      simp only [] at this
      rw [this]
    · rw [if_neg hc]
      rcases List.mem_cons.1 hm with h1 | h1
      · exact absurd (congrArg Prod.fst h1).symm hc
      · exact ih (fun e he => h0 e (List.mem_cons_of_mem _ he)) h1
          (fun e he => hu e (List.mem_cons_of_mem _ he))

/-- The `while` of lines 337-338 writes `val` in the `repeat` entries from `code` on. -/
theorem lookup_fill_eq (val : Nat) :
    ∀ (n : Nat) (lookup : Nat → Int) (code h : Nat),
      lookup_fill lookup val n code h
        = if code ≤ h ∧ h < code + n then (val : Int) else lookup h := by
  intro n
  induction n with
  | zero =>
    intro lookup code h
    rw [lookup_fill, if_neg (by omega)]
  | succ n ih =>
    intro lookup code h
    rw [lookup_fill, ih]
    by_cases h1 : code + 1 ≤ h ∧ h < code + 1 + n
    · rw [if_pos h1, if_pos (by omega)]
    · rw [if_neg h1]
      by_cases h2 : h = code
      · subst h2
        rw [Function.update_same, if_pos (by omega)]
      · rw [Function.update_noteq h2, if_neg (by omega)]

end TinyJpeg

namespace TinyJpeg

/-! ## The table build_huffman_table stores -/

theorem shiftRight_eq_iff (h k c : Nat) :
    h >>> k = c ↔ c * 2 ^ k ≤ h ∧ h < c * 2 ^ k + 2 ^ k := by
  rw [Nat.shiftRight_eq_div_pow]
  have hp : 0 < 2 ^ k := Nat.two_pow_pos k
  constructor
  · intro e
    subst e
    have h1 := Nat.div_mul_le_self h (2 ^ k)
    have h2 := Nat.lt_div_mul_add (a := h) hp
    exact ⟨h1, h2⟩
  · rintro ⟨h1, h2⟩
    apply Nat.le_antisymm
    · have : h < (c + 1) * 2 ^ k := by rw [Nat.add_mul, Nat.one_mul]; exact h2
      exact Nat.lt_succ_iff.1 ((Nat.div_lt_iff_lt_mul hp).2 this)
    · exact (Nat.le_div_iff_mul_le hp).2 h1

/-- Two entries that are apart do not both begin the same `H` bits. -/
theorem entries_apart_lookup (H : Nat) (e f : Nat × Nat × Nat) (ha : entries_apart e f)
    (he : e.1 ≤ H) (hf : f.1 ≤ H) (h : Nat)
    (h1 : h >>> (H - e.1) = e.2.1) (h2 : h >>> (H - f.1) = f.2.1) : False := by
  obtain ⟨a1, a2, _⟩ := ha
  rcases Nat.le_total e.1 f.1 with hle | hle
  · apply a1
    refine ⟨hle, ?_⟩
    rw [← h2, ← Nat.shiftRight_add, ← h1]
    congr 1
    omega
  · apply a2
    refine ⟨hle, ?_⟩
    rw [← h1, ← Nat.shiftRight_add, ← h2]
    congr 1
    omega

theorem entries_of_size_append (P : List (Nat × Nat × Nat)) (e : Nat × Nat × Nat) (n : Nat) :
    entries_of_size (P ++ [e]) n
      = entries_of_size P n ++ (if e.1 = n then [(e.2.1, e.2.2)] else []) := by
  unfold entries_of_size
  rw [List.filterMap_append]
  congr 1
  by_cases h : e.1 = n
  · simp [List.filterMap, h]
  · simp [List.filterMap, h]

theorem mem_entries_of_size (P : List (Nat × Nat × Nat)) (n c v : Nat) :
    (c, v) ∈ entries_of_size P n ↔ (n, c, v) ∈ P := by
  unfold entries_of_size
  rw [List.mem_filterMap]
  constructor
  · rintro ⟨⟨s, c2, v2⟩, hm, he⟩
    simp only [] at he
    split_ifs at he with hs
    · cases he
      subst hs
      exact hm
  · intro hm
    exact ⟨(n, c, v), hm, by simp⟩

/-- The body of the `for` of lines 323-348 for an entry of at most `H` bits. -/
theorem table_holds_lookup (H : Nat) (hH : H ≤ 16) (P : List (Nat × Nat × Nat))
    (T : huffman_table) (s c v : Nat) (hold : table_holds H P T)
    (hv : valid_prefix_code (P ++ [(s, c, v)])) (hs : s ≤ H) :
    table_holds H (P ++ [(s, c, v)])
      { T with code_size := Function.update T.code_size v s,
               lookup := lookup_fill T.lookup v (1 <<< (H - s))
                 ((c <<< (H - s)) % 2 ^ 32) } := by
  obtain ⟨i1, i2, i3, i4⟩ := hold
  obtain ⟨hb, hp⟩ := hv
  obtain ⟨_, _, hap⟩ := List.pairwise_append.1 hp
  have hap2 : ∀ a ∈ P, entries_apart a (s, c, v) := fun a ha =>
    hap a ha (s, c, v) (List.mem_singleton.2 rfl)
  obtain ⟨_, hs16, hc⟩ := hb (s, c, v) (List.mem_append_right _ (List.mem_singleton.2 rfl))
  simp only [] at hs16 hc
  have hcode : (c <<< (H - s)) % 2 ^ 32 = c * 2 ^ (H - s) := by
    rw [Nat.shiftLeft_eq]
    apply Nat.mod_eq_of_lt
    have h1 : c * 2 ^ (H - s) < 2 ^ s * 2 ^ (H - s) :=
      Nat.mul_lt_mul_of_pos_right hc (Nat.two_pow_pos _)
    rw [← Nat.pow_add, show s + (H - s) = H by omega] at h1
    exact lt_of_lt_of_le h1 (Nat.pow_le_pow_right (by norm_num) (by omega))
  have hrep : 1 <<< (H - s) = 2 ^ (H - s) := by rw [Nat.shiftLeft_eq, Nat.one_mul]
  have hlk : ∀ h, lookup_fill T.lookup v (1 <<< (H - s)) ((c <<< (H - s)) % 2 ^ 32) h
      = if h >>> (H - s) = c then (v : Int) else T.lookup h := by
    intro h
    rw [lookup_fill_eq, hcode, hrep]
    by_cases hc2 : h >>> (H - s) = c
    · rw [if_pos hc2, if_pos ((shiftRight_eq_iff _ _ _).1 hc2)]
    · rw [if_neg hc2, if_neg (fun hh => hc2 ((shiftRight_eq_iff _ _ _).2 hh))]
  refine ⟨?_, ?_, ?_, ?_⟩
  · intro e he hes h hh
    show lookup_fill _ _ _ _ h = _
    rw [hlk]
    rcases List.mem_append.1 he with he | he
    · rw [if_neg (fun hc2 => entries_apart_lookup H e (s, c, v) (hap2 e he) hes hs h hh hc2)]
      exact i1 e he hes h hh
    · rw [List.mem_singleton.1 he] at hh ⊢
      rw [if_pos hh]
  · intro h hh
    show lookup_fill _ _ _ _ h = _
    rw [hlk, if_neg (hh (s, c, v) (List.mem_append_right _ (List.mem_singleton.2 rfl)) hs)]
    exact i2 h (fun e he => hh e (List.mem_append_left _ he))
  · intro e he
    show Function.update T.code_size v s e.2.2 = _
    rcases List.mem_append.1 he with he | he
    · rw [Function.update_noteq (hap2 e he).2.2]
      exact i3 e he
    · rw [List.mem_singleton.1 he]
      exact Function.update_same _ _ _
  · intro r hr
    show T.slowtable r = _
    rw [entries_of_size_append, if_neg (by simp only []; omega), List.append_nil]
    exact i4 r hr

/-- The body of the `for` of lines 323-348 for an entry of more than `H` bits whose code is
not 0. -/
theorem table_holds_slowtable (H : Nat) (P : List (Nat × Nat × Nat))
    (T : huffman_table) (s c v : Nat) (hold : table_holds H P T)
    (hv : valid_prefix_code (P ++ [(s, c, v)])) (hs : H < s) (hv256 : v < 256)
    (hnz : ∀ e ∈ P, H < e.1 → e.2.1 ≠ 0) :
    ∃ row, slowtable_insert (T.slowtable (s - H - 1)) c v = some row ∧
      table_holds H (P ++ [(s, c, v)])
        { T with code_size := Function.update T.code_size v s,
                 slowtable := Function.update T.slowtable (s - H - 1) row } := by
  obtain ⟨i1, i2, i3, i4⟩ := hold
  obtain ⟨hb, hp⟩ := hv
  obtain ⟨_, _, hap⟩ := List.pairwise_append.1 hp
  have hap2 : ∀ a ∈ P, entries_apart a (s, c, v) := fun a ha =>
    hap a ha (s, c, v) (List.mem_singleton.2 rfl)
  obtain ⟨_, hs16, hc⟩ := hb (s, c, v) (List.mem_append_right _ (List.mem_singleton.2 rfl))
  simp only [] at hs16 hc
  have hc16 : c < 65536 :=
    lt_of_lt_of_le hc (by
      have := Nat.pow_le_pow_right (show 0 < 2 by norm_num) hs16
      norm_num at this ⊢
      exact this)
  have hrow := i4 (s - H - 1) (by omega)
  rw [show H + 1 + (s - H - 1) = s by omega] at hrow
  have hnz2 : ∀ e ∈ entries_of_size P s, e.1 ≠ 0 := by
    rintro ⟨c2, v2⟩ he
    exact hnz (s, c2, v2) ((mem_entries_of_size P s c2 v2).1 he) hs
  refine ⟨row_cells (entries_of_size P s ++ [(c, v)]), ?_, ?_, ?_, ?_, ?_⟩
  · rw [hrow, slowtable_insert_row_cells c v _ hnz2, Nat.mod_eq_of_lt hc16,
      Nat.mod_eq_of_lt (by omega)]
  · intro e he hes h hh
    show T.lookup h = _
    rcases List.mem_append.1 he with he | he
    · exact i1 e he hes h hh
    · rw [List.mem_singleton.1 he] at hes
      simp only [] at hes
      omega
  · intro h hh
    show T.lookup h = _
    exact i2 h (fun e he => hh e (List.mem_append_left _ he))
  · intro e he
    show Function.update T.code_size v s e.2.2 = _
    rcases List.mem_append.1 he with he | he
    · rw [Function.update_noteq (hap2 e he).2.2]
      exact i3 e he
    · rw [List.mem_singleton.1 he]
      exact Function.update_same _ _ _
  · intro r hr
    show Function.update T.slowtable (s - H - 1) _ r = _
    rw [entries_of_size_append]
    by_cases hrr : r = s - H - 1
    · subst hrr
      rw [Function.update_same, show H + 1 + (s - H - 1) = s by omega, if_pos rfl]
    · rw [Function.update_noteq hrr, if_neg (by simp only []; omega), List.append_nil]
      exact i4 r hr

theorem table_entries_val_lt (vals : Nat → Nat) :
    ∀ (sizes codes : List Nat) (i : Nat), ∀ e ∈ table_entries vals sizes codes i,
      e.2.2 < 256 := by
  intro sizes
  induction sizes with
  | nil => intro codes i e he; simp [table_entries] at he
  | cons s ss ih =>
    intro codes i e he
    cases codes with
    | nil => simp [table_entries] at he
    | cons c cs =>
      rw [table_entries] at he
      rcases List.mem_cons.1 he with h | h
      · rw [h]; exact uchar_at_lt _ _
      · exact ih cs (i + 1) e h

/-- The `for` of lines 323-348 stores the entries it reads, when they make a prefix code
with distinct symbols in which no code of more than `H` bits is 0. -/
theorem build_huffman_table_entries_holds (H : Nat) (hH : H ≤ 16) (vals : Nat → Nat) :
    ∀ (sizes codes : List Nat) (i : Nat) (T : huffman_table) (P : List (Nat × Nat × Nat)),
      table_holds H P T →
      valid_prefix_code (P ++ table_entries vals sizes codes i) →
      (∀ e ∈ P ++ table_entries vals sizes codes i, H < e.1 → e.2.1 ≠ 0) →
      ∃ T2, build_huffman_table_entries H vals sizes codes i T = some T2 ∧
        table_holds H (P ++ table_entries vals sizes codes i) T2 := by
  intro sizes
  induction sizes with
  | nil =>
    intro codes i T P hold _ _
    refine ⟨T, ?_, ?_⟩
    · cases codes <;> rfl
    · simpa [table_entries] using hold
  | cons s ss ih =>
    intro codes i T P hold hv hnz
    cases codes with
    | nil =>
      refine ⟨T, rfl, ?_⟩
      simpa [table_entries] using hold
    | cons c cs =>
      have he : table_entries vals (s :: ss) (c :: cs) i
          = (s, c, uchar_at vals i) :: table_entries vals ss cs (i + 1) := rfl
      have hsplit : P ++ table_entries vals (s :: ss) (c :: cs) i
          = (P ++ [(s, c, uchar_at vals i)]) ++ table_entries vals ss cs (i + 1) := by
        rw [he, List.append_assoc]; rfl
      rw [hsplit] at hv hnz ⊢
      have hv1 : valid_prefix_code (P ++ [(s, c, uchar_at vals i)]) :=
        ⟨fun e he => hv.1 e (List.mem_append_left _ he),
          (List.pairwise_append.1 hv.2).1⟩
      rw [build_huffman_table_entries]
      simp only []
      by_cases hs : s ≤ H
      · rw [if_pos hs]
        exact ih cs (i + 1) _ _
          (table_holds_lookup H hH P T s c (uchar_at vals i) hold hv1 hs) hv hnz
      · rw [if_neg hs]
        obtain ⟨row, hrow, hold2⟩ := table_holds_slowtable H P T s c (uchar_at vals i) hold hv1
          (by omega) (uchar_at_lt _ _)
          (fun e he => hnz e (List.mem_append_left _ (List.mem_append_left _ he)))
        rw [hrow]
        exact ih cs (i + 1) _ _ hold2 hv hnz

/-- `build_huffman_table` returns a table that holds the entries of `bits` and `vals`, when
they make a prefix code with distinct symbols in which no code of more than `H` bits is
0. -/
theorem build_huffman_table_holds (H : Nat) (hH : H ≤ 16) (bits vals : Nat → Nat)
    (T : huffman_table) (codes : List Nat) (hcodes : huffcode (huffsize bits) = some codes)
    (hv : valid_prefix_code (table_entries vals (huffsize bits) codes 0))
    (hnz : ∀ e ∈ table_entries vals (huffsize bits) codes 0, H < e.1 → e.2.1 ≠ 0) :
    ∃ T2, build_huffman_table H bits vals T = some T2 ∧
      table_holds H (table_entries vals (huffsize bits) codes 0) T2 := by
  unfold build_huffman_table
  simp only []
  rw [hcodes]
  have h0 : table_holds H []
      { T with lookup := fun _ => -1,
               slowtable := fun i => if i < 16 - H then [0] else T.slowtable i } := by
    refine ⟨fun e he => absurd he (List.not_mem_nil _), fun _ _ => rfl,
      fun e he => absurd he (List.not_mem_nil _), ?_⟩
    intro r hr
    show (if r < 16 - H then [0] else T.slowtable r) = _
    rw [if_pos hr]
    rfl
  have := build_huffman_table_entries_holds H hH vals (huffsize bits) codes 0 _ [] h0
    (by simpa using hv) (by simpa using hnz)
  simpa using this

end TinyJpeg

namespace TinyJpeg

/-! ## get_next_huffman_code on a stored table -/

theorem entries_apart_of_mem (E : List (Nat × Nat × Nat)) (hv : valid_prefix_code E)
    (a b : Nat × Nat × Nat) (ha : a ∈ E) (hb : b ∈ E) (hab : a ≠ b) : entries_apart a b := by
  have hsym : Symmetric entries_apart := by
    intro x y h
    exact ⟨h.2.1, h.1, fun e => h.2.2 e.symm⟩
  exact hv.2.forall hsym ha hb hab

theorem look_nbits_fill_nbits (p : jdec_private) (a b : Nat) (hab : a ≤ b) :
    look_nbits (fill_nbits p a) b = look_nbits p b := by
  unfold look_nbits
  simp only []
  rw [fill_nbits_fill_nbits p a b hab]

theorem look_nbits_fst (p : jdec_private) (n : Nat) : (look_nbits p n).1 = fill_nbits p n := rfl

/-- The `for` of lines 215-227 finds the code of an entry of more than `H` bits. -/
theorem get_next_huffman_code_slow_of_table (H : Nat) (E : List (Nat × Nat × Nat))
    (T : huffman_table) (hold : table_holds H E T) (hv : valid_prefix_code E)
    (hnz : ∀ e ∈ E, H < e.1 → e.2.1 ≠ 0) (priv : jdec_private)
    (hwf : priv.reservoir < 2 ^ priv.nbits_in_reservoir)
    (e : Nat × Nat × Nat) (he : e ∈ E) (hstart : (look_nbits priv e.1).2 = e.2.1) :
    ∀ (count extra : Nat), count + extra = 16 - H → H + 1 + extra ≤ e.1 →
      get_next_huffman_code_slow H T count extra (fill_nbits priv (H + extra))
        = some ((e.2.2 : Int), skip_nbits (fill_nbits priv e.1) e.1) := by
  obtain ⟨_, _, _, i4⟩ := hold
  obtain ⟨_, h16, _⟩ := hv.1 e he
  intro count
  induction count with
  | zero => intro extra h1 h2; omega
  | succ k ih =>
    intro extra h1 h2
    have hlook : look_nbits (fill_nbits priv (H + extra)) (H + 1 + extra)
        = (fill_nbits priv (H + 1 + extra), (look_nbits priv (H + 1 + extra)).2) := by
      rw [look_nbits_fill_nbits _ _ _ (by omega)]
      rfl
    have hcode : (look_nbits priv (H + 1 + extra)).2 = e.2.1 >>> (e.1 - (H + 1 + extra)) := by
      rw [← hstart]
      exact (look_nbits_shift priv _ _ h2 (by omega) hwf).symm
    have hrow := i4 extra (by omega)
    have hnz2 : ∀ x ∈ entries_of_size E (H + 1 + extra), x.1 ≠ 0 := by
      rintro ⟨c2, v2⟩ hx
      exact hnz _ ((mem_entries_of_size E _ c2 v2).1 hx) (by simp only []; omega)
    rw [get_next_huffman_code_slow]
    simp only []
    rw [hlook]
    simp only []
    rw [hrow]
    by_cases hlt : H + 1 + extra < e.1
    · have hnone : slowtable_find (row_cells (entries_of_size E (H + 1 + extra)))
          (look_nbits priv (H + 1 + extra)).2 = some none := by
        apply slowtable_find_none _ _ hnz2
        rintro ⟨c2, v2⟩ hx hc
        have hm := (mem_entries_of_size E _ c2 v2).1 hx
        have hne : (H + 1 + extra, c2, v2) ≠ e := by
          intro h
          rw [← h] at hlt
          simp only [] at hlt
          omega
        exact (entries_apart_of_mem E hv _ _ hm he hne).1
          ⟨by simp only []; omega, by simp only [] at hc ⊢; rw [← hcode]; exact hc.symm⟩
      rw [hnone]
      simp only []
      have h3 := ih (extra + 1) (by omega) (by omega)
      rw [show H + (extra + 1) = H + 1 + extra by omega] at h3
      exact h3
    · have heq : H + 1 + extra = e.1 := by omega
      have hsome : slowtable_find (row_cells (entries_of_size E (H + 1 + extra)))
          (look_nbits priv (H + 1 + extra)).2 = some (some e.2.2) := by
        have hc0 : (look_nbits priv (H + 1 + extra)).2 = e.2.1 := by
          rw [hcode, heq, Nat.sub_self]
          rfl
        rw [hc0]
        apply slowtable_find_some _ _ _ hnz2
        · rw [mem_entries_of_size, heq]
          exact he
        · rintro ⟨c2, v2⟩ hx hc
          have hm := (mem_entries_of_size E _ c2 v2).1 hx
          simp only [] at hc ⊢
          by_contra hne
          have hne2 : (H + 1 + extra, c2, v2) ≠ e := by
            intro h
            rw [← h] at hne
            exact hne rfl
          exact (entries_apart_of_mem E hv _ _ hm he hne2).1
            ⟨by simp only []; omega, by
              simp only []
              rw [heq, Nat.sub_self]
              exact hc.symm⟩
      rw [hsome]
      simp only []
      rw [heq]

/-- `get_next_huffman_code` on a table that holds the entries of a prefix code: on a
reservoir and stream that start with the code of the entry `e`, the value of `e` is
returned and `e.1` bits are skipped, after a filling to `H` bits or to the size of the
code. -/
theorem get_next_huffman_code_of_table (H : Nat) (hH : H ≤ 16) (E : List (Nat × Nat × Nat))
    (T : huffman_table) (hold : table_holds H E T) (hv : valid_prefix_code E)
    (hnz : ∀ e ∈ E, H < e.1 → e.2.1 ≠ 0) (priv : jdec_private)
    (hwf : priv.reservoir < 2 ^ priv.nbits_in_reservoir)
    (e : Nat × Nat × Nat) (he : e ∈ E) (hstart : (look_nbits priv e.1).2 = e.2.1) :
    get_next_huffman_code H priv T
      = some ((e.2.2 : Int), skip_nbits (fill_nbits priv (max H e.1)) e.1) := by
  have hslow := get_next_huffman_code_slow_of_table H E T hold hv hnz priv hwf e he hstart
    (16 - H) 0 (by omega)
  obtain ⟨i1, i2, i3, _⟩ := hold
  unfold get_next_huffman_code
  have hlook : look_nbits priv H = (fill_nbits priv H, (look_nbits priv H).2) := rfl
  rw [hlook]
  simp only []
  by_cases hs : e.1 ≤ H
  · have hsh := look_nbits_shift priv e.1 H hs (by omega) hwf
    rw [hstart] at hsh
    have hval := i1 e he hs _ hsh
    rw [hval, if_pos (Int.natCast_nonneg _), Int.toNat_natCast, i3 e he, max_eq_left hs]
  · have hval : T.lookup (look_nbits priv H).2 = -1 := by
      apply i2
      intro f hf hfs hc
      have hsh := look_nbits_shift priv f.1 H hfs (by omega) hwf
      rw [hc] at hsh
      have hsh2 := look_nbits_shift priv f.1 e.1 (by omega) (by
        have := (hv.1 e he).2.1
        omega) hwf
      rw [hstart, ← hsh] at hsh2
      have hne : f ≠ e := by
        intro h
        rw [h] at hfs
        exact hs hfs
      exact (entries_apart_of_mem E hv f e hf he hne).1 ⟨by omega, hsh2⟩
    rw [hval, if_neg (by decide), max_eq_right (by omega)]
    exact hslow (by omega)

/-! ## The codes of build_huffman_table -/

theorem huffsize_mem (bits : Nat → Nat) : ∀ s ∈ huffsize bits, 1 ≤ s ∧ s ≤ 16 := by
  intro s hs
  unfold huffsize at hs
  rw [List.mem_flatten] at hs
  obtain ⟨l, hl, hsl⟩ := hs
  rw [List.mem_map] at hl
  obtain ⟨k, hk, rfl⟩ := hl
  rw [List.mem_range] at hk
  rw [List.mem_replicate] at hsl
  omega

theorem huffsize_sorted (bits : Nat → Nat) : (huffsize bits).Pairwise (· ≤ ·) := by
  unfold huffsize
  rw [List.pairwise_flatten]
  constructor
  · intro l hl
    rw [List.mem_map] at hl
    obtain ⟨k, _, rfl⟩ := hl
    rw [List.pairwise_replicate]
    exact Or.inr (le_refl _)
  · rw [List.pairwise_map]
    refine (List.pairwise_lt_range 16).imp ?_
    intro a b hab x hx y hy
    rw [List.mem_replicate] at hx hy
    omega

/-- The passes allowed to the loops of lines 310-318 are enough on sizes that do not
decrease: every size gets a code. -/
theorem huffcode_loop_total :
    ∀ (fuel : Nat) (sizes : List Nat) (code nbits : Nat), sizes.Pairwise (· ≤ ·) →
      (∀ s ∈ sizes, nbits ≤ s ∧ s ≤ 16) → sizes.length + (17 - nbits) ≤ fuel →
      ∃ codes, huffcode_loop fuel sizes code nbits = some codes
        ∧ codes.length = sizes.length := by
  intro fuel
  induction fuel with
  | zero =>
    intro sizes code nbits _ hb hf
    cases sizes with
    | nil => exact ⟨[], rfl, rfl⟩
    | cons s rest =>
      have := (hb s (List.mem_cons_self _ _))
      simp only [List.length_cons] at hf
      omega
  | succ f ih =>
    intro sizes code nbits hp hb hf
    cases sizes with
    | nil => exact ⟨[], rfl, rfl⟩
    | cons s rest =>
      have hs := hb s (List.mem_cons_self _ _)
      rw [List.pairwise_cons] at hp
      simp only [List.length_cons] at hf
      rw [huffcode_loop]
      by_cases heq : s = nbits
      · rw [if_pos heq]
        obtain ⟨codes, hc, hl⟩ := ih rest ((code + 1) % 2 ^ 32) nbits hp.2
          (fun t ht => ⟨by have := hp.1 t ht; omega, (hb t (List.mem_cons_of_mem _ ht)).2⟩)
          (by omega)
        exact ⟨code :: codes, by rw [hc]; rfl, by simp [hl]⟩
      · rw [if_neg heq]
        have hn : (nbits + 1) % 2 ^ 32 = nbits + 1 := Nat.mod_eq_of_lt (by norm_num; omega)
        rw [hn]
        obtain ⟨codes, hc, hl⟩ := ih (s :: rest) ((code <<< 1) % 2 ^ 32) (nbits + 1)
          (List.pairwise_cons.2 hp)
          (fun t ht => by
            rcases List.mem_cons.1 ht with h | h
            · rw [h]; omega
            · have := hp.1 t h
              have := (hb t (List.mem_cons_of_mem _ h)).2
              omega)
          (by simp only [List.length_cons]; omega)
        exact ⟨codes, hc, hl⟩

/-- `huffcode` gives every size of `huffsize` a code, whatever `bits` holds. -/
theorem huffcode_total (bits : Nat → Nat) :
    ∃ codes, huffcode (huffsize bits) = some codes
      ∧ codes.length = (huffsize bits).length := by
  unfold huffcode
  apply huffcode_loop_total _ _ _ _ (huffsize_sorted bits)
  · intro s hs
    refine ⟨?_, (huffsize_mem bits s hs).2⟩
    cases h : huffsize bits with
    | nil => rw [h] at hs; cases hs
    | cons a rest =>
      rw [h] at hs
      have hp := huffsize_sorted bits
      rw [h, List.pairwise_cons] at hp
      show a ≤ s
      rcases List.mem_cons.1 hs with h1 | h1
      · omega
      · exact hp.1 s h1
  · cases h : huffsize bits with
    | nil => simp
    | cons a rest =>
      have := (huffsize_mem bits a (by rw [h]; exact List.mem_cons_self _ _)).1
      simp only [List.length_cons, List.headD_cons]
      omega

/-! ## Decoding -/

/-- What `skip_nbits` leaves of a reservoir that holds at least `s ≥ 1` valid bits, and at
most 32: `s` bits fewer, the bits that were below the `s` first ones. -/
theorem skip_nbits_spec (q : jdec_private) (s : Nat) (hs : 1 ≤ s)
    (hq : s ≤ q.nbits_in_reservoir) (h32 : q.nbits_in_reservoir ≤ 32) :
    (skip_nbits q s).nbits_in_reservoir + s = q.nbits_in_reservoir ∧
    (skip_nbits q s).reservoir = q.reservoir % 2 ^ (skip_nbits q s).nbits_in_reservoir ∧
    (skip_nbits q s).stream = q.stream := by
  unfold skip_nbits
  simp only []
  rw [fill_nbits_of_ge q s hq]
  refine ⟨by omega, ?_, rfl⟩
  have hlt : q.nbits_in_reservoir - s < 32 := by omega
  rw [Nat.shiftLeft_eq, Nat.one_mul,
    Nat.mod_eq_of_lt (Nat.pow_lt_pow_right (by norm_num) hlt),
    Nat.and_pow_two_sub_one_eq_mod]

/-- Huffman decoding undoes the code assignment of the table, for the tables in which no
code of more than `HUFFMAN_HASH_NBITS` bits is 0: when `bits` and `vals` describe a prefix
code with distinct symbols and such codes, `build_huffman_table` returns a table, and for
every entry (size, code, value), on a reservoir and stream whose first `size` bits are
`code`, `get_next_huffman_code` returns `value` and removes exactly `size` bits from the
reservoir, filled to `HUFFMAN_HASH_NBITS` bits or to `size` bits, whichever is more; this
holds for the codes served by `lookup` and for those served by `slowtable`. -/
theorem get_next_huffman_code_decodes (H : Nat) (hH : H ≤ 16) (bits vals : Nat → Nat)
    (T0 : huffman_table) (priv : jdec_private)
    (hwf : priv.reservoir < 2 ^ priv.nbits_in_reservoir)
    (h32 : priv.nbits_in_reservoir ≤ 32)
    (hv : valid_prefix_code (huffman_entries bits vals))
    (hnz : ∀ e ∈ huffman_entries bits vals, H < e.1 → e.2.1 ≠ 0) :
    ∃ T, build_huffman_table H bits vals T0 = some T ∧
      ∀ e ∈ huffman_entries bits vals, (look_nbits priv e.1).2 = e.2.1 →
        get_next_huffman_code H priv T
          = some ((e.2.2 : Int), skip_nbits (fill_nbits priv (max H e.1)) e.1) ∧
        (skip_nbits (fill_nbits priv (max H e.1)) e.1).nbits_in_reservoir + e.1
          = (fill_nbits priv (max H e.1)).nbits_in_reservoir ∧
        (skip_nbits (fill_nbits priv (max H e.1)) e.1).reservoir
          = (fill_nbits priv (max H e.1)).reservoir
              % 2 ^ (skip_nbits (fill_nbits priv (max H e.1)) e.1).nbits_in_reservoir := by
  obtain ⟨codes, hcodes, _⟩ := huffcode_total bits
  have hE : huffman_entries bits vals = table_entries vals (huffsize bits) codes 0 := by
    unfold huffman_entries; rw [hcodes]
  rw [hE] at hv hnz ⊢
  obtain ⟨T, hT, hold⟩ := build_huffman_table_holds H hH bits vals T0 codes hcodes hv hnz
  refine ⟨T, hT, ?_⟩
  intro e he hstart
  obtain ⟨hs1, hs16, _⟩ := hv.1 e he
  have hfill := fill_nbits_enough priv (max H e.1)
  obtain ⟨_, _, _, hmax⟩ := fill_nbits_loop_top (max H e.1) 0 (by
    rcases le_total H e.1 with h | h
    · rw [max_eq_right h]; omega
    · rw [max_eq_left h]; omega) (max H e.1) priv hwf (Nat.zero_le _)
  have hq32 : (fill_nbits priv (max H e.1)).nbits_in_reservoir ≤ 32 := by
    have e1 : fill_nbits priv (max H e.1) = fill_nbits_loop (max H e.1) priv (max H e.1) := rfl
    rw [e1]
    rcases le_total priv.nbits_in_reservoir 31 with h | h
    · rw [max_eq_right h] at hmax; omega
    · rw [max_eq_left h] at hmax; omega
  obtain ⟨k1, k2, _⟩ := skip_nbits_spec (fill_nbits priv (max H e.1)) e.1 hs1
    (le_trans (le_max_right _ _) hfill) hq32
  exact ⟨get_next_huffman_code_of_table H hH _ T hold hv hnz priv hwf e he hstart, k1, k2⟩

/-- `get_next_huffman_code_decodes` at the table `bits_dc_luminance` / `val_dc_luminance`,
`H = 9`, on the stream `FE 00 FF FF`, whose first 8 bits are the code of the value 10. -/
theorem get_next_huffman_code_decodes_witness :
    ∃ T, build_huffman_table 9 (memoryOf bits_dc_luminance) (memoryOf val_dc_luminance)
        unwritten = some T ∧
      (get_next_huffman_code 9 stream_FE T).map (fun r => r.1) = some 10 :=
  (get_next_huffman_code_decodes 9 (by decide) (memoryOf bits_dc_luminance)
    (memoryOf val_dc_luminance) unwritten stream_FE (by decide) (by decide) (by decide)
    (by decide)).imp
    (fun T h => ⟨h.1, congrArg (Option.map (fun r => r.1))
      ((h.2 (8, 254, 10) (by decide) (by decide)).1)⟩)

theorem get_next_huffman_code_slow_nonneg (H : Nat) (T : huffman_table) :
    ∀ (count extra : Nat) (p : jdec_private) (r : Int × jdec_private),
      get_next_huffman_code_slow H T count extra p = some r → 0 ≤ r.1 := by
  intro count
  induction count with
  | zero =>
    intro extra p r h
    rw [get_next_huffman_code_slow] at h
    cases h
    exact le_refl _
  | succ k ih =>
    intro extra p r h
    rw [get_next_huffman_code_slow] at h
    simp only [] at h
    split at h
    · cases h
    · cases h
      exact Int.natCast_nonneg _
    · exact ih _ _ r h

/-- `get_next_huffman_code` never returns a negative value: what it returns is an entry of
`lookup` that is not negative, a cell of `slowtable`, or 0. -/
theorem get_next_huffman_code_nonneg (H : Nat) (priv : jdec_private) (T : huffman_table)
    (r : Int × jdec_private) (h : get_next_huffman_code H priv T = some r) : 0 ≤ r.1 := by
  unfold get_next_huffman_code at h
  simp only [] at h
  split_ifs at h with hv
  · cases h
    exact hv
  · exact get_next_huffman_code_slow_nonneg H T _ _ _ r h

/-- `get_next_huffman_code_nonneg` at a table without any code and a stream of `0xFF`. -/
theorem get_next_huffman_code_nonneg_witness :
    (0 : Int) ≤ 0 :=
  get_next_huffman_code_nonneg 9 { data := memoryOf [0xFF, 0xFF] }
    { lookup := fun _ => -1, code_size := fun _ => 0, slowtable := fun _ => [0] }
    (0, fill_nbits { data := memoryOf [0xFF, 0xFF] } 16) rfl

end TinyJpeg

namespace TinyJpeg

/-! ## The macros and the bits of the stream -/

theorem fill_nbits_pass_stream (p : jdec_private) :
    (fill_nbits_pass p).stream = stuffed_next p.data p.stream ∧
    (fill_nbits_pass p).data = p.data ∧
    (fill_nbits_pass p).nbits_in_reservoir = p.nbits_in_reservoir + 8 := by
  refine ⟨?_, rfl, rfl⟩
  show (if _ then _ else _) = _
  unfold stuffed_next
  split_ifs <;> rfl

/-- A pass of `fill_nbits` on a reservoir of at most 24 valid bits changes no bit of what is
still to be read, whatever the other bits of the reservoir are. -/
theorem pending_bit_fill_nbits_pass (p : jdec_private) (hn : p.nbits_in_reservoir ≤ 24)
    (i : Nat) : pending_bit (fill_nbits_pass p) i = pending_bit p i := by
  obtain ⟨e1, e2, e3⟩ := fill_nbits_pass_stream p
  have hc := uchar_at_lt p.data p.stream
  have er : (fill_nbits_pass p).reservoir
      = ((p.reservoir <<< 8) % 2 ^ 32) ||| uchar_at p.data p.stream := rfl
  unfold pending_bit
  rw [e1, e2, e3, er]
  by_cases h1 : i < p.nbits_in_reservoir
  · rw [if_pos (by omega), if_pos h1, Nat.testBit_or, Nat.testBit_mod_two_pow,
      Nat.testBit_shiftLeft]
    have hk : p.nbits_in_reservoir + 8 - 1 - i - 8 = p.nbits_in_reservoir - 1 - i := by omega
    have hz : (uchar_at p.data p.stream).testBit (p.nbits_in_reservoir + 8 - 1 - i) = false :=
      Nat.testBit_lt_two_pow (lt_of_lt_of_le hc
        (by
          have : (2 : Nat) ^ 8 ≤ 2 ^ (p.nbits_in_reservoir + 8 - 1 - i) :=
            Nat.pow_le_pow_right (by norm_num) (by omega)
          simpa using this))
    rw [hz, hk]
    simp only [Bool.or_false]
    rw [decide_eq_true (by omega : p.nbits_in_reservoir + 8 - 1 - i < 32),
      decide_eq_true (by omega : p.nbits_in_reservoir + 8 - 1 - i ≥ 8)]
    simp
  · by_cases h2 : i < p.nbits_in_reservoir + 8
    · rw [if_pos h2, if_neg h1, Nat.testBit_or, Nat.testBit_mod_two_pow,
        Nat.testBit_shiftLeft]
      have hd : (i - p.nbits_in_reservoir) / 8 = 0 := by omega
      have hm : 7 - (i - p.nbits_in_reservoir) % 8 = p.nbits_in_reservoir + 8 - 1 - i := by
        omega
      rw [hd, hm, decide_eq_false (by omega : ¬ p.nbits_in_reservoir + 8 - 1 - i ≥ 8)]
      simp [unstuffed_byte, stuffed_after]
    · rw [if_neg h2, if_neg h1]
      have hd : (i - p.nbits_in_reservoir) / 8 = (i - (p.nbits_in_reservoir + 8)) / 8 + 1 := by
        omega
      have hm : (i - p.nbits_in_reservoir) % 8 = (i - (p.nbits_in_reservoir + 8)) % 8 := by
        omega
      rw [hd, hm]
      rfl

/-- The `while` of `fill_nbits` for at most 24 bits changes no bit of what is still to be
read. -/
theorem pending_bit_fill_nbits_loop (n : Nat) (hn : n ≤ 24) :
    ∀ (fuel : Nat) (p : jdec_private) (i : Nat),
      pending_bit (fill_nbits_loop fuel p n) i = pending_bit p i := by
  intro fuel
  induction fuel with
  | zero => intro p i; rfl
  | succ f ih =>
    intro p i
    rw [fill_nbits_loop]
    split_ifs with hlt
    · rw [ih (fill_nbits_pass p) i]
      exact pending_bit_fill_nbits_pass p (by omega) i
    · rfl

/-- The bytes the `while` of `fill_nbits` takes: the least number of them that gives
`n` bits, and `stream` ends after them. -/
theorem fill_nbits_loop_bytes (n : Nat) :
    ∀ (fuel : Nat) (p : jdec_private), n ≤ p.nbits_in_reservoir + 8 * fuel →
      (fill_nbits_loop fuel p n).nbits_in_reservoir
        = p.nbits_in_reservoir + 8 * ((n - p.nbits_in_reservoir + 7) / 8) ∧
      (fill_nbits_loop fuel p n).stream
        = stuffed_after p.data p.stream ((n - p.nbits_in_reservoir + 7) / 8) ∧
      (fill_nbits_loop fuel p n).data = p.data := by
  intro fuel
  induction fuel with
  | zero =>
    intro p h
    have hk : (n - p.nbits_in_reservoir + 7) / 8 = 0 := by omega
    rw [hk]
    exact ⟨rfl, rfl, rfl⟩
  | succ f ih =>
    intro p h
    rw [fill_nbits_loop]
    split_ifs with hlt
    · obtain ⟨e1, e2, e3⟩ := fill_nbits_pass_stream p
      obtain ⟨i1, i2, i3⟩ := ih (fill_nbits_pass p) (by rw [e3]; omega)
      rw [e1, e2, e3] at i2
      rw [e3] at i1
      rw [e2] at i3
      have hk : (n - p.nbits_in_reservoir + 7) / 8
          = (n - (p.nbits_in_reservoir + 8) + 7) / 8 + 1 := by omega
      rw [hk]
      exact ⟨by rw [i1]; omega, i2, i3⟩
    · have hk : (n - p.nbits_in_reservoir + 7) / 8 = 0 := by omega
      rw [hk]
      exact ⟨rfl, rfl, rfl⟩

theorem bits_value_lt (f : Nat → Bool) (n : Nat) : bits_value f n < 2 ^ n := by
  induction n with
  | zero => simp [bits_value]
  | succ k ih =>
    rw [bits_value, Nat.pow_succ]
    have : (f k).toNat ≤ 1 := Bool.toNat_le (f k)
    omega

theorem bits_value_congr (f g : Nat → Bool) (h : ∀ i, f i = g i) (n : Nat) :
    bits_value f n = bits_value g n := by
  induction n with
  | zero => rfl
  | succ k ih => rw [bits_value, bits_value, ih, h k]

/-- In a reservoir that holds only its valid bits, the shift of `look_nbits` and `get_nbits`
gives the number the first `n` bits spell. -/
theorem shift_eq_bits_value (q : jdec_private)
    (hwf : q.reservoir < 2 ^ q.nbits_in_reservoir) :
    ∀ n, n ≤ q.nbits_in_reservoir →
      q.reservoir >>> (q.nbits_in_reservoir - n) = bits_value (pending_bit q) n := by
  intro n
  induction n with
  | zero =>
    intro _
    rw [Nat.sub_zero, Nat.shiftRight_eq_div_pow, Nat.div_eq_of_lt hwf]
    rfl
  | succ k ih =>
    intro hk
    rw [bits_value, ← ih (by omega)]
    have hb : pending_bit q k
        = q.reservoir.testBit (q.nbits_in_reservoir - (k + 1)) := by
      unfold pending_bit
      rw [if_pos (by omega)]
      congr 1
      omega
    rw [hb, Nat.toNat_testBit, Nat.shiftRight_eq_div_pow, Nat.shiftRight_eq_div_pow,
      show q.nbits_in_reservoir - k = (q.nbits_in_reservoir - (k + 1)) + 1 by omega,
      Nat.pow_succ, ← Nat.div_div_eq_div_mul]
    omega

/-- The bits still to be read after `skip_nbits` on a reservoir that holds the `n ≥ 1` bits:
those from bit `n` on. -/
theorem pending_bit_skip_nbits (q : jdec_private) (n : Nat) (h1 : 1 ≤ n)
    (hq : n ≤ q.nbits_in_reservoir) (h32 : q.nbits_in_reservoir ≤ 32) (i : Nat) :
    pending_bit (skip_nbits q n) i = pending_bit q (n + i) := by
  obtain ⟨k1, k2, k3⟩ := skip_nbits_spec q n h1 hq h32
  have k4 : (skip_nbits q n).data = q.data := by
    unfold skip_nbits
    simp only []
    rw [fill_nbits_of_ge q n hq]
  have k5 : (skip_nbits q n).nbits_in_reservoir = q.nbits_in_reservoir - n := by omega
  unfold pending_bit
  rw [k2, k3, k4, k5]
  by_cases hi : i < q.nbits_in_reservoir - n
  · rw [if_pos hi, if_pos (by omega), Nat.testBit_mod_two_pow,
      decide_eq_true (by omega : q.nbits_in_reservoir - n - 1 - i < q.nbits_in_reservoir - n),
      show q.nbits_in_reservoir - 1 - (n + i) = q.nbits_in_reservoir - n - 1 - i by omega]
    simp
  · rw [if_neg hi, if_neg (by omega),
      show n + i - q.nbits_in_reservoir = i - (q.nbits_in_reservoir - n) by omega]

/-- The reservoir `fill_nbits` leaves, for at most 24 bits wanted, when it held only its
valid bits, at most 32 of them: it holds only its valid bits, at most 32 of them, and at
least the bits wanted. -/
theorem fill_nbits_valid (p : jdec_private) (n : Nat) (hn : n ≤ 24)
    (hwf : p.reservoir < 2 ^ p.nbits_in_reservoir) (h32 : p.nbits_in_reservoir ≤ 32) :
    (fill_nbits p n).reservoir < 2 ^ (fill_nbits p n).nbits_in_reservoir ∧
    (fill_nbits p n).nbits_in_reservoir ≤ 32 ∧
    n ≤ (fill_nbits p n).nbits_in_reservoir := by
  obtain ⟨_, t2, _, t4⟩ := fill_nbits_loop_top n 0 hn n p hwf (Nat.zero_le _)
  refine ⟨t2, ?_, fill_nbits_enough p n⟩
  have e : fill_nbits p n = fill_nbits_loop n p n := rfl
  rw [e]
  rcases le_total p.nbits_in_reservoir 31 with h | h
  · rw [max_eq_right h] at t4; omega
  · rw [max_eq_left h] at t4; omega

/-- The sign extension of `get_nbits` in `unsigned long` arithmetic of 32 or of 64 bits, the
result being a `short int`. -/
theorem get_nbits_result (W : Nat) (hW : W = 32 ∨ W = 64) (n v : Nat) (h1 : 1 ≤ n)
    (h15 : n ≤ 15) (hv : v < 2 ^ n) :
    (if ((to_short (v : Int)) % 2 ^ W).toNat < (1 <<< (n - 1)) % 2 ^ W then
      to_short (((((to_short (v : Int)) % 2 ^ W).toNat
        + ((0xFFFFFFFF <<< n) % 2 ^ W + 1) % 2 ^ W) % 2 ^ W : Nat) : Int)
     else to_short (v : Int)) = sign_extended n v := by
  unfold sign_extended to_short
  simp only [Nat.shiftLeft_eq]
  rcases hW with rfl | rfl <;> interval_cases n <;> norm_num at hv ⊢ <;>
    split_ifs <;> omega

/-- The state `resync` sets is a valid reservoir, and the four macros keep a reservoir valid
when at most 24 bits are wanted: the shifts of `look_nbits` and `get_nbits` only meet
reservoirs without a bit above the valid ones. -/
theorem reservoir_valid_kept (ULONG_BITS : Nat) (p : jdec_private) (n : Nat) (hn : n ≤ 24)
    (hp : reservoir_valid p) :
    reservoir_valid (resync p.data p.stream) ∧
    reservoir_valid (fill_nbits p n) ∧ reservoir_valid (look_nbits p n).1 ∧
    reservoir_valid (skip_nbits p n) ∧ reservoir_valid (get_nbits ULONG_BITS p n).1 := by
  obtain ⟨hwf, h31⟩ := hp
  obtain ⟨_, t2, _, t4⟩ := fill_nbits_loop_top n 0 hn n p hwf (Nat.zero_le _)
  rw [max_eq_right h31] at t4
  have hq : reservoir_valid (fill_nbits p n) := ⟨t2, t4⟩
  have hs : reservoir_valid (skip_nbits p n) := by
    have e : (fill_nbits p n).nbits_in_reservoir ≤ 31 := t4
    unfold skip_nbits reservoir_valid
    simp only []
    generalize fill_nbits p n = q at e
    have hlt : q.nbits_in_reservoir - n < 32 := by omega
    rw [Nat.shiftLeft_eq, Nat.one_mul,
      Nat.mod_eq_of_lt (Nat.pow_lt_pow_right (by norm_num) hlt),
      Nat.and_pow_two_sub_one_eq_mod]
    exact ⟨Nat.mod_lt _ (Nat.two_pow_pos _), by omega⟩
  exact ⟨⟨by show 0 < 2 ^ 0; norm_num, Nat.zero_le _⟩, hq, hq, hs, hs⟩

/-- `reservoir_valid_kept` on the reservoir `010` before the bytes `4C FF 00 80`, 5 bits
being wanted. -/
theorem reservoir_valid_kept_witness :
    reservoir_valid (fill_nbits stream_4C 5) ∧ reservoir_valid (get_nbits 32 stream_4C 5).1 :=
  ⟨(reservoir_valid_kept 32 stream_4C 5 (by decide) (by decide)).2.1,
   (reservoir_valid_kept 32 stream_4C 5 (by decide) (by decide)).2.2.2.2⟩

/-- Why the statements about `look_nbits` and `get_nbits` are about valid reservoirs: the
macros shift and do not mask, so on a record with a bit set above its 8 valid bits, which
no call of the macros produces, the 8 bits looked at come with that bit. -/
theorem look_nbits_of_stray_bit :
    reservoir_valid { data := memoryOf [], reservoir := 0x1FF, nbits_in_reservoir := 8 }
      = False ∧
    (look_nbits { data := memoryOf [], reservoir := 0x1FF, nbits_in_reservoir := 8 } 8).2
      = 0x1FF := by
  constructor
  · exact eq_false (by decide)
  · decide

/-- C32: for `n` from 1 to 15 and every state whose reservoir holds only its valid bits
(`reservoir < 2 ^ nbits_in_reservoir`, at most 32 of them; the state `resync` sets has the
property and the four macros keep it), with `v` the number the next `n` bits spell, the most
significant first, `get_nbits` gives `v` when `v ≥ 2 ^ (n - 1)` and `v - (2 ^ n - 1)`
otherwise, for an `unsigned long` of 32 or of 64 bits; the bits still to be read after it
are those from bit `n` on, `n` bits fewer being in the reservoir than after the filling;
`look_nbits` gives `v` and leaves every bit to be read. -/
theorem C32_get_nbits_sign_extended (ULONG_BITS : Nat)
    (hW : ULONG_BITS = 32 ∨ ULONG_BITS = 64) (p : jdec_private) (n : Nat)
    (h1 : 1 ≤ n) (h15 : n ≤ 15)
    (hwf : p.reservoir < 2 ^ p.nbits_in_reservoir) (h32 : p.nbits_in_reservoir ≤ 32) :
    (get_nbits ULONG_BITS p n).2 = sign_extended n (bits_value (pending_bit p) n) ∧
    (∀ i, pending_bit (get_nbits ULONG_BITS p n).1 i = pending_bit p (n + i)) ∧
    (get_nbits ULONG_BITS p n).1.nbits_in_reservoir + n
      = (fill_nbits p n).nbits_in_reservoir ∧
    (get_nbits ULONG_BITS p n).1.reservoir
      < 2 ^ (get_nbits ULONG_BITS p n).1.nbits_in_reservoir ∧
    (get_nbits ULONG_BITS p n).1.nbits_in_reservoir ≤ 32 ∧
    (look_nbits p n).2 = bits_value (pending_bit p) n ∧
    (∀ i, pending_bit (look_nbits p n).1 i = pending_bit p i) ∧
    (look_nbits p n).1.reservoir < 2 ^ (look_nbits p n).1.nbits_in_reservoir ∧
    (look_nbits p n).1.nbits_in_reservoir ≤ 32 := by
  obtain ⟨qwf, q32, qn⟩ := fill_nbits_valid p n (by omega) hwf h32
  have hq : ∀ i, pending_bit (fill_nbits p n) i = pending_bit p i :=
    pending_bit_fill_nbits_loop n (by omega) n p
  have hv : (fill_nbits p n).reservoir >>> ((fill_nbits p n).nbits_in_reservoir - n)
      = bits_value (pending_bit p) n :=
    (shift_eq_bits_value (fill_nbits p n) qwf n qn).trans (bits_value_congr _ _ hq n)
  have hst : (get_nbits ULONG_BITS p n).1 = skip_nbits (fill_nbits p n) n := by
    unfold skip_nbits
    simp only []
    rw [fill_nbits_of_ge (fill_nbits p n) n qn]
    rfl
  obtain ⟨k1, k2, _⟩ := skip_nbits_spec (fill_nbits p n) n h1 qn q32
  refine ⟨?_, ?_, ?_, ?_, ?_, hv, hq, qwf, q32⟩
  · have hr := get_nbits_result ULONG_BITS hW n (bits_value (pending_bit p) n) h1 h15
      (bits_value_lt _ n)
    rw [← hv] at hr
    rw [← hv]
    exact hr
  · intro i
    rw [hst, pending_bit_skip_nbits (fill_nbits p n) n h1 qn q32 i]
    exact hq (n + i)
  · rw [hst]; exact k1
  · rw [hst, k2]
    exact Nat.mod_lt _ (Nat.two_pow_pos _)
  · rw [hst]; omega

/-- C32 at `n = 5` on the reservoir `010` followed by the byte `4C`: the next 5 bits are
`01001`, 9, and `get_nbits` gives 9 - 31. -/
theorem C32_get_nbits_sign_extended_witness :
    (get_nbits 32 stream_4C 5).2 = sign_extended 5 (bits_value (pending_bit stream_4C) 5) ∧
    bits_value (pending_bit stream_4C) 5 = 9 ∧ (get_nbits 32 stream_4C 5).2 = -22 ∧
    (look_nbits stream_4C 5).2 = 9 :=
  ⟨(C32_get_nbits_sign_extended 32 (Or.inl rfl) stream_4C 5 (by decide) (by decide)
      (by decide) (by decide)).1, by decide, by decide, by decide⟩

/-- C33: for every state and every `nbits_wanted ≤ 24`, `fill_nbits` leaves at least
`nbits_wanted` bits in the reservoir; it takes the least number of whole bytes that gives
them, and `stream` ends after these bytes of the stream with byte stuffing, in which a
pair 0xFF, 0x00 is the one byte 0xFF; no bit of what is still to be read changes: the bits
that were in the reservoir are on top of it, with their value and in their order, and below
them are the bytes taken, the stuffing removed, the first byte above the next and each byte
with its bits in their order. -/
theorem C33_fill_nbits_appends_unstuffed_bytes (p : jdec_private) (nbits_wanted : Nat)
    (h24 : nbits_wanted ≤ 24) :
    nbits_wanted ≤ (fill_nbits p nbits_wanted).nbits_in_reservoir ∧
    (fill_nbits p nbits_wanted).nbits_in_reservoir
      = p.nbits_in_reservoir + 8 * ((nbits_wanted - p.nbits_in_reservoir + 7) / 8) ∧
    (fill_nbits p nbits_wanted).stream
      = stuffed_after p.data p.stream ((nbits_wanted - p.nbits_in_reservoir + 7) / 8) ∧
    (fill_nbits p nbits_wanted).data = p.data ∧
    (∀ i, pending_bit (fill_nbits p nbits_wanted) i = pending_bit p i) ∧
    (∀ i, i < p.nbits_in_reservoir →
      (fill_nbits p nbits_wanted).reservoir.testBit
          ((fill_nbits p nbits_wanted).nbits_in_reservoir - 1 - i)
        = p.reservoir.testBit (p.nbits_in_reservoir - 1 - i)) ∧
    (∀ j b, j < (nbits_wanted - p.nbits_in_reservoir + 7) / 8 → b < 8 →
      (fill_nbits p nbits_wanted).reservoir.testBit
          (8 * ((nbits_wanted - p.nbits_in_reservoir + 7) / 8 - 1 - j) + b)
        = (unstuffed_byte p.data p.stream j).testBit b) := by
  obtain ⟨e1, e2, e3⟩ := fill_nbits_loop_bytes nbits_wanted nbits_wanted p (by omega)
  have hq : ∀ i, pending_bit (fill_nbits p nbits_wanted) i = pending_bit p i :=
    pending_bit_fill_nbits_loop nbits_wanted h24 nbits_wanted p
  have e1b : (fill_nbits p nbits_wanted).nbits_in_reservoir
      = p.nbits_in_reservoir + 8 * ((nbits_wanted - p.nbits_in_reservoir + 7) / 8) := e1
  refine ⟨fill_nbits_enough p nbits_wanted, e1, e2, e3, hq, ?_, ?_⟩
  · intro i hi
    have h := hq i
    unfold pending_bit at h
    rw [if_pos (by omega), if_pos hi] at h
    exact h
  · intro j b hj hb
    generalize (nbits_wanted - p.nbits_in_reservoir + 7) / 8 = k at e1b hj ⊢
    have h := hq (p.nbits_in_reservoir + 8 * j + (7 - b))
    unfold pending_bit at h
    rw [if_pos (by omega), if_neg (by omega), e1b] at h
    rw [show p.nbits_in_reservoir + 8 * k - 1 - (p.nbits_in_reservoir + 8 * j + (7 - b))
        = 8 * (k - 1 - j) + b by omega,
      show (p.nbits_in_reservoir + 8 * j + (7 - b) - p.nbits_in_reservoir) / 8 = j by omega,
      show 7 - (p.nbits_in_reservoir + 8 * j + (7 - b) - p.nbits_in_reservoir) % 8 = b by
        omega] at h
    exact h

/-- C33 at 16 bits wanted on an empty reservoir and the stream `FF 00 12 34 56`: the bytes
`FF` and `12` are taken, `stream` ends after the third byte. -/
theorem C33_fill_nbits_appends_unstuffed_bytes_witness :
    16 ≤ (fill_nbits stream_FF_00 16).nbits_in_reservoir ∧
    (fill_nbits stream_FF_00 16).stream = stuffed_after stream_FF_00.data 0 2 ∧
    (fill_nbits stream_FF_00 16).nbits_in_reservoir = 16 ∧
    (fill_nbits stream_FF_00 16).reservoir = 0xFF12 ∧
    (fill_nbits stream_FF_00 16).stream = 3 :=
  ⟨(C33_fill_nbits_appends_unstuffed_bytes stream_FF_00 16 (by decide)).1,
   (C33_fill_nbits_appends_unstuffed_bytes stream_FF_00 16 (by decide)).2.2.1,
   by decide, by decide, by decide⟩

end TinyJpeg
